import Mathlib

/-!
# yydzero/mnt: the PostgreSQL wire-protocol server, embedded in Lean

Shallow embedding of `libpq/pqbuffer.go`, `libpq/types.go`, `libpq/api.go` and
`libpq/server.go`, followed by theorems about the embedded code.

Conventions of the embedding.

* A byte is a natural number below 256; `[]byte` and `string` are both `Bytes`.
* Go `int` is 64 bits wide; `int16`, `int32`, `int64` values are carried as `Int`
  and the conversions `uint16`, `int16`, ... reduce modulo the width explicitly.
* A function that returns `(value, error)` returns `Res`, which also has an
  outcome for a run-time panic (index or slice out of range, negative `make`).
* An `io.Reader` is the list of bytes the peer still has to deliver; a read past
  its end is `EOF` or `unexpected EOF`.
* The buffered writer `c.w` never fails; what is handed to it is recorded in
  order as `OutEvent`s.
-/

namespace Mnt

/-- Byte strings (Go `[]byte` and `string`). -/
abbrev Bytes := List Nat

/-- The bytes of an ASCII string literal. -/
def ascii (s : String) : Bytes := s.data.map Char.toNat

/-- Outcome of a Go call returning `(value, error)`: the value, a non-nil
error with its text, or a run-time panic. -/
inductive Res (α : Type) where
  | ok (a : α)
  | err (msg : Bytes)
  | panic
deriving DecidableEq, Repr

/-- Decimal digits of a natural number (`strconv` base 10). -/
def digitsOf (n : Nat) : Bytes := (Nat.toDigits 10 n).map Char.toNat

/-- Base-10 text of a signed integer (`strconv.Itoa`, `%d`). -/
def itoa (i : Int) : Bytes :=
  if i < 0 then 45 :: digitsOf i.natAbs else digitsOf i.natAbs

/-! ## Integer conversions and `encoding/binary` -/

def uint16 (v : Int) : Nat := (v % 65536).toNat
def uint32 (v : Int) : Nat := (v % 4294967296).toNat
def uint64 (v : Int) : Nat := (v % 18446744073709551616).toNat

def int16 (u : Nat) : Int :=
  if u % 65536 < 32768 then ((u % 65536 : Nat) : Int) else ((u % 65536 : Nat) : Int) - 65536

def int32 (u : Nat) : Int :=
  if u % 4294967296 < 2147483648 then ((u % 4294967296 : Nat) : Int)
  else ((u % 4294967296 : Nat) : Int) - 4294967296

def int64 (u : Nat) : Int :=
  if u % 18446744073709551616 < 9223372036854775808 then ((u % 18446744073709551616 : Nat) : Int)
  else ((u % 18446744073709551616 : Nat) : Int) - 18446744073709551616

/-- Go `binary.BigEndian.Uint16(b)` on the first two bytes of `b`. -/
def bigEndianUint16 (b : Bytes) : Nat := b.getD 0 0 * 256 + b.getD 1 0

/-- Go `binary.BigEndian.Uint32(b)` on the first four bytes of `b`. -/
def bigEndianUint32 (b : Bytes) : Nat :=
  b.getD 0 0 * 16777216 + b.getD 1 0 * 65536 + b.getD 2 0 * 256 + b.getD 3 0

/-- Go `binary.BigEndian.Uint64(b)` on the first eight bytes of `b`. -/
def bigEndianUint64 (b : Bytes) : Nat :=
  bigEndianUint32 b * 4294967296 + bigEndianUint32 (b.drop 4)

/-- The two bytes `binary.BigEndian.PutUint16` stores for the uint16 `v`. -/
def be16 (v : Nat) : Bytes := [v / 256 % 256, v % 256]

/-- The four bytes `binary.BigEndian.PutUint32` stores for the uint32 `v`. -/
def be32 (v : Nat) : Bytes := [v / 16777216 % 256, v / 65536 % 256, v / 256 % 256, v % 256]

/-- The eight bytes `binary.BigEndian.PutUint64` stores for the uint64 `v`. -/
def be64 (v : Nat) : Bytes := be32 (v / 4294967296 % 4294967296) ++ be32 (v % 4294967296)

/-- Store `bs` into the scratch array `p` from index `i` on. -/
def storeAt (p : Nat → Nat) (i : Nat) : Bytes → Nat → Nat
  | [] => p
  | b :: bs => storeAt (Function.update p i b) (i + 1) bs

/-- The slice `p[lo:lo+n]` of a scratch array. -/
def sliceOf (p : Nat → Nat) (lo n : Nat) : Bytes := (List.range n).map (fun k => p (lo + k))

/-! ## `io` -/

def errEOF : Bytes := ascii "EOF"
def errUnexpectedEOF : Bytes := ascii "unexpected EOF"

/-- Result of `io.ReadFull(rd, buf)`. -/
structure ReadFull where
  rd : Bytes
  buf : Bytes
  n : Nat
  err : Option Bytes
deriving DecidableEq, Repr

/-- Go `io.ReadFull(rd, buf)` for a `buf` of `len` bytes holding `old`: fills
`buf` completely, or reads what is left of the stream into the front of `buf`
and fails with `EOF` (nothing read) or `unexpected EOF`. -/
def ioReadFull (rd : Bytes) (len : Nat) (old : Bytes) : ReadFull :=
  if len ≤ rd.length then
    { rd := rd.drop len, buf := rd.take len, n := len, err := none }
  else
    { rd := [], buf := rd ++ old.drop rd.length, n := rd.length,
      err := some (if rd.length = 0 then errEOF else errUnexpectedEOF) }

/-! ## `libpq/pqbuffer.go`: readBuffer -/

def maxMessageSize : Nat := 16777216

/-- Go `readBuffer`. `msg` is the slice `b.msg`; `spare` holds the bytes of the
underlying array between `len(b.msg)` and `cap(b.msg)`; `tmp` is the `[4]byte`. -/
structure readBuffer where
  msg : Bytes
  tmp : Bytes
  spare : Bytes
deriving DecidableEq, Repr

namespace readBuffer

/-- The zero value `var buf readBuffer`. -/
def zero : readBuffer := { msg := [], tmp := [0, 0, 0, 0], spare := [] }

/-- Go `readBuffer.reset`: `b.msg` becomes a slice of exactly `size` bytes, cut
from the spare capacity when that is large enough, freshly allocated (zeroed,
capacity at least 4096) otherwise. -/
def reset (b : readBuffer) (size : Nat) : readBuffer :=
  if b.spare.length ≥ size then
    { b with msg := b.spare.take size, spare := b.spare.drop size }
  else
    { b with msg := List.replicate size 0,
             spare := List.replicate ((if size < 4096 then 4096 else size) - size) 0 }

/-- Result of `readUntypedMsg`: the buffer, the rest of the stream, the byte
count and the error. -/
structure Untyped where
  buf : readBuffer
  rd : Bytes
  n : Nat
  err : Option Bytes
deriving DecidableEq, Repr

/-- Go `readBuffer.readUntypedMsg`. -/
def readUntypedMsg (b : readBuffer) (rd : Bytes) : Untyped :=
  let r := ioReadFull rd 4 b.tmp
  let b1 : readBuffer := { b with tmp := r.buf }
  match r.err with
  | some e => { buf := b1, rd := r.rd, n := r.n, err := some e }
  | none =>
    let size : Int := (bigEndianUint32 b1.tmp : Int) - 4
    if size > (maxMessageSize : Int) ∨ size < 0 then
      { buf := b1, rd := r.rd, n := r.n,
        err := some (ascii "message size " ++ itoa size ++ ascii " out of bounds (0.."
                      ++ itoa maxMessageSize ++ ascii ")") }
    else
      let b2 := b1.reset size.toNat
      let r2 := ioReadFull r.rd b2.msg.length b2.msg
      { buf := { b2 with msg := r2.buf }, rd := r2.rd, n := r.n + r2.n, err := r2.err }

/-- Result of `readTypedMsg`. -/
structure Typed where
  buf : readBuffer
  rd : Bytes
  typ : Nat
  n : Nat
  err : Option Bytes
deriving DecidableEq, Repr

/-- Go `readBuffer.readTypedMsg`. -/
def readTypedMsg (b : readBuffer) (rd : Bytes) : Typed :=
  match rd with
  | [] => { buf := b, rd := [], typ := 0, n := 0, err := some errEOF }
  | typ :: rd1 =>
    let r := b.readUntypedMsg rd1
    { buf := r.buf, rd := r.rd, typ := typ, n := r.n, err := r.err }

/-- Go `bytes.IndexByte`, with `none` for -1. -/
def indexByte : Bytes → Nat → Option Nat
  | [], _ => none
  | x :: xs, c => if x = c then some 0 else (indexByte xs c).map (· + 1)

/-- Go `readBuffer.getString`. -/
def getString (b : readBuffer) : Res Bytes × readBuffer :=
  match indexByte b.msg 0 with
  | none => (.err (ascii "NUL terminator not found"), b)
  | some pos => (.ok (b.msg.take pos), { b with msg := b.msg.drop (pos + 1) })

/-- Go `readBuffer.getBytes`. The slice expression `b.msg[:n]` panics for a
negative `n`. -/
def getBytes (b : readBuffer) (n : Int) : Res Bytes × readBuffer :=
  if (b.msg.length : Int) < n then
    (.err (ascii "insufficient data: " ++ itoa b.msg.length), b)
  else if n < 0 then (.panic, b)
  else (.ok (b.msg.take n.toNat), { b with msg := b.msg.drop n.toNat })

/-- Go `readBuffer.getPrepareType`: `v[0]` is evaluated whatever `err` is, and
panics on the nil slice returned with an error. -/
def getPrepareType (b : readBuffer) : Res Nat × readBuffer :=
  match b.getBytes 1 with
  | (.ok v, b1) =>
    (match v with
     | x :: _ => (.ok x, b1)
     | [] => (.panic, b1))
  | (.err _, b1) => (.panic, b1)
  | (.panic, b1) => (.panic, b1)

/-- Go `readBuffer.getInt16`. -/
def getInt16 (b : readBuffer) : Res Int × readBuffer :=
  if b.msg.length < 2 then
    (.err (ascii "insufficient data: " ++ itoa b.msg.length), b)
  else (.ok (int16 (bigEndianUint16 (b.msg.take 2))), { b with msg := b.msg.drop 2 })

/-- Go `readBuffer.getInt32`. -/
def getInt32 (b : readBuffer) : Res Int × readBuffer :=
  if b.msg.length < 4 then
    (.err (ascii "insufficient data: " ++ itoa b.msg.length), b)
  else (.ok (int32 (bigEndianUint32 (b.msg.take 4))), { b with msg := b.msg.drop 4 })

end readBuffer

/-! ## `libpq/pqbuffer.go`: writeBuffer -/

/-- Go `writeBuffer`: the embedded `bytes.Buffer` contents and the `[64]byte`
scratch array `putbuf`. -/
structure writeBuffer where
  buf : Bytes
  putbuf : Nat → Nat

namespace writeBuffer

/-- The zero value of `writeBuffer`. -/
def zero : writeBuffer := { buf := [], putbuf := fun _ => 0 }

/-- Go `bytes.Buffer.Write` / `WriteString`. -/
def Write (b : writeBuffer) (p : Bytes) : writeBuffer := { b with buf := b.buf ++ p }

/-- Go `bytes.Buffer.WriteByte`. -/
def WriteByte (b : writeBuffer) (c : Nat) : writeBuffer := { b with buf := b.buf ++ [c] }

/-- Go `bytes.Buffer.Reset`. -/
def Reset (b : writeBuffer) : writeBuffer := { b with buf := [] }

/-- Go `writeBuffer.writeString`. -/
def writeString (b : writeBuffer) (s : Bytes) : writeBuffer := (b.Write s).WriteByte 0

/-- Go `writeBuffer.putInt16`. -/
def putInt16 (b : writeBuffer) (v : Int) : writeBuffer :=
  let p := storeAt b.putbuf 0 (be16 (uint16 v))
  ({ b with putbuf := p } : writeBuffer).Write (sliceOf p 0 2)

/-- Go `writeBuffer.putInt32`. -/
def putInt32 (b : writeBuffer) (v : Int) : writeBuffer :=
  let p := storeAt b.putbuf 0 (be32 (uint32 v))
  ({ b with putbuf := p } : writeBuffer).Write (sliceOf p 0 4)

/-- Go `writeBuffer.putInt64`. -/
def putInt64 (b : writeBuffer) (v : Int) : writeBuffer :=
  let p := storeAt b.putbuf 0 (be64 (uint64 v))
  ({ b with putbuf := p } : writeBuffer).Write (sliceOf p 0 8)

/-- Go `writeBuffer.initMsg`: the type byte goes to `putbuf[0]` and the first
five scratch bytes, whatever the last four hold, are written as the header. -/
def initMsg (b : writeBuffer) (typ : Nat) : writeBuffer :=
  let p := Function.update b.putbuf 0 typ
  ({ b.Reset with putbuf := p } : writeBuffer).Write (sliceOf p 0 5)

/-- The in-place `binary.BigEndian.PutUint32(bytes[1:5], v)` on the buffer
contents. -/
def patchLen (bs : Bytes) (v : Nat) : Bytes :=
  (((bs.set 1 (v / 16777216 % 256)).set 2 (v / 65536 % 256)).set 3 (v / 256 % 256)).set 4 (v % 256)

/-- Go `writeBuffer.finishMsg`: returns the buffer after the reset and the bytes
handed to the writer. Every caller runs `initMsg` first, so the buffer holds
its five header bytes. -/
def finishMsg (b : writeBuffer) : writeBuffer × Bytes :=
  (b.Reset, patchLen b.buf (uint32 ((b.buf.length : Int) - 1)))

end writeBuffer

/-- One write into a `writeBuffer` between `initMsg` and `finishMsg`. -/
inductive WriteOp where
  | putInt16 (v : Int)
  | putInt32 (v : Int)
  | putInt64 (v : Int)
  | writeString (s : Bytes)
  | Write (p : Bytes)
  | WriteByte (c : Nat)
deriving DecidableEq, Repr

/-- Run one write on the buffer. -/
def WriteOp.run (b : writeBuffer) : WriteOp → writeBuffer
  | .putInt16 v => b.putInt16 v
  | .putInt32 v => b.putInt32 v
  | .putInt64 v => b.putInt64 v
  | .writeString s => b.writeString s
  | .Write p => b.Write p
  | .WriteByte c => b.WriteByte c

/-- The bytes a write contributes to the message body. -/
def WriteOp.bytes : WriteOp → Bytes
  | .putInt16 v => be16 (uint16 v)
  | .putInt32 v => be32 (uint32 v)
  | .putInt64 v => be64 (uint64 v)
  | .writeString s => s ++ [0]
  | .Write p => p
  | .WriteByte c => [c]

/-- The body a sequence of writes builds. -/
def bodyOf (ops : List WriteOp) : Bytes := (ops.map WriteOp.bytes).flatten

/-- A framed message: type byte, length (itself included) and body. -/
def frame (typ : Nat) (body : Bytes) : Bytes := typ :: be32 (uint32 (4 + body.length)) ++ body


/-! ## Library functions the repository calls

Functions of the Go standard library and of third-party packages whose result
the protocol engine only passes on are collected in `GoLib` and taken as a
parameter. `strconv.ParseBool`, `strconv.ParseInt`, `strconv.Atoi`,
`encoding/hex` and `encoding/binary` are modelled below. -/

/-- Go `time.Time` as the engine observes it: Unix seconds, nanoseconds and the
zone offset in seconds east of UTC. -/
structure Time where
  unix : Int
  nsec : Nat
  offset : Int
deriving DecidableEq, Repr

/-- The `duration.Duration` of `util/duration` (months, days, nanoseconds). -/
structure Duration where
  Months : Int
  Days : Int
  Nanos : Int
deriving DecidableEq, Repr

/-- Library functions taken as parameters. A `float64` is carried by its
IEEE-754 bits, an `inf.Dec` by its unscaled value and scale. -/
structure GoLib where
  /-- `strconv.Quote`, the `%q` verb. -/
  quote : Bytes → Bytes
  /-- `strconv.ParseFloat(s, 64)`. -/
  parseFloat : Bytes → Except Bytes Nat
  /-- `float64(math.Float32frombits(u))`. -/
  float32to64 : Nat → Nat
  /-- `strconv.AppendFloat(nil, f, 'f', -1, 64)`. -/
  formatFloat : Nat → Bytes
  /-- `inf.Dec.SetString`. -/
  decSetString : Bytes → Option (Int × Int)
  /-- `inf.Dec.String`. -/
  decString : Int → Int → Bytes
  /-- `duration.Duration.String`. -/
  intervalString : Duration → Bytes
  /-- `time.Parse(time.RFC3339Nano, s)`. -/
  timeParse : Bytes → Option Time
  /-- `pq.ParseTimestamp(nil, s)`. -/
  pqParseTimestamp : Bytes → Option Time
  /-- `time.Time.Year`. -/
  timeYear : Time → Int
  /-- `time.Time.AddDate(years, 0, 0)`. -/
  timeAddYears : Time → Int → Time
  /-- `time.Time.Format(layout)`. -/
  timeFormat : Bytes → Time → Bytes
  /-- `hex.InvalidByteError.Error`. -/
  hexInvalidByte : Nat → Bytes

/-- Go `strconv.ParseBool`. -/
def parseBool (L : GoLib) (s : Bytes) : Except Bytes Bool :=
  if s = ascii "1" ∨ s = ascii "t" ∨ s = ascii "T" ∨ s = ascii "TRUE" ∨ s = ascii "true"
      ∨ s = ascii "True" then .ok true
  else if s = ascii "0" ∨ s = ascii "f" ∨ s = ascii "F" ∨ s = ascii "FALSE" ∨ s = ascii "false"
      ∨ s = ascii "False" then .ok false
  else .error (ascii "strconv.ParseBool: parsing " ++ L.quote s ++ ascii ": invalid syntax")

/-- Failure of the digit loop of `strconv.ParseUint`. -/
inductive NumError where
  | syntax_
  | range
deriving DecidableEq, Repr

/-- The digit loop of `strconv.ParseUint(s, 10, 64)`, from the accumulated
value `n` on. -/
def parseUintLoop : Bytes → Nat → Except NumError Nat
  | [], n => .ok n
  | c :: cs, n =>
    if c < 48 ∨ 57 < c then .error .syntax_
    else if n ≥ 1844674407370955162 then .error .range
    else if n * 10 + (c - 48) > 18446744073709551615 then .error .range
    else parseUintLoop cs (n * 10 + (c - 48))

/-- Go `strconv.ParseInt(s, 10, 64)`; `fn` is the function name in the error
text (`ParseInt` or `Atoi`). -/
def parseIntBase10 (L : GoLib) (fn : Bytes) (s : Bytes) : Except Bytes Int :=
  let syntaxErr : Except Bytes Int :=
    .error (ascii "strconv." ++ fn ++ ascii ": parsing " ++ L.quote s ++ ascii ": invalid syntax")
  let rangeErr : Except Bytes Int :=
    .error (ascii "strconv." ++ fn ++ ascii ": parsing " ++ L.quote s
      ++ ascii ": value out of range")
  match s with
  | [] => syntaxErr
  | c :: cs =>
    let neg : Bool := c = 45
    let digits : Bytes := if c = 43 ∨ c = 45 then cs else s
    if digits = [] then syntaxErr
    else
      match parseUintLoop digits 0 with
      | .error .syntax_ => syntaxErr
      | .error .range => rangeErr
      | .ok un =>
        if neg = false ∧ un ≥ 9223372036854775808 then rangeErr
        else if neg = true ∧ un > 9223372036854775808 then rangeErr
        else .ok (if neg then -(un : Int) else (un : Int))

/-- Go `strconv.ParseInt(s, 10, 64)`. -/
def parseInt (L : GoLib) (s : Bytes) : Except Bytes Int := parseIntBase10 L (ascii "ParseInt") s

/-- Go `strconv.Atoi` (64-bit `int`). -/
def atoi (L : GoLib) (s : Bytes) : Except Bytes Int := parseIntBase10 L (ascii "Atoi") s

/-- Value of one hexadecimal digit (`encoding/hex`). -/
def fromHexChar (c : Nat) : Option Nat :=
  if 48 ≤ c ∧ c ≤ 57 then some (c - 48)
  else if 97 ≤ c ∧ c ≤ 102 then some (c - 97 + 10)
  else if 65 ≤ c ∧ c ≤ 70 then some (c - 65 + 10)
  else none

/-- The pair loop of `hex.Decode`. -/
def hexDecodePairs (L : GoLib) : Bytes → Except Bytes Bytes
  | a :: b :: rest =>
    match fromHexChar a with
    | none => .error (L.hexInvalidByte a)
    | some x =>
      match fromHexChar b with
      | none => .error (L.hexInvalidByte b)
      | some y =>
        match hexDecodePairs L rest with
        | .ok out => .ok ((x * 16 + y) :: out)
        | .error e => .error e
  | _ => .ok []

/-- Go `hex.Decode`: a source of odd length is rejected. -/
def hexDecode (L : GoLib) (src : Bytes) : Except Bytes Bytes :=
  if src.length % 2 = 1 then .error (ascii "encoding/hex: odd length hex string")
  else hexDecodePairs L src

/-- The lower-case hexadecimal digit of a value below 16. -/
def hexDigit (v : Nat) : Nat := if v < 10 then 48 + v else 97 + (v - 10)

/-- Go `hex.Encode`. -/
def hexEncode (src : Bytes) : Bytes :=
  (src.map (fun v => [hexDigit (v / 16 % 16), hexDigit (v % 16)])).flatten

/-- Go `binary.Read(bytes.NewReader(b), binary.BigEndian, &v)` for a value of
`w` bytes: the unsigned big-endian value of the first `w` bytes. -/
def binaryRead (w : Nat) (b : Bytes) : Except Bytes Nat :=
  if w ≤ b.length then .ok ((b.take w).foldl (fun acc x => acc * 256 + x) 0)
  else .error (if b.length = 0 then errEOF else errUnexpectedEOF)

/-! ## `parser/datum.go` -/

mutual
/-- Go values of the interface type `parser.Datum`, `nil` included. -/
inductive Datum where
  | DBool (v : Bool)
  | DInt (v : Int)
  | DFloat (bits : Nat)
  | DDecimal (unscaled : Int) (scale : Int)
  | DString (v : Bytes)
  | DBytes (v : Bytes)
  | DDate (v : Int)
  | DTimestamp (t : Time)
  | DInterval (d : Duration)
  | DTuple (elems : DatumList)
  | dNull
  | DValArg (name : Bytes)
  | nil
deriving DecidableEq
/-- The elements of a `DTuple`. -/
inductive DatumList where
  | nil
  | cons (d : Datum) (rest : DatumList)
deriving DecidableEq
end

namespace Datum

def DummyBool : Datum := .DBool false
def DummyInt : Datum := .DInt 0
def DummyFloat : Datum := .DFloat 0
def DummyDecimal : Datum := .DDecimal 0 0
def DummyString : Datum := .DString []
def DummyBytes : Datum := .DBytes []
def DummyDate : Datum := .DDate 0
def DummyTimestamp : Datum := .DTimestamp { unix := -62135596800, nsec := 0, offset := 0 }
def DummyInterval : Datum := .DInterval { Months := 0, Days := 0, Nanos := 0 }
def dummyTuple : Datum := .DTuple .nil
def DNull : Datum := .dNull

/-- The dynamic type of a Datum (`reflect.TypeOf`); `nil` has none. -/
inductive Kind where
  | boolType | intType | floatType | decimalType | stringType | bytesType | dateType
  | timestampType | intervalType | tupleType | nullType | valargType
deriving DecidableEq, Repr

/-- Go `reflect.TypeOf(d)`. -/
def typeOf : Datum → Option Kind
  | .DBool _ => some .boolType
  | .DInt _ => some .intType
  | .DFloat _ => some .floatType
  | .DDecimal _ _ => some .decimalType
  | .DString _ => some .stringType
  | .DBytes _ => some .bytesType
  | .DDate _ => some .dateType
  | .DTimestamp _ => some .timestampType
  | .DInterval _ => some .intervalType
  | .DTuple _ => some .tupleType
  | .dNull => some .nullType
  | .DValArg _ => some .valargType
  | .nil => none

/-- The method `Datum.Type()`; calling it on `nil` panics. -/
def typeName : Datum → Res Bytes
  | .DBool _ => .ok (ascii "bool")
  | .DInt _ => .ok (ascii "int")
  | .DFloat _ => .ok (ascii "float")
  | .DDecimal _ _ => .ok (ascii "decimal")
  | .DString _ => .ok (ascii "string")
  | .DBytes _ => .ok (ascii "bytes")
  | .DDate _ => .ok (ascii "date")
  | .DTimestamp _ => .ok (ascii "timestamp")
  | .DInterval _ => .ok (ascii "interval")
  | .DTuple _ => .ok (ascii "tuple")
  | .dNull => .ok (ascii "NULL")
  | .DValArg _ => .ok (ascii "parameter")
  | .nil => .panic

/-- The `%T` verb on a Datum. -/
def fmtT : Datum → Bytes
  | .DBool _ => ascii "parser.DBool"
  | .DInt _ => ascii "parser.DInt"
  | .DFloat _ => ascii "parser.DFloat"
  | .DDecimal _ _ => ascii "*parser.DDecimal"
  | .DString _ => ascii "parser.DString"
  | .DBytes _ => ascii "parser.DBytes"
  | .DDate _ => ascii "parser.DDate"
  | .DTimestamp _ => ascii "parser.DTimestamp"
  | .DInterval _ => ascii "parser.DInterval"
  | .DTuple _ => ascii "parser.DTuple"
  | .dNull => ascii "parser.dNull"
  | .DValArg _ => ascii "parser.DValArg"
  | .nil => ascii "<nil>"

end Datum

/-- Go `parser.MapArgs`, a `map[string]Datum`, as its entries in the order a
`range` loop visits them. -/
abbrev MapArgs := List (Bytes × Datum)

/-! ## `libpq/types.go` -/

def pgTimeStampFormat : Bytes := ascii "2016-01-02 15:04:05.999999999-07:00"
def secondsInDay : Int := 86400

def formatText : Int := 0
def formatBinary : Int := 1

/-! The OID constants of `github.com/lib/pq/oid`. -/
def T_bool : Nat := 16
def T_bytea : Nat := 17
def T_int8 : Nat := 20
def T_int2 : Nat := 21
def T_int4 : Nat := 23
def T_text : Nat := 25
def T_float4 : Nat := 700
def T_float8 : Nat := 701
def T_varchar : Nat := 1043
def T_date : Nat := 1082
def T_timestamp : Nat := 1114
def T_timestamptz : Nat := 1184
def T_interval : Nat := 1186
def T_numeric : Nat := 1700

/-- Go `pgType`. -/
structure pgType where
  oid : Nat
  size : Int
deriving DecidableEq, Repr

/-- Go `typeForDatum`; the `default` case panics. -/
def typeForDatum : Datum → Res pgType
  | .dNull => .ok { oid := 0, size := 0 }
  | .DBool _ => .ok { oid := T_bool, size := 1 }
  | .DBytes _ => .ok { oid := T_bytea, size := -1 }
  | .DInt _ => .ok { oid := T_int8, size := 8 }
  | .DFloat _ => .ok { oid := T_float8, size := 8 }
  | .DDecimal _ _ => .ok { oid := T_numeric, size := -1 }
  | .DString _ => .ok { oid := T_text, size := -1 }
  | .DDate _ => .ok { oid := T_date, size := 8 }
  | .DTimestamp _ => .ok { oid := T_timestamptz, size := 8 }
  | .DInterval _ => .ok { oid := T_interval, size := 8 }
  | _ => .panic

/-- Go map `oidToDatum`. -/
def oidToDatum (o : Nat) : Option Datum :=
  if o = T_bool then some Datum.DummyBool
  else if o = T_bytea then some Datum.DummyBytes
  else if o = T_date then some Datum.DummyDate
  else if o = T_float4 then some Datum.DummyFloat
  else if o = T_float8 then some Datum.DummyFloat
  else if o = T_int2 then some Datum.DummyInt
  else if o = T_int4 then some Datum.DummyInt
  else if o = T_int8 then some Datum.DummyInt
  else if o = T_interval then some Datum.DummyInterval
  else if o = T_numeric then some Datum.DummyDecimal
  else if o = T_text then some Datum.DummyString
  else if o = T_timestamp then some Datum.DummyTimestamp
  else if o = T_timestamptz then some Datum.DummyTimestamp
  else if o = T_varchar then some Datum.DummyString
  else none

/-- Go map `datumToOid`, keyed by the dynamic type. -/
def datumToOid : Datum.Kind → Option Nat
  | .boolType => some T_bool
  | .bytesType => some T_bytea
  | .dateType => some T_date
  | .floatType => some T_float8
  | .intType => some T_int8
  | .intervalType => some T_interval
  | .decimalType => some T_numeric
  | .stringType => some T_text
  | .timestampType => some T_timestamptz
  | _ => none

/-- Go `parseTs`. -/
def parseTs (L : GoLib) (s : Bytes) : Option Time :=
  match L.timeParse s with
  | some ts => some ts
  | none => L.pqParseTimestamp s

/-- The text-format integer case shared by int2, int4 and int8. -/
def decodeIntText (L : GoLib) (b : Bytes) : Except Bytes Datum :=
  match parseInt L b with
  | .ok i => .ok (.DInt i)
  | .error e => .error e

/-- The binary-format integer case for a signed integer of `w` bytes. -/
def decodeIntBinary (w : Nat) (toSigned : Nat → Int) (b : Bytes) : Except Bytes Datum :=
  match binaryRead w b with
  | .ok u => .ok (.DInt (toSigned u))
  | .error e => .error e

/-- The text-format float case shared by float4 and float8. -/
def decodeFloatText (L : GoLib) (b : Bytes) : Except Bytes Datum :=
  match L.parseFloat b with
  | .ok f => .ok (.DFloat f)
  | .error e => .error e

/-- Go `decodeOidDatum`. -/
def decodeOidDatum (L : GoLib) (id : Nat) (code : Int) (b : Bytes) : Except Bytes Datum :=
  if id = T_bool then
    if code = formatText then
      match parseBool L b with
      | .ok v => .ok (.DBool v)
      | .error e => .error e
    else .error (ascii "unsupported bool format code: " ++ itoa code)
  else if id = T_int2 then
    if code = formatText then decodeIntText L b
    else if code = formatBinary then decodeIntBinary 2 int16 b
    else .error (ascii "unsupported int2 format code: " ++ itoa code)
  else if id = T_int4 then
    if code = formatText then decodeIntText L b
    else if code = formatBinary then decodeIntBinary 4 int32 b
    else .error (ascii "unsupported int4 format code: " ++ itoa code)
  else if id = T_int8 then
    if code = formatText then decodeIntText L b
    else if code = formatBinary then decodeIntBinary 8 int64 b
    else .error (ascii "unsupported int8 format code: " ++ itoa code)
  else if id = T_float4 then
    if code = formatText then decodeFloatText L b
    else if code = formatBinary then
      match binaryRead 4 b with
      | .ok u => .ok (.DFloat (L.float32to64 u))
      | .error e => .error e
    else .error (ascii "unsupported float4 format code: " ++ itoa code)
  else if id = T_float8 then
    if code = formatText then decodeFloatText L b
    else if code = formatBinary then
      match binaryRead 8 b with
      | .ok u => .ok (.DFloat u)
      | .error e => .error e
    else .error (ascii "unsupported float8 format code: " ++ itoa code)
  else if id = T_numeric then
    if code = formatText then
      match L.decSetString b with
      | some (u, s) => .ok (.DDecimal u s)
      | none => .error (ascii "could not parse string " ++ L.quote b ++ ascii " as decimal")
    else .error (ascii "unsupported numberic format code: " ++ itoa code)
  else if id = T_text ∨ id = T_varchar then
    if code = formatText then .ok (.DString b)
    else .error (ascii "unsupported text format code: " ++ itoa code)
  else if id = T_bytea then
    if code = formatText then
      if b.length ≥ 2 ∧ b.take 2 = [92, 120] then
        match hexDecode L (b.drop 2) with
        | .ok result => .ok (.DBytes result)
        | .error e => .error e
      else .error (ascii "unsupported bytea encoding: " ++ L.quote b)
    else if code = formatBinary then .ok (.DBytes b)
    else .error (ascii "unsupported bytea format code: " ++ itoa code)
  else if id = T_timestamp ∨ id = T_timestamptz then
    if code = formatText then
      match parseTs L b with
      | some ts => .ok (.DTimestamp ts)
      | none => .error (ascii "could not parse string " ++ L.quote b ++ ascii " as timestamp")
    else .error (ascii "unsupported timestamp format code: " ++ itoa code)
  else if id = T_date then
    if code = formatText then
      match parseTs L b with
      | some ts => .ok (.DDate (ts.unix.tdiv secondsInDay))
      | none => .error (ascii "could not parse string " ++ L.quote b ++ ascii " as date")
    else .error (ascii "unsupported date format code: " ++ itoa code)
  else .error (ascii "unsupported OID: " ++ itoa id)

/-- Go `formatTs`. -/
def formatTs (L : GoLib) (t0 : Time) : Bytes :=
  let bc : Bool := L.timeYear t0 ≤ 0
  let t : Time := if bc then L.timeAddYears t0 ((-(L.timeYear t0)) * 2 + 1) else t0
  let b : Bytes := L.timeFormat pgTimeStampFormat t
  let offset : Int := t.offset.tmod 60
  let b1 : Bytes :=
    if offset ≠ 0 then
      let o : Int := if offset < 0 then -offset else offset
      (b ++ [58]) ++ (if o < 10 then [48] else []) ++ itoa o
    else b
  if bc then b1 ++ ascii " BC" else b1

namespace writeBuffer

/-- The common tail of the `writeTextDatum` cases: length prefix, then the
value bytes. -/
def putValue (b : writeBuffer) (s : Bytes) : writeBuffer :=
  (b.putInt32 (int32 s.length)).Write s

/-- A `strconv.Append...(b.putbuf[4:4], ...)`: the text lands in the scratch
array from index 4 on when it fits its capacity of 60 bytes. -/
def scratchAppend (b : writeBuffer) (s : Bytes) : writeBuffer :=
  if s.length ≤ 60 then { b with putbuf := storeAt b.putbuf 4 s } else b

/-- Go `writeBuffer.writeTextDatum`. -/
def writeTextDatum (L : GoLib) (b : writeBuffer) (d : Datum) : Res Unit × writeBuffer :=
  match d with
  | .dNull => (.ok (), b.putInt32 (-1))
  | .DBool v => (.ok (), (b.putInt32 1).WriteByte (if v then 116 else 102))
  | .DInt v => (.ok (), (b.scratchAppend (itoa v)).putValue (itoa v))
  | .DFloat v => (.ok (), (b.scratchAppend (L.formatFloat v)).putValue (L.formatFloat v))
  | .DDecimal u s => (.ok (), b.putValue (L.decString u s))
  | .DBytes v => (.ok (), b.putValue ([92, 120] ++ hexEncode v))
  | .DString v => (.ok (), b.putValue v)
  | .DDate v =>
    (.ok (), b.putValue
      (formatTs L { unix := int64 (uint64 (v * secondsInDay)), nsec := 0, offset := 0 }))
  | .DTimestamp t => (.ok (), b.putValue (formatTs L { t with offset := 0 }))
  | .DInterval v => (.ok (), b.putValue (L.intervalString v))
  | d => (.err (ascii "unsupported type " ++ d.fmtT), b)

/-- Go `writeBuffer.writeBinaryDatum`. -/
def writeBinaryDatum (b : writeBuffer) (d : Datum) : Res Unit × writeBuffer :=
  match d with
  | .dNull => (.ok (), b.putInt32 (-1))
  | .DInt v => (.ok (), (b.putInt32 8).putInt64 v)
  | .DBytes v => (.ok (), b.putValue v)
  | d => (.err (ascii "unsupported type " ++ d.fmtT), b)

end writeBuffer

/-! ## `executor` -/

/-- Go `executor.ResultColumn`. -/
structure ResultColumn where
  Name : Bytes
  Typ : Datum
  hidden : Bool
deriving DecidableEq

/-- Go `executor.ResultRow`. -/
structure ResultRow where
  Values : List Datum
deriving DecidableEq

/-! The constants of `executor.StatementType`, an `int`. -/
def Ack : Int := 0
def DDL : Int := 1
def RowsAffected : Int := 2
def Rows : Int := 3

/-- Go `executor.Result`; `Err` is the text of a non-nil error. -/
structure Result where
  Err : Option Bytes
  Type_ : Int
  PGTag : Bytes
  RowsAffected : Int
  Columns : List ResultColumn
  Rows : List ResultRow
deriving DecidableEq

/-- Go `executor.StatementResults`. -/
structure StatementResults where
  ResultList : List Result
  Empty : Bool
deriving DecidableEq

/-- One call the connection made to its Executor. -/
inductive ExecCall where
  | Prepare (query : Bytes) (args : MapArgs)
  | ExecuteStatements (stmts : Bytes) (params : List Datum)
deriving DecidableEq

/-- Go interface `executor.Executor`. An implementation may keep state, so each
method also receives the calls made so far on this connection. -/
structure Executor where
  Prepare : List ExecCall → Bytes → MapArgs → Res (List ResultColumn × MapArgs)
  ExecuteStatements : List ExecCall → Bytes → List Datum → StatementResults

/-- What the engine is parameterised by: the library functions and the
Executor. -/
structure Env where
  lib : GoLib
  executor : Executor

/-! ## `sql` -/

def CodeInternalError : Bytes := ascii "XX000"

/-! The constants of `sql.TxnStateEnum`, an `int`. -/
def Idle : Int := 0
def Open : Int := 1
def Aborted : Int := 2

/-- Go `sql.Session` (`TxnState.State` flattened). -/
structure Session where
  Database : Bytes
  User : Bytes
  TxnState : Int
deriving DecidableEq, Repr

/-! ## `libpq/api.go` -/

/-! Client message types. -/
def ClientMsgBind : Nat := 66
def ClientMsgClose : Nat := 67
def ClientMsgDescribe : Nat := 68
def ClientMsgExecute : Nat := 69
def ClientMsgFuncCall : Nat := 70
def ClientMsgFlush : Nat := 72
def ClientMsgMPPQuery : Nat := 77
def ClientMsgParse : Nat := 80
def ClientMsgPassword : Nat := 112
def ClientMsgSimpleQuery : Nat := 81
def ClientMsgTerminate : Nat := 88
def ClientMsgSync : Nat := 83

/-! Server message types. -/
def ServerMsgAuth : Nat := 82
def ServerMsgBindComplete : Nat := 50
def ServerMsgCommandComplete : Nat := 67
def ServerMsgCloseComplete : Nat := 51
def ServerMsgDataRow : Nat := 68
def ServerMsgEmptyQuery : Nat := 73
def ServerMsgErrorResponse : Nat := 69
def ServerMsgNoData : Nat := 110
def ServerMsgParameterDescription : Nat := 116
def ServerMsgParameterStatus : Nat := 83
def ServerMsgParseComplete : Nat := 49
def ServerMsgReady : Nat := 90
def ServerMsgRowDescription : Nat := 84

def PrepareStatement : Nat := 83
def PreparePortal : Nat := 80

def AuthOK : Int := 0

/-- Go `preparedStatement`. -/
structure preparedStatement where
  query : Bytes
  argTypes : List Nat
  columns : List ResultColumn
deriving DecidableEq

/-- Go `portal`. -/
structure portal where
  name : Bytes
  stmt : preparedStatement
  params : List Datum
  format : List Int
deriving DecidableEq

/-- What the connection handed to its buffered writer `c.w`. -/
inductive OutEvent where
  | write (p : Bytes)
  | flush
deriving DecidableEq, Repr

/-- A Go `map[string]V` as a list of entries with distinct keys. -/
abbrev GoMap (V : Type) := List (Bytes × V)

/-- Map read `v, ok := m[k]`. -/
def GoMap.get {V : Type} (m : GoMap V) (k : Bytes) : Option V := List.lookup k m

/-- Map write `m[k] = v`. -/
def GoMap.set {V : Type} (m : GoMap V) (k : Bytes) (v : V) : GoMap V :=
  (k, v) :: m.filter (fun e => decide (e.1 ≠ k))

/-- Map removal `delete(m, k)`. -/
def GoMap.delete {V : Type} (m : GoMap V) (k : Bytes) : GoMap V :=
  m.filter (fun e => decide (e.1 ≠ k))

/-- Go `pqConn`. `rd` is what the reader `c.r` has still to deliver, `out` what
was handed to the writer `c.w`, `calls` the calls made to `c.executor`. The
scratch array `tagBuf` only ever holds the tag being built and is left out. -/
structure pqConn where
  rd : Bytes
  out : List OutEvent
  readBuf : readBuffer
  writeBuf : writeBuffer
  session : Session
  calls : List ExecCall
  preparedStatements : GoMap preparedStatement
  portals : GoMap portal
  extendedQueryMessage : Bool
  ignoreTillSync : Bool

namespace pqConn

/-- Go `newPQConn` on a connection that will deliver `rd`. -/
def new (rd : Bytes) (database user : Bytes) : pqConn :=
  { rd := rd, out := [], readBuf := readBuffer.zero, writeBuf := writeBuffer.zero,
    session := { Database := database, User := user, TxnState := Idle },
    calls := [], preparedStatements := [], portals := [],
    extendedQueryMessage := false, ignoreTillSync := false }

/-- Sequencing of Go statements: run `k` on the value of a call that returned
no error, return at once on an error or a panic. -/
def andThen {α β : Type} (r : Res α × pqConn) (k : α → pqConn → Res β × pqConn) :
    Res β × pqConn :=
  match r with
  | (.ok a, c) => k a c
  | (.err e, c) => (.err e, c)
  | (.panic, c) => (.panic, c)

/-- A read-buffer getter run on `c.readBuf`. -/
def onBuf {α : Type} (c : pqConn) (f : readBuffer → Res α × readBuffer) : Res α × pqConn :=
  ((f c.readBuf).1, { c with readBuf := (f c.readBuf).2 })

/-- A write-buffer operation run on `c.writeBuf`. -/
def wb (c : pqConn) (f : writeBuffer → writeBuffer) : pqConn :=
  { c with writeBuf := f c.writeBuf }

/-- The call `c.writeBuf.finishMsg(c.w)`. -/
def finishMsg (c : pqConn) : pqConn :=
  { c with writeBuf := c.writeBuf.finishMsg.1, out := c.out ++ [.write c.writeBuf.finishMsg.2] }

/-- The call `c.w.Flush()`. -/
def Flush (c : pqConn) : pqConn := { c with out := c.out ++ [.flush] }

/-- Go `pqConn.sendError`. -/
def sendError (c : pqConn) (errCode errToSend : Bytes) : Res Unit × pqConn :=
  let c1 : pqConn := if c.extendedQueryMessage then { c with ignoreTillSync := true } else c
  let c2 := c1.wb (fun w =>
    (((((((w.initMsg ServerMsgErrorResponse).WriteByte 83).writeString (ascii "ERROR")).WriteByte
      67).writeString errCode).WriteByte 77).writeString errToSend).WriteByte 0)
  (.ok (), c2.finishMsg.Flush)

/-- Go `pqConn.sendInternalError`. -/
def sendInternalError (c : pqConn) (errToSend : Bytes) : Res Unit × pqConn :=
  c.sendError CodeInternalError errToSend

/-- The `%s` verb on a value of a named integer type without a `String`
method. -/
def fmtBadVerbS (typeName : Bytes) (v : Int) : Bytes :=
  ascii "%!s(" ++ typeName ++ ascii "=" ++ itoa v ++ ascii ")"

/-- The column loop of `sendRowDescription`, from column index `i` on. -/
def rowDescriptionColumns (formatCodes : Option (List Int)) :
    List ResultColumn → Nat → writeBuffer → Res Unit × writeBuffer
  | [], _, w => (.ok (), w)
  | column :: rest, i, w =>
    let w1 := w.writeString column.Name
    match typeForDatum column.Typ with
    | .ok typ =>
      let w2 := ((((w1.putInt32 0).putInt16 0).putInt32 (int32 typ.oid)).putInt16
        (int16 (uint16 typ.size))).putInt32 0
      (match formatCodes with
       | none => rowDescriptionColumns formatCodes rest (i + 1) (w2.putInt16 formatText)
       | some codes =>
         match codes.get? i with
         | some code => rowDescriptionColumns formatCodes rest (i + 1) (w2.putInt16 code)
         | none => (.panic, w2))
    | .err e => (.err e, w1)
    | .panic => (.panic, w1)

/-- Go `pqConn.sendRowDescription`; `formatCodes` is `none` for a nil slice. -/
def sendRowDescription (c : pqConn) (columns : List ResultColumn)
    (formatCodes : Option (List Int)) : Res Unit × pqConn :=
  if columns.length = 0 then
    (.ok (), (c.wb (fun w => w.initMsg ServerMsgNoData)).finishMsg)
  else
    let w0 := (c.writeBuf.initMsg ServerMsgRowDescription).putInt16 (int16 columns.length)
    match rowDescriptionColumns formatCodes columns 0 w0 with
    | (.ok _, w) => (.ok (), ({ c with writeBuf := w } : pqConn).finishMsg)
    | (.err e, w) => (.err e, { c with writeBuf := w })
    | (.panic, w) => (.panic, { c with writeBuf := w })

/-- Go `pqConn.sendCommandComplete`. -/
def sendCommandComplete (c : pqConn) (tag : Bytes) : Res Unit × pqConn :=
  (.ok (), (c.wb (fun w =>
    (((w.initMsg ServerMsgCommandComplete).Write tag).WriteByte 0))).finishMsg)

/-- The value loop of one DataRow in `sendResponse`, from value index `i` on. -/
def dataRowValues (L : GoLib) (formatCodes : Option (List Int)) :
    List Datum → Nat → writeBuffer → Res Unit × writeBuffer
  | [], _, w => (.ok (), w)
  | col :: rest, i, w =>
    let fmtCode : Option Int :=
      match formatCodes with
      | none => some formatText
      | some codes => codes.get? i
    match fmtCode with
    | none => (.panic, w)
    | some code =>
      if code = formatText then
        match w.writeTextDatum L col with
        | (.ok _, w1) => dataRowValues L formatCodes rest (i + 1) w1
        | r => r
      else if code = formatBinary then
        match w.writeBinaryDatum col with
        | (.ok _, w1) => dataRowValues L formatCodes rest (i + 1) w1
        | r => r
      else (.err (ascii "unsupported format cdoe " ++ fmtBadVerbS (ascii "libpq.formatCode") code),
            w)

/-- The DataRow loop of `sendResponse`. -/
def sendDataRows (L : GoLib) (formatCodes : Option (List Int)) :
    List ResultRow → pqConn → Res Unit × pqConn
  | [], c => (.ok (), c)
  | row :: rest, c =>
    let w0 := (c.writeBuf.initMsg ServerMsgDataRow).putInt16 (int16 row.Values.length)
    match dataRowValues L formatCodes row.Values 0 w0 with
    | (.ok _, w) => sendDataRows L formatCodes rest ({ c with writeBuf := w } : pqConn).finishMsg
    | (.err e, w) => (.err e, { c with writeBuf := w })
    | (.panic, w) => (.panic, { c with writeBuf := w })

/-- The body of the result loop of `sendResponse` for a result that passed the
row-limit test. -/
def sendResult (L : GoLib) (c : pqConn) (result : Result) (formatCodes : Option (List Int))
    (sendDescription : Bool) : Res Unit × pqConn :=
  let tag : Bytes := if result.PGTag = ascii "INSERT" then ascii "INSERT 0" else result.PGTag
  if result.Type_ = RowsAffected then
    c.sendCommandComplete (tag ++ [32] ++ itoa result.RowsAffected)
  else if result.Type_ = Rows then
    andThen (if sendDescription then c.sendRowDescription result.Columns formatCodes
             else (.ok (), c)) (fun _ c1 =>
    andThen (sendDataRows L formatCodes result.Rows c1) (fun _ c2 =>
    c2.sendCommandComplete (tag ++ [32] ++ itoa result.Rows.length)))
  else c.sendCommandComplete tag

/-- The result loop of `sendResponse`. -/
def sendResults (L : GoLib) (formatCodes : Option (List Int)) (sendDescription : Bool)
    (limit : Int) : List Result → pqConn → Res Unit × pqConn
  | [], c => (.ok (), c)
  | result :: rest, c =>
    if limit ≠ 0 ∧ (result.Rows.length : Int) > limit then
      c.sendInternalError (ascii "execute row count limits not supported: " ++ itoa limit
        ++ ascii " of " ++ itoa result.Rows.length)
    else
      andThen (sendResult L c result formatCodes sendDescription) (fun _ c1 =>
      sendResults L formatCodes sendDescription limit rest c1)

/-- Go `pqConn.sendResponse`. -/
def sendResponse (L : GoLib) (c : pqConn) (results : List Result)
    (formatCodes : Option (List Int)) (sendDescription : Bool) (limit : Int) :
    Res Unit × pqConn :=
  if results.length = 0 then c.sendCommandComplete []
  else sendResults L formatCodes sendDescription limit results c

/-- Go `pqConn.executeStatements`. -/
def executeStatements (E : Env) (c : pqConn) (stmts : Bytes) (params : List Datum)
    (formatCodes : Option (List Int)) (sendDescription : Bool) (limit : Int) :
    Res Unit × pqConn :=
  let results := E.executor.ExecuteStatements c.calls stmts params
  let c1 : pqConn := { c with calls := c.calls ++ [.ExecuteStatements stmts params] }
  if results.Empty then
    (.ok (), (c1.wb (fun w => w.initMsg ServerMsgEmptyQuery)).finishMsg)
  else sendResponse E.lib c1 results.ResultList formatCodes sendDescription limit

/-- Go `pqConn.handleSimpleQuery`. -/
def handleSimpleQuery (E : Env) (c : pqConn) : Res Unit × pqConn :=
  andThen (c.onBuf readBuffer.getString) (fun query c1 =>
  executeStatements E c1 query [] none true 0)

/-- Go `pqConn.handleMPPQuery`. -/
def handleMPPQuery (E : Env) (c : pqConn) : Res Unit × pqConn :=
  andThen (c.onBuf readBuffer.getString) (fun query c1 =>
  executeStatements E c1 query [] none true 0)

end pqConn

namespace pqConn

/-- The loop of `handleParse` that reads `n` type hints (`oid.Oid(typ)`). -/
def readHints : Nat → pqConn → Res (List Nat) × pqConn
  | 0, c => (.ok [], c)
  | n + 1, c =>
    andThen (c.onBuf readBuffer.getInt32) (fun typ c1 =>
    andThen (readHints n c1) (fun rest c2 => (.ok (uint32 typ :: rest), c2)))

/-- The loop of `handleParse` that builds the `MapArgs` handed to `Prepare`,
from hint index `i` on; fails with the first OID that `oidToDatum` lacks. -/
def hintArgs : List Nat → Nat → Except Nat MapArgs
  | [], _ => .ok []
  | t :: ts, i =>
    if t = 0 then hintArgs ts (i + 1)
    else
      match oidToDatum t with
      | none => .error t
      | some v =>
        match hintArgs ts (i + 1) with
        | .ok m => .ok ((itoa ((i : Int) + 1), v) :: m)
        | .error o => .error o

/-- The loop `for k, v := range args` of `handleParse` on the map returned by
`Prepare`, visited in list order, from the `argTypes` built so far. An error
carries the text passed to `sendInternalError`. -/
def buildArgTypes (L : GoLib) (inTypeHints : List Nat) : MapArgs → List Nat → Res (List Nat)
  | [], argTypes => .ok argTypes
  | (k, v) :: rest, argTypes =>
    match atoi L k with
    | .error _ => .err (ascii "non-integer parameter: " ++ k)
    | .ok i1 =>
      if i1 - 1 < 0 then .err (ascii "there is no paramter $" ++ k)
      else
        let i : Nat := (i1 - 1).toNat
        let grown : List Nat :=
          argTypes ++ (List.range' argTypes.length (i + 1 - argTypes.length)).map
            (fun j => inTypeHints.getD j 0)
        if grown.getD i 0 ≠ 0 then buildArgTypes L inTypeHints rest grown
        else
          match v.typeOf.bind datumToOid with
          | some id => buildArgTypes L inTypeHints rest (grown.set i id)
          | none =>
            match v.typeName with
            | .ok n => .err (ascii "unknown datum type: " ++ n)
            | _ => .panic

/-- Index of the first OID 0 in `argTypes`, if any. -/
def firstZero : List Nat → Option Nat
  | [] => none
  | t :: ts => if t = 0 then some 0 else (firstZero ts).map (· + 1)

/-- The second half of `handleParse`, from `args := make(parser.MapArgs)` on:
the hints are turned into the argument map, the Executor prepares the query,
the argument types are built and checked, the statement is registered and
ParseComplete is written. -/
def parseStatement (E : Env) (c : pqConn) (name query : Bytes) (inTypeHints : List Nat) :
    Res Unit × pqConn :=
  match hintArgs inTypeHints 0 with
  | .error t => c.sendInternalError (ascii "unknown oid type: " ++ itoa t)
  | .ok args =>
    let c5 : pqConn := { c with calls := c.calls ++ [.Prepare query args] }
    match E.executor.Prepare c.calls query args with
    | .err e => c5.sendInternalError e
    | .panic => (.panic, c5)
    | .ok (cols, args1) =>
      match buildArgTypes E.lib inTypeHints args1 [] with
      | .err m => c5.sendInternalError m
      | .panic => (.panic, c5)
      | .ok argTypes =>
        match firstZero argTypes with
        | some i =>
          c5.sendInternalError
            (ascii "could not determine data type of parameter $" ++ itoa ((i : Int) + 1))
        | none =>
          let pq : preparedStatement := { query := query, argTypes := argTypes, columns := cols }
          let c6 : pqConn := { c5 with preparedStatements := c5.preparedStatements.set name pq }
          (.ok (), (c6.wb (fun w => w.initMsg ServerMsgParseComplete)).finishMsg)

/-- Go `pqConn.handleParse`: the first half reads the message (`make` panics on
a negative hint count), `parseStatement` is the second half. -/
def handleParse (E : Env) (c : pqConn) : Res Unit × pqConn :=
  andThen (c.onBuf readBuffer.getString) (fun name c1 =>
  if name ≠ [] ∧ (c1.preparedStatements.get name).isSome then
    c1.sendInternalError (ascii "prepared statement " ++ E.lib.quote name ++ ascii " already exists")
  else
  andThen (c1.onBuf readBuffer.getString) (fun query c2 =>
  andThen (c2.onBuf readBuffer.getInt16) (fun numParamTypes c3 =>
  if numParamTypes < 0 then (.panic, c3)
  else
  andThen (readHints numParamTypes.toNat c3) (fun inTypeHints c4 =>
  parseStatement E c4 name query inTypeHints))))

/-- The loop of `handleDescribe` that writes the argument OIDs. -/
def putArgTypes (w : writeBuffer) (argTypes : List Nat) : writeBuffer :=
  argTypes.foldl (fun w1 t => w1.putInt32 (int32 t)) w

/-- Go `pqConn.handleDescribe`. -/
def handleDescribe (L : GoLib) (c : pqConn) : Res Unit × pqConn :=
  match c.onBuf readBuffer.getPrepareType with
  | (.panic, c1) => (.panic, c1)
  | (.err e, c1) => c1.sendInternalError e
  | (.ok typ, c1) =>
    andThen (c1.onBuf readBuffer.getString) (fun name c2 =>
    if typ = PrepareStatement then
      match c2.preparedStatements.get name with
      | none =>
        c2.sendInternalError (ascii "unknown prepared statement " ++ L.quote name)
      | some stmt =>
        let c3 := (c2.wb (fun w =>
          putArgTypes ((w.initMsg ServerMsgParameterDescription).putInt16
            (int16 stmt.argTypes.length)) stmt.argTypes)).finishMsg
        c3.sendRowDescription stmt.columns none
    else if typ = PreparePortal then
      match c2.portals.get name with
      | none => c2.sendInternalError (ascii "unknow portal " ++ L.quote name)
      | some p =>
        match c2.preparedStatements.get p.name with
        | none => c2.sendInternalError (ascii "unknown prepared statement " ++ L.quote name)
        | some stmt => c2.sendRowDescription stmt.columns (some p.format)
    else
      (.err (ascii "unknown describe type: " ++ fmtBadVerbS (ascii "libpq.PrepareType") typ), c2))

/-- Go `pqConn.handleClose`. -/
def handleClose (c : pqConn) : Res Unit × pqConn :=
  match c.onBuf readBuffer.getPrepareType with
  | (.panic, c1) => (.panic, c1)
  | (.err e, c1) => c1.sendInternalError e
  | (.ok typ, c1) =>
    andThen (c1.onBuf readBuffer.getString) (fun name c2 =>
    if typ = PrepareStatement then
      (.ok (), { c2 with preparedStatements := c2.preparedStatements.delete name })
    else if typ = PreparePortal then
      (.ok (), { c2 with portals := c2.portals.delete name })
    else
      (.err (ascii "unknown close type: " ++ fmtBadVerbS (ascii "libpq.PrepareType") typ), c2))

/-- A loop of `handleBind` that reads `n` format codes. -/
def readCodes : Nat → pqConn → Res (List Int) × pqConn
  | 0, c => (.ok [], c)
  | n + 1, c =>
    andThen (c.onBuf readBuffer.getInt16) (fun code c1 =>
    andThen (readCodes n c1) (fun rest c2 => (.ok (code :: rest), c2)))

/-- A `switch` of `handleBind` on the number `count` of format codes sent for
`n` positions: the `n` codes to apply, or `none` in the `default` case. -/
def readFormatCodes (count n : Int) (c : pqConn) : Res (Option (List Int)) × pqConn :=
  if count = 0 then (.ok (some (List.replicate n.toNat formatText)), c)
  else if count = 1 then
    andThen (c.onBuf readBuffer.getInt16) (fun code c1 =>
    (.ok (some (List.replicate n.toNat code)), c1))
  else if count = n then
    andThen (readCodes n.toNat c) (fun codes c1 => (.ok (some codes), c1))
  else (.ok none, c)

/-- The parameter loop of `handleBind` over `stmt.argTypes`, from index `i` on.
`.ok (.error m)` is the case `return c.sendInternalError(m)`; a parameter of
length -1 leaves its slot `nil`. -/
def readParams (L : GoLib) (paramFormatCodes : List Int) :
    List Nat → Nat → pqConn → Res (Except Bytes (List Datum)) × pqConn
  | [], _, c => (.ok (.ok []), c)
  | t :: ts, i, c =>
    andThen (c.onBuf readBuffer.getInt32) (fun plen c1 =>
    if plen = -1 then
      andThen (readParams L paramFormatCodes ts (i + 1) c1) (fun r c2 =>
      match r with
      | .ok ds => (.ok (.ok (Datum.nil :: ds)), c2)
      | .error m => (.ok (.error m), c2))
    else
      andThen (c1.onBuf (fun b => b.getBytes plen)) (fun b c2 =>
      match paramFormatCodes.get? i with
      | none => (.panic, c2)
      | some code =>
        match decodeOidDatum L t code b with
        | .error e =>
          (.ok (.error (ascii "param $" ++ itoa ((i : Int) + 1) ++ ascii ": " ++ e)), c2)
        | .ok d =>
          andThen (readParams L paramFormatCodes ts (i + 1) c2) (fun r c3 =>
          match r with
          | .ok ds => (.ok (.ok (d :: ds)), c3)
          | .error m => (.ok (.error m), c3))))

/-- The last third of `handleBind`, from `numColumns := int16(len(stmt.columns))`
on: the column format codes are read, the portal is registered and BindComplete
is written. -/
def bindColumns (c : pqConn) (portalName statementName : Bytes) (stmt : preparedStatement)
    (params : List Datum) : Res Unit × pqConn :=
  let numColumns : Int := int16 stmt.columns.length
  if numColumns < 0 then (.panic, c)
  else
  andThen (c.onBuf readBuffer.getInt16) (fun numColumnFormatCodes c7 =>
  andThen (readFormatCodes numColumnFormatCodes numColumns c7) (fun ccodes c8 =>
  match ccodes with
  | none =>
    c8.sendInternalError (ascii "expected, 0, 1, or " ++ itoa numColumns
      ++ ascii " for number of format codes, got " ++ itoa numColumnFormatCodes)
  | some columnFormatCodes =>
    let p : portal :=
      { name := statementName, stmt := stmt, params := params, format := columnFormatCodes }
    let c9 : pqConn := { c8 with portals := c8.portals.set portalName p }
    (.ok (), (c9.wb (fun w => w.initMsg ServerMsgBindComplete)).finishMsg)))

/-- The middle third of `handleBind`, from `numParams := int16(len(stmt.argTypes))`
on: the parameter format codes, the value count and the values are read;
`bindColumns` follows. The slice `params` has `numParams` slots. -/
def bindParams (E : Env) (c : pqConn) (portalName statementName : Bytes)
    (stmt : preparedStatement) : Res Unit × pqConn :=
  let numParams : Int := int16 stmt.argTypes.length
  if numParams < 0 then (.panic, c)
  else
  andThen (c.onBuf readBuffer.getInt16) (fun numParamFormatCodes c3 =>
  andThen (readFormatCodes numParamFormatCodes numParams c3) (fun pcodes c4 =>
  match pcodes with
  | none =>
    c4.sendInternalError (ascii "wrong number of format codes specified: "
      ++ itoa numParamFormatCodes ++ ascii " for " ++ itoa numParams ++ ascii " parameters")
  | some paramFormatCodes =>
    andThen (c4.onBuf readBuffer.getInt16) (fun numValues c5 =>
    if numParams ≠ numValues then
      c5.sendInternalError (ascii "expected " ++ itoa numParams ++ ascii " parameters, got "
        ++ itoa numValues)
    else
    andThen (readParams E.lib paramFormatCodes stmt.argTypes 0 c5) (fun ps c6 =>
    match ps with
    | .error m => c6.sendInternalError m
    | .ok params => bindColumns c6 portalName statementName stmt (params.take numParams.toNat)))))

/-- Go `pqConn.handleBind`: the first third reads the two names and looks them
up; `bindParams` and `bindColumns` are the rest. -/
def handleBind (E : Env) (c : pqConn) : Res Unit × pqConn :=
  andThen (c.onBuf readBuffer.getString) (fun portalName c1 =>
  if portalName ≠ [] ∧ (c1.portals.get portalName).isSome then
    c1.sendInternalError (ascii "portal " ++ E.lib.quote portalName ++ ascii " already exists")
  else
  andThen (c1.onBuf readBuffer.getString) (fun statementName c2 =>
  match c2.preparedStatements.get statementName with
  | none =>
    c2.sendInternalError (ascii "unknown prepared statement " ++ E.lib.quote statementName)
  | some stmt => bindParams E c2 portalName statementName stmt))

/-- Go `pqConn.handleExecute`. -/
def handleExecute (E : Env) (c : pqConn) : Res Unit × pqConn :=
  andThen (c.onBuf readBuffer.getString) (fun portalName c1 =>
  match c1.portals.get portalName with
  | none => c1.sendInternalError (ascii "unknown portal " ++ E.lib.quote portalName)
  | some p =>
    andThen (c1.onBuf readBuffer.getInt32) (fun limit c2 =>
    executeStatements E c2 p.stmt.query p.params (some p.format) false limit))

/-- The head of one iteration of the main loop of `serve`: the ReadyForQuery
message, sent and flushed when no extended-query exchange is under way. -/
def readyForQuery (c : pqConn) : Res Unit × pqConn :=
  if c.extendedQueryMessage = false then
    let c1 := c.wb (fun w => w.initMsg ServerMsgReady)
    if c.session.TxnState = Aborted then
      (.ok (), (c1.wb (fun w => w.WriteByte 69)).finishMsg.Flush)
    else if c.session.TxnState = Open then
      (.ok (), (c1.wb (fun w => w.WriteByte 84)).finishMsg.Flush)
    else if c.session.TxnState = Idle then
      (.ok (), (c1.wb (fun w => w.WriteByte 73)).finishMsg.Flush)
    else (.err (ascii "Wrong txn status: " ++ itoa c.session.TxnState), c1)
  else (.ok (), c)

/-- End of a `case` of the dispatch `switch`: `serve` returns a non-nil `err`,
and goes on to the next iteration otherwise. `none` stands for "next iteration",
`some r` for "`serve` returns `r`". -/
def afterHandler (r : Res Unit × pqConn) : Option (Res Unit) × pqConn :=
  match r with
  | (.ok _, c) => (none, c)
  | (.err e, c) => (some (.err e), c)
  | (.panic, c) => (some .panic, c)

/-- The dispatch `switch typ` of the main loop of `serve`. -/
def dispatch (E : Env) (typ : Nat) (c : pqConn) : Option (Res Unit) × pqConn :=
  if typ = ClientMsgSync then
    (none, { c with extendedQueryMessage := false, ignoreTillSync := false })
  else if typ = ClientMsgSimpleQuery then
    afterHandler (handleSimpleQuery E { c with extendedQueryMessage := false })
  else if typ = ClientMsgMPPQuery then
    afterHandler (handleMPPQuery E { c with extendedQueryMessage := false })
  else if typ = ClientMsgTerminate then (some (.ok ()), c)
  else if typ = ClientMsgParse then
    afterHandler (handleParse E { c with extendedQueryMessage := true })
  else if typ = ClientMsgDescribe then
    afterHandler (handleDescribe E.lib { c with extendedQueryMessage := true })
  else if typ = ClientMsgClose then
    afterHandler (handleClose { c with extendedQueryMessage := true })
  else if typ = ClientMsgBind then
    afterHandler (handleBind E { c with extendedQueryMessage := true })
  else if typ = ClientMsgExecute then
    afterHandler (handleExecute E { c with extendedQueryMessage := true })
  else if typ = ClientMsgFlush then
    afterHandler (.ok (), ({ c with extendedQueryMessage := true } : pqConn).Flush)
  else
    afterHandler (c.sendInternalError (ascii "unknown client message type: "
      ++ fmtBadVerbS (ascii "libpq.ClientMessageType") typ))

/-- What follows the ReadyForQuery step in one iteration of the main loop: read
a typed message, skip it when `ignoreTillSync` is set and it is not a Sync,
dispatch it otherwise. -/
def readAndDispatch (E : Env) (c : pqConn) : Option (Res Unit) × pqConn :=
  let r := c.readBuf.readTypedMsg c.rd
  let c1 : pqConn := { c with readBuf := r.buf, rd := r.rd }
  match r.err with
  | some e => (some (.err e), c1)
  | none =>
    if c1.ignoreTillSync = true ∧ r.typ ≠ ClientMsgSync then (none, c1)
    else dispatch E r.typ c1

/-- One iteration of the main loop of `serve`. -/
def serveIter (E : Env) (c : pqConn) : Option (Res Unit) × pqConn :=
  match c.readyForQuery with
  | (.ok _, c1) => readAndDispatch E c1
  | (.err e, c1) => (some (.err e), c1)
  | (.panic, c1) => (some .panic, c1)

/-- The main loop of `serve`, run for at most `fuel` iterations; `none` when
the loop has not returned by then. -/
def serveLoop (E : Env) : Nat → pqConn → Option (Res Unit × pqConn)
  | 0, _ => none
  | fuel + 1, c =>
    match serveIter E c with
    | (none, c1) => serveLoop E fuel c1
    | (some r, c1) => some (r, c1)

/-- The three ParameterStatus pairs of the map literal in `serve`. -/
def parameterStatus : List (Bytes × Bytes) :=
  [(ascii "client_encoding", ascii "UTF8"), (ascii "datestyle", ascii "ISO"),
   (ascii "server_version", ascii "9.5.0")]

/-- The ParameterStatus loop of `serve` over the pairs in the order `range`
yields them. -/
def sendParameterStatus (c : pqConn) (order : List (Bytes × Bytes)) : pqConn :=
  order.foldl (fun c1 kv =>
    (c1.wb (fun w => ((w.initMsg ServerMsgParameterStatus).writeString kv.1).writeString kv.2)).finishMsg)
    c

/-- The part of `serve` before the main loop: the authentication hook, the
AuthenticationOk message, the ParameterStatus messages and the flush. `order`
is the order in which `range` yields the map literal; `.ok false` is the early
return after a failed hook. -/
def serveStart (c : pqConn) (authenticationHook : Option (Bytes → Bool → Option Bytes))
    (order : List (Bytes × Bytes)) : Res Bool × pqConn :=
  match (match authenticationHook with
         | some hook => hook [] true
         | none => none) with
  | some e =>
    match c.sendInternalError e with
    | (.ok _, c1) => (.ok false, c1)
    | (.err e1, c1) => (.err e1, c1)
    | (.panic, c1) => (.panic, c1)
  | none =>
    let c1 := (c.wb (fun w => (w.initMsg ServerMsgAuth).putInt32 AuthOK)).finishMsg
    (.ok true, (c1.sendParameterStatus order).Flush)

/-- Go `pqConn.serve`: the main loop gets one iteration more than there are
bytes left to read. -/
def serve (E : Env) (c : pqConn) (authenticationHook : Option (Bytes → Bool → Option Bytes))
    (order : List (Bytes × Bytes)) : Option (Res Unit × pqConn) :=
  match c.serveStart authenticationHook order with
  | (.ok true, c1) => serveLoop E (c1.rd.length + 1) c1
  | (.ok false, c1) => some (.ok (), c1)
  | (.err e, c1) => some (.err e, c1)
  | (.panic, c1) => some (.panic, c1)

end pqConn

/-! ## `executor/fake/executor.go` -/

namespace fake

/-- Go `makeResultColumn`. -/
def makeResultColumn (name : Bytes) (typ : Datum) : ResultColumn :=
  { Name := name, Typ := typ, hidden := false }

/-- Go `makeFakeArgs`. -/
def makeFakeArgs : MapArgs := [(ascii "1", Datum.DummyInt)]

/-- Go `makeFakeColumns`. -/
def makeFakeColumns : List ResultColumn :=
  [makeResultColumn (ascii "name") Datum.DummyString,
   makeResultColumn (ascii "age") Datum.DummyInt,
   makeResultColumn (ascii "description") Datum.DummyString]

/-- Go `makeFakeRows`. -/
def makeFakeRows : List ResultRow :=
  [{ Values := [.DString (ascii "xiaowang"), .DInt 32, .DString (ascii "SMTS")] },
   { Values := [.DString (ascii "xiaozhang"), .DInt 26, .DString (ascii "MTS 2")] },
   { Values := [.DString (ascii "xiaohuang"), .DInt 30, .DString (ascii "MTS 3")] }]

/-- Go `makeFakeStatementResults`. -/
def makeFakeStatementResults : StatementResults :=
  { ResultList := [{ Err := none, Type_ := Rows, PGTag := ascii "SELECT", RowsAffected := 0,
                     Columns := makeFakeColumns, Rows := makeFakeRows }],
    Empty := false }

/-- Go `FakeExecutor`, the Executor `NewServer` installs. -/
def FakeExecutor : Executor :=
  { Prepare := fun _ _ _ => .ok (makeFakeColumns, makeFakeArgs),
    ExecuteStatements := fun _ _ _ => makeFakeStatementResults }

end fake

/-- A `GoLib` for running the engine on concrete input: `quote` puts its
argument between double quotes, which is what `strconv.Quote` does for
printable ASCII text without quotes or backslashes; the other functions are
not reached by the runs below and return fixed values. -/
def plainLib : GoLib :=
  { quote := fun s => [34] ++ s ++ [34],
    parseFloat := fun _ => .error (ascii "strconv.ParseFloat: invalid syntax"),
    float32to64 := fun u => u,
    formatFloat := fun _ => ascii "0",
    decSetString := fun _ => none,
    decString := fun _ _ => ascii "0",
    intervalString := fun _ => ascii "0",
    timeParse := fun _ => none,
    pqParseTimestamp := fun _ => none,
    timeYear := fun _ => 1970,
    timeAddYears := fun t _ => t,
    timeFormat := fun _ _ => ascii "1970-01-01 00:00:00+00:00",
    hexInvalidByte := fun _ => ascii "encoding/hex: invalid byte" }

/-- The engine as `NewServer` builds it: the fake Executor. -/
def fakeEnv : Env := { lib := plainLib, executor := fake.FakeExecutor }

/-- A typed client message: type byte, length (itself included), payload. -/
def clientMsg (typ : Nat) (payload : Bytes) : Bytes := typ :: be32 (4 + payload.length) ++ payload

/-! ## Relations between connection states -/

/-- The connection `c'` differs from `c` at most as input/output steps allow,
the two registries left aside: same flags except that `ignoreTillSync` may have
been set inside an extended-query exchange, same session and unread input,
output and Executor calls only appended. -/
structure IOStep (c c' : pqConn) : Prop where
  extended : c'.extendedQueryMessage = c.extendedQueryMessage
  session : c'.session = c.session
  ignore : c'.ignoreTillSync = c.ignoreTillSync
    ∨ (c.extendedQueryMessage = true ∧ c'.ignoreTillSync = true)
  out : ∃ evs, c'.out = c.out ++ evs
  calls : ∃ cs, c'.calls = c.calls ++ cs
  rd : c'.rd = c.rd

/-- An `IOStep` that also leaves both registries as they were. -/
structure IOOnly (c c' : pqConn) : Prop where
  step : IOStep c c'
  preparedStatements : c'.preparedStatements = c.preparedStatements
  portals : c'.portals = c.portals

/-- The body of an ErrorResponse: severity, code and message fields, then the
terminating zero byte. -/
def errorBody (errCode errToSend : Bytes) : Bytes :=
  [83] ++ ascii "ERROR" ++ [0] ++ [67] ++ errCode ++ [0] ++ [77] ++ errToSend ++ [0] ++ [0]

/-- States the main loop can be in at the head of an iteration: a connection
fresh from `newPQConn` (the handshake touches neither the registries nor the
flags), and every state in which an iteration ends without `serve` returning. -/
inductive Reachable (E : Env) : pqConn → Prop where
  | start (c : pqConn) (hps : c.preparedStatements = []) (hpo : c.portals = [])
      (hext : c.extendedQueryMessage = false) (hign : c.ignoreTillSync = false)
      (htxn : c.session.TxnState = Idle) : Reachable E c
  | iter (c c' : pqConn) (h : Reachable E c) (hstep : pqConn.serveIter E c = (none, c')) :
      Reachable E c'

/-- The connection `c'` differs from `c` only in its read buffer and in
Executor calls appended: nothing was written, no flag or registry changed. -/
structure Quiet (c c' : pqConn) : Prop where
  rd : c'.rd = c.rd
  out : c'.out = c.out
  writeBuf : c'.writeBuf = c.writeBuf
  session : c'.session = c.session
  preparedStatements : c'.preparedStatements = c.preparedStatements
  portals : c'.portals = c.portals
  extended : c'.extendedQueryMessage = c.extendedQueryMessage
  ignore : c'.ignoreTillSync = c.ignoreTillSync
  calls : ∃ cs, c'.calls = c.calls ++ cs

/-- The connection with the unread payload of its read buffer replaced. -/
def pqConn.setMsg (c : pqConn) (msg : Bytes) : pqConn :=
  { c with readBuf := { c.readBuf with msg := msg } }

/-- The handler returned nil and wrote exactly one ParseComplete frame. -/
def ParseCompleted (c : pqConn) (r : Res Unit × pqConn) : Prop :=
  r.1 = .ok () ∧ r.2.out = c.out ++ [.write (frame ServerMsgParseComplete [])]

/-- The handler returned nil and wrote exactly one BindComplete frame. -/
def BindCompleted (c : pqConn) (r : Res Unit × pqConn) : Prop :=
  r.1 = .ok () ∧ r.2.out = c.out ++ [.write (frame ServerMsgBindComplete [])]

/-- The handler returned nil after sending (and flushing) exactly one
ErrorResponse frame, with code `XX000`. -/
def ErrorResponseSent (c : pqConn) (r : Res Unit × pqConn) : Prop :=
  r.1 = .ok () ∧ ∃ m, r.2.out
    = c.out ++ [.write (frame ServerMsgErrorResponse (errorBody CodeInternalError m)), .flush]

/-- The handler returned nil after sending (and flushing) exactly one
ErrorResponse frame, with code `XX000` and message `e`, and left both registries
as they were. -/
def RejectedWith (c : pqConn) (r : Res Unit × pqConn) (e : Bytes) : Prop :=
  r.1 = .ok ()
  ∧ r.2.out
      = c.out ++ [.write (frame ServerMsgErrorResponse (errorBody CodeInternalError e)), .flush]
  ∧ r.2.preparedStatements = c.preparedStatements ∧ r.2.portals = c.portals

/-- A completed Parse: ParseComplete written and one statement, free of OID 0,
stored under some name; nothing else changed but by input/output. -/
def ParseStored (c : pqConn) (r : Res Unit × pqConn) : Prop :=
  ParseCompleted c r ∧ IOStep c r.2 ∧ r.2.portals = c.portals
  ∧ ∃ name pq, pqConn.firstZero pq.argTypes = none
      ∧ r.2.preparedStatements = c.preparedStatements.set name pq

/-- A completed Bind: BindComplete written and one portal stored under some
name; nothing else changed but by input/output. -/
def BindStored (c : pqConn) (r : Res Unit × pqConn) : Prop :=
  BindCompleted c r ∧ IOStep c r.2 ∧ r.2.preparedStatements = c.preparedStatements
  ∧ ∃ name p, r.2.portals = c.portals.set name p

/-- Every registered statement is free of OID 0. -/
def NoZeroOid (c : pqConn) : Prop :=
  ∀ e ∈ c.preparedStatements, 0 ∉ e.2.argTypes

/-- The value the dispatch `switch` leaves in `extendedQueryMessage` for a
message of type `typ`: cleared by Sync, SimpleQuery and MPPQuery, set by Parse,
Describe, Close, Bind, Execute and Flush, kept by every other type. -/
def extendedAfter (typ : Nat) (extended : Bool) : Bool :=
  if typ = ClientMsgSync ∨ typ = ClientMsgSimpleQuery ∨ typ = ClientMsgMPPQuery then false
  else if typ = ClientMsgParse ∨ typ = ClientMsgDescribe ∨ typ = ClientMsgClose
      ∨ typ = ClientMsgBind ∨ typ = ClientMsgExecute ∨ typ = ClientMsgFlush then true
  else extended

/-- The status byte of ReadyForQuery for a transaction state. -/
def txnStatusByte (state : Int) : Nat :=
  if state = Aborted then 69 else if state = Open then 84 else 73

/-! ## Client messages as the wire carries them -/

/-- Payload of a Parse message: statement name, query, hint count, hints. -/
def encodeParse (name query : Bytes) (hints : List Nat) : Bytes :=
  name ++ 0 :: (query ++ 0 :: (be16 hints.length ++ (hints.map be32).flatten))

/-- A format-code section of a Bind message: the count, then the codes. -/
def encodeCodes (codes : List Int) : Bytes :=
  be16 codes.length ++ (codes.map (fun x => be16 (uint16 x))).flatten

/-- One parameter value of a Bind message: length -1 for NULL (`none`), else
the length and the bytes. -/
def encodeValue : Option Bytes → Bytes
  | none => be32 (uint32 (-1))
  | some v => be32 v.length ++ v

/-- A Bind message as the client means it. -/
structure BindMsg where
  portalName : Bytes
  statementName : Bytes
  paramFormats : List Int
  values : List (Option Bytes)
  columnFormats : List Int

/-- Payload of a Bind message. -/
def BindMsg.encode (m : BindMsg) : Bytes :=
  m.portalName ++ 0 :: (m.statementName ++ 0 :: (encodeCodes m.paramFormats
    ++ (be16 m.values.length ++ ((m.values.map encodeValue).flatten
    ++ encodeCodes m.columnFormats))))

/-- A format code is an int16. -/
def IsInt16 (x : Int) : Prop := -32768 ≤ x ∧ x < 32768

/-- The Bind message fits the wire format: names without a zero byte, counts
and codes within int16, value lengths within int32. -/
structure BindMsg.WellFormed (m : BindMsg) : Prop where
  portalName : 0 ∉ m.portalName
  statementName : 0 ∉ m.statementName
  paramCount : m.paramFormats.length < 32768
  paramCodes : ∀ x ∈ m.paramFormats, IsInt16 x
  valueCount : m.values.length < 32768
  valueSize : ∀ v ∈ m.values, ∀ b, v = some b → b.length < 2147483648
  columnCount : m.columnFormats.length < 32768
  columnCodes : ∀ x ∈ m.columnFormats, IsInt16 x

/-- The codes in force for `n` positions when the client sent `codes`: all text
for none, the one code for one, the codes themselves otherwise. -/
def appliedCodes (codes : List Int) (n : Nat) : List Int :=
  if codes.length = 0 then List.replicate n formatText
  else if codes.length = 1 then List.replicate n (codes.headD 0)
  else codes

/-- The format code in force at position `i` when the client sent `codes`: text
for no code, the single code for one, the `i`-th code otherwise. -/
def codeAt (codes : List Int) (i : Nat) : Int :=
  if codes.length = 0 then formatText
  else if codes.length = 1 then codes.headD 0
  else codes.getD i 0

/-- The number of format codes sent is one the `switch` accepts for `n`
positions. -/
def CountAccepted (codes : List Int) (n : Nat) : Prop :=
  codes.length = 0 ∨ codes.length = 1 ∨ codes.length = n

/-- The Datums `handleBind` stores for the values of a Bind message, decoded
against the argument types from position `i` on, or the text of the first
decoding error. -/
def decodeValues (L : GoLib) (codes : List Int) : List Nat → List (Option Bytes) → Nat →
    Except Bytes (List Datum)
  | t :: ts, v :: vs, i =>
    match v with
    | none =>
      (match decodeValues L codes ts vs (i + 1) with
       | .ok ds => .ok (Datum.nil :: ds)
       | .error m => .error m)
    | some b =>
      match decodeOidDatum L t (codes.getD i 0) b with
      | .error e => .error (ascii "param $" ++ itoa ((i : Int) + 1) ++ ascii ": " ++ e)
      | .ok d =>
        match decodeValues L codes ts vs (i + 1) with
        | .ok ds => .ok (d :: ds)
        | .error m => .error m
  | _, _, _ => .ok []

/-! ## The argument types a Parse registers, in closed form -/

/-- The 1-based parameter position a key of the argument map denotes (0 when
the key is not a number). -/
def keyPosition (L : GoLib) (k : Bytes) : Nat :=
  match atoi L k with
  | .ok i => i.toNat
  | .error _ => 0

/-- The largest position denoted by a key of the map, 0 for the empty map. -/
def maxPosition (L : GoLib) (args : MapArgs) : Nat :=
  (args.map (fun kv => keyPosition L kv.1)).foldl max 0

/-- The first entry of the map, in iteration order, whose key denotes the
position `j + 1`. -/
def firstEntryAt (L : GoLib) (args : MapArgs) (j : Nat) : Option (Bytes × Datum) :=
  args.find? (fun kv => decide (keyPosition L kv.1 = j + 1))

/-- The OID `handleParse` leaves at index `j`: the client's hint when there is
a non-zero one, else the canonical OID of the first entry for position `j + 1`,
else 0. -/
def expectedArgType (L : GoLib) (hints : List Nat) (args : MapArgs) (j : Nat) : Nat :=
  if hints.getD j 0 ≠ 0 then hints.getD j 0
  else
    match firstEntryAt L args j with
    | some kv => (kv.2.typeOf.bind datumToOid).getD 0
    | none => 0

/-- The state of the `range args` loop after the entries `P`: the argument
types built so far are the expected ones for `P`, and the first entry of every
position without a hint has a kind that `datumToOid` knows. -/
structure ArgLoop (L : GoLib) (hints : List Nat) (P : MapArgs) (acc : List Nat) : Prop where
  types : ∀ j, acc[j]? = if j < maxPosition L P then some (expectedArgType L hints P j) else none
  mapped : ∀ j kv, hints.getD j 0 = 0 → firstEntryAt L P j = some kv →
    ∃ id, kv.2.typeOf.bind datumToOid = some id


/-! ## Concrete connections and messages -/

/-- A fresh connection whose read buffer holds `payload`, as `readTypedMsg`
leaves it for a handler. -/
def freshWith (payload : Bytes) : pqConn := (pqConn.new [] [] []).setMsg payload

/-- Parse payload: statement `s`, query `q`, two hints, both int4. -/
def parseTwoHints : Bytes := encodeParse (ascii "s") (ascii "q") [T_int4, T_int4]

/-- An Executor whose `Prepare` infers an int for the second parameter only. -/
def secondOnlyExecutor : Executor :=
  { Prepare := fun _ _ _ => .ok ([], [(ascii "2", Datum.DummyInt)]),
    ExecuteStatements := fun _ _ _ => { ResultList := [], Empty := true } }

/-- The engine over `secondOnlyExecutor`. -/
def secondOnlyEnv : Env := { lib := plainLib, executor := secondOnlyExecutor }

/-- Parse payload: unnamed statement, query `q`, no hints. -/
def parseNoHints : Bytes := encodeParse [] (ascii "q") []

/-- Parse message: statement `s1`, query `SELECT $1`, one hint, bool. -/
def parseBoolMsg : Bytes :=
  clientMsg ClientMsgParse (encodeParse (ascii "s1") (ascii "SELECT $1") [T_bool])

/-- Bind message: unnamed portal on `s1`, one text parameter `maybe`. -/
def bindMaybeMsg : Bytes :=
  clientMsg ClientMsgBind (BindMsg.encode
    { portalName := [], statementName := ascii "s1", paramFormats := [],
      values := [some (ascii "maybe")], columnFormats := [] })

/-- Execute message: unnamed portal, no row limit. -/
def executeMsg : Bytes := clientMsg ClientMsgExecute ([0] ++ be32 0)

/-- Describe message for the unnamed portal. -/
def describePortalMsg : Bytes := clientMsg ClientMsgDescribe [PreparePortal, 0]

/-- Sync message. -/
def syncMsg : Bytes := clientMsg ClientMsgSync []

/-- The connection after the first iteration of the main loop on a Bind that
names an unknown statement, with an Execute still unread. -/
def afterFailedBind : pqConn :=
  (pqConn.serveIter fakeEnv (pqConn.new (bindMaybeMsg ++ executeMsg) [] [])).2

/-- The client's side of the scenario "error inside an extended query": Parse
with a bool hint, Bind with the value `maybe`, Execute, Describe, Sync. -/
def scenarioBoolMaybe : Bytes :=
  parseBoolMsg ++ bindMaybeMsg ++ executeMsg ++ describePortalMsg ++ syncMsg

/-- The ReadyForQuery frame with status byte `s`. -/
def readyFrame (s : Nat) : Bytes := [90, 0, 0, 0, 5, s]

/-- The state after `n` iterations of the main loop, whether or not `serve`
has returned meanwhile. -/
def runIters (E : Env) : Nat → pqConn → pqConn
  | 0, c => c
  | n + 1, c => runIters E n (pqConn.serveIter E c).2

/-- The error text of the rejected parameter of `scenarioBoolMaybe`. -/
def maybeError : Bytes :=
  ascii "param $1: strconv.ParseBool: parsing " ++ plainLib.quote (ascii "maybe")
    ++ ascii ": invalid syntax"

/-- What the server has written once the Bind of `scenarioBoolMaybe` is
rejected: ReadyForQuery, ParseComplete, the ErrorResponse. -/
def scenarioOutAfterBind : List OutEvent :=
  [OutEvent.write (readyFrame 73), OutEvent.flush, OutEvent.write [49, 0, 0, 0, 4],
   OutEvent.write (frame ServerMsgErrorResponse (errorBody CodeInternalError maybeError)),
   OutEvent.flush]

/-- The connection after a Parse of statement `s1`, query `SELECT $1`, with a
bool hint, on the fake server. -/
def afterParseBool : pqConn :=
  (pqConn.handleParse fakeEnv
    (freshWith (encodeParse (ascii "s1") (ascii "SELECT $1") [T_bool]))).2

/-- Bind of the unnamed portal to `s1` with the text value `maybe`. -/
def bindMaybe : BindMsg :=
  { portalName := [], statementName := ascii "s1", paramFormats := [],
    values := [some (ascii "maybe")], columnFormats := [] }

/-- Bind of portal `p1` to `s1` with the text value `true`, one parameter
format code and one column format code. -/
def bindTrue : BindMsg :=
  { portalName := ascii "p1", statementName := ascii "s1", paramFormats := [formatText],
    values := [some (ascii "true")], columnFormats := [formatBinary] }

/-- Bind of portal `p1` to `s1` with one NULL value (length -1). -/
def bindNull : BindMsg :=
  { portalName := ascii "p1", statementName := ascii "s1", paramFormats := [],
    values := [none], columnFormats := [] }

/-- Bind of portal `p1` to `s1` with the text value `true` and text columns. -/
def bindP1 : BindMsg :=
  { portalName := ascii "p1", statementName := ascii "s1", paramFormats := [],
    values := [some (ascii "true")], columnFormats := [] }

/-- Close message for the statement `s1`. -/
def closeStatementMsg : Bytes :=
  clientMsg ClientMsgClose ([PrepareStatement] ++ ascii "s1" ++ [0])

/-- Describe message for the portal `p1`. -/
def describeP1Msg : Bytes :=
  clientMsg ClientMsgDescribe ([PreparePortal] ++ ascii "p1" ++ [0])

/-- Execute message for the portal `p1`, no row limit. -/
def executeP1Msg : Bytes := clientMsg ClientMsgExecute (ascii "p1" ++ [0] ++ be32 0)

/-- The client's side of the scenario "portal outlives its statement": Parse
`s1`, Bind `p1` to it, Close the statement `s1`, Execute `p1`, Describe `p1`,
Sync. -/
def scenarioClosed : Bytes :=
  parseBoolMsg ++ clientMsg ClientMsgBind bindP1.encode ++ closeStatementMsg ++ executeP1Msg
    ++ describeP1Msg ++ syncMsg

/-- The three DataRow frames and the CommandComplete frame of the fake
Executor's result, in text format. -/
def fakeRowsOut : List OutEvent :=
  [OutEvent.write (frame ServerMsgDataRow (be16 3 ++ be32 8 ++ ascii "xiaowang" ++ be32 2
      ++ ascii "32" ++ be32 4 ++ ascii "SMTS")),
   OutEvent.write (frame ServerMsgDataRow (be16 3 ++ be32 9 ++ ascii "xiaozhang" ++ be32 2
      ++ ascii "26" ++ be32 5 ++ ascii "MTS 2")),
   OutEvent.write (frame ServerMsgDataRow (be16 3 ++ be32 9 ++ ascii "xiaohuang" ++ be32 2
      ++ ascii "30" ++ be32 5 ++ ascii "MTS 3")),
   OutEvent.write (frame ServerMsgCommandComplete (ascii "SELECT 3" ++ [0]))]

/-- The connection after Parse of `s1` and Bind of `p1` (text columns) on the
fake server. -/
def afterBindP1 : pqConn := (pqConn.handleBind fakeEnv (afterParseBool.setMsg bindP1.encode)).2

/-- The one result of the fake Executor. -/
def fakeResult : Result :=
  { Err := none, Type_ := Rows, PGTag := ascii "SELECT", RowsAffected := 0,
    Columns := fake.makeFakeColumns, Rows := fake.makeFakeRows }

/-- An Executor whose every statement fails: one result carrying an error. -/
def erringExecutor : Executor :=
  { Prepare := fun _ _ _ => .err (ascii "boom"),
    ExecuteStatements := fun _ _ _ =>
      { ResultList := [{ Err := some (ascii "boom"), Type_ := Ack, PGTag := ascii "SELECT",
                         RowsAffected := 0, Columns := [], Rows := [] }],
        Empty := false } }

/-- The engine over `erringExecutor`. -/
def erringEnv : Env := { lib := plainLib, executor := erringExecutor }

/-- A result of kind RowsAffected with tag `INSERT` and five rows affected. -/
def insertFive : Result :=
  { Err := none, Type_ := RowsAffected, PGTag := ascii "INSERT", RowsAffected := 5,
    Columns := [], Rows := [] }

/-- The text of the error `getString` returns for a payload without a zero
byte. -/
def errNoNUL : Bytes := ascii "NUL terminator not found"

/-- A correctly framed Simple Query message whose payload `abc` lacks the
terminating zero byte. -/
def noNulQuery : Bytes := clientMsg ClientMsgSimpleQuery (ascii "abc")

/-- A correctly framed Parse message whose payload `abc` lacks the terminating
zero byte. -/
def noNulParse : Bytes := clientMsg ClientMsgParse (ascii "abc")

/-! ## Response frames -/

/-- The pgType `typeForDatum` returns for a column type; the zero pgType where
`typeForDatum` panics. -/
def pgTypeOf (d : Datum) : pgType :=
  match typeForDatum d with
  | .ok t => t
  | _ => { oid := 0, size := 0 }

/-- The type is one `typeForDatum` returns a pgType for. -/
def knownType (d : Datum) : Bool :=
  match typeForDatum d with
  | .ok _ => true
  | _ => false

/-- The format code in force at position `i`: text when no codes are given
(a nil slice), the `i`-th code otherwise. -/
def codeOf (formatCodes : Option (List Int)) (i : Nat) : Int :=
  match formatCodes with
  | none => formatText
  | some codes => codes.getD i 0

/-- The format codes, when given, reach position `i`. -/
def codeGiven (formatCodes : Option (List Int)) (i : Nat) : Bool :=
  match formatCodes with
  | none => true
  | some codes => decide (i < codes.length)

/-- One column of a RowDescription body: name, table OID 0, attribute 0, type
OID, type size, type modifier 0, format code. -/
def columnDescription (column : ResultColumn) (code : Int) : Bytes :=
  column.Name ++ [0] ++ be32 0 ++ be16 0 ++ be32 (pgTypeOf column.Typ).oid
    ++ be16 (uint16 (pgTypeOf column.Typ).size) ++ be32 0 ++ be16 (uint16 code)

/-- The columns of a RowDescription body, from column index `i` on. -/
def columnDescriptions (formatCodes : Option (List Int)) : List ResultColumn → Nat → Bytes
  | [], _ => []
  | column :: rest, i =>
    columnDescription column (codeOf formatCodes i) ++ columnDescriptions formatCodes rest (i + 1)

/-- Every column from index `i` on has a known type and a format code. -/
def columnsDescribable (formatCodes : Option (List Int)) : List ResultColumn → Nat → Bool
  | [], _ => true
  | column :: rest, i =>
    knownType column.Typ && codeGiven formatCodes i && columnsDescribable formatCodes rest (i + 1)

/-- The frame that describes `columns`: NoData for none, RowDescription
otherwise. -/
def rowDescriptionFrame (formatCodes : Option (List Int)) (columns : List ResultColumn) : Bytes :=
  if columns.length = 0 then frame ServerMsgNoData []
  else frame ServerMsgRowDescription
    (be16 columns.length ++ columnDescriptions formatCodes columns 0)

/-- The encoder chosen by the format code accepts the value. -/
def encodable (L : GoLib) (code : Int) (d : Datum) : Bool :=
  if code = formatText then decide ((writeBuffer.zero.writeTextDatum L d).1 = .ok ())
  else if code = formatBinary then decide ((writeBuffer.zero.writeBinaryDatum d).1 = .ok ())
  else false

/-- The bytes the encoder chosen by the format code writes for a value: what
`writeTextDatum` (code 0) or `writeBinaryDatum` puts into an empty buffer. -/
def valueBytes (L : GoLib) (code : Int) (d : Datum) : Bytes :=
  if code = formatText then (writeBuffer.zero.writeTextDatum L d).2.buf
  else (writeBuffer.zero.writeBinaryDatum d).2.buf

/-- The encoded values of a DataRow, from value index `i` on. -/
def rowValueBytes (L : GoLib) (formatCodes : Option (List Int)) : List Datum → Nat → Bytes
  | [], _ => []
  | d :: rest, i =>
    valueBytes L (codeOf formatCodes i) d ++ rowValueBytes L formatCodes rest (i + 1)

/-- Every value from index `i` on has a format code whose encoder accepts it. -/
def rowEncodable (L : GoLib) (formatCodes : Option (List Int)) : List Datum → Nat → Bool
  | [], _ => true
  | d :: rest, i =>
    codeGiven formatCodes i && encodable L (codeOf formatCodes i) d
      && rowEncodable L formatCodes rest (i + 1)

/-- The DataRow frame of a row: the number of values, then each value encoded. -/
def dataRowFrame (L : GoLib) (formatCodes : Option (List Int)) (row : ResultRow) : Bytes :=
  frame ServerMsgDataRow (be16 row.Values.length ++ rowValueBytes L formatCodes row.Values 0)

/-- The tag of the CommandComplete of a result: PGTag, with `INSERT` rewritten
to `INSERT 0`, then a space and the affected-row count (kind RowsAffected) or
the number of rows (kind Rows). -/
def commandTag (result : Result) : Bytes :=
  (if result.PGTag = ascii "INSERT" then ascii "INSERT 0" else result.PGTag)
    ++ (if result.Type_ = RowsAffected then [32] ++ itoa result.RowsAffected
        else if result.Type_ = Rows then [32] ++ itoa result.Rows.length
        else [])

/-- The CommandComplete frame of a result. -/
def commandCompleteFrame (result : Result) : Bytes :=
  frame ServerMsgCommandComplete (commandTag result ++ [0])

/-- What a result of kind Rows needs to be streamed: describable columns when
a description is sent, and encodable rows. Other kinds need nothing. -/
def resultStreamable (L : GoLib) (formatCodes : Option (List Int)) (sendDescription : Bool)
    (result : Result) : Bool :=
  if result.Type_ = RowsAffected then true
  else if result.Type_ = Rows then
    (!sendDescription || columnsDescribable formatCodes result.Columns 0)
      && result.Rows.all (fun row => rowEncodable L formatCodes row.Values 0)
  else true

/-- The frames of one result, in order: the row description when one is sent,
one DataRow per row, and the CommandComplete; for the other kinds the
CommandComplete alone. -/
def resultFrames (L : GoLib) (formatCodes : Option (List Int)) (sendDescription : Bool)
    (result : Result) : List Bytes :=
  if result.Type_ = RowsAffected then [commandCompleteFrame result]
  else if result.Type_ = Rows then
    (if sendDescription then [rowDescriptionFrame formatCodes result.Columns] else [])
      ++ result.Rows.map (dataRowFrame L formatCodes) ++ [commandCompleteFrame result]
  else [commandCompleteFrame result]

/-- Every frame written from `c` to `c1` has a type byte in `types`; flushes
apart, nothing else was handed to the writer. -/
def Emits (types : List Nat) (c c1 : pqConn) : Prop :=
  ∃ evs, c1.out = c.out ++ evs
    ∧ ∀ ev ∈ evs, ev = OutEvent.flush ∨ ∃ t body, t ∈ types ∧ ev = OutEvent.write (frame t body)

/-! ## The Go `time` package on fixed-offset instants

`Time.Year`, `Time.AddDate(years, 0, 0)` and `Time.Format` over the proleptic
Gregorian calendar, for instants in a zone with a fixed offset and within the
range where Go's seconds counter does not wrap. The layout scanner covers the
layout elements that start with a digit, a sign or a point; the elements that
start with a letter, an underscore or a comma occur in none of the layouts
used here. -/

/-- Go `isLeap`. -/
def isLeap (year : Int) : Bool :=
  decide (year % 4 = 0 ∧ (year % 100 ≠ 0 ∨ year % 400 = 0))

/-- Go `daysBefore`: the days of a non-leap year before each month. -/
def daysBefore : List Int := [0, 31, 59, 90, 120, 151, 181, 212, 243, 273, 304, 334, 365]

/-- Days from 1970-01-01 to January 1 of `year`. -/
def daysToYear (year : Int) : Int :=
  365 * (year - 1970) + ((year - 1) / 4 - (year - 1) / 100 + (year - 1) / 400) - 477

/-- The day number, counted from 1970-01-01, of `year`-`month`-`day`. A day
past the end of the month counts on into the next month, which is how
`time.Date` normalises it. -/
def daysFromCivil (year : Int) (month : Nat) (day : Int) : Int :=
  daysToYear year + daysBefore.getD (month - 1) 0
    + (if isLeap year = true ∧ 3 ≤ month then 1 else 0) + (day - 1)

/-- Year, month and day of a day number counted from 1970-01-01. -/
def civilFromDays (z : Int) : Int × Nat × Nat :=
  let z1 : Int := z + 719468
  let era : Int := z1 / 146097
  let doe : Nat := (z1 - era * 146097).toNat
  let yoe : Nat := (doe - doe / 1460 + doe / 36524 - doe / 146096) / 365
  let doy : Nat := doe - (365 * yoe + yoe / 4 - yoe / 100)
  let mp : Nat := (5 * doy + 2) / 153
  let d : Nat := doy - (153 * mp + 2) / 5 + 1
  let m : Nat := if mp < 10 then mp + 3 else mp - 9
  ((yoe : Int) + era * 400 + (if m ≤ 2 then 1 else 0), m, d)

/-- Seconds since 1970-01-01 00:00:00 on the wall clock of the zone of `t`. -/
def Time.wall (t : Time) : Int := t.unix + t.offset

/-- Go `Time.Date`. -/
def Time.date (t : Time) : Int × Nat × Nat := civilFromDays (t.wall / 86400)

/-- Go `Time.Year`. -/
def goYear (t : Time) : Int := t.date.1

/-- Go `Time.AddDate(years, 0, 0)`: `Date(year + years, month, day, hour, min,
sec, nsec, loc)` on the fields of `t`. -/
def goAddYears (t : Time) (years : Int) : Time :=
  { t with
    unix := daysFromCivil (t.date.1 + years) t.date.2.1 t.date.2.2 * 86400 + t.wall % 86400
      - t.offset }

/-- The layout elements of `time.Format` that start with a digit, a sign or a
point. -/
inductive Std where
  | stdLongYear | stdYear | stdZeroMonth | stdNumMonth | stdZeroDay | stdDay
  | stdHour | stdZeroHour12 | stdHour12 | stdZeroMinute | stdMinute
  | stdZeroSecond | stdSecond
  | stdNumSecondsTz | stdNumColonSecondsTZ | stdNumTZ | stdNumColonTZ | stdNumShortTZ
  | stdFracSecond0 (n : Nat) | stdFracSecond9 (n : Nat)
deriving DecidableEq, Repr

/-- The layout element at the head of `layout`, with the layout after it. -/
def stdAt (layout : Bytes) : Option (Std × Bytes) :=
  match layout with
  | 48 :: d :: rest =>
    if d = 49 then some (.stdZeroMonth, rest)
    else if d = 50 then some (.stdZeroDay, rest)
    else if d = 51 then some (.stdZeroHour12, rest)
    else if d = 52 then some (.stdZeroMinute, rest)
    else if d = 53 then some (.stdZeroSecond, rest)
    else if d = 54 then some (.stdYear, rest)
    else none
  | 49 :: rest =>
    if rest.take 1 = [53] then some (.stdHour, rest.drop 1) else some (.stdNumMonth, rest)
  | 50 :: rest =>
    if rest.take 3 = [48, 48, 54] then some (.stdLongYear, rest.drop 3) else some (.stdDay, rest)
  | 51 :: rest => some (.stdHour12, rest)
  | 52 :: rest => some (.stdMinute, rest)
  | 53 :: rest => some (.stdSecond, rest)
  | 45 :: rest =>
    if rest.take 6 = ascii "070000" then some (.stdNumSecondsTz, rest.drop 6)
    else if rest.take 8 = ascii "07:00:00" then some (.stdNumColonSecondsTZ, rest.drop 8)
    else if rest.take 4 = ascii "0700" then some (.stdNumTZ, rest.drop 4)
    else if rest.take 5 = ascii "07:00" then some (.stdNumColonTZ, rest.drop 5)
    else if rest.take 2 = ascii "07" then some (.stdNumShortTZ, rest.drop 2)
    else none
  | 46 :: d :: rest =>
    if d = 48 ∨ d = 57 then
      let digits := (d :: rest).takeWhile (fun x => decide (x = d))
      let after := (d :: rest).dropWhile (fun x => decide (x = d))
      match after with
      | x :: _ =>
        if 48 ≤ x ∧ x ≤ 57 then none
        else some (if d = 57 then .stdFracSecond9 digits.length
                   else .stdFracSecond0 digits.length, after)
      | [] => some (if d = 57 then .stdFracSecond9 digits.length
                    else .stdFracSecond0 digits.length, after)
    else none
  | _ => none

/-- Go `nextStdChunk`: the text before the first layout element, the element,
and the layout after it. -/
def nextStdChunk : Bytes → Bytes × Option Std × Bytes
  | [] => ([], none, [])
  | c :: rest =>
    match stdAt (c :: rest) with
    | some (std, suffix) => ([], some std, suffix)
    | none => (c :: (nextStdChunk rest).1, (nextStdChunk rest).2.1, (nextStdChunk rest).2.2)

/-- Go `appendInt`: the decimal text of `x`, zero-padded to `width` digits,
after a minus sign when `x` is negative. -/
def appendInt (x : Int) (width : Nat) : Bytes :=
  (if x < 0 then [45] else []) ++ List.replicate (width - (digitsOf x.natAbs).length) 48
    ++ digitsOf x.natAbs

/-- Go `formatNano`: a point and the first `n` of the nine digits of the
nanoseconds; with `trim`, trailing zeros are dropped and nothing is written
when no digit is left. -/
def formatNano (nanosec : Nat) (n : Nat) (trim : Bool) : Bytes :=
  let buf : Bytes := (appendInt (nanosec % 1000000000) 9).take (min n 9)
  let kept : Bytes :=
    if trim then (buf.reverse.dropWhile (fun x => decide (x = 48))).reverse else buf
  if trim = true ∧ kept = [] then [] else 46 :: kept

/-- The zone offset as `time.Format` writes it for the numeric zone elements. -/
def formatZone (offset : Int) (colon minutes seconds : Bool) : Bytes :=
  let zone : Int := offset.tdiv 60
  let sign : Bytes := if zone < 0 then [45] else [43]
  let zoneAbs : Int := if zone < 0 then -zone else zone
  let absoffset : Int := if zone < 0 then -offset else offset
  sign ++ appendInt (zoneAbs.tdiv 60) 2
    ++ (if colon then [58] else [])
    ++ (if minutes then appendInt (zoneAbs.tmod 60) 2 else [])
    ++ (if seconds then (if colon then [58] else []) ++ appendInt (absoffset.tmod 60) 2 else [])

/-- The text `time.Format` writes for one layout element. -/
def formatStd (t : Time) (std : Std) : Bytes :=
  let year : Int := t.date.1
  let month : Nat := t.date.2.1
  let day : Nat := t.date.2.2
  let secs : Int := t.wall % 86400
  let hour : Int := secs / 3600
  let minute : Int := secs % 3600 / 60
  let second : Int := secs % 60
  let hour12 : Int := if hour % 12 = 0 then 12 else hour % 12
  match std with
  | .stdLongYear => appendInt year 4
  | .stdYear => appendInt ((if year < 0 then -year else year) % 100) 2
  | .stdZeroMonth => appendInt month 2
  | .stdNumMonth => appendInt month 0
  | .stdZeroDay => appendInt day 2
  | .stdDay => appendInt day 0
  | .stdHour => appendInt hour 2
  | .stdZeroHour12 => appendInt hour12 2
  | .stdHour12 => appendInt hour12 0
  | .stdZeroMinute => appendInt minute 2
  | .stdMinute => appendInt minute 0
  | .stdZeroSecond => appendInt second 2
  | .stdSecond => appendInt second 0
  | .stdNumSecondsTz => formatZone t.offset false true true
  | .stdNumColonSecondsTZ => formatZone t.offset true true true
  | .stdNumTZ => formatZone t.offset false true false
  | .stdNumColonTZ => formatZone t.offset true true false
  | .stdNumShortTZ => formatZone t.offset false false false
  | .stdFracSecond0 n => formatNano t.nsec n false
  | .stdFracSecond9 n => formatNano t.nsec n true

/-- The loop of `time.Format`, for at most `fuel` layout elements. -/
def formatLoop (t : Time) : Nat → Bytes → Bytes
  | 0, _ => []
  | fuel + 1, layout =>
    (nextStdChunk layout).1 ++
      (match (nextStdChunk layout).2.1 with
       | none => []
       | some std => formatStd t std ++ formatLoop t fuel (nextStdChunk layout).2.2)

/-- Go `Time.Format(layout)`; a layout has fewer elements than bytes. -/
def goFormat (layout : Bytes) (t : Time) : Bytes := formatLoop t (layout.length + 1) layout

/-- The functions of the `time` package as modelled above, the other library
functions as in `plainLib`. -/
def goLib : GoLib :=
  { plainLib with timeYear := goYear, timeAddYears := goAddYears, timeFormat := goFormat }

/-- The Go reference layout for year-month-day hour:minute:second, fraction and
zone offset. -/
def referenceLayout : Bytes := ascii "2006-01-02 15:04:05.999999999-07:00"

/-- The instant at 00:00:00 UTC of the civil date `year`-`month`-`day`. -/
def midnightUTC (year : Int) (month : Nat) (day : Int) : Time :=
  { unix := daysFromCivil year month day * 86400, nsec := 0, offset := 0 }

/-! ## Integers on the wire -/

/-- The `w`-byte big-endian two's-complement encoding of `n`. -/
def twosComplement (w : Nat) (n : Int) : Bytes :=
  (List.range w).map (fun i => (n / 256 ^ (w - 1 - i) % 256).toNat)

/-- The OID of the integer type of `w` bytes. -/
def intOid (w : Nat) : Nat := if w = 2 then T_int2 else if w = 4 then T_int4 else T_int8

/-- The value fits a signed integer of `w` bytes. -/
def FitsSigned (w : Nat) (n : Int) : Prop := -(2 ^ (8 * w - 1) : Int) ≤ n ∧ n < 2 ^ (8 * w - 1)

/-- A `GoLib` whose `time.Parse` knows one text, the last second of 1969. -/
def lastSecondLib : GoLib :=
  { plainLib with
    timeParse := fun s =>
      if s = ascii "1969-12-31T23:59:59Z" then some { unix := -1, nsec := 0, offset := 0 }
      else none }

/-- The bytes `writeTextDatum` writes for `d` after the four bytes of the
length. -/
def textValue (L : GoLib) (d : Datum) : Bytes :=
  (writeBuffer.zero.writeTextDatum L d).2.buf.drop 4

/-- A Datum of kind Bool, Int64, String or Bytes as Go holds it: the integer
within int64, the bytes within a byte. -/
def Datum.IsPlain : Datum → Prop
  | .DBool _ => True
  | .DInt v => FitsSigned 8 v
  | .DString _ => True
  | .DBytes v => ∀ x ∈ v, x < 256
  | _ => False

/-! ## Startup: `sql/session.go`, `parseOptions` and `libpq/server.go` -/

/-- Go `sql.ConnectionArgs`. -/
structure ConnectionArgs where
  Database : Bytes
  User : Bytes
  ClientEncoding : Bytes
  DateStyle : Bytes
deriving DecidableEq, Repr

/-- The `switch key` of `parseOptions`. -/
def setOption (args : ConnectionArgs) (key value : Bytes) : ConnectionArgs :=
  if key = ascii "database" then { args with Database := value }
  else if key = ascii "user" then { args with User := value }
  else if key = ascii "client_encoding" then { args with ClientEncoding := value }
  else if key = ascii "datestyle" then { args with DateStyle := value }
  else args

/-- The loop of `parseOptions`, for at most `fuel` pairs; `none` when the loop
has not ended by then. The result is the pair Go returns: the arguments read
so far and the error (`.ok ()` for nil). -/
def parseOptionsLoop : Nat → readBuffer → ConnectionArgs → Option (ConnectionArgs × Res Unit)
  | 0, _, _ => none
  | fuel + 1, buf, args =>
    match buf.getString with
    | (.err e, _) => some (args, .err (ascii "error when reading option key: " ++ e))
    | (.panic, _) => some (args, .panic)
    | (.ok key, buf1) =>
      if key.length = 0 then some (args, .ok ())
      else
        match buf1.getString with
        | (.err e, _) => some (args, .err (ascii "error when reading option value: " ++ e))
        | (.panic, _) => some (args, .panic)
        | (.ok value, buf2) => parseOptionsLoop fuel buf2 (setOption args key value)

/-- Go `parseOptions`: every pass of the loop reads at least one byte, so one
pass more than there are bytes is enough. -/
def parseOptions (data : Bytes) : Option (ConnectionArgs × Res Unit) :=
  parseOptionsLoop (data.length + 1) { msg := data, tmp := [0, 0, 0, 0], spare := [] }
    { Database := [], User := [], ClientEncoding := [], DateStyle := [] }

def version30 : Int := 196608
def versionSSL : Int := 80877103
def versionQE : Int := 1879244800

/-- Go `Server`. -/
structure Server where
  executor : Executor

/-- Go `NewServer`. -/
def NewServer : Server := { executor := fake.FakeExecutor }

/-- Go `pqConn.close`: the writer is flushed; closing the socket leaves no
trace in the model. -/
def pqConn.close (c : pqConn) : pqConn := c.Flush

/-- The body of the `if version == version30 || version == versionQE` of
`Server.Serve`: `msg` is what the startup packet holds after the version code,
`rd` what the connection has still to deliver. In the branch for
`argsErr != nil` the argument `err.Error()` is evaluated on the `err` of the
`getInt32` call before the `if`, which is nil there: the method call on the nil
interface panics before `sendInternalError` is entered. The deferred `close`
runs on every way out. -/
def Server.startSession (L : GoLib) (s : Server) (msg rd : Bytes)
    (order : List (Bytes × Bytes)) : Option (Res Unit × Option pqConn) :=
  match parseOptions msg with
  | none => none
  | some (sessionArgs, argsErr) =>
    if argsErr ≠ .ok () then
      some (.panic, some (pqConn.new rd sessionArgs.Database sessionArgs.User).close)
    else
      match pqConn.serve { lib := L, executor := s.executor }
          (pqConn.new rd sessionArgs.Database sessionArgs.User) none order with
      | none => none
      | some (res, c1) => some (res, some c1.close)

/-- Go `Server.Serve` on a connection that delivers `conn`. The result is the
returned error (`.ok ()` for nil, `.panic` for a run-time panic) and the
connection object as the deferred `close` leaves it, when one was made; `none`
when `serve` has not returned within its iterations. `order` is the order in
which `range` yields the ParameterStatus map. -/
def Server.Serve (L : GoLib) (s : Server) (conn : Bytes) (order : List (Bytes × Bytes)) :
    Option (Res Unit × Option pqConn) :=
  let r := readBuffer.zero.readUntypedMsg conn
  match r.err with
  | some e => some (.err e, none)
  | none =>
    match r.buf.getInt32 with
    | (.err e, _) => some (.err e, none)
    | (.panic, _) => some (.panic, none)
    | (.ok version, buf) =>
      if version = version30 ∨ version = versionQE then s.startSession L buf.msg r.rd order
      else some (.err (ascii "unknow protocol version " ++ itoa version), none)

/-! ## Startup packets as the wire carries them -/

/-- An options block: each pair as key, zero byte, value, zero byte; then the
empty key that ends the block; then whatever follows. -/
def encodeOptions (pairs : List (Bytes × Bytes)) (rest : Bytes) : Bytes :=
  (pairs.map (fun kv => kv.1 ++ 0 :: (kv.2 ++ [0]))).flatten ++ 0 :: rest

/-- The pairs can stand in an options block: keys not empty, no zero byte in a
key or a value. -/
def OptionPairs (pairs : List (Bytes × Bytes)) : Prop :=
  ∀ kv ∈ pairs, kv.1 ≠ [] ∧ 0 ∉ kv.1 ∧ 0 ∉ kv.2

/-- The value of the last pair whose key is `key`; the empty string when there
is none. -/
def lastValue (key : Bytes) (pairs : List (Bytes × Bytes)) : Bytes :=
  pairs.foldl (fun acc kv => if kv.1 = key then kv.2 else acc) []

/-- A startup packet: the length (itself included), the version code, the
payload. -/
def startupPacket (version : Nat) (payload : Bytes) : Bytes :=
  be32 (8 + payload.length) ++ (be32 version ++ payload)

/-- One ParameterStatus frame. -/
def parameterStatusFrame (kv : Bytes × Bytes) : Bytes :=
  frame ServerMsgParameterStatus (kv.1 ++ 0 :: (kv.2 ++ [0]))

/-- What the server has written when the startup is over and the first typed
message is about to be read: AuthenticationOk, the ParameterStatus frames in the
order `range` yields them, a flush, ReadyForQuery with status `I`, a flush. -/
def startupOut (order : List (Bytes × Bytes)) : List OutEvent :=
  [OutEvent.write (frame ServerMsgAuth (be32 0))]
    ++ order.map (fun kv => OutEvent.write (parameterStatusFrame kv))
    ++ [OutEvent.flush, OutEvent.write (readyFrame 73), OutEvent.flush]

/-! ## Iteration orders of the argument map -/

/-- No two keys of the map denote the same parameter position. -/
def DistinctPositions (L : GoLib) (args : MapArgs) : Prop :=
  args.Pairwise (fun a b => keyPosition L a.1 = keyPosition L b.1 → keyPosition L a.1 = 0)

/-- The loop over the argument map takes this entry without an error: the key
is a number of at least 1, and the kind of the Datum has an OID when the
client gave no hint for the position. -/
def EntryAccepted (L : GoLib) (hints : List Nat) (kv : Bytes × Datum) : Prop :=
  ∃ i1, atoi L kv.1 = .ok i1 ∧ ¬ (i1 - 1 < 0)
    ∧ (hints.getD (i1 - 1).toNat 0 = 0 → ∃ id, kv.2.typeOf.bind datumToOid = some id)

/-- An Executor whose `Prepare` returns the given argument map, in the given
iteration order. -/
def mapExecutor (args : MapArgs) : Executor :=
  { Prepare := fun _ _ _ => .ok ([], args),
    ExecuteStatements := fun _ _ _ => { ResultList := [], Empty := true } }

/-- Two Executors agree up to the iteration order of the argument map that
`Prepare` returns, and no two keys of that map denote the same position. -/
def SameUpToOrder (L : GoLib) (e1 e2 : Executor) : Prop :=
  ∀ (calls : List ExecCall) (query : Bytes) (args : MapArgs),
    match e1.Prepare calls query args, e2.Prepare calls query args with
    | .ok (cols1, m1), .ok (cols2, m2) => cols1 = cols2 ∧ m1.Perm m2 ∧ DistinctPositions L m1
    | .err x1, .err x2 => x1 = x2
    | .panic, .panic => True
    | _, _ => False

/-! ## Messages for the runs of the last claims -/

/-- Describe message with an empty payload. -/
def describeEmptyMsg : Bytes := clientMsg ClientMsgDescribe []

/-- Close message with an empty payload. -/
def closeEmptyMsg : Bytes := clientMsg ClientMsgClose []

/-- Parse payload: statement `s1`, query `q`, hint count -1. -/
def parseNegativeCount : Bytes := ascii "s1" ++ [0] ++ ascii "q" ++ [0] ++ be16 (uint16 (-1))

/-- Bind payload: portal `p1` on `s1`, no parameter format codes, one value
with the length field -2, no column format codes. -/
def bindNegativeLength : Bytes :=
  ascii "p1" ++ [0] ++ ascii "s1" ++ [0] ++ be16 0 ++ be16 1 ++ be32 (uint32 (-2)) ++ be16 0

/-- An argument map with two keys for the first position, in one iteration
order. -/
def clashingArgs : MapArgs := [(ascii "1", Datum.DummyInt), (ascii "01", Datum.DummyString)]

/-- The same first position named twice, once with a Datum whose kind has no
OID. -/
def clashingTuple : MapArgs := [(ascii "1", Datum.DummyInt), (ascii "01", Datum.dummyTuple)]

/-- An argument map with one key for each of two positions. -/
def orderedArgs : MapArgs := [(ascii "1", Datum.DummyInt), (ascii "2", Datum.DummyString)]

/-! ## Results the encoders reject -/

/-- The connection after Parse of `s1` and Bind of `p1` with the one column
format code binary, on the fake server. -/
def afterBindBinary : pqConn :=
  (pqConn.handleBind fakeEnv (afterParseBool.setMsg bindTrue.encode)).2

/-- Payload of an Execute of the portal `p1` with the row limit `limit`. -/
def executeP1 (limit : Int) : Bytes := ascii "p1" ++ 0 :: (be32 (uint32 limit) ++ [])

/-- The error `writeBinaryDatum` returns for a string. -/
def errBinaryString : Bytes := ascii "unsupported type parser.DString"

/-- The client's side of the scenario "binary result columns": the startup
packet, Parse `s1`, Bind `p1` to it with the column format code binary, Execute
`p1` without a row limit, Sync. -/
def scenarioBinaryColumns : Bytes :=
  startupPacket 196608 (encodeOptions [] [])
    ++ (parseBoolMsg ++ clientMsg ClientMsgBind bindTrue.encode ++ executeP1Msg ++ syncMsg)

/-- An Executor like the fake one whose statements give two results: the first
row of the fake result alone, then the fake result. -/
def twoResultExecutor : Executor :=
  { Prepare := fake.FakeExecutor.Prepare,
    ExecuteStatements := fun _ _ _ =>
      { ResultList := [{ fakeResult with Rows := fake.makeFakeRows.take 1 }, fakeResult],
        Empty := false } }

/-- The engine over `twoResultExecutor`. -/
def twoResultEnv : Env := { lib := plainLib, executor := twoResultExecutor }

/-- A result of kind Rows whose one column is of kind Tuple, for which
`typeForDatum` has no pgType. -/
def tupleColumnResult : Result :=
  { fakeResult with
    Columns := [fake.makeResultColumn (ascii "t") Datum.dummyTuple],
    Rows := [{ Values := [.DInt 1] }] }

/-- An Executor like the fake one whose statements give `tupleColumnResult`. -/
def tupleColumnExecutor : Executor :=
  { Prepare := fake.FakeExecutor.Prepare,
    ExecuteStatements := fun _ _ _ => { ResultList := [tupleColumnResult], Empty := false } }

/-- The engine over `tupleColumnExecutor`. -/
def tupleColumnEnv : Env := { lib := plainLib, executor := tupleColumnExecutor }

/-- A row of two values. -/
def twoValueRow : ResultRow := { Values := [.DInt 1, .DInt 2] }

/-- The scenario "binary result columns" with the row limit 2 in the Execute. -/
def scenarioBinaryLimit : Bytes :=
  startupPacket 196608 (encodeOptions [] [])
    ++ (parseBoolMsg ++ clientMsg ClientMsgBind bindTrue.encode
    ++ clientMsg ClientMsgExecute (executeP1 2) ++ syncMsg)

/-! # Theorems -/

/-! ## Frame codec -/

theorem foldl_run_buf (ops : List WriteOp) (b : writeBuffer) :
    (ops.foldl WriteOp.run b).buf = b.buf ++ bodyOf ops := by
  induction ops generalizing b with
  | nil => simp [bodyOf]
  | cons op ops ih =>
    have h1 : (WriteOp.run b op).buf = b.buf ++ op.bytes := by
      cases op <;> first
        | rfl
        | simp [WriteOp.run, WriteOp.bytes, writeBuffer.writeString, writeBuffer.Write,
            writeBuffer.WriteByte]
    simp only [List.foldl_cons, ih, h1, bodyOf, List.map_cons, List.flatten_cons,
      List.append_assoc]

theorem bigEndianUint32_be32 (n : Nat) (h : n < 4294967296) : bigEndianUint32 (be32 n) = n := by
  simp only [bigEndianUint32, be32, List.getD_cons_zero, List.getD_cons_succ]
  omega

theorem uint32_ofNat (n : Nat) (h : n < 4294967296) : uint32 (n : Int) = n := by
  unfold uint32
  omega

/-- C1: after `initMsg t` and any sequence of writes whose bytes form `body`
(the buffer holds `body` behind its five header bytes), `finishMsg` hands the
writer exactly `t`, the four big-endian bytes of `4 + |body|` and `body`, and
leaves the buffer empty; the frame is below 4 GiB, so that its length has a
four-byte encoding. -/
theorem finishMsg_writes_frame (b : writeBuffer) (t : Nat) (ops : List WriteOp)
    (h : 4 + (bodyOf ops).length < 4294967296) :
    (ops.foldl WriteOp.run (b.initMsg t)).buf.drop 5 = bodyOf ops
    ∧ ((ops.foldl WriteOp.run (b.initMsg t)).finishMsg).2
        = t :: be32 (4 + (bodyOf ops).length) ++ bodyOf ops
    ∧ (be32 (4 + (bodyOf ops).length)).length = 4
    ∧ (∀ x ∈ be32 (4 + (bodyOf ops).length), x < 256)
    ∧ bigEndianUint32 (be32 (4 + (bodyOf ops).length)) = 4 + (bodyOf ops).length
    ∧ ((ops.foldl WriteOp.run (b.initMsg t)).finishMsg).1.buf = [] := by
  have hb : (b.initMsg t).buf = [t, b.putbuf 1, b.putbuf 2, b.putbuf 3, b.putbuf 4] := rfl
  refine ⟨?_, ?_, rfl, ?_, bigEndianUint32_be32 _ h, rfl⟩
  · rw [foldl_run_buf, hb]; rfl
  · simp only [writeBuffer.finishMsg, foldl_run_buf, hb]
    have hlen : (((([t, b.putbuf 1, b.putbuf 2, b.putbuf 3, b.putbuf 4]
        ++ bodyOf ops).length : Nat) : Int) - 1) = ((4 + (bodyOf ops).length : Nat) : Int) := by
      simp only [List.length_append, List.length_cons, List.length_nil]
      omega
    rw [hlen, uint32_ofNat _ h]
    rfl
  · intro x hx
    simp only [be32, List.mem_cons, List.mem_singleton, List.not_mem_nil, or_false] at hx
    omega

/-- C1 at a concrete message: type `T`, an int16, a string and a raw byte,
written over a buffer with stale scratch bytes. -/
theorem finishMsg_writes_frame_witness :
    ([WriteOp.putInt16 (-2), .writeString [97, 98], .WriteByte 7].foldl WriteOp.run
        ((writeBuffer.zero.putInt32 (-1)).initMsg 84)).buf.drop 5
      = bodyOf [WriteOp.putInt16 (-2), .writeString [97, 98], .WriteByte 7]
    ∧ (([WriteOp.putInt16 (-2), .writeString [97, 98], .WriteByte 7].foldl WriteOp.run
        ((writeBuffer.zero.putInt32 (-1)).initMsg 84)).finishMsg).2
        = 84 :: be32 (4 + (bodyOf [WriteOp.putInt16 (-2), .writeString [97, 98], .WriteByte 7]).length)
            ++ bodyOf [WriteOp.putInt16 (-2), .writeString [97, 98], .WriteByte 7]
    ∧ (be32 (4 + (bodyOf [WriteOp.putInt16 (-2), .writeString [97, 98], .WriteByte 7]).length)).length
        = 4
    ∧ (∀ x ∈ be32 (4 + (bodyOf [WriteOp.putInt16 (-2), .writeString [97, 98], .WriteByte 7]).length),
        x < 256)
    ∧ bigEndianUint32
          (be32 (4 + (bodyOf [WriteOp.putInt16 (-2), .writeString [97, 98], .WriteByte 7]).length))
        = 4 + (bodyOf [WriteOp.putInt16 (-2), .writeString [97, 98], .WriteByte 7]).length
    ∧ (([WriteOp.putInt16 (-2), .writeString [97, 98], .WriteByte 7].foldl WriteOp.run
        ((writeBuffer.zero.putInt32 (-1)).initMsg 84)).finishMsg).1.buf = [] :=
  finishMsg_writes_frame (writeBuffer.zero.putInt32 (-1)) 84
    [WriteOp.putInt16 (-2), .writeString [97, 98], .WriteByte 7] (by decide)

theorem reset_msg_length (b : readBuffer) (n : Nat) : (b.reset n).msg.length = n := by
  unfold readBuffer.reset
  split
  · simp only [List.length_take]; omega
  · simp only [List.length_replicate]

theorem readUntypedMsg_ok (b : readBuffer) (L : Nat) (rest : Bytes)
    (hL : L < 4294967296) (hrest : L - 4 ≤ rest.length) (h1 : 4 ≤ L) (h2 : L ≤ 16777216 + 4) :
    (b.readUntypedMsg (be32 L ++ rest)).err = none
    ∧ (b.readUntypedMsg (be32 L ++ rest)).buf.msg = rest.take (L - 4)
    ∧ (b.readUntypedMsg (be32 L ++ rest)).n = L
    ∧ (b.readUntypedMsg (be32 L ++ rest)).rd = rest.drop (L - 4) := by
  have h4 : ioReadFull (be32 L ++ rest) 4 b.tmp
      = { rd := rest, buf := be32 L, n := 4, err := none } := by
    simp [ioReadFull, be32]
  have hsz : ¬ (((bigEndianUint32 (be32 L) : Int) - 4 > (maxMessageSize : Int))
      ∨ ((bigEndianUint32 (be32 L) : Int) - 4 < 0)) := by
    rw [bigEndianUint32_be32 L hL]; simp only [maxMessageSize]; omega
  have htn : ((bigEndianUint32 (be32 L) : Int) - 4).toNat = L - 4 := by
    rw [bigEndianUint32_be32 L hL]; omega
  simp only [readBuffer.readUntypedMsg, h4, hsz, if_false, htn]
  simp only [ioReadFull, reset_msg_length, hrest, if_true, true_and, and_true]
  omega

theorem readUntypedMsg_bad (b : readBuffer) (L : Nat) (rest : Bytes)
    (hL : L < 4294967296) (h : ¬ (4 ≤ L ∧ L ≤ 16777216 + 4)) :
    (b.readUntypedMsg (be32 L ++ rest)).err ≠ none
    ∧ (b.readUntypedMsg (be32 L ++ rest)).n = 4
    ∧ (b.readUntypedMsg (be32 L ++ rest)).rd = rest
    ∧ (b.readUntypedMsg (be32 L ++ rest)).buf.msg = b.msg := by
  have h4 : ioReadFull (be32 L ++ rest) 4 b.tmp
      = { rd := rest, buf := be32 L, n := 4, err := none } := by
    simp [ioReadFull, be32]
  have hsz : (((bigEndianUint32 (be32 L) : Int) - 4 > (maxMessageSize : Int))
      ∨ ((bigEndianUint32 (be32 L) : Int) - 4 < 0)) := by
    rw [bigEndianUint32_be32 L hL]; simp only [maxMessageSize]; omega
  simp only [readBuffer.readUntypedMsg, h4, hsz, if_true]
  simp

/-- C2: on a stream that starts with the big-endian length `L` followed by at
least `L - 4` bytes (none when `L < 4`), `readUntypedMsg` succeeds exactly when
`4 ≤ L ≤ 2^24 + 4`; it then holds the `L - 4` bytes after the length, reports
`L` bytes and leaves the rest of the stream; otherwise it fails having consumed
the four length bytes only (count 4), the message buffer untouched. -/
theorem readUntypedMsg_length_range (b : readBuffer) (L : Nat) (rest : Bytes)
    (hL : L < 4294967296) (hrest : L - 4 ≤ rest.length) :
    ((b.readUntypedMsg (be32 L ++ rest)).err = none ↔ 4 ≤ L ∧ L ≤ 16777216 + 4)
    ∧ (4 ≤ L ∧ L ≤ 16777216 + 4 →
        (b.readUntypedMsg (be32 L ++ rest)).buf.msg = rest.take (L - 4)
        ∧ (b.readUntypedMsg (be32 L ++ rest)).n = L
        ∧ (b.readUntypedMsg (be32 L ++ rest)).rd = rest.drop (L - 4))
    ∧ (¬ (4 ≤ L ∧ L ≤ 16777216 + 4) →
        (b.readUntypedMsg (be32 L ++ rest)).n = 4
        ∧ (b.readUntypedMsg (be32 L ++ rest)).rd = rest
        ∧ (b.readUntypedMsg (be32 L ++ rest)).buf.msg = b.msg) := by
  refine ⟨⟨fun he => ?_, fun hr => (readUntypedMsg_ok b L rest hL hrest hr.1 hr.2).1⟩,
    fun hr => (readUntypedMsg_ok b L rest hL hrest hr.1 hr.2).2,
    fun hr => (readUntypedMsg_bad b L rest hL hr).2⟩
  by_contra hr
  exact (readUntypedMsg_bad b L rest hL hr).1 he

/-- C2 at the stream `00 00 00 06 | 07 09 0b`: length 6, two payload bytes. -/
theorem readUntypedMsg_length_range_witness :
    ((readBuffer.zero.readUntypedMsg (be32 6 ++ [7, 9, 11])).err = none
        ↔ 4 ≤ 6 ∧ 6 ≤ 16777216 + 4)
    ∧ (4 ≤ 6 ∧ 6 ≤ 16777216 + 4 →
        (readBuffer.zero.readUntypedMsg (be32 6 ++ [7, 9, 11])).buf.msg = [7, 9, 11].take (6 - 4)
        ∧ (readBuffer.zero.readUntypedMsg (be32 6 ++ [7, 9, 11])).n = 6
        ∧ (readBuffer.zero.readUntypedMsg (be32 6 ++ [7, 9, 11])).rd = [7, 9, 11].drop (6 - 4))
    ∧ (¬ (4 ≤ 6 ∧ 6 ≤ 16777216 + 4) →
        (readBuffer.zero.readUntypedMsg (be32 6 ++ [7, 9, 11])).n = 4
        ∧ (readBuffer.zero.readUntypedMsg (be32 6 ++ [7, 9, 11])).rd = [7, 9, 11]
        ∧ (readBuffer.zero.readUntypedMsg (be32 6 ++ [7, 9, 11])).buf.msg
            = readBuffer.zero.msg) :=
  readUntypedMsg_length_range readBuffer.zero 6 [7, 9, 11] (by decide) (by decide)

theorem indexByte_append (p rest : Bytes) (h : 0 ∉ p) :
    readBuffer.indexByte (p ++ 0 :: rest) 0 = some p.length := by
  induction p with
  | nil => simp [readBuffer.indexByte]
  | cons x xs ih =>
    have hx : x ≠ 0 := fun e => h (by simp [e])
    have hxs : 0 ∉ xs := fun m => h (List.mem_cons_of_mem _ m)
    simp [readBuffer.indexByte, hx, ih hxs]

theorem indexByte_none (s : Bytes) (h : 0 ∉ s) : readBuffer.indexByte s 0 = none := by
  induction s with
  | nil => rfl
  | cons x xs ih =>
    have hx : x ≠ 0 := fun e => h (by simp [e])
    have hxs : 0 ∉ xs := fun m => h (List.mem_cons_of_mem _ m)
    simp [readBuffer.indexByte, hx, ih hxs]

/-- C3: the getters parse a prefix and keep the rest. `getString` on
`p ++ [0] ++ rest` with no zero byte in `p` returns `p` and leaves `rest`;
`getInt16` and `getInt32` return the signed (two's complement) big-endian value
of the first two and four bytes and leave the remainder; `getBytes n` for
`0 ≤ n ≤ length` returns the first `n` bytes and leaves the remainder. Without a
NUL byte, or with fewer than 2, 4 or `n` bytes, the getter returns an error and
the buffer is unchanged. -/
theorem getters_parse_prefix :
    (∀ (b : readBuffer) (p rest : Bytes), 0 ∉ p → b.msg = p ++ 0 :: rest →
        b.getString = (.ok p, { b with msg := rest }))
    ∧ (∀ (b : readBuffer), 0 ∉ b.msg → ∃ e, b.getString = (.err e, b))
    ∧ (∀ (b : readBuffer) (x y : Nat) (rest : Bytes), x < 256 → y < 256 →
        b.msg = x :: y :: rest →
        b.getInt16 = (.ok (if x < 128 then ((x * 256 + y : Nat) : Int)
                           else ((x * 256 + y : Nat) : Int) - 65536), { b with msg := rest }))
    ∧ (∀ (b : readBuffer), b.msg.length < 2 → ∃ e, b.getInt16 = (.err e, b))
    ∧ (∀ (b : readBuffer) (x y z w : Nat) (rest : Bytes),
        x < 256 → y < 256 → z < 256 → w < 256 → b.msg = x :: y :: z :: w :: rest →
        b.getInt32 = (.ok (if x < 128 then ((x * 16777216 + y * 65536 + z * 256 + w : Nat) : Int)
                           else ((x * 16777216 + y * 65536 + z * 256 + w : Nat) : Int)
                             - 4294967296),
                      { b with msg := rest }))
    ∧ (∀ (b : readBuffer), b.msg.length < 4 → ∃ e, b.getInt32 = (.err e, b))
    ∧ (∀ (b : readBuffer) (n : Nat), n ≤ b.msg.length →
        b.getBytes n = (.ok (b.msg.take n), { b with msg := b.msg.drop n }))
    ∧ (∀ (b : readBuffer) (n : Int), (b.msg.length : Int) < n →
        ∃ e, b.getBytes n = (.err e, b)) := by
  refine ⟨?_, ?_, ?_, ?_, ?_, ?_, ?_, ?_⟩
  · intro b p rest hp hm
    simp [readBuffer.getString, hm, indexByte_append p rest hp]
  · intro b h
    refine ⟨ascii "NUL terminator not found", ?_⟩
    simp only [readBuffer.getString, indexByte_none _ h]
  · intro b x y rest hx hy hm
    have hl : ¬ (b.msg.length < 2) := by simp [hm]
    rw [readBuffer.getInt16, if_neg hl]
    simp only [hm, List.take, List.drop, bigEndianUint16,
      List.getD_cons_zero, List.getD_cons_succ, int16]
    congr 2
    split <;> split <;> omega
  · intro b h
    refine ⟨ascii "insufficient data: " ++ itoa b.msg.length, ?_⟩
    simp only [readBuffer.getInt16, h, if_true]
  · intro b x y z w rest hx hy hz hw hm
    have hl : ¬ (b.msg.length < 4) := by simp [hm]
    rw [readBuffer.getInt32, if_neg hl]
    simp only [hm, List.take, List.drop, bigEndianUint32,
      List.getD_cons_zero, List.getD_cons_succ, int32]
    congr 2
    split <;> split <;> omega
  · intro b h
    refine ⟨ascii "insufficient data: " ++ itoa b.msg.length, ?_⟩
    simp only [readBuffer.getInt32, h, if_true]
  · intro b n h
    have h1 : ¬ ((b.msg.length : Int) < (n : Int)) := by omega
    have h2 : ¬ ((n : Int) < 0) := by omega
    rw [readBuffer.getBytes, if_neg h1, if_neg h2]
    simp
  · intro b n h
    refine ⟨ascii "insufficient data: " ++ itoa b.msg.length, ?_⟩
    simp only [readBuffer.getBytes, h, if_true]
theorem IOStep.stepRefl (c : pqConn) : IOStep c c :=
  ⟨rfl, rfl, Or.inl rfl, ⟨[], by simp⟩, ⟨[], by simp⟩, rfl⟩

theorem IOStep.stepTrans {a b c : pqConn} (h1 : IOStep a b) (h2 : IOStep b c) : IOStep a c := by
  obtain ⟨e1, s1, i1, ⟨o1, ho1⟩, ⟨k1, hk1⟩, r1⟩ := h1
  obtain ⟨e2, s2, i2, ⟨o2, ho2⟩, ⟨k2, hk2⟩, r2⟩ := h2
  refine ⟨e2.trans e1, s2.trans s1, ?_, ⟨o1 ++ o2, by rw [ho2, ho1, List.append_assoc]⟩,
    ⟨k1 ++ k2, by rw [hk2, hk1, List.append_assoc]⟩, r2.trans r1⟩
  rcases i2 with i2 | ⟨hb, i2⟩
  · rcases i1 with i1 | ⟨ha, i1⟩
    · exact Or.inl (i2.trans i1)
    · exact Or.inr ⟨ha, i2.trans i1⟩
  · exact Or.inr ⟨e1 ▸ hb, i2⟩

theorem IOOnly.onlyRefl (c : pqConn) : IOOnly c c := ⟨IOStep.stepRefl c, rfl, rfl⟩

theorem IOOnly.onlyTrans {a b c : pqConn} (h1 : IOOnly a b) (h2 : IOOnly b c) : IOOnly a c :=
  ⟨h1.step.stepTrans h2.step, h2.preparedStatements.trans h1.preparedStatements,
    h2.portals.trans h1.portals⟩

theorem ioOnly_writeBuf (c : pqConn) (w : writeBuffer) : IOOnly c { c with writeBuf := w } :=
  ⟨⟨rfl, rfl, Or.inl rfl, ⟨[], by simp⟩, ⟨[], by simp⟩, rfl⟩, rfl, rfl⟩

theorem ioOnly_wb (c : pqConn) (f : writeBuffer → writeBuffer) : IOOnly c (c.wb f) :=
  ioOnly_writeBuf c _

theorem ioOnly_finishMsg (c : pqConn) : IOOnly c c.finishMsg :=
  ⟨⟨rfl, rfl, Or.inl rfl, ⟨_, rfl⟩, ⟨[], by simp [pqConn.finishMsg]⟩, rfl⟩, rfl, rfl⟩

theorem ioOnly_Flush (c : pqConn) : IOOnly c c.Flush :=
  ⟨⟨rfl, rfl, Or.inl rfl, ⟨_, rfl⟩, ⟨[], by simp [pqConn.Flush]⟩, rfl⟩, rfl, rfl⟩

theorem ioOnly_onBuf {α : Type} (c : pqConn) (f : readBuffer → Res α × readBuffer) :
    IOOnly c (c.onBuf f).2 :=
  ⟨⟨rfl, rfl, Or.inl rfl, ⟨[], by simp [pqConn.onBuf]⟩, ⟨[], by simp [pqConn.onBuf]⟩, rfl⟩,
    rfl, rfl⟩

theorem ioOnly_calls (c : pqConn) (cs : List ExecCall) :
    IOOnly c { c with calls := c.calls ++ cs } :=
  ⟨⟨rfl, rfl, Or.inl rfl, ⟨[], by simp⟩, ⟨cs, rfl⟩, rfl⟩, rfl, rfl⟩

theorem ioOnly_sendError (c : pqConn) (code m : Bytes) : IOOnly c (c.sendError code m).2 := by
  unfold pqConn.sendError
  by_cases h : c.extendedQueryMessage = true
  · rw [if_pos h]
    have h1 : IOOnly c { c with ignoreTillSync := true } :=
      ⟨⟨rfl, rfl, Or.inr ⟨h, rfl⟩, ⟨[], by simp⟩, ⟨[], by simp⟩, rfl⟩, rfl, rfl⟩
    exact h1.onlyTrans (((ioOnly_wb _ _).onlyTrans (ioOnly_finishMsg _)).onlyTrans (ioOnly_Flush _))
  · rw [if_neg h]
    exact ((ioOnly_wb c _).onlyTrans (ioOnly_finishMsg _)).onlyTrans (ioOnly_Flush _)

theorem ioOnly_sendInternalError (c : pqConn) (m : Bytes) :
    IOOnly c (c.sendInternalError m).2 := ioOnly_sendError c _ m


theorem andThen_ioOnly {α β : Type} {c : pqConn} {r : Res α × pqConn}
    {k : α → pqConn → Res β × pqConn} (hr : IOOnly c r.2)
    (hk : ∀ a c1, IOOnly c1 (k a c1).2) : IOOnly c (pqConn.andThen r k).2 := by
  rcases r with ⟨x, c1⟩
  cases x with
  | ok a => exact hr.onlyTrans (hk a c1)
  | err e => exact hr
  | panic => exact hr

theorem ioOnly_sendRowDescription (c : pqConn) (cols : List ResultColumn)
    (codes : Option (List Int)) : IOOnly c (c.sendRowDescription cols codes).2 := by
  unfold pqConn.sendRowDescription
  split
  · exact (ioOnly_wb c _).onlyTrans (ioOnly_finishMsg _)
  · dsimp only
    split
    · exact (ioOnly_writeBuf c _).onlyTrans (ioOnly_finishMsg _)
    · exact ioOnly_writeBuf c _
    · exact ioOnly_writeBuf c _

theorem ioOnly_sendCommandComplete (c : pqConn) (tag : Bytes) :
    IOOnly c (c.sendCommandComplete tag).2 :=
  (ioOnly_wb c _).onlyTrans (ioOnly_finishMsg _)

theorem ioOnly_sendDataRows (L : GoLib) (codes : Option (List Int)) (rows : List ResultRow)
    (c : pqConn) : IOOnly c (pqConn.sendDataRows L codes rows c).2 := by
  induction rows generalizing c with
  | nil => exact IOOnly.onlyRefl c
  | cons row rest ih =>
    unfold pqConn.sendDataRows
    dsimp only
    split
    · exact ((ioOnly_writeBuf c _).onlyTrans (ioOnly_finishMsg _)).onlyTrans (ih _)
    · exact ioOnly_writeBuf c _
    · exact ioOnly_writeBuf c _

theorem ioOnly_sendResult (L : GoLib) (c : pqConn) (result : Result)
    (codes : Option (List Int)) (sd : Bool) : IOOnly c (pqConn.sendResult L c result codes sd).2 := by
  unfold pqConn.sendResult
  dsimp only
  generalize (if result.PGTag = ascii "INSERT" then ascii "INSERT 0" else result.PGTag) = tag
  split
  · exact ioOnly_sendCommandComplete _ _
  · split
    · refine andThen_ioOnly ?_ (fun _ c1 => andThen_ioOnly (ioOnly_sendDataRows _ _ _ _)
        (fun _ c2 => ioOnly_sendCommandComplete _ _))
      split
      · exact ioOnly_sendRowDescription _ _ _
      · exact IOOnly.onlyRefl c
    · exact ioOnly_sendCommandComplete _ _

theorem ioOnly_sendResults (L : GoLib) (codes : Option (List Int)) (sd : Bool) (limit : Int)
    (results : List Result) (c : pqConn) :
    IOOnly c (pqConn.sendResults L codes sd limit results c).2 := by
  induction results generalizing c with
  | nil => exact IOOnly.onlyRefl c
  | cons result rest ih =>
    unfold pqConn.sendResults
    split
    · exact ioOnly_sendInternalError _ _
    · exact andThen_ioOnly (ioOnly_sendResult _ _ _ _ _) (fun _ c1 => ih c1)

theorem ioOnly_sendResponse (L : GoLib) (c : pqConn) (results : List Result)
    (codes : Option (List Int)) (sd : Bool) (limit : Int) :
    IOOnly c (pqConn.sendResponse L c results codes sd limit).2 := by
  unfold pqConn.sendResponse
  split
  · exact ioOnly_sendCommandComplete _ _
  · exact ioOnly_sendResults _ _ _ _ _ _

theorem ioOnly_executeStatements (E : Env) (c : pqConn) (stmts : Bytes) (params : List Datum)
    (codes : Option (List Int)) (sd : Bool) (limit : Int) :
    IOOnly c (pqConn.executeStatements E c stmts params codes sd limit).2 := by
  unfold pqConn.executeStatements
  dsimp only
  split
  · exact ((ioOnly_calls c _).onlyTrans (ioOnly_wb _ _)).onlyTrans (ioOnly_finishMsg _)
  · exact (ioOnly_calls c _).onlyTrans (ioOnly_sendResponse _ _ _ _ _ _)

theorem ioOnly_handleSimpleQuery (E : Env) (c : pqConn) :
    IOOnly c (pqConn.handleSimpleQuery E c).2 :=
  andThen_ioOnly (ioOnly_onBuf c _) (fun _ _ => ioOnly_executeStatements _ _ _ _ _ _ _)

theorem ioOnly_handleMPPQuery (E : Env) (c : pqConn) :
    IOOnly c (pqConn.handleMPPQuery E c).2 :=
  andThen_ioOnly (ioOnly_onBuf c _) (fun _ _ => ioOnly_executeStatements _ _ _ _ _ _ _)

theorem ioOnly_handleExecute (E : Env) (c : pqConn) :
    IOOnly c (pqConn.handleExecute E c).2 := by
  refine andThen_ioOnly (ioOnly_onBuf c _) (fun portalName c1 => ?_)
  split
  · exact ioOnly_sendInternalError _ _
  · exact andThen_ioOnly (ioOnly_onBuf c1 _) (fun _ _ => ioOnly_executeStatements _ _ _ _ _ _ _)

theorem ioOnly_handleDescribe (L : GoLib) (c : pqConn) :
    IOOnly c (pqConn.handleDescribe L c).2 := by
  unfold pqConn.handleDescribe
  have h0 := ioOnly_onBuf c readBuffer.getPrepareType
  split
  · next c1 heq => rw [heq] at h0; exact h0
  · next e c1 heq => rw [heq] at h0; exact h0.onlyTrans (ioOnly_sendInternalError _ _)
  · next typ c1 heq =>
    rw [heq] at h0
    refine h0.onlyTrans (andThen_ioOnly (ioOnly_onBuf c1 _) (fun name c2 => ?_))
    split
    · split
      · exact ioOnly_sendInternalError _ _
      · exact ((ioOnly_wb c2 _).onlyTrans (ioOnly_finishMsg _)).onlyTrans
          (ioOnly_sendRowDescription _ _ _)
    · split
      · split
        · exact ioOnly_sendInternalError _ _
        · split
          · exact ioOnly_sendInternalError _ _
          · exact ioOnly_sendRowDescription _ _ _
      · exact IOOnly.onlyRefl c2

theorem ioOnly_readyForQuery (c : pqConn) : IOOnly c c.readyForQuery.2 := by
  unfold pqConn.readyForQuery
  dsimp only
  split
  · split
    · exact (((ioOnly_wb c _).onlyTrans (ioOnly_wb _ _)).onlyTrans (ioOnly_finishMsg _)).onlyTrans
        (ioOnly_Flush _)
    · split
      · exact (((ioOnly_wb c _).onlyTrans (ioOnly_wb _ _)).onlyTrans (ioOnly_finishMsg _)).onlyTrans
          (ioOnly_Flush _)
      · split
        · exact (((ioOnly_wb c _).onlyTrans (ioOnly_wb _ _)).onlyTrans (ioOnly_finishMsg _)).onlyTrans
            (ioOnly_Flush _)
        · exact ioOnly_wb c (fun w => w.initMsg ServerMsgReady)
  · exact IOOnly.onlyRefl c

theorem ioOnly_readHints (n : Nat) (c : pqConn) : IOOnly c (pqConn.readHints n c).2 := by
  induction n generalizing c with
  | zero => exact IOOnly.onlyRefl c
  | succ n ih =>
    exact andThen_ioOnly (ioOnly_onBuf c _)
      (fun _ c1 => andThen_ioOnly (ih c1) (fun _ c2 => IOOnly.onlyRefl c2))

theorem ioOnly_readCodes (n : Nat) (c : pqConn) : IOOnly c (pqConn.readCodes n c).2 := by
  induction n generalizing c with
  | zero => exact IOOnly.onlyRefl c
  | succ n ih =>
    exact andThen_ioOnly (ioOnly_onBuf c _)
      (fun _ c1 => andThen_ioOnly (ih c1) (fun _ c2 => IOOnly.onlyRefl c2))

theorem ioOnly_readFormatCodes (count n : Int) (c : pqConn) :
    IOOnly c (pqConn.readFormatCodes count n c).2 := by
  unfold pqConn.readFormatCodes
  split
  · exact IOOnly.onlyRefl c
  · split
    · exact andThen_ioOnly (ioOnly_onBuf c _) (fun _ c1 => IOOnly.onlyRefl c1)
    · split
      · exact andThen_ioOnly (ioOnly_readCodes _ c) (fun _ c1 => IOOnly.onlyRefl c1)
      · exact IOOnly.onlyRefl c

theorem ioOnly_readParams (L : GoLib) (codes : List Int) (ts : List Nat) (i : Nat) (c : pqConn) :
    IOOnly c (pqConn.readParams L codes ts i c).2 := by
  induction ts generalizing i c with
  | nil => exact IOOnly.onlyRefl c
  | cons t ts ih =>
    unfold pqConn.readParams
    refine andThen_ioOnly (ioOnly_onBuf c _) (fun plen c1 => ?_)
    split
    · refine andThen_ioOnly (ih _ c1) (fun r c2 => ?_)
      split <;> exact IOOnly.onlyRefl c2
    · refine andThen_ioOnly (ioOnly_onBuf c1 _) (fun b c2 => ?_)
      split
      · exact IOOnly.onlyRefl c2
      · split
        · exact IOOnly.onlyRefl c2
        · refine andThen_ioOnly (ih _ c2) (fun r c3 => ?_)
          split <;> exact IOOnly.onlyRefl c3

theorem Quiet.quietRefl (c : pqConn) : Quiet c c :=
  ⟨rfl, rfl, rfl, rfl, rfl, rfl, rfl, rfl, ⟨[], by simp⟩⟩

theorem Quiet.quietTrans {a b c : pqConn} (h1 : Quiet a b) (h2 : Quiet b c) : Quiet a c := by
  obtain ⟨r1, o1, w1, s1, p1, q1, e1, i1, ⟨k1, hk1⟩⟩ := h1
  obtain ⟨r2, o2, w2, s2, p2, q2, e2, i2, ⟨k2, hk2⟩⟩ := h2
  exact ⟨r2.trans r1, o2.trans o1, w2.trans w1, s2.trans s1, p2.trans p1, q2.trans q1,
    e2.trans e1, i2.trans i1, ⟨k1 ++ k2, by rw [hk2, hk1, List.append_assoc]⟩⟩

theorem Quiet.ioOnly {a b : pqConn} (h : Quiet a b) : IOOnly a b :=
  ⟨⟨h.extended, h.session, Or.inl h.ignore, ⟨[], by simp [h.out]⟩, h.calls, h.rd⟩,
    h.preparedStatements, h.portals⟩

theorem quiet_onBuf {α : Type} (c : pqConn) (f : readBuffer → Res α × readBuffer) :
    Quiet c (c.onBuf f).2 :=
  ⟨rfl, rfl, rfl, rfl, rfl, rfl, rfl, rfl, ⟨[], by simp [pqConn.onBuf]⟩⟩

theorem quiet_calls (c : pqConn) (cs : List ExecCall) :
    Quiet c { c with calls := c.calls ++ cs } :=
  ⟨rfl, rfl, rfl, rfl, rfl, rfl, rfl, rfl, ⟨cs, rfl⟩⟩

theorem andThen_quiet {α β : Type} {c : pqConn} {r : Res α × pqConn}
    {k : α → pqConn → Res β × pqConn} (hr : Quiet c r.2)
    (hk : ∀ a c1, Quiet c1 (k a c1).2) : Quiet c (pqConn.andThen r k).2 := by
  rcases r with ⟨x, c1⟩
  cases x with
  | ok a => exact hr.quietTrans (hk a c1)
  | err e => exact hr
  | panic => exact hr

theorem quiet_readHints (n : Nat) (c : pqConn) : Quiet c (pqConn.readHints n c).2 := by
  induction n generalizing c with
  | zero => exact Quiet.quietRefl c
  | succ n ih =>
    exact andThen_quiet (quiet_onBuf c _)
      (fun _ c1 => andThen_quiet (ih c1) (fun _ c2 => Quiet.quietRefl c2))

theorem quiet_readCodes (n : Nat) (c : pqConn) : Quiet c (pqConn.readCodes n c).2 := by
  induction n generalizing c with
  | zero => exact Quiet.quietRefl c
  | succ n ih =>
    exact andThen_quiet (quiet_onBuf c _)
      (fun _ c1 => andThen_quiet (ih c1) (fun _ c2 => Quiet.quietRefl c2))

theorem quiet_readFormatCodes (count n : Int) (c : pqConn) :
    Quiet c (pqConn.readFormatCodes count n c).2 := by
  unfold pqConn.readFormatCodes
  split
  · exact Quiet.quietRefl c
  · split
    · exact andThen_quiet (quiet_onBuf c _) (fun _ c1 => Quiet.quietRefl c1)
    · split
      · exact andThen_quiet (quiet_readCodes _ c) (fun _ c1 => Quiet.quietRefl c1)
      · exact Quiet.quietRefl c

theorem quiet_readParams (L : GoLib) (codes : List Int) (ts : List Nat) (i : Nat) (c : pqConn) :
    Quiet c (pqConn.readParams L codes ts i c).2 := by
  induction ts generalizing i c with
  | nil => exact Quiet.quietRefl c
  | cons t ts ih =>
    unfold pqConn.readParams
    refine andThen_quiet (quiet_onBuf c _) (fun plen c1 => ?_)
    split
    · refine andThen_quiet (ih _ c1) (fun r c2 => ?_)
      split <;> exact Quiet.quietRefl c2
    · refine andThen_quiet (quiet_onBuf c1 _) (fun b c2 => ?_)
      split
      · exact Quiet.quietRefl c2
      · split
        · exact Quiet.quietRefl c2
        · refine andThen_quiet (ih _ c2) (fun r c3 => ?_)
          split <;> exact Quiet.quietRefl c3

/-- Hoare-style rule for a handler that reads before it acts: when the first
call only reads, the whole either stays an input/output step of `c0` or reaches
`S` through the continuation run on a state that is `Quiet` for `c0`. -/
theorem post_andThen {α β : Type} {c0 : pqConn} {r : Res α × pqConn}
    (hq : Quiet c0 r.2) (k : α → pqConn → Res β × pqConn) (S : Res β × pqConn → Prop)
    (hok : ∀ a c1, Quiet c0 c1 → r = (.ok a, c1) → (IOOnly c0 (k a c1).2 ∨ S (k a c1))) :
    IOOnly c0 (pqConn.andThen r k).2 ∨ S (pqConn.andThen r k) := by
  rcases r with ⟨x, c1⟩
  cases x with
  | ok a => exact hok a c1 hq rfl
  | err e => exact Or.inl hq.ioOnly
  | panic => exact Or.inl hq.ioOnly

theorem finishMsg_initMsg (w : writeBuffer) (t : Nat) :
    ((w.initMsg t).finishMsg).2 = frame t [] := rfl

theorem parseStatement_post (E : Env) (c0 c : pqConn) (hq : Quiet c0 c) (name query : Bytes)
    (hints : List Nat) :
    IOOnly c0 (pqConn.parseStatement E c name query hints).2
      ∨ ParseStored c0 (pqConn.parseStatement E c name query hints) := by
  unfold pqConn.parseStatement
  split
  · exact Or.inl (hq.ioOnly.onlyTrans (ioOnly_sendInternalError _ _))
  · next args _ =>
    dsimp only
    have hq5 : Quiet c0 { c with calls := c.calls ++ [ExecCall.Prepare query args] } :=
      hq.quietTrans (quiet_calls c _)
    split
    · exact Or.inl (hq5.ioOnly.onlyTrans (ioOnly_sendInternalError _ _))
    · exact Or.inl hq5.ioOnly
    · next cols args1 _ =>
      split
      · exact Or.inl (hq5.ioOnly.onlyTrans (ioOnly_sendInternalError _ _))
      · exact Or.inl hq5.ioOnly
      · next argTypes _ =>
        split
        · exact Or.inl (hq5.ioOnly.onlyTrans (ioOnly_sendInternalError _ _))
        · next hz =>
          have hout : ∀ (c6 : pqConn), c6.out = c.out →
              ((c6.wb (fun w => w.initMsg ServerMsgParseComplete)).finishMsg).out
                = c0.out ++ [OutEvent.write (frame ServerMsgParseComplete [])] := by
            intro c6 h6
            simp only [pqConn.finishMsg, pqConn.wb, finishMsg_initMsg, h6, hq.out]
          refine Or.inr ⟨⟨rfl, hout _ rfl⟩, ?_, ?_, name,
            { query := query, argTypes := argTypes, columns := cols }, hz, ?_⟩
          · obtain ⟨cs, hcs⟩ := hq5.calls
            exact ⟨hq.extended, hq.session, Or.inl hq.ignore, ⟨_, hout _ rfl⟩, ⟨cs, hcs⟩, hq.rd⟩
          · exact hq.portals
          · simp only [pqConn.finishMsg, pqConn.wb, hq.preparedStatements]

theorem handleParse_post (E : Env) (c : pqConn) :
    IOOnly c (pqConn.handleParse E c).2 ∨ ParseStored c (pqConn.handleParse E c) := by
  unfold pqConn.handleParse
  refine post_andThen (quiet_onBuf c _) _ _ (fun name c1 q1 _ => ?_)
  split
  · exact Or.inl (q1.ioOnly.onlyTrans (ioOnly_sendInternalError _ _))
  · refine post_andThen (q1.quietTrans (quiet_onBuf c1 _)) _ _ (fun query c2 q2 _ => ?_)
    refine post_andThen (q2.quietTrans (quiet_onBuf c2 _)) _ _ (fun n c3 q3 _ => ?_)
    split
    · exact Or.inl q3.ioOnly
    · refine post_andThen (q3.quietTrans (quiet_readHints _ c3)) _ _ (fun hints c4 q4 _ => ?_)
      exact parseStatement_post E c c4 q4 name query hints

theorem bindColumns_post (c0 c : pqConn) (hq : Quiet c0 c) (pn sn : Bytes)
    (stmt : preparedStatement) (params : List Datum) :
    IOOnly c0 (pqConn.bindColumns c pn sn stmt params).2
      ∨ BindStored c0 (pqConn.bindColumns c pn sn stmt params) := by
  unfold pqConn.bindColumns
  dsimp only
  split
  · exact Or.inl hq.ioOnly
  · refine post_andThen (hq.quietTrans (quiet_onBuf c _)) _ _ (fun k c7 q7 _ => ?_)
    refine post_andThen (q7.quietTrans (quiet_readFormatCodes _ _ c7)) _ _ (fun cc c8 q8 _ => ?_)
    split
    · exact Or.inl (q8.ioOnly.onlyTrans (ioOnly_sendInternalError _ _))
    · next _ codes _ =>
      have hout : ∀ (c9 : pqConn), c9.out = c8.out →
          ((c9.wb (fun w => w.initMsg ServerMsgBindComplete)).finishMsg).out
            = c0.out ++ [OutEvent.write (frame ServerMsgBindComplete [])] := by
        intro c9 h9
        simp only [pqConn.finishMsg, pqConn.wb, finishMsg_initMsg, h9, q8.out]
      refine Or.inr ⟨⟨rfl, hout _ rfl⟩, ?_, ?_, pn,
        { name := sn, stmt := stmt, params := params, format := codes }, ?_⟩
      · exact ⟨q8.extended, q8.session, Or.inl q8.ignore, ⟨_, hout _ rfl⟩, q8.calls, q8.rd⟩
      · exact q8.preparedStatements
      · simp only [pqConn.finishMsg, pqConn.wb, q8.portals]

theorem bindParams_post (E : Env) (c0 c : pqConn) (hq : Quiet c0 c) (pn sn : Bytes)
    (stmt : preparedStatement) :
    IOOnly c0 (pqConn.bindParams E c pn sn stmt).2
      ∨ BindStored c0 (pqConn.bindParams E c pn sn stmt) := by
  unfold pqConn.bindParams
  dsimp only
  split
  · exact Or.inl hq.ioOnly
  · refine post_andThen (hq.quietTrans (quiet_onBuf c _)) _ _ (fun k c3 q3 _ => ?_)
    refine post_andThen (q3.quietTrans (quiet_readFormatCodes _ _ c3)) _ _ (fun pc c4 q4 _ => ?_)
    split
    · exact Or.inl (q4.ioOnly.onlyTrans (ioOnly_sendInternalError _ _))
    · refine post_andThen (q4.quietTrans (quiet_onBuf c4 _)) _ _ (fun nv c5 q5 _ => ?_)
      split
      · exact Or.inl (q5.ioOnly.onlyTrans (ioOnly_sendInternalError _ _))
      · refine post_andThen (q5.quietTrans (quiet_readParams _ _ _ _ c5)) _ _ (fun ps c6 q6 _ => ?_)
        split
        · exact Or.inl (q6.ioOnly.onlyTrans (ioOnly_sendInternalError _ _))
        · exact bindColumns_post c0 c6 q6 _ _ _ _

theorem handleBind_post (E : Env) (c : pqConn) :
    IOOnly c (pqConn.handleBind E c).2 ∨ BindStored c (pqConn.handleBind E c) := by
  unfold pqConn.handleBind
  refine post_andThen (quiet_onBuf c _) _ _ (fun pn c1 q1 _ => ?_)
  split
  · exact Or.inl (q1.ioOnly.onlyTrans (ioOnly_sendInternalError _ _))
  · refine post_andThen (q1.quietTrans (quiet_onBuf c1 _)) _ _ (fun sn c2 q2 _ => ?_)
    split
    · exact Or.inl (q2.ioOnly.onlyTrans (ioOnly_sendInternalError _ _))
    · exact bindParams_post E c c2 q2 _ _ _

theorem handleClose_post (c : pqConn) :
    IOStep c (pqConn.handleClose c).2
    ∧ ((pqConn.handleClose c).2.portals = c.portals
        ∨ ∃ n, (pqConn.handleClose c).2.portals = c.portals.delete n)
    ∧ ((pqConn.handleClose c).2.preparedStatements = c.preparedStatements
        ∨ ∃ n, (pqConn.handleClose c).2.preparedStatements = c.preparedStatements.delete n) := by
  have io : ∀ {c' : pqConn}, IOOnly c c' → IOStep c c' ∧ (c'.portals = c.portals
      ∨ ∃ n, c'.portals = c.portals.delete n) ∧ (c'.preparedStatements = c.preparedStatements
      ∨ ∃ n, c'.preparedStatements = c.preparedStatements.delete n) :=
    fun h => ⟨h.step, Or.inl h.portals, Or.inl h.preparedStatements⟩
  unfold pqConn.handleClose
  have h0 := quiet_onBuf c readBuffer.getPrepareType
  split
  · next c1 heq => rw [heq] at h0; exact io h0.ioOnly
  · next e c1 heq => rw [heq] at h0; exact io (h0.ioOnly.onlyTrans (ioOnly_sendInternalError _ _))
  · next typ c1 heq =>
    rw [heq] at h0
    have h1 := h0.quietTrans (quiet_onBuf c1 readBuffer.getString)
    rcases hg : c1.onBuf readBuffer.getString with ⟨x, c2⟩
    rw [hg] at h1
    cases x with
    | err e => exact io h1.ioOnly
    | panic => exact io h1.ioOnly
    | ok name =>
      replace h1 : Quiet c c2 := h1
      simp only [pqConn.andThen]
      split
      · exact ⟨⟨h1.extended, h1.session, Or.inl h1.ignore, ⟨[], by simp [h1.out]⟩, h1.calls,
          h1.rd⟩, Or.inl h1.portals, Or.inr ⟨name, by simp only [h1.preparedStatements]⟩⟩
      · split
        · exact ⟨⟨h1.extended, h1.session, Or.inl h1.ignore, ⟨[], by simp [h1.out]⟩, h1.calls,
            h1.rd⟩, Or.inr ⟨name, by simp only [h1.portals]⟩, Or.inl h1.preparedStatements⟩
        · exact io h1.ioOnly

theorem ioStep_handleParse (E : Env) (c : pqConn) : IOStep c (pqConn.handleParse E c).2 := by
  rcases handleParse_post E c with h | h
  · exact h.step
  · exact h.2.1

theorem ioStep_handleBind (E : Env) (c : pqConn) : IOStep c (pqConn.handleBind E c).2 := by
  rcases handleBind_post E c with h | h
  · exact h.step
  · exact h.2.1

theorem firstZero_none {ts : List Nat} (h : pqConn.firstZero ts = none) : 0 ∉ ts := by
  induction ts with
  | nil => simp
  | cons t ts ih =>
    unfold pqConn.firstZero at h
    split at h
    · simp at h
    · next ht =>
      have h2 : pqConn.firstZero ts = none := by
        cases hf : pqConn.firstZero ts with
        | none => rfl
        | some v => rw [hf] at h; simp at h
      intro hm
      rcases List.mem_cons.mp hm with h0 | h0
      · exact ht h0.symm
      · exact ih h2 h0

theorem noZeroOid_of_eq {c c' : pqConn} (h : c'.preparedStatements = c.preparedStatements)
    (hn : NoZeroOid c) : NoZeroOid c' := by
  unfold NoZeroOid; rw [h]; exact hn

theorem noZeroOid_delete {c c' : pqConn} (n : Bytes)
    (h : c'.preparedStatements = c.preparedStatements.delete n) (hn : NoZeroOid c) :
    NoZeroOid c' := by
  unfold NoZeroOid; rw [h]
  intro e he
  exact hn e (List.mem_filter.mp he).1

theorem noZeroOid_set {c c' : pqConn} (n : Bytes) (pq : preparedStatement)
    (h : c'.preparedStatements = c.preparedStatements.set n pq) (hz : 0 ∉ pq.argTypes)
    (hn : NoZeroOid c) : NoZeroOid c' := by
  unfold NoZeroOid; rw [h]
  intro e he
  rcases List.mem_cons.mp he with h0 | h0
  · rw [h0]; exact hz
  · exact hn e (List.mem_filter.mp h0).1

/-- What one dispatched message does to the connection, whatever its type and
whether or not its handler fails: the extended flag becomes `extendedAfter`,
the session and the unread input are kept, output is only appended, and the
registered statements stay free of OID 0. -/
theorem dispatch_step (E : Env) (typ : Nat) (c : pqConn) :
    (pqConn.dispatch E typ c).2.extendedQueryMessage = extendedAfter typ c.extendedQueryMessage
    ∧ (pqConn.dispatch E typ c).2.session = c.session
    ∧ (pqConn.dispatch E typ c).2.rd = c.rd
    ∧ (∃ evs, (pqConn.dispatch E typ c).2.out = c.out ++ evs)
    ∧ (NoZeroOid c → NoZeroOid (pqConn.dispatch E typ c).2) := by
  have after : ∀ (r : Res Unit × pqConn), (pqConn.afterHandler r).2 = r.2 := by
    intro r; rcases r with ⟨x, c1⟩; cases x <;> rfl
  have key : ∀ (v : Bool) (r : Res Unit × pqConn),
      IOStep { c with extendedQueryMessage := v } r.2 →
      (NoZeroOid c → NoZeroOid r.2) →
      (pqConn.afterHandler r).2.extendedQueryMessage = v
      ∧ (pqConn.afterHandler r).2.session = c.session
      ∧ (pqConn.afterHandler r).2.rd = c.rd
      ∧ (∃ evs, (pqConn.afterHandler r).2.out = c.out ++ evs)
      ∧ (NoZeroOid c → NoZeroOid (pqConn.afterHandler r).2) := by
    intro v r h hz
    rw [after]
    exact ⟨h.extended, h.session, h.rd, h.out, hz⟩
  have keyIO : ∀ (v : Bool) (r : Res Unit × pqConn),
      IOOnly { c with extendedQueryMessage := v } r.2 →
      (pqConn.afterHandler r).2.extendedQueryMessage = v
      ∧ (pqConn.afterHandler r).2.session = c.session
      ∧ (pqConn.afterHandler r).2.rd = c.rd
      ∧ (∃ evs, (pqConn.afterHandler r).2.out = c.out ++ evs)
      ∧ (NoZeroOid c → NoZeroOid (pqConn.afterHandler r).2) :=
    fun v r h => key v r h.step (fun hn => noZeroOid_of_eq h.preparedStatements hn)
  by_cases h1 : typ = ClientMsgSync
  · subst h1
    exact ⟨rfl, rfl, rfl, ⟨[], (List.append_nil _).symm⟩, fun hn => hn⟩
  by_cases h2 : typ = ClientMsgSimpleQuery
  · subst h2
    exact keyIO false _ (ioOnly_handleSimpleQuery E _)
  by_cases h3 : typ = ClientMsgMPPQuery
  · subst h3
    exact keyIO false _ (ioOnly_handleMPPQuery E _)
  by_cases h4 : typ = ClientMsgTerminate
  · subst h4
    exact ⟨rfl, rfl, rfl, ⟨[], (List.append_nil _).symm⟩, fun hn => hn⟩
  by_cases h5 : typ = ClientMsgParse
  · subst h5
    refine key true (pqConn.handleParse E { c with extendedQueryMessage := true })
      (ioStep_handleParse E _) (fun hn => ?_)
    rcases handleParse_post E { c with extendedQueryMessage := true } with h | h
    · exact noZeroOid_of_eq h.preparedStatements hn
    · obtain ⟨_, _, _, n, pq, hz, hps⟩ := h
      exact noZeroOid_set (c := { c with extendedQueryMessage := true }) n pq hps
        (firstZero_none hz) hn
  by_cases h6 : typ = ClientMsgDescribe
  · subst h6
    exact keyIO true _ (ioOnly_handleDescribe E.lib _)
  by_cases h7 : typ = ClientMsgClose
  · subst h7
    have hc := handleClose_post { c with extendedQueryMessage := true }
    refine key true (pqConn.handleClose { c with extendedQueryMessage := true }) hc.1
      (fun hn => ?_)
    rcases hc.2.2 with h | ⟨n, h⟩
    · exact noZeroOid_of_eq h hn
    · exact noZeroOid_delete (c := { c with extendedQueryMessage := true }) n h hn
  by_cases h8 : typ = ClientMsgBind
  · subst h8
    refine key true (pqConn.handleBind E { c with extendedQueryMessage := true })
      (ioStep_handleBind E _) (fun hn => ?_)
    rcases handleBind_post E { c with extendedQueryMessage := true } with h | h
    · exact noZeroOid_of_eq h.preparedStatements hn
    · exact noZeroOid_of_eq h.2.2.1 hn
  by_cases h9 : typ = ClientMsgExecute
  · subst h9
    exact keyIO true _ (ioOnly_handleExecute E _)
  by_cases h10 : typ = ClientMsgFlush
  · subst h10
    exact keyIO true (Res.ok (), _) (ioOnly_Flush _)
  · unfold pqConn.dispatch extendedAfter
    simp only [h1, h2, h3, h4, h5, h6, h7, h8, h9, h10, if_false, or_self]
    have hio := ioOnly_sendInternalError c (ascii "unknown client message type: "
      ++ pqConn.fmtBadVerbS (ascii "libpq.ClientMessageType") typ)
    rw [after]
    exact ⟨hio.step.extended, hio.step.session, hio.step.rd, hio.step.out,
      fun hn => noZeroOid_of_eq hio.preparedStatements hn⟩

theorem setMsg_setMsg (c : pqConn) (a b : Bytes) : (c.setMsg a).setMsg b = c.setMsg b := rfl

theorem setMsg_self (c : pqConn) : c.setMsg c.readBuf.msg = c := rfl

theorem quiet_setMsg (c : pqConn) (m : Bytes) : Quiet c (c.setMsg m) :=
  ⟨rfl, rfl, rfl, rfl, rfl, rfl, rfl, rfl, ⟨[], by simp [pqConn.setMsg]⟩⟩

theorem onBuf_setMsg {α : Type} (c : pqConn) (m rest : Bytes) (f : readBuffer → Res α × readBuffer)
    (a : Res α)
    (h : ∀ b : readBuffer, f { b with msg := m } = (a, { b with msg := rest })) :
    (c.setMsg m).onBuf f = (a, c.setMsg rest) := by
  have h1 := h c.readBuf
  simp only [pqConn.onBuf, pqConn.setMsg, h1]

theorem onBuf_getString (c : pqConn) (p rest : Bytes) (hp : 0 ∉ p) :
    (c.setMsg (p ++ 0 :: rest)).onBuf readBuffer.getString = (.ok p, c.setMsg rest) := by
  apply onBuf_setMsg
  intro b
  simp [readBuffer.getString, indexByte_append p rest hp]

theorem int16_be16 (v : Int) (hv : IsInt16 v) : int16 (bigEndianUint16 (be16 (uint16 v))) = v := by
  obtain ⟨h1, h2⟩ := hv
  simp only [bigEndianUint16, be16, List.getD_cons_zero, List.getD_cons_succ, int16, uint16]
  split <;> omega

theorem onBuf_getInt16 (c : pqConn) (v : Int) (rest : Bytes) (hv : IsInt16 v) :
    (c.setMsg (be16 (uint16 v) ++ rest)).onBuf readBuffer.getInt16 = (.ok v, c.setMsg rest) := by
  apply onBuf_setMsg
  intro b
  have h := int16_be16 v hv
  simp only [be16] at h
  have hl : ¬ ((be16 (uint16 v) ++ rest).length < 2) := by simp [be16]
  rw [readBuffer.getInt16, if_neg hl]
  simp only [be16, List.cons_append, List.nil_append, List.take, List.drop, h]
  rfl

theorem uint16_ofNat (n : Nat) (h : n < 32768) : uint16 (n : Int) = n := by
  unfold uint16; omega

theorem onBuf_getInt16_nat (c : pqConn) (n : Nat) (rest : Bytes) (hn : n < 32768) :
    (c.setMsg (be16 n ++ rest)).onBuf readBuffer.getInt16 = (.ok (n : Int), c.setMsg rest) := by
  have h := onBuf_getInt16 c (n : Int) rest ⟨by omega, by omega⟩
  rw [uint16_ofNat n hn] at h
  exact h

theorem onBuf_getInt32 (c : pqConn) (v : Nat) (rest : Bytes) (hv : v < 4294967296) :
    (c.setMsg (be32 v ++ rest)).onBuf readBuffer.getInt32 = (.ok (int32 v), c.setMsg rest) := by
  apply onBuf_setMsg
  intro b
  have h := bigEndianUint32_be32 v hv
  simp only [be32] at h
  have hl : ¬ ((be32 v ++ rest).length < 4) := by simp [be32]
  rw [readBuffer.getInt32, if_neg hl]
  simp only [be32, List.cons_append, List.nil_append, List.take, List.drop, h]
  rfl

theorem uint32_int32 (v : Nat) (hv : v < 4294967296) : uint32 (int32 v) = v := by
  unfold uint32 int32
  split <;> omega

theorem int32_ofNat (v : Nat) (hv : v < 2147483648) : int32 v = (v : Int) := by
  unfold int32
  split <;> omega

theorem onBuf_getBytes (c : pqConn) (v rest : Bytes) :
    (c.setMsg (v ++ rest)).onBuf (fun b => b.getBytes (v.length : Int)) = (.ok v, c.setMsg rest) := by
  apply onBuf_setMsg
  intro b
  have h1 : ¬ (((v ++ rest).length : Int) < (v.length : Int)) := by
    simp only [List.length_append]; omega
  have h2 : ¬ ((v.length : Int) < 0) := by omega
  simp only [readBuffer.getBytes]
  rw [if_neg h1, if_neg h2]
  simp

theorem readHints_exec (hints : List Nat) (c : pqConn) (extra : Bytes)
    (hh : ∀ h ∈ hints, h < 4294967296) :
    pqConn.readHints hints.length (c.setMsg ((hints.map be32).flatten ++ extra))
      = (.ok hints, c.setMsg extra) := by
  induction hints with
  | nil => rfl
  | cons h hs ih =>
    have h1 : h < 4294967296 := hh h (List.mem_cons_self _ _)
    have h2 : ∀ x ∈ hs, x < 4294967296 := fun x hx => hh x (List.mem_cons_of_mem _ hx)
    simp only [List.length_cons, List.map_cons, List.flatten_cons, List.append_assoc,
      pqConn.readHints, onBuf_getInt32 c h _ h1, pqConn.andThen, ih h2, uint32_int32 h h1]

theorem handleParse_exec (E : Env) (c : pqConn) (name query : Bytes) (hints : List Nat)
    (extra : Bytes) (hname : 0 ∉ name) (hquery : 0 ∉ query) (hcount : hints.length < 32768)
    (hh : ∀ h ∈ hints, h < 4294967296)
    (hfree : name = [] ∨ c.preparedStatements.get name = none)
    (hmsg : c.readBuf.msg = encodeParse name query hints ++ extra) :
    pqConn.handleParse E c = pqConn.parseStatement E (c.setMsg extra) name query hints := by
  have hc : c = c.setMsg (name ++ 0 :: (query ++ 0 :: (be16 hints.length
      ++ ((hints.map be32).flatten ++ extra)))) := by
    rw [← setMsg_self c, hmsg]
    simp [encodeParse, pqConn.setMsg]
  have hdup : ¬ (name ≠ [] ∧ ((c.setMsg (query ++ 0 :: (be16 hints.length
      ++ ((hints.map be32).flatten ++ extra)))).preparedStatements.get name).isSome = true) := by
    rintro ⟨h1, h2⟩
    rcases hfree with h | h
    · exact h1 h
    · have : (c.preparedStatements.get name).isSome = true := h2
      rw [h] at this
      simp at this
  have hneg : ¬ ((hints.length : Int) < 0) := by omega
  rw [pqConn.handleParse, hc, onBuf_getString c _ _ hname]
  simp only [pqConn.andThen]
  rw [if_neg hdup, onBuf_getString c _ _ hquery]
  simp only [pqConn.andThen]
  rw [onBuf_getInt16_nat c _ _ hcount]
  simp only [pqConn.andThen]
  rw [if_neg hneg]
  simp only [Int.toNat_ofNat, readHints_exec hints c extra hh, pqConn.andThen, setMsg_setMsg]

theorem datumToOid_ne_zero (k : Datum.Kind) (id : Nat) (h : datumToOid k = some id) : id ≠ 0 := by
  cases k <;> simp [datumToOid, T_bool, T_bytea, T_date, T_float8, T_int8, T_interval,
    T_numeric, T_text, T_timestamptz] at h <;> omega

theorem maxPosition_append (L : GoLib) (P : MapArgs) (kv : Bytes × Datum) :
    maxPosition L (P ++ [kv]) = max (maxPosition L P) (keyPosition L kv.1) := by
  simp [maxPosition, List.foldl_append]

theorem foldl_max_le (l : List Nat) (a x : Nat) (h : x ∈ l) : x ≤ l.foldl max a := by
  induction l generalizing a with
  | nil => simp at h
  | cons y ys ih =>
    simp only [List.foldl_cons]
    rcases List.mem_cons.mp h with h1 | h1
    · subst h1
      have : ∀ (l : List Nat) (b : Nat), b ≤ l.foldl max b := by
        intro l
        induction l with
        | nil => intro b; simp
        | cons z zs ihz => intro b; simp only [List.foldl_cons]; exact le_trans (le_max_left _ _) (ihz _)
      exact le_trans (le_max_right _ _) (this ys _)
    · exact ih _ h1

theorem firstEntryAt_none_of_le (L : GoLib) (P : MapArgs) (j : Nat)
    (h : maxPosition L P ≤ j) : firstEntryAt L P j = none := by
  unfold firstEntryAt
  rw [List.find?_eq_none]
  intro kv hkv
  have : keyPosition L kv.1 ≤ maxPosition L P :=
    foldl_max_le _ 0 _ (List.mem_map.mpr ⟨kv, hkv, rfl⟩)
  simp only [decide_eq_true_eq]
  omega

theorem firstEntryAt_append (L : GoLib) (P : MapArgs) (kv : Bytes × Datum) (j : Nat) :
    firstEntryAt L (P ++ [kv]) j
      = match firstEntryAt L P j with
        | some e => some e
        | none => if keyPosition L kv.1 = j + 1 then some kv else none := by
  unfold firstEntryAt
  rw [List.find?_append]
  cases h : List.find? (fun kv => decide (keyPosition L kv.1 = j + 1)) P with
  | some e => simp
  | none =>
    simp only [Option.none_or, List.find?_cons, List.find?_nil]
    by_cases hk : keyPosition L kv.1 = j + 1
    · simp [hk]
    · simp [hk]


theorem argLoop_length {L : GoLib} {hints : List Nat} {P : MapArgs} {acc : List Nat}
    (h : ArgLoop L hints P acc) : acc.length = maxPosition L P := by
  have h1 := h.types (maxPosition L P)
  simp only [lt_self_iff_false, if_false] at h1
  have h2 : acc.length ≤ maxPosition L P := List.getElem?_eq_none_iff.mp h1
  by_contra hne
  have h3 : acc.length < maxPosition L P := by omega
  have h4 := h.types acc.length
  rw [if_pos h3] at h4
  have h5 : acc[acc.length]? = none := List.getElem?_eq_none_iff.mpr (le_refl _)
  rw [h5] at h4
  simp at h4

theorem grown_getElem? (acc hints : List Nat) (i j : Nat) :
    (acc ++ (List.range' acc.length (i + 1 - acc.length)).map (fun j => hints.getD j 0))[j]?
      = if j < acc.length then acc[j]?
        else if j < i + 1 then some (hints.getD j 0) else none := by
  by_cases h : j < acc.length
  · rw [if_pos h, List.getElem?_append_left h]
  · rw [if_neg h, List.getElem?_append_right (by omega)]
    by_cases h2 : j < i + 1
    · rw [if_pos h2]
      rw [List.getElem?_map, List.getElem?_range' _ _ (by omega)]
      simp only [Option.map_some']
      congr 2
      omega
    · rw [if_neg h2]
      apply List.getElem?_eq_none_iff.mpr
      simp only [List.length_map, List.length_range']
      omega

theorem keyPosition_of_atoi (L : GoLib) (k : Bytes) (i1 : Int) (hk : atoi L k = .ok i1)
    (hpos : ¬ (i1 - 1 < 0)) : keyPosition L k = (i1 - 1).toNat + 1 := by
  simp only [keyPosition, hk]
  omega

theorem expectedArgType_append (L : GoLib) (hints : List Nat) (P : MapArgs) (k : Bytes)
    (v : Datum) (j : Nat) :
    expectedArgType L hints (P ++ [(k, v)]) j
      = if hints.getD j 0 ≠ 0 then hints.getD j 0
        else match firstEntryAt L P j with
          | some e => (e.2.typeOf.bind datumToOid).getD 0
          | none => if keyPosition L k = j + 1 then (v.typeOf.bind datumToOid).getD 0 else 0 := by
  unfold expectedArgType
  rw [firstEntryAt_append]
  by_cases hh : hints.getD j 0 ≠ 0
  · rw [if_pos hh, if_pos hh]
  · rw [if_neg hh, if_neg hh]
    cases firstEntryAt L P j with
    | some e => rfl
    | none =>
      by_cases hk : keyPosition L k = j + 1
      · simp [hk]
      · simp [hk]

theorem expected_old {L : GoLib} {hints : List Nat} {P : MapArgs}
    (k : Bytes) (v : Datum) (j : Nat) (hne : keyPosition L k ≠ j + 1 ∨ expectedArgType L hints P j ≠ 0) :
    expectedArgType L hints (P ++ [(k, v)]) j = expectedArgType L hints P j := by
  rw [expectedArgType_append]
  unfold expectedArgType at hne ⊢
  by_cases hh : hints.getD j 0 ≠ 0
  · rw [if_pos hh, if_pos hh]
  · rw [if_neg hh] at hne
    rw [if_neg hh, if_neg hh]
    cases hf : firstEntryAt L P j with
    | some e => rfl
    | none =>
      rw [hf] at hne
      simp only [ne_eq, not_true_eq_false, or_false] at hne
      simp [hne]

theorem expected_new {L : GoLib} {hints : List Nat} {P : MapArgs} (k : Bytes) (v : Datum)
    (j : Nat) (hj : maxPosition L P ≤ j) :
    expectedArgType L hints (P ++ [(k, v)]) j
      = if hints.getD j 0 ≠ 0 then hints.getD j 0
        else if keyPosition L k = j + 1 then (v.typeOf.bind datumToOid).getD 0 else 0 := by
  rw [expectedArgType_append, firstEntryAt_none_of_le L P j hj]

theorem expected_zero_none {L : GoLib} {hints : List Nat} {P : MapArgs} {acc : List Nat}
    (hinv : ArgLoop L hints P acc) (j : Nat) (hz : expectedArgType L hints P j = 0) :
    hints.getD j 0 = 0 ∧ firstEntryAt L P j = none := by
  unfold expectedArgType at hz
  by_cases hh : hints.getD j 0 ≠ 0
  · rw [if_pos hh] at hz; exact absurd hz hh
  · rw [if_neg hh] at hz
    have hh0 : hints.getD j 0 = 0 := by simpa using hh
    refine ⟨hh0, ?_⟩
    cases hf : firstEntryAt L P j with
    | none => rfl
    | some e =>
      obtain ⟨id, hid⟩ := hinv.mapped j e hh0 hf
      rw [hf] at hz
      simp only [hid, Option.getD_some] at hz
      have hne : id ≠ 0 := by
        cases hk : e.2.typeOf with
        | none => rw [hk] at hid; simp at hid
        | some kd => rw [hk] at hid; exact datumToOid_ne_zero kd id (by simpa using hid)
      exact absurd hz hne

theorem argLoop_step (L : GoLib) (hints : List Nat) (P : MapArgs) (acc : List Nat) (k : Bytes)
    (v : Datum) (i : Nat) (res : List Nat) (hinv : ArgLoop L hints P acc)
    (hkp : keyPosition L k = i + 1)
    (hres : ∀ j, j ≠ i →
      res[j]? = (acc ++ (List.range' acc.length (i + 1 - acc.length)).map
        (fun j => hints.getD j 0))[j]?)
    (hi : res[i]? = some (expectedArgType L hints (P ++ [(k, v)]) i))
    (hmap : hints.getD i 0 = 0 → firstEntryAt L P i = none →
      ∃ id, v.typeOf.bind datumToOid = some id) :
    ArgLoop L hints (P ++ [(k, v)]) res := by
  have hlen := argLoop_length hinv
  have hM : maxPosition L (P ++ [(k, v)]) = max (maxPosition L P) (i + 1) := by
    rw [maxPosition_append, hkp]
  constructor
  · intro j
    rw [hM]
    by_cases hji : j = i
    · subst hji
      rw [hi, if_pos (by omega)]
    · rw [hres j hji, grown_getElem?, hlen]
      by_cases h1 : j < maxPosition L P
      · rw [if_pos h1, hinv.types j, if_pos h1, if_pos (by omega),
          expected_old k v j (Or.inl (by omega))]
      · rw [if_neg h1]
        by_cases h2 : j < i + 1
        · rw [if_pos h2, if_pos (by omega), expected_new k v j (by omega)]
          by_cases hh : hints.getD j 0 ≠ 0
          · rw [if_pos hh]
          · have hk2 : ¬ keyPosition L k = j + 1 := by omega
            rw [if_neg hh, if_neg hk2]
            simpa using hh
        · rw [if_neg h2, if_neg (by omega)]
  · intro j kv hh hf
    rw [firstEntryAt_append] at hf
    cases hp : firstEntryAt L P j with
    | some e =>
      rw [hp] at hf
      simp only [Option.some.injEq] at hf
      subst hf
      exact hinv.mapped j e hh hp
    | none =>
      rw [hp] at hf
      simp only at hf
      by_cases hk : keyPosition L k = j + 1
      · rw [if_pos hk] at hf
        simp only [Option.some.injEq] at hf
        subst hf
        have hji : j = i := by omega
        subst hji
        exact hmap hh hp
      · rw [if_neg hk] at hf
        simp at hf

theorem getD_eq_of_getElem? (l : List Nat) (j x : Nat) (h : l[j]? = some x) : l.getD j 0 = x := by
  rw [List.getD_eq_getElem?_getD, h]; rfl

theorem buildArgTypes_argLoop (L : GoLib) (hints : List Nat) (args : MapArgs) :
    ∀ (P : MapArgs) (acc res : List Nat), ArgLoop L hints P acc →
      pqConn.buildArgTypes L hints args acc = .ok res → ArgLoop L hints (P ++ args) res := by
  induction args with
  | nil =>
    intro P acc res hinv h
    simp only [pqConn.buildArgTypes, Res.ok.injEq] at h
    subst h
    simpa using hinv
  | cons kv rest ih =>
    intro P acc res hinv h
    obtain ⟨k, v⟩ := kv
    have happ : P ++ (k, v) :: rest = (P ++ [(k, v)]) ++ rest := by simp
    rw [happ]
    unfold pqConn.buildArgTypes at h
    cases hk : atoi L k with
    | error e => rw [hk] at h; simp at h
    | ok i1 =>
      rw [hk] at h
      simp only at h
      by_cases hpos : i1 - 1 < 0
      · rw [if_pos hpos] at h; simp at h
      · rw [if_neg hpos] at h
        have hkp := keyPosition_of_atoi L k i1 hk hpos
        have hlen := argLoop_length hinv
        have hgi := grown_getElem? acc hints (i1 - 1).toNat (i1 - 1).toNat
        have hglen : (i1 - 1).toNat < (acc ++ (List.range' acc.length ((i1 - 1).toNat + 1
            - acc.length)).map (fun j => hints.getD j 0)).length := by
          simp only [List.length_append, List.length_map, List.length_range']
          omega
        by_cases hnz : (acc ++ (List.range' acc.length ((i1 - 1).toNat + 1 - acc.length)).map
            (fun j => hints.getD j 0)).getD (i1 - 1).toNat 0 ≠ 0
        · rw [if_pos hnz] at h
          refine ih _ _ _ (argLoop_step L hints P acc k v (i1 - 1).toNat _ hinv hkp
            (fun j _ => rfl) ?_ ?_) h
          · by_cases h1 : (i1 - 1).toNat < acc.length
            · rw [if_pos h1, hinv.types, if_pos (by omega)] at hgi
              rw [getD_eq_of_getElem? _ _ _ hgi] at hnz
              rw [hgi, expected_old k v _ (Or.inr hnz)]
            · rw [if_neg h1, if_pos (by omega)] at hgi
              rw [getD_eq_of_getElem? _ _ _ hgi] at hnz
              rw [hgi, expected_new k v _ (by omega), if_pos hnz]
          · intro hh hf
            exfalso
            by_cases h1 : (i1 - 1).toNat < acc.length
            · rw [if_pos h1, hinv.types, if_pos (by omega)] at hgi
              rw [getD_eq_of_getElem? _ _ _ hgi] at hnz
              apply hnz
              unfold expectedArgType
              rw [if_neg (by simpa using hh), hf]
            · rw [if_neg h1, if_pos (by omega)] at hgi
              rw [getD_eq_of_getElem? _ _ _ hgi] at hnz
              exact hnz hh
        · rw [if_neg hnz] at h
          have hz : (acc ++ (List.range' acc.length ((i1 - 1).toNat + 1 - acc.length)).map
            (fun j => hints.getD j 0)).getD (i1 - 1).toNat 0 = 0 := by simpa using hnz
          cases hv : v.typeOf.bind datumToOid with
          | none =>
            rw [hv] at h
            simp only at h
            cases hn : v.typeName <;> rw [hn] at h <;> simp at h
          | some id =>
            rw [hv] at h
            simp only at h
            have hzero : hints.getD (i1 - 1).toNat 0 = 0 ∧ firstEntryAt L P (i1 - 1).toNat = none := by
              by_cases h1 : (i1 - 1).toNat < acc.length
              · rw [if_pos h1, hinv.types, if_pos (by omega)] at hgi
                rw [getD_eq_of_getElem? _ _ _ hgi] at hz
                exact expected_zero_none hinv _ hz
              · rw [if_neg h1, if_pos (by omega)] at hgi
                rw [getD_eq_of_getElem? _ _ _ hgi] at hz
                exact ⟨hz, firstEntryAt_none_of_le L P _ (by omega)⟩
            refine ih _ _ _ (argLoop_step L hints P acc k v (i1 - 1).toNat _ hinv hkp
              (fun j hj => ?_) ?_ (fun _ _ => ⟨id, hv⟩)) h
            · rw [List.getElem?_set_ne (by omega)]
            · rw [List.getElem?_set_self hglen, expectedArgType_append,
                if_neg (by simpa using hzero.1), hzero.2]
              simp only [hkp, if_true, hv, Option.getD_some]

theorem argLoop_nil (L : GoLib) (hints : List Nat) : ArgLoop L hints [] [] :=
  ⟨fun j => by simp [maxPosition], fun j kv _ h => by simp [firstEntryAt] at h⟩

theorem buildArgTypes_closed (L : GoLib) (hints : List Nat) (args : MapArgs) (res : List Nat)
    (h : pqConn.buildArgTypes L hints args [] = .ok res) :
    res.length = maxPosition L args
    ∧ (∀ j, j < res.length → res.getD j 0 = expectedArgType L hints args j)
    ∧ (∀ j kv, hints.getD j 0 = 0 → firstEntryAt L args j = some kv →
        ∃ id, kv.2.typeOf.bind datumToOid = some id) := by
  have hl := buildArgTypes_argLoop L hints args [] [] res (argLoop_nil L hints) h
  simp only [List.nil_append] at hl
  have hlen := argLoop_length hl
  refine ⟨hlen, fun j hj => ?_, hl.mapped⟩
  have := hl.types j
  rw [if_pos (by omega)] at this
  exact getD_eq_of_getElem? _ _ _ this

theorem finishMsg_frame (w : writeBuffer) (t a b c d : Nat) (body : Bytes)
    (h : w.buf = t :: a :: b :: c :: d :: body) : w.finishMsg.2 = frame t body := by
  have hlen : ((w.buf.length : Int) - 1) = (4 : Int) + (body.length : Int) := by
    rw [h]; simp only [List.length_cons]; omega
  show writeBuffer.patchLen w.buf (uint32 ((w.buf.length : Int) - 1)) = _
  rw [hlen, h]
  rfl

theorem sendError_out (c : pqConn) (code m : Bytes) :
    (c.sendError code m).2.out
      = c.out ++ [OutEvent.write (frame ServerMsgErrorResponse (errorBody code m)),
          OutEvent.flush] := by
  have hf : ∀ w : writeBuffer,
      ((((((((w.initMsg ServerMsgErrorResponse).WriteByte 83).writeString (ascii "ERROR")).WriteByte
        67).writeString code).WriteByte 77).writeString m).WriteByte 0).finishMsg.2
        = frame ServerMsgErrorResponse (errorBody code m) := by
    intro w
    apply finishMsg_frame _ _ (w.putbuf 1) (w.putbuf 2) (w.putbuf 3) (w.putbuf 4)
    simp [writeBuffer.initMsg, writeBuffer.WriteByte, writeBuffer.writeString, writeBuffer.Write,
      writeBuffer.Reset, sliceOf, errorBody, List.range, List.range.loop, Function.update]
  unfold pqConn.sendError
  by_cases h : c.extendedQueryMessage = true
  · rw [if_pos h]
    simp only [pqConn.Flush, pqConn.finishMsg, pqConn.wb, hf, List.append_assoc,
      List.cons_append, List.nil_append]
  · rw [if_neg h]
    simp only [pqConn.Flush, pqConn.finishMsg, pqConn.wb, hf, List.append_assoc,
      List.cons_append, List.nil_append]

theorem sendError_fst (c : pqConn) (code m : Bytes) : (c.sendError code m).1 = .ok () := rfl

theorem errorResponseSent_of_quiet {c c1 : pqConn} (hq : Quiet c c1) (m : Bytes) :
    ErrorResponseSent c (c1.sendInternalError m) :=
  ⟨rfl, m, by rw [pqConn.sendInternalError, sendError_out, hq.out]⟩

theorem not_parseCompleted_of_error {c : pqConn} {r : Res Unit × pqConn}
    (h : ErrorResponseSent c r) : ¬ ParseCompleted c r := by
  rintro ⟨_, h2⟩
  obtain ⟨_, m, h3⟩ := h
  rw [h3] at h2
  have := congrArg List.length h2
  simp at this

theorem not_bindCompleted_of_error {c : pqConn} {r : Res Unit × pqConn}
    (h : ErrorResponseSent c r) : ¬ BindCompleted c r := by
  rintro ⟨_, h2⟩
  obtain ⟨_, m, h3⟩ := h
  rw [h3] at h2
  have := congrArg List.length h2
  simp at this

theorem goMap_get_set {V : Type} (m : GoMap V) (k : Bytes) (v : V) : (m.set k v).get k = some v := by
  simp [GoMap.get, GoMap.set, List.lookup]

theorem firstZero_some {ts : List Nat} {i : Nat} (h : pqConn.firstZero ts = some i) :
    i < ts.length ∧ ts.getD i 0 = 0 ∧ ∀ j, j < i → ts.getD j 0 ≠ 0 := by
  induction ts generalizing i with
  | nil => simp [pqConn.firstZero] at h
  | cons t ts ih =>
    unfold pqConn.firstZero at h
    by_cases ht : t = 0
    · rw [if_pos ht] at h
      simp only [Option.some.injEq] at h
      subst h
      exact ⟨by simp, by simp [ht], fun j hj => by omega⟩
    · rw [if_neg ht] at h
      cases hf : pqConn.firstZero ts with
      | none => rw [hf] at h; simp at h
      | some i0 =>
        rw [hf] at h
        simp only [Option.map_some', Option.some.injEq] at h
        subst h
        obtain ⟨h1, h2, h3⟩ := ih hf
        refine ⟨by simp; omega, by simpa using h2, fun j hj => ?_⟩
        cases j with
        | zero => simpa using ht
        | succ j => simpa using h3 j (by omega)

theorem firstZero_none_getD {ts : List Nat} (h : pqConn.firstZero ts = none) (j : Nat)
    (hj : j < ts.length) : ts.getD j 0 ≠ 0 := by
  have h0 := firstZero_none h
  intro hz
  apply h0
  rw [List.getD_eq_getElem _ _ hj] at hz
  rw [← hz]
  exact List.getElem_mem hj

/-- The outcomes of the second half of `handleParse` once the hints are
accepted and the Executor has prepared the query. -/
theorem parseStatement_prepared (E : Env) (c : pqConn) (name query : Bytes) (hints : List Nat)
    (args : MapArgs) (cols : List ResultColumn) (args1 : MapArgs)
    (hargs : pqConn.hintArgs hints 0 = .ok args)
    (hprep : E.executor.Prepare c.calls query args = .ok (cols, args1)) :
    pqConn.parseStatement E c name query hints
      = match pqConn.buildArgTypes E.lib hints args1 [] with
        | .err m => ({ c with calls := c.calls ++ [.Prepare query args] } : pqConn).sendInternalError m
        | .panic => (.panic, { c with calls := c.calls ++ [.Prepare query args] })
        | .ok argTypes =>
          match pqConn.firstZero argTypes with
          | some i =>
            ({ c with calls := c.calls ++ [.Prepare query args] } : pqConn).sendInternalError
              (ascii "could not determine data type of parameter $" ++ itoa ((i : Int) + 1))
          | none =>
            (.ok (), ((({ ({ c with calls := c.calls ++ [.Prepare query args] } : pqConn) with
                preparedStatements := c.preparedStatements.set name
                  { query := query, argTypes := argTypes, columns := cols } }
                : pqConn).wb (fun w => w.initMsg ServerMsgParseComplete)).finishMsg)) := by
  simp only [pqConn.parseStatement, hargs, hprep]

/-! ## Parse -/

/-- C8 (as amended): after a successful Parse with hints `h` for which
`Prepare` returned the map `a'`, the registered statement's argTypes has length
equal to the largest position named by a key of `a'` (0 for the empty map; the
number of hints does not extend it); at each index `j` below that length it
holds `h[j]` when `j < n` and `h[j] ≠ 0` (the client's OID is kept), and
otherwise the canonical OID (`datumToOid`) of the kind of the first entry of
`a'`, in iteration order, whose key denotes position `j + 1`. -/
theorem parse_registers_argTypes (E : Env) (c : pqConn) (name query : Bytes)
    (hints : List Nat) (extra : Bytes) (args : MapArgs) (cols : List ResultColumn)
    (args1 : MapArgs) (hname : 0 ∉ name) (hquery : 0 ∉ query)
    (hcount : hints.length < 32768) (hh : ∀ h ∈ hints, h < 4294967296)
    (hfree : name = [] ∨ c.preparedStatements.get name = none)
    (hmsg : c.readBuf.msg = encodeParse name query hints ++ extra)
    (hargs : pqConn.hintArgs hints 0 = .ok args)
    (hprep : E.executor.Prepare c.calls query args = .ok (cols, args1))
    (hdone : ParseCompleted c (pqConn.handleParse E c)) :
    ∃ pq, (pqConn.handleParse E c).2.preparedStatements = c.preparedStatements.set name pq
      ∧ (pqConn.handleParse E c).2.preparedStatements.get name = some pq
      ∧ pq.query = query ∧ pq.columns = cols
      ∧ pq.argTypes.length = maxPosition E.lib args1
      ∧ ∀ j, j < pq.argTypes.length →
          (hints.getD j 0 ≠ 0 → pq.argTypes.getD j 0 = hints.getD j 0)
          ∧ (hints.getD j 0 = 0 → ∃ kv, firstEntryAt E.lib args1 j = some kv
              ∧ kv.2.typeOf.bind datumToOid = some (pq.argTypes.getD j 0)) := by
  have hexec := handleParse_exec E c name query hints extra hname hquery hcount hh hfree hmsg
  have hprep2 : E.executor.Prepare (c.setMsg extra).calls query args = .ok (cols, args1) := hprep
  have hcase := parseStatement_prepared E (c.setMsg extra) name query hints args cols args1
    hargs hprep2
  rw [hexec] at hdone ⊢
  rw [hcase] at hdone ⊢
  have hq : Quiet c ({ c.setMsg extra with calls := (c.setMsg extra).calls
      ++ [ExecCall.Prepare query args] } : pqConn) :=
    (quiet_setMsg c extra).quietTrans (quiet_calls _ _)
  cases hb : pqConn.buildArgTypes E.lib hints args1 [] with
  | err m =>
    rw [hb] at hdone
    exact absurd hdone (not_parseCompleted_of_error (errorResponseSent_of_quiet hq m))
  | panic =>
    rw [hb] at hdone
    exact absurd hdone.1 (by simp)
  | ok argTypes =>
    rw [hb] at hdone
    simp only at hdone ⊢
    cases hz : pqConn.firstZero argTypes with
    | some i =>
      rw [hz] at hdone
      exact absurd hdone (not_parseCompleted_of_error (errorResponseSent_of_quiet hq _))
    | none =>
      obtain ⟨h1, h2, h3⟩ := buildArgTypes_closed E.lib hints args1 argTypes hb
      refine ⟨{ query := query, argTypes := argTypes, columns := cols }, rfl, ?_, rfl, rfl,
        h1, fun j hj => ⟨fun hne => ?_, fun he => ?_⟩⟩
      · exact goMap_get_set _ _ _
      · rw [h2 j hj]
        unfold expectedArgType
        rw [if_pos hne]
      · have hnz := firstZero_none_getD hz j hj
        have h2j := h2 j hj
        unfold expectedArgType at h2j
        rw [if_neg (by simpa using he)] at h2j
        cases hf : firstEntryAt E.lib args1 j with
        | none => rw [hf] at h2j; exact absurd h2j hnz
        | some kv =>
          obtain ⟨id, hid⟩ := h3 j kv he hf
          rw [hf] at h2j
          simp only [hid, Option.getD_some] at h2j
          exact ⟨kv, rfl, by rw [hid, h2j]⟩

/-- C8 on the server as `NewServer` builds it: a Parse with two int4 hints, for
which the fake Executor reports one parameter. -/
theorem parse_registers_argTypes_witness :
    ∃ pq, (pqConn.handleParse fakeEnv (freshWith parseTwoHints)).2.preparedStatements
        = (freshWith parseTwoHints).preparedStatements.set (ascii "s") pq
      ∧ (pqConn.handleParse fakeEnv (freshWith parseTwoHints)).2.preparedStatements.get (ascii "s")
        = some pq
      ∧ pq.query = ascii "q" ∧ pq.columns = fake.makeFakeColumns
      ∧ pq.argTypes.length = maxPosition fakeEnv.lib fake.makeFakeArgs
      ∧ ∀ j, j < pq.argTypes.length →
          ([T_int4, T_int4].getD j 0 ≠ 0 → pq.argTypes.getD j 0 = [T_int4, T_int4].getD j 0)
          ∧ ([T_int4, T_int4].getD j 0 = 0 → ∃ kv,
              firstEntryAt fakeEnv.lib fake.makeFakeArgs j = some kv
              ∧ kv.2.typeOf.bind datumToOid = some (pq.argTypes.getD j 0)) :=
  parse_registers_argTypes fakeEnv (freshWith parseTwoHints) (ascii "s") (ascii "q")
    [T_int4, T_int4] [] [(ascii "1", Datum.DummyInt), (ascii "2", Datum.DummyInt)]
    fake.makeFakeColumns fake.makeFakeArgs (by decide) (by decide) (by decide) (by decide)
    (Or.inr rfl) (by decide!) rfl rfl ⟨by decide!, by decide!⟩

/-- C8 as stated fails: with two hints and a Prepare that reports the single
key `1`, the Parse succeeds and registers one argument type, not
`max(2, 1) = 2`. -/
theorem parse_argTypes_length_counterexample :
    (pqConn.handleParse fakeEnv (freshWith parseTwoHints)).1 = .ok ()
    ∧ (pqConn.handleParse fakeEnv (freshWith parseTwoHints)).2.out
        = [OutEvent.write (frame ServerMsgParseComplete [])]
    ∧ ((pqConn.handleParse fakeEnv (freshWith parseTwoHints)).2.preparedStatements.get
        (ascii "s")).map (fun pq => pq.argTypes) = some [T_int4]
    ∧ [T_int4].length ≠ max [T_int4, T_int4].length (maxPosition plainLib fake.makeFakeArgs) := by
  decide!

theorem readyForQuery_readBuf (c : pqConn) :
    c.readyForQuery.2.readBuf = c.readBuf ∧ c.readyForQuery.2.rd = c.rd := by
  unfold pqConn.readyForQuery
  dsimp only
  split
  · split
    · exact ⟨rfl, rfl⟩
    · split
      · exact ⟨rfl, rfl⟩
      · split <;> exact ⟨rfl, rfl⟩
  · exact ⟨rfl, rfl⟩

theorem readAndDispatch_noZero (E : Env) (c : pqConn) (hn : NoZeroOid c) :
    NoZeroOid (pqConn.readAndDispatch E c).2 := by
  unfold pqConn.readAndDispatch
  dsimp only
  split
  · exact hn
  · split
    · exact hn
    · exact (dispatch_step E _ _).2.2.2.2 hn

theorem serveIter_noZero (E : Env) (c : pqConn) (hn : NoZeroOid c) :
    NoZeroOid (pqConn.serveIter E c).2 := by
  have h0 := ioOnly_readyForQuery c
  have hn1 : NoZeroOid c.readyForQuery.2 := noZeroOid_of_eq h0.preparedStatements hn
  unfold pqConn.serveIter
  split
  · next c1 heq => rw [heq] at hn1; exact readAndDispatch_noZero E c1 hn1
  · next e c1 heq => rw [heq] at hn1; exact hn1
  · next c1 heq => rw [heq] at hn1; exact hn1

theorem reachable_noZero (E : Env) (c : pqConn) (h : Reachable E c) : NoZeroOid c := by
  induction h with
  | start c hps _ _ _ _ =>
    intro e he
    rw [hps] at he
    simp at he
  | iter c c' _ hstep ih =>
    have := serveIter_noZero E c ih
    rw [hstep] at this
    exact this

/-- C9: in every reachable connection state no registered statement has an
argument type equal to OID 0; and a Parse whose constructed argTypes still
holds a 0, first at index `i`, sends the ErrorResponse "could not determine
data type of parameter $N" with `N = i + 1` and registers nothing. -/
theorem registered_argTypes_nonzero :
    (∀ (E : Env) (c : pqConn), Reachable E c →
      ∀ (name : Bytes) (ps : preparedStatement), (name, ps) ∈ c.preparedStatements →
        0 ∉ ps.argTypes)
    ∧ (∀ (E : Env) (c : pqConn) (name query : Bytes) (hints : List Nat) (extra : Bytes)
        (args : MapArgs) (cols : List ResultColumn) (args1 : MapArgs) (argTypes : List Nat)
        (i : Nat), 0 ∉ name → 0 ∉ query → hints.length < 32768 →
        (∀ h ∈ hints, h < 4294967296) →
        (name = [] ∨ c.preparedStatements.get name = none) →
        c.readBuf.msg = encodeParse name query hints ++ extra →
        pqConn.hintArgs hints 0 = .ok args →
        E.executor.Prepare c.calls query args = .ok (cols, args1) →
        pqConn.buildArgTypes E.lib hints args1 [] = .ok argTypes →
        pqConn.firstZero argTypes = some i →
        (i < argTypes.length ∧ argTypes.getD i 0 = 0 ∧ ∀ j, j < i → argTypes.getD j 0 ≠ 0)
        ∧ (pqConn.handleParse E c).1 = .ok ()
        ∧ (pqConn.handleParse E c).2.out
            = c.out ++ [OutEvent.write (frame ServerMsgErrorResponse
                (errorBody CodeInternalError
                  (ascii "could not determine data type of parameter $" ++ itoa ((i : Int) + 1)))),
                OutEvent.flush]
        ∧ (pqConn.handleParse E c).2.preparedStatements = c.preparedStatements
        ∧ (pqConn.handleParse E c).2.portals = c.portals) := by
  refine ⟨fun E c hr name ps hmem => reachable_noZero E c hr (name, ps) hmem, ?_⟩
  intro E c name query hints extra args cols args1 argTypes i hname hquery hcount hh hfree hmsg
    hargs hprep hbuild hz
  have hexec := handleParse_exec E c name query hints extra hname hquery hcount hh hfree hmsg
  have hprep2 : E.executor.Prepare (c.setMsg extra).calls query args = .ok (cols, args1) := hprep
  have hcase := parseStatement_prepared E (c.setMsg extra) name query hints args cols args1
    hargs hprep2
  rw [hbuild] at hcase
  simp only [hz] at hcase
  have hq : Quiet c ({ c.setMsg extra with calls := (c.setMsg extra).calls
      ++ [ExecCall.Prepare query args] } : pqConn) :=
    (quiet_setMsg c extra).quietTrans (quiet_calls _ _)
  have hio := hq.ioOnly.onlyTrans (ioOnly_sendInternalError _
    (ascii "could not determine data type of parameter $" ++ itoa ((i : Int) + 1)))
  rw [hexec, hcase]
  refine ⟨firstZero_some hz, rfl, ?_, hio.preparedStatements, hio.portals⟩
  rw [pqConn.sendInternalError, sendError_out, hq.out]

/-- C9 at work: with no hints and a Prepare that only types parameter 2, the
Parse is answered "could not determine data type of parameter $1" and nothing
is registered. -/
theorem registered_argTypes_nonzero_witness :
    (0 < [0, T_int8].length ∧ [0, T_int8].getD 0 0 = 0 ∧ ∀ j, j < 0 → [0, T_int8].getD j 0 ≠ 0)
    ∧ (pqConn.handleParse secondOnlyEnv (freshWith parseNoHints)).1 = .ok ()
    ∧ (pqConn.handleParse secondOnlyEnv (freshWith parseNoHints)).2.out
        = (freshWith parseNoHints).out ++ [OutEvent.write (frame ServerMsgErrorResponse
            (errorBody CodeInternalError
              (ascii "could not determine data type of parameter $" ++ itoa (((0 : Nat) : Int) + 1)))),
            OutEvent.flush]
    ∧ (pqConn.handleParse secondOnlyEnv (freshWith parseNoHints)).2.preparedStatements
        = (freshWith parseNoHints).preparedStatements
    ∧ (pqConn.handleParse secondOnlyEnv (freshWith parseNoHints)).2.portals
        = (freshWith parseNoHints).portals :=
  registered_argTypes_nonzero.2 secondOnlyEnv (freshWith parseNoHints) [] (ascii "q") [] [] []
    [] [(ascii "2", Datum.DummyInt)] [0, T_int8] 0 (by decide) (by decide) (by decide)
    (by decide) (Or.inl rfl) (by decide!) rfl rfl (by decide!) (by decide!)

/-! ## The main loop -/

theorem dispatch_ioStep (E : Env) (typ : Nat) (c : pqConn) (hs : typ ≠ ClientMsgSync) :
    IOStep { c with extendedQueryMessage := extendedAfter typ c.extendedQueryMessage }
      (pqConn.dispatch E typ c).2 := by
  have after : ∀ (r : Res Unit × pqConn), (pqConn.afterHandler r).2 = r.2 := by
    intro r; rcases r with ⟨x, c1⟩; cases x <;> rfl
  by_cases h2 : typ = ClientMsgSimpleQuery
  · subst h2
    exact (after _).symm ▸ (ioOnly_handleSimpleQuery E _).step
  by_cases h3 : typ = ClientMsgMPPQuery
  · subst h3
    exact (after _).symm ▸ (ioOnly_handleMPPQuery E _).step
  by_cases h4 : typ = ClientMsgTerminate
  · subst h4
    exact IOStep.stepRefl c
  by_cases h5 : typ = ClientMsgParse
  · subst h5
    exact (after _).symm ▸ ioStep_handleParse E _
  by_cases h6 : typ = ClientMsgDescribe
  · subst h6
    exact (after _).symm ▸ (ioOnly_handleDescribe E.lib _).step
  by_cases h7 : typ = ClientMsgClose
  · subst h7
    exact (after _).symm ▸ (handleClose_post _).1
  by_cases h8 : typ = ClientMsgBind
  · subst h8
    exact (after _).symm ▸ ioStep_handleBind E _
  by_cases h9 : typ = ClientMsgExecute
  · subst h9
    exact (after _).symm ▸ (ioOnly_handleExecute E _).step
  by_cases h10 : typ = ClientMsgFlush
  · subst h10
    exact (ioOnly_Flush _).step
  · unfold pqConn.dispatch extendedAfter
    simp only [hs, h2, h3, h4, h5, h6, h7, h8, h9, h10, if_false, or_self]
    rw [after]
    exact (ioOnly_sendInternalError c _).step

theorem serveIter_ignore_extended (E : Env) (c : pqConn)
    (h : c.ignoreTillSync = true → c.extendedQueryMessage = true) :
    (pqConn.serveIter E c).2.ignoreTillSync = true →
      (pqConn.serveIter E c).2.extendedQueryMessage = true := by
  have h0 := (ioOnly_readyForQuery c).step
  have inv1 : c.readyForQuery.2.ignoreTillSync = true →
      c.readyForQuery.2.extendedQueryMessage = true := by
    intro hi
    rw [h0.extended]
    rcases h0.ignore with hh | ⟨hh, _⟩
    · exact h (hh ▸ hi)
    · exact hh
  have key : ∀ c1 : pqConn, (c1.ignoreTillSync = true → c1.extendedQueryMessage = true) →
      ((pqConn.readAndDispatch E c1).2.ignoreTillSync = true →
        (pqConn.readAndDispatch E c1).2.extendedQueryMessage = true) := by
    intro c1 h1
    unfold pqConn.readAndDispatch
    dsimp only
    split
    · exact h1
    · split
      · exact h1
      · next hskip =>
        by_cases hs : (c1.readBuf.readTypedMsg c1.rd).typ = ClientMsgSync
        · rw [hs]
          intro hi
          exact absurd hi (by simp [pqConn.dispatch])
        · have hign : c1.ignoreTillSync = false := by
            cases hb : c1.ignoreTillSync with
            | false => rfl
            | true => exact absurd ⟨hb, hs⟩ hskip
          have hd := dispatch_ioStep E (c1.readBuf.readTypedMsg c1.rd).typ
            { c1 with readBuf := (c1.readBuf.readTypedMsg c1.rd).buf,
                      rd := (c1.readBuf.readTypedMsg c1.rd).rd } hs
          intro hi
          rw [hd.extended]
          rcases hd.ignore with hh | ⟨hh, _⟩
          · rw [hh] at hi
            exact absurd (hign ▸ hi : false = true) (by simp)
          · exact hh
  unfold pqConn.serveIter
  split
  · next c1 heq => rw [heq] at inv1; exact key c1 inv1
  · next e c1 heq => rw [heq] at inv1; exact inv1
  · next c1 heq => rw [heq] at inv1; exact inv1

theorem reachable_ignore_extended (E : Env) (c : pqConn) (h : Reachable E c) :
    c.ignoreTillSync = true → c.extendedQueryMessage = true := by
  induction h with
  | start c _ _ _ hign _ => intro hi; rw [hign] at hi; exact absurd hi (by simp)
  | iter c c' _ hstep ih =>
    have := serveIter_ignore_extended E c ih
    rw [hstep] at this
    exact this

theorem readyForQuery_extended (c : pqConn) (h : c.extendedQueryMessage = true) :
    c.readyForQuery = (.ok (), c) := by
  simp [pqConn.readyForQuery, h]

theorem readAndDispatch_skip (E : Env) (c : pqConn) (hign : c.ignoreTillSync = true)
    (hread : (c.readBuf.readTypedMsg c.rd).err = none)
    (htyp : (c.readBuf.readTypedMsg c.rd).typ ≠ ClientMsgSync) :
    pqConn.readAndDispatch E c
      = (none, { c with readBuf := (c.readBuf.readTypedMsg c.rd).buf,
                        rd := (c.readBuf.readTypedMsg c.rd).rd }) := by
  unfold pqConn.readAndDispatch
  simp only [hread]
  rw [if_pos ⟨hign, htyp⟩]

/-- C6: while `ignoreTillSync` is set, a correctly framed message whose type is
not Sync is discarded: the step after the ReadyForQuery test leaves everything
but the read position as it was (both registries, both flags, the Executor
calls, the output), and in a reachable state so does the whole iteration, which
then writes no frame at all. -/
theorem ignoreTillSync_discards (E : Env) (c : pqConn) (hign : c.ignoreTillSync = true)
    (hread : (c.readBuf.readTypedMsg c.rd).err = none)
    (htyp : (c.readBuf.readTypedMsg c.rd).typ ≠ ClientMsgSync) :
    pqConn.readAndDispatch E c
      = (none, { c with readBuf := (c.readBuf.readTypedMsg c.rd).buf,
                        rd := (c.readBuf.readTypedMsg c.rd).rd })
    ∧ (pqConn.readAndDispatch E c).2.preparedStatements = c.preparedStatements
    ∧ (pqConn.readAndDispatch E c).2.portals = c.portals
    ∧ (pqConn.readAndDispatch E c).2.extendedQueryMessage = c.extendedQueryMessage
    ∧ (pqConn.readAndDispatch E c).2.ignoreTillSync = c.ignoreTillSync
    ∧ (pqConn.readAndDispatch E c).2.calls = c.calls
    ∧ (pqConn.readAndDispatch E c).2.out = c.out
    ∧ (Reachable E c →
        pqConn.serveIter E c
          = (none, { c with readBuf := (c.readBuf.readTypedMsg c.rd).buf,
                            rd := (c.readBuf.readTypedMsg c.rd).rd })
        ∧ (pqConn.serveIter E c).2.out = c.out
        ∧ (pqConn.serveIter E c).2.calls = c.calls) := by
  have hskip := readAndDispatch_skip E c hign hread htyp
  refine ⟨hskip, ?_, ?_, ?_, ?_, ?_, ?_, fun hr => ?_⟩
  · rw [hskip]
  · rw [hskip]
  · rw [hskip]
  · rw [hskip]
  · rw [hskip]
  · rw [hskip]
  · have hext := reachable_ignore_extended E c hr hign
    have hiter : pqConn.serveIter E c = pqConn.readAndDispatch E c := by
      unfold pqConn.serveIter
      rw [readyForQuery_extended c hext]
    rw [hiter, hskip]
    exact ⟨rfl, rfl, rfl⟩

/-- C6 on the fake server after a Bind that failed inside an extended-query
exchange, with an Execute message next in the stream. -/
theorem ignoreTillSync_discards_witness :
    pqConn.readAndDispatch fakeEnv afterFailedBind
      = (none, { afterFailedBind with
          readBuf := (afterFailedBind.readBuf.readTypedMsg afterFailedBind.rd).buf,
          rd := (afterFailedBind.readBuf.readTypedMsg afterFailedBind.rd).rd })
    ∧ (pqConn.readAndDispatch fakeEnv afterFailedBind).2.preparedStatements
        = afterFailedBind.preparedStatements
    ∧ (pqConn.readAndDispatch fakeEnv afterFailedBind).2.portals = afterFailedBind.portals
    ∧ (pqConn.readAndDispatch fakeEnv afterFailedBind).2.extendedQueryMessage
        = afterFailedBind.extendedQueryMessage
    ∧ (pqConn.readAndDispatch fakeEnv afterFailedBind).2.ignoreTillSync
        = afterFailedBind.ignoreTillSync
    ∧ (pqConn.readAndDispatch fakeEnv afterFailedBind).2.calls = afterFailedBind.calls
    ∧ (pqConn.readAndDispatch fakeEnv afterFailedBind).2.out = afterFailedBind.out
    ∧ (Reachable fakeEnv afterFailedBind →
        pqConn.serveIter fakeEnv afterFailedBind
          = (none, { afterFailedBind with
              readBuf := (afterFailedBind.readBuf.readTypedMsg afterFailedBind.rd).buf,
              rd := (afterFailedBind.readBuf.readTypedMsg afterFailedBind.rd).rd })
        ∧ (pqConn.serveIter fakeEnv afterFailedBind).2.out = afterFailedBind.out
        ∧ (pqConn.serveIter fakeEnv afterFailedBind).2.calls = afterFailedBind.calls) :=
  ignoreTillSync_discards fakeEnv afterFailedBind (by decide!) (by decide!) (by decide!)

theorem afterFailedBind_reachable : Reachable fakeEnv afterFailedBind := by
  refine Reachable.iter (pqConn.new (bindMaybeMsg ++ executeMsg) [] []) afterFailedBind
    (Reachable.start _ rfl rfl rfl rfl rfl) ?_
  have h1 : (pqConn.serveIter fakeEnv (pqConn.new (bindMaybeMsg ++ executeMsg) [] [])).1 = none := by
    decide!
  exact Prod.ext h1 rfl

theorem readyForQuery_idle (c : pqConn) (hext : c.extendedQueryMessage = false)
    (htxn : c.session.TxnState = Idle ∨ c.session.TxnState = Open
      ∨ c.session.TxnState = Aborted) :
    c.readyForQuery.1 = .ok ()
    ∧ c.readyForQuery.2.out
        = c.out ++ [OutEvent.write (readyFrame (txnStatusByte c.session.TxnState)),
            OutEvent.flush] := by
  have hr : ∀ s : Nat, frame ServerMsgReady [s] = readyFrame s := by
    intro s
    simp [frame, readyFrame, be32, uint32, ServerMsgReady]
  have hf : ∀ (w : writeBuffer) (s : Nat),
      (((w.initMsg ServerMsgReady).WriteByte s).finishMsg).2 = readyFrame s := by
    intro w s
    rw [finishMsg_frame _ ServerMsgReady (w.putbuf 1) (w.putbuf 2) (w.putbuf 3) (w.putbuf 4) [s]
      rfl]
    exact hr s
  have e1 : txnStatusByte Idle = 73 := by decide
  have e2 : txnStatusByte Open = 84 := by decide
  have e3 : txnStatusByte Aborted = 69 := by decide
  unfold pqConn.readyForQuery
  rw [if_pos hext]
  dsimp only
  rcases htxn with h | h | h
  · rw [if_neg (by rw [h]; decide), if_neg (by rw [h]; decide), if_pos h, h, e1]
    simp only [pqConn.Flush, pqConn.finishMsg, pqConn.wb, hf, List.append_assoc,
      List.cons_append, List.nil_append, and_self]
  · rw [if_neg (by rw [h]; decide), if_pos h, h, e2]
    simp only [pqConn.Flush, pqConn.finishMsg, pqConn.wb, hf, List.append_assoc,
      List.cons_append, List.nil_append, and_self]
  · rw [if_pos h, h, e3]
    simp only [pqConn.Flush, pqConn.finishMsg, pqConn.wb, hf, List.append_assoc,
      List.cons_append, List.nil_append, and_self]

theorem readAndDispatch_out (E : Env) (c : pqConn) :
    ∃ evs, (pqConn.readAndDispatch E c).2.out = c.out ++ evs := by
  unfold pqConn.readAndDispatch
  dsimp only
  split
  · exact ⟨[], by simp⟩
  · split
    · exact ⟨[], by simp⟩
    · exact (dispatch_step E _ _).2.2.2.1

theorem serveIter_out (E : Env) (c : pqConn) :
    ∃ evs, (pqConn.serveIter E c).2.out = c.readyForQuery.2.out ++ evs := by
  unfold pqConn.serveIter
  split
  · next c1 heq => rw [heq]; exact readAndDispatch_out E c1
  · next e c1 heq => rw [heq]; exact ⟨[], by simp⟩
  · next c1 heq => rw [heq]; exact ⟨[], by simp⟩

theorem serveIter_extended_stays (E : Env) (c : pqConn) (hext : c.extendedQueryMessage = true)
    (h : (c.readBuf.readTypedMsg c.rd).err ≠ none
      ∨ ((c.readBuf.readTypedMsg c.rd).typ ≠ ClientMsgSync
        ∧ (c.ignoreTillSync = true
          ∨ ((c.readBuf.readTypedMsg c.rd).typ ≠ ClientMsgSimpleQuery
            ∧ (c.readBuf.readTypedMsg c.rd).typ ≠ ClientMsgMPPQuery)))) :
    (pqConn.serveIter E c).2.extendedQueryMessage = true := by
  have hiter : pqConn.serveIter E c = pqConn.readAndDispatch E c := by
    unfold pqConn.serveIter
    rw [readyForQuery_extended c hext]
  rw [hiter]
  unfold pqConn.readAndDispatch
  dsimp only
  split
  · exact hext
  · next herr =>
    split
    · exact hext
    · next hskip =>
      rcases h with h | ⟨h1, h4 | ⟨h2, h3⟩⟩
      · exact absurd herr h
      · exact absurd ⟨h4, h1⟩ hskip
      · rw [(dispatch_step E _ _).1]
        unfold extendedAfter
        rw [if_neg (by simp [h1, h2, h3])]
        split
        · rfl
        · exact hext

/-- C4: the head of an iteration of the main loop writes and flushes one
ReadyForQuery frame (`Z`, length 5, one status byte: `I`, `T`, `E` for Idle,
Open, Aborted) when the extended flag is false and writes nothing when it is
true, before anything is read; whatever the iteration writes comes after it. A
fresh connection has the flag clear; a dispatched SimpleQuery, MPPQuery or Sync
leaves it clear, so that the next iteration opens with ReadyForQuery; a
dispatched Parse, Bind, Describe, Execute, Close or Flush leaves it set, and it
stays set through every iteration whose message is not a Sync and is either
skipped or not a SimpleQuery or MPPQuery. The session, hence the status byte, is not changed by a message. -/
theorem readyForQuery_iff_not_extended :
    (∀ c : pqConn, c.extendedQueryMessage = true → c.readyForQuery = (.ok (), c))
    ∧ (∀ c : pqConn, c.extendedQueryMessage = false →
        (c.session.TxnState = Idle ∨ c.session.TxnState = Open ∨ c.session.TxnState = Aborted) →
        c.readyForQuery.1 = .ok ()
        ∧ c.readyForQuery.2.out
            = c.out ++ [OutEvent.write (readyFrame (txnStatusByte c.session.TxnState)),
                OutEvent.flush]
        ∧ c.readyForQuery.2.rd = c.rd ∧ c.readyForQuery.2.readBuf = c.readBuf)
    ∧ (txnStatusByte Idle = 73 ∧ txnStatusByte Open = 84 ∧ txnStatusByte Aborted = 69)
    ∧ (∀ s : Nat, readyFrame s = frame ServerMsgReady [s])
    ∧ (∀ (E : Env) (c : pqConn), ∃ evs,
        (pqConn.serveIter E c).2.out = c.readyForQuery.2.out ++ evs)
    ∧ (∀ rd database user : Bytes, (pqConn.new rd database user).extendedQueryMessage = false
        ∧ (pqConn.new rd database user).session.TxnState = Idle)
    ∧ (∀ (E : Env) (typ : Nat) (c : pqConn),
        typ = ClientMsgSimpleQuery ∨ typ = ClientMsgMPPQuery ∨ typ = ClientMsgSync →
        (pqConn.dispatch E typ c).2.extendedQueryMessage = false)
    ∧ (∀ (E : Env) (typ : Nat) (c : pqConn),
        typ = ClientMsgParse ∨ typ = ClientMsgBind ∨ typ = ClientMsgDescribe
          ∨ typ = ClientMsgExecute ∨ typ = ClientMsgClose ∨ typ = ClientMsgFlush →
        (pqConn.dispatch E typ c).2.extendedQueryMessage = true)
    ∧ (∀ (E : Env) (typ : Nat) (c : pqConn), (pqConn.dispatch E typ c).2.session = c.session)
    ∧ (∀ (E : Env) (c : pqConn), c.extendedQueryMessage = true →
        ((c.readBuf.readTypedMsg c.rd).err ≠ none
          ∨ ((c.readBuf.readTypedMsg c.rd).typ ≠ ClientMsgSync
            ∧ (c.ignoreTillSync = true
              ∨ ((c.readBuf.readTypedMsg c.rd).typ ≠ ClientMsgSimpleQuery
                ∧ (c.readBuf.readTypedMsg c.rd).typ ≠ ClientMsgMPPQuery)))) →
        (pqConn.serveIter E c).2.extendedQueryMessage = true
        ∧ (pqConn.serveIter E c).2.readyForQuery
            = (.ok (), (pqConn.serveIter E c).2)) := by
  refine ⟨readyForQuery_extended, fun c hext htxn => ?_, by decide, fun s => ?_, serveIter_out,
    fun _ _ _ => ⟨rfl, rfl⟩, fun E typ c h => ?_, fun E typ c h => ?_,
    fun E typ c => (dispatch_step E typ c).2.1, fun E c hext h => ?_⟩
  · have h1 := readyForQuery_idle c hext htxn
    have h2 := readyForQuery_readBuf c
    exact ⟨h1.1, h1.2, h2.2, h2.1⟩
  · simp [frame, readyFrame, be32, uint32, ServerMsgReady]
  · rw [(dispatch_step E typ c).1]
    rcases h with h | h | h <;> subst h <;> rfl
  · rw [(dispatch_step E typ c).1]
    rcases h with h | h | h | h | h | h <;> subst h <;> rfl
  · have h1 := serveIter_extended_stays E c hext h
    exact ⟨h1, readyForQuery_extended _ h1⟩

theorem sendError_flags (c : pqConn) (code m : Bytes) :
    (c.sendError code m).2.extendedQueryMessage = c.extendedQueryMessage
    ∧ (c.extendedQueryMessage = true → (c.sendError code m).2.ignoreTillSync = true)
    ∧ (c.extendedQueryMessage = false →
        (c.sendError code m).2.ignoreTillSync = c.ignoreTillSync) := by
  unfold pqConn.sendError
  by_cases h : c.extendedQueryMessage = true
  · rw [if_pos h]
    exact ⟨rfl, fun _ => rfl, fun h2 => absurd h (by rw [h2]; simp)⟩
  · rw [if_neg h]
    exact ⟨rfl, fun h2 => absurd h2 h, fun _ => rfl⟩

theorem serveIter_ignore_stays (E : Env) (c : pqConn) (hign : c.ignoreTillSync = true)
    (h : ¬ ((c.readBuf.readTypedMsg c.rd).err = none
      ∧ (c.readBuf.readTypedMsg c.rd).typ = ClientMsgSync)) :
    (pqConn.serveIter E c).2.ignoreTillSync = true := by
  have h0 := (ioOnly_readyForQuery c).step
  have hb := readyForQuery_readBuf c
  have hi : c.readyForQuery.2.ignoreTillSync = true := by
    rcases h0.ignore with hh | ⟨_, hh⟩
    · rw [hh]; exact hign
    · exact hh
  unfold pqConn.serveIter
  split
  · next c1 heq =>
    rw [heq] at hi hb
    replace hi : c1.ignoreTillSync = true := hi
    replace hb : c1.readBuf = c.readBuf ∧ c1.rd = c.rd := hb
    rw [← hb.1, ← hb.2] at h
    unfold pqConn.readAndDispatch
    dsimp only
    split
    · exact hi
    · next herr =>
      have htyp : (c1.readBuf.readTypedMsg c1.rd).typ ≠ ClientMsgSync := fun ht => h ⟨herr, ht⟩
      rw [if_pos ⟨hi, htyp⟩]
      exact hi
  · next e c1 heq => rw [heq] at hi; exact hi
  · next c1 heq => rw [heq] at hi; exact hi

theorem readAndDispatch_sync (E : Env) (c : pqConn)
    (hread : (c.readBuf.readTypedMsg c.rd).err = none)
    (htyp : (c.readBuf.readTypedMsg c.rd).typ = ClientMsgSync) :
    pqConn.readAndDispatch E c
      = (none, { c with readBuf := (c.readBuf.readTypedMsg c.rd).buf,
                        rd := (c.readBuf.readTypedMsg c.rd).rd,
                        extendedQueryMessage := false, ignoreTillSync := false }) := by
  unfold pqConn.readAndDispatch
  simp only [hread]
  rw [if_neg (fun hh => hh.2 htyp)]
  unfold pqConn.dispatch
  rw [if_pos htyp]

/-- C5: `sendError`, the one writer of ErrorResponse frames, sets
`ignoreTillSync` when the extended flag is true and leaves it as it was when the
flag is false (the extended flag itself is not touched, and the frame is written
and flushed). Once `ignoreTillSync` is set it is still set after every iteration
of the main loop that does not read a Sync message; a Sync that is read clears
both flags and writes nothing. Scenario on the fake server, Parse with a bool
hint, Bind with the value "maybe", Execute, Describe, Sync: the Bind is answered
by an ErrorResponse with code XX000 and sets the flag, Execute and Describe add
nothing to the output and leave the flag set, the Sync clears both flags and the
next iteration writes ReadyForQuery with status `I`. -/
theorem sendError_sets_ignoreTillSync :
    (∀ (c : pqConn) (code m : Bytes),
        (c.sendError code m).1 = .ok ()
        ∧ (c.sendError code m).2.out
            = c.out ++ [OutEvent.write (frame ServerMsgErrorResponse (errorBody code m)),
                OutEvent.flush]
        ∧ (c.sendError code m).2.extendedQueryMessage = c.extendedQueryMessage
        ∧ (c.extendedQueryMessage = true → (c.sendError code m).2.ignoreTillSync = true)
        ∧ (c.extendedQueryMessage = false →
            (c.sendError code m).2.ignoreTillSync = c.ignoreTillSync))
    ∧ (∀ (c : pqConn) (m : Bytes), c.sendInternalError m = c.sendError CodeInternalError m)
    ∧ CodeInternalError = ascii "XX000"
    ∧ (∀ (E : Env) (c : pqConn), c.ignoreTillSync = true →
        ¬ ((c.readBuf.readTypedMsg c.rd).err = none
          ∧ (c.readBuf.readTypedMsg c.rd).typ = ClientMsgSync) →
        (pqConn.serveIter E c).2.ignoreTillSync = true)
    ∧ (∀ (E : Env) (c : pqConn), (c.readBuf.readTypedMsg c.rd).err = none →
        (c.readBuf.readTypedMsg c.rd).typ = ClientMsgSync →
        pqConn.readAndDispatch E c
          = (none, { c with readBuf := (c.readBuf.readTypedMsg c.rd).buf,
                            rd := (c.readBuf.readTypedMsg c.rd).rd,
                            extendedQueryMessage := false, ignoreTillSync := false }))
    ∧ ((runIters fakeEnv 1 (pqConn.new scenarioBoolMaybe [] [])).ignoreTillSync = false
      ∧ (runIters fakeEnv 2 (pqConn.new scenarioBoolMaybe [] [])).ignoreTillSync = true
      ∧ (runIters fakeEnv 2 (pqConn.new scenarioBoolMaybe [] [])).out = scenarioOutAfterBind
      ∧ (runIters fakeEnv 2 (pqConn.new scenarioBoolMaybe [] [])).portals = []
      ∧ (runIters fakeEnv 3 (pqConn.new scenarioBoolMaybe [] [])).ignoreTillSync = true
      ∧ (runIters fakeEnv 3 (pqConn.new scenarioBoolMaybe [] [])).out = scenarioOutAfterBind
      ∧ (runIters fakeEnv 4 (pqConn.new scenarioBoolMaybe [] [])).ignoreTillSync = true
      ∧ (runIters fakeEnv 4 (pqConn.new scenarioBoolMaybe [] [])).out = scenarioOutAfterBind
      ∧ (runIters fakeEnv 5 (pqConn.new scenarioBoolMaybe [] [])).ignoreTillSync = false
      ∧ (runIters fakeEnv 5 (pqConn.new scenarioBoolMaybe [] [])).extendedQueryMessage = false
      ∧ (runIters fakeEnv 5 (pqConn.new scenarioBoolMaybe [] [])).out = scenarioOutAfterBind
      ∧ (pqConn.serveLoop fakeEnv 6 (pqConn.new scenarioBoolMaybe [] [])).map
            (fun r => (r.1, r.2.out))
          = some (.err errEOF,
              scenarioOutAfterBind ++ [OutEvent.write (readyFrame 73), OutEvent.flush])) := by
  refine ⟨fun c code m => ⟨rfl, sendError_out c code m, sendError_flags c code m⟩,
    fun _ _ => rfl, rfl, serveIter_ignore_stays, readAndDispatch_sync, ?_⟩
  decide!

/-! ## Bind, run on an encoded message -/

theorem int16_ofNat (n : Nat) (h : n < 32768) : int16 n = (n : Int) := by
  unfold int16
  split <;> omega

theorem rejectedWith_setMsg (c : pqConn) (m1 e : Bytes) :
    RejectedWith c ((c.setMsg m1).sendInternalError e) e := by
  refine ⟨rfl, ?_, ?_, ?_⟩
  · rw [pqConn.sendInternalError, sendError_out]; rfl
  · exact (ioOnly_sendInternalError (c.setMsg m1) e).preparedStatements
  · exact (ioOnly_sendInternalError (c.setMsg m1) e).portals

theorem readCodes_exec (codes : List Int) (c : pqConn) (rest : Bytes)
    (hc : ∀ x ∈ codes, IsInt16 x) :
    pqConn.readCodes codes.length
        (c.setMsg ((codes.map (fun x => be16 (uint16 x))).flatten ++ rest))
      = (.ok codes, c.setMsg rest) := by
  induction codes with
  | nil => rfl
  | cons x xs ih =>
    have h1 := hc x (List.mem_cons_self _ _)
    have h2 : ∀ y ∈ xs, IsInt16 y := fun y hy => hc y (List.mem_cons_of_mem _ hy)
    simp only [List.length_cons, List.map_cons, List.flatten_cons, List.append_assoc,
      pqConn.readCodes, onBuf_getInt16 c x _ h1, pqConn.andThen, ih h2]

theorem appliedCodes_length (codes : List Int) (n : Nat) (h : CountAccepted codes n) :
    (appliedCodes codes n).length = n := by
  unfold appliedCodes
  split
  · simp
  · split
    · simp
    · rcases h with h | h | h
      · contradiction
      · contradiction
      · exact h

theorem readFormatCodes_exec (codes : List Int) (n : Nat) (c : pqConn) (rest : Bytes)
    (hc : ∀ x ∈ codes, IsInt16 x) (hacc : CountAccepted codes n) :
    pqConn.readFormatCodes (codes.length : Int) (n : Int)
        (c.setMsg ((codes.map (fun x => be16 (uint16 x))).flatten ++ rest))
      = (.ok (some (appliedCodes codes n)), c.setMsg rest) := by
  unfold pqConn.readFormatCodes appliedCodes
  by_cases h0 : codes.length = 0
  · have hnil : codes = [] := List.length_eq_zero.mp h0
    subst hnil
    simp
  · by_cases h1 : codes.length = 1
    · obtain ⟨x, rfl⟩ := List.length_eq_one.mp h1
      have hx := hc x (List.mem_cons_self _ _)
      simp [onBuf_getInt16 c x _ hx, pqConn.andThen]
    · have hn : codes.length = n := by
        rcases hacc with h | h | h
        · exact absurd h h0
        · exact absurd h h1
        · exact h
      rw [if_neg (by omega), if_neg (by omega), if_pos (by omega), if_neg h0, if_neg h1]
      rw [Int.toNat_ofNat, ← hn, readCodes_exec codes c rest hc]
      rfl

theorem readFormatCodes_reject (codes : List Int) (n : Nat) (c : pqConn)
    (h : ¬ CountAccepted codes n) :
    pqConn.readFormatCodes (codes.length : Int) (n : Int) c = (.ok none, c) := by
  unfold pqConn.readFormatCodes
  have h0 : ¬ codes.length = 0 := fun hh => h (Or.inl hh)
  have h1 : ¬ codes.length = 1 := fun hh => h (Or.inr (Or.inl hh))
  have h2 : ¬ codes.length = n := fun hh => h (Or.inr (Or.inr hh))
  rw [if_neg (by omega), if_neg (by omega), if_neg (by omega)]

theorem readParams_null (L : GoLib) (codes : List Int) (t : Nat) (ts : List Nat) (vs : List (Option Bytes)) (i : Nat) (c : pqConn) (rest m1 : Bytes)
    (h1 : pqConn.readParams L codes ts (i + 1) (c.setMsg ((vs.map encodeValue).flatten ++ rest))
          = (.ok (decodeValues L codes ts vs (i + 1)), c.setMsg m1)) :
    pqConn.readParams L codes (t :: ts) i (c.setMsg (((none :: vs).map encodeValue).flatten ++ rest))
          = (.ok (decodeValues L codes (t :: ts) (none :: vs) i), c.setMsg m1) := by
  have hg := onBuf_getInt32 c 4294967295 ((vs.map encodeValue).flatten ++ rest) (by omega)
  have hm1 : int32 4294967295 = -1 := by unfold int32; omega
  have he : encodeValue none = be32 4294967295 := by simp [encodeValue, uint32]
  rw [List.map_cons, List.flatten_cons, List.append_assoc, he, pqConn.readParams, hg]
  simp only [pqConn.andThen]
  rw [hm1, if_pos rfl, h1]
  simp only [pqConn.andThen]
  rw [decodeValues]
  cases decodeValues L codes ts vs (i + 1) <;> rfl
theorem readParams_value (L : GoLib) (codes : List Int) (t : Nat) (ts : List Nat) (vs : List (Option Bytes)) (i : Nat) (c : pqConn) (rest b : Bytes)
    (hb : b.length < 2147483648) (hi : i < codes.length) :
    pqConn.readParams L codes (t :: ts) i (c.setMsg (((some b :: vs).map encodeValue).flatten ++ rest))
      = (match decodeOidDatum L t (codes.getD i 0) b with
        | .error e =>
          (.ok (.error (ascii "param $" ++ itoa ((i : Int) + 1) ++ ascii ": " ++ e)),
            c.setMsg ((vs.map encodeValue).flatten ++ rest))
        | .ok d =>
          pqConn.andThen (pqConn.readParams L codes ts (i + 1)
              (c.setMsg ((vs.map encodeValue).flatten ++ rest))) (fun r c3 =>
          match r with
          | .ok ds => (.ok (.ok (d :: ds)), c3)
          | .error m => (.ok (.error m), c3))) := by
  have hg := onBuf_getInt32 c b.length (b ++ ((vs.map encodeValue).flatten ++ rest)) (by omega)
  have hne : ¬ ((b.length : Int) = -1) := by omega
  have hget : codes.get? i = some (codes.getD i 0) := by
    rw [List.get?_eq_getElem?, List.getD_eq_getElem?_getD, List.getElem?_eq_getElem hi]
    rfl
  have hgb := onBuf_getBytes c b ((vs.map encodeValue).flatten ++ rest)
  rw [List.map_cons, List.flatten_cons, encodeValue, List.append_assoc, List.append_assoc,
    pqConn.readParams, hg]
  simp only [pqConn.andThen]
  rw [int32_ofNat b.length hb, if_neg hne, hgb]
  simp only [pqConn.andThen, hget]

theorem readParams_exec (L : GoLib) (codes : List Int) (ts : List Nat) :
    ∀ (vs : List (Option Bytes)) (i : Nat) (c : pqConn) (rest : Bytes),
      vs.length = ts.length →
      (∀ v ∈ vs, ∀ b, v = some b → b.length < 2147483648) →
      i + ts.length ≤ codes.length →
      ∃ m1, pqConn.readParams L codes ts i (c.setMsg ((vs.map encodeValue).flatten ++ rest))
          = (.ok (decodeValues L codes ts vs i), c.setMsg m1)
        ∧ (∀ ds, decodeValues L codes ts vs i = .ok ds → m1 = rest) := by
  induction ts with
  | nil =>
    intro vs i c rest hlen _ _
    have hv : vs = [] := List.length_eq_zero.mp hlen
    subst hv
    exact ⟨rest, rfl, fun _ _ => rfl⟩
  | cons t ts ih =>
    intro vs i c rest hlen hsz hcodes
    cases vs with
    | nil => simp at hlen
    | cons v vs =>
      have hlen1 : vs.length = ts.length := by simpa using hlen
      have hsz1 : ∀ v ∈ vs, ∀ b, v = some b → b.length < 2147483648 :=
        fun v hv => hsz v (List.mem_cons_of_mem _ hv)
      have hcodes1 : i + 1 + ts.length ≤ codes.length := by
        simp only [List.length_cons] at hcodes; omega
      have hi : i < codes.length := by simp only [List.length_cons] at hcodes; omega
      obtain ⟨m1, h1, h2⟩ := ih vs (i + 1) c rest hlen1 hsz1 hcodes1
      cases v with
      | none =>
        refine ⟨m1, readParams_null L codes t ts vs i c rest m1 h1, ?_⟩
        intro ds hds
        rw [decodeValues] at hds
        cases hd : decodeValues L codes ts vs (i + 1) with
        | error e => rw [hd] at hds; cases hds
        | ok ds1 => exact h2 ds1 hd
      | some b =>
        have hb : b.length < 2147483648 := hsz (some b) (List.mem_cons_self _ _) b rfl
        have hv := readParams_value L codes t ts vs i c rest b hb hi
        cases hdec : decodeOidDatum L t (codes.getD i 0) b with
        | error e =>
          rw [hdec] at hv
          refine ⟨(vs.map encodeValue).flatten ++ rest, ?_, ?_⟩
          · rw [hv, decodeValues, hdec]
          · intro ds hds
            rw [decodeValues, hdec] at hds
            cases hds
        | ok d =>
          rw [hdec] at hv
          refine ⟨m1, ?_, ?_⟩
          · rw [hv, h1, decodeValues, hdec]
            simp only [pqConn.andThen]
            cases decodeValues L codes ts vs (i + 1) <;> rfl
          · intro ds hds
            rw [decodeValues, hdec] at hds
            cases hd : decodeValues L codes ts vs (i + 1) with
            | error e => rw [hd] at hds; cases hds
            | ok ds1 => exact h2 ds1 hd


theorem bindColumns_exec (c : pqConn) (pn sn : Bytes) (stmt : preparedStatement)
    (params : List Datum) (codes : List Int) (extra : Bytes)
    (hcount : codes.length < 32768) (hc : ∀ x ∈ codes, IsInt16 x)
    (hcols : stmt.columns.length < 32768)
    (hacc : CountAccepted codes stmt.columns.length) :
    pqConn.bindColumns (c.setMsg (encodeCodes codes ++ extra)) pn sn stmt params
      = (.ok (), (({ c.setMsg extra with portals := (c.portals.set pn
            (portal.mk sn stmt params (appliedCodes codes stmt.columns.length))) } : pqConn).wb
          (fun w => w.initMsg ServerMsgBindComplete)).finishMsg) := by
  have hneg : ¬ (int16 stmt.columns.length < 0) := by rw [int16_ofNat _ hcols]; omega
  unfold pqConn.bindColumns
  dsimp only
  rw [if_neg hneg, encodeCodes, List.append_assoc, onBuf_getInt16_nat c _ _ hcount]
  simp only [pqConn.andThen]
  rw [int16_ofNat _ hcols, readFormatCodes_exec codes _ c extra hc hacc]
  rfl

theorem bindColumns_reject (c : pqConn) (pn sn : Bytes) (stmt : preparedStatement)
    (params : List Datum) (codes : List Int) (extra : Bytes)
    (hcount : codes.length < 32768) (hcols : stmt.columns.length < 32768)
    (hrej : ¬ CountAccepted codes stmt.columns.length) :
    ∃ m1, pqConn.bindColumns (c.setMsg (encodeCodes codes ++ extra)) pn sn stmt params
      = (c.setMsg m1).sendInternalError
          (ascii "expected, 0, 1, or " ++ itoa (stmt.columns.length : Int)
            ++ ascii " for number of format codes, got " ++ itoa (codes.length : Int)) := by
  have hneg : ¬ (int16 stmt.columns.length < 0) := by rw [int16_ofNat _ hcols]; omega
  refine ⟨(codes.map (fun x => be16 (uint16 x))).flatten ++ extra, ?_⟩
  unfold pqConn.bindColumns
  dsimp only
  rw [if_neg hneg, encodeCodes, List.append_assoc, onBuf_getInt16_nat c _ _ hcount]
  simp only [pqConn.andThen]
  rw [int16_ofNat _ hcols, readFormatCodes_reject codes _ _ hrej]

theorem bindParams_reject_count (E : Env) (c : pqConn) (pn sn : Bytes)
    (stmt : preparedStatement) (pf : List Int) (tail : Bytes)
    (hpc : pf.length < 32768) (hn : stmt.argTypes.length < 32768)
    (hrej : ¬ CountAccepted pf stmt.argTypes.length) :
    ∃ m1, pqConn.bindParams E (c.setMsg (encodeCodes pf ++ tail)) pn sn stmt
      = (c.setMsg m1).sendInternalError
          (ascii "wrong number of format codes specified: " ++ itoa (pf.length : Int)
            ++ ascii " for " ++ itoa (stmt.argTypes.length : Int) ++ ascii " parameters") := by
  have hneg : ¬ (int16 stmt.argTypes.length < 0) := by rw [int16_ofNat _ hn]; omega
  refine ⟨(pf.map (fun x => be16 (uint16 x))).flatten ++ tail, ?_⟩
  unfold pqConn.bindParams
  dsimp only
  rw [if_neg hneg, encodeCodes, List.append_assoc, onBuf_getInt16_nat c _ _ hpc]
  simp only [pqConn.andThen]
  rw [int16_ofNat _ hn, readFormatCodes_reject pf _ _ hrej]

theorem bindParams_reject_values (E : Env) (c : pqConn) (pn sn : Bytes)
    (stmt : preparedStatement) (pf : List Int) (k : Nat) (tail : Bytes)
    (hpc : pf.length < 32768) (hpcodes : ∀ x ∈ pf, IsInt16 x) (hk : k < 32768)
    (hn : stmt.argTypes.length < 32768)
    (hacc : CountAccepted pf stmt.argTypes.length) (hne : k ≠ stmt.argTypes.length) :
    pqConn.bindParams E (c.setMsg (encodeCodes pf ++ (be16 k ++ tail))) pn sn stmt
      = (c.setMsg tail).sendInternalError
          (ascii "expected " ++ itoa (stmt.argTypes.length : Int) ++ ascii " parameters, got "
            ++ itoa (k : Int)) := by
  have hneg : ¬ (int16 stmt.argTypes.length < 0) := by rw [int16_ofNat _ hn]; omega
  have hne2 : ((stmt.argTypes.length : Nat) : Int) ≠ (k : Int) := by omega
  unfold pqConn.bindParams
  dsimp only
  rw [if_neg hneg, encodeCodes, List.append_assoc, onBuf_getInt16_nat c _ _ hpc]
  simp only [pqConn.andThen]
  rw [int16_ofNat _ hn, readFormatCodes_exec pf _ c _ hpcodes hacc]
  simp only
  rw [onBuf_getInt16_nat c _ _ hk]
  simp only [pqConn.andThen]
  rw [if_pos hne2]

theorem bindParams_exec (E : Env) (c : pqConn) (pn sn : Bytes) (stmt : preparedStatement)
    (pf : List Int) (vals : List (Option Bytes)) (tail : Bytes)
    (hpc : pf.length < 32768) (hpcodes : ∀ x ∈ pf, IsInt16 x)
    (hsz : ∀ v ∈ vals, ∀ b, v = some b → b.length < 2147483648)
    (hn : stmt.argTypes.length < 32768)
    (hacc : CountAccepted pf stmt.argTypes.length)
    (hvals : vals.length = stmt.argTypes.length) :
    ∃ m1, pqConn.bindParams E (c.setMsg (encodeCodes pf ++ (be16 vals.length
          ++ ((vals.map encodeValue).flatten ++ tail)))) pn sn stmt
        = (match decodeValues E.lib (appliedCodes pf stmt.argTypes.length) stmt.argTypes vals 0 with
           | .error e => (c.setMsg m1).sendInternalError e
           | .ok ds => pqConn.bindColumns (c.setMsg m1) pn sn stmt
               (ds.take stmt.argTypes.length))
      ∧ (∀ ds, decodeValues E.lib (appliedCodes pf stmt.argTypes.length) stmt.argTypes vals 0
          = .ok ds → m1 = tail) := by
  have hneg : ¬ (int16 stmt.argTypes.length < 0) := by rw [int16_ofNat _ hn]; omega
  have hk : vals.length < 32768 := by omega
  have heq : ¬ (((stmt.argTypes.length : Nat) : Int) ≠ (vals.length : Int)) := by omega
  have hcl : 0 + stmt.argTypes.length ≤ (appliedCodes pf stmt.argTypes.length).length := by
    rw [appliedCodes_length pf _ hacc]; omega
  obtain ⟨m1, h1, h2⟩ := readParams_exec E.lib (appliedCodes pf stmt.argTypes.length)
    stmt.argTypes vals 0 c tail hvals hsz hcl
  refine ⟨m1, ?_, h2⟩
  unfold pqConn.bindParams
  dsimp only
  rw [if_neg hneg, encodeCodes, List.append_assoc, onBuf_getInt16_nat c _ _ hpc]
  simp only [pqConn.andThen]
  rw [int16_ofNat _ hn, readFormatCodes_exec pf _ c _ hpcodes hacc]
  simp only
  rw [onBuf_getInt16_nat c _ _ hk]
  simp only [pqConn.andThen]
  rw [if_neg heq, h1]
  simp only [pqConn.andThen, Int.toNat_ofNat]

theorem handleBind_dup (E : Env) (c : pqConn) (pn rest : Bytes) (p : portal)
    (hpn : 0 ∉ pn) (hne : pn ≠ []) (hp : c.portals.get pn = some p)
    (hmsg : c.readBuf.msg = pn ++ 0 :: rest) :
    pqConn.handleBind E c
      = (c.setMsg rest).sendInternalError
          (ascii "portal " ++ E.lib.quote pn ++ ascii " already exists") := by
  have hc : c = c.setMsg (pn ++ 0 :: rest) := by rw [← hmsg]; rfl
  have hdup : pn ≠ [] ∧ ((c.setMsg rest).portals.get pn).isSome = true := by
    refine ⟨hne, ?_⟩
    show (c.portals.get pn).isSome = true
    rw [hp]; rfl
  rw [pqConn.handleBind, hc, onBuf_getString c _ _ hpn]
  simp only [pqConn.andThen]
  rw [if_pos hdup]
  rfl

theorem handleBind_names (E : Env) (c : pqConn) (pn sn rest : Bytes)
    (hpn : 0 ∉ pn) (hsn : 0 ∉ sn) (hfree : pn = [] ∨ c.portals.get pn = none)
    (hmsg : c.readBuf.msg = pn ++ 0 :: (sn ++ 0 :: rest)) :
    pqConn.handleBind E c
      = (match c.preparedStatements.get sn with
         | none => (c.setMsg rest).sendInternalError
             (ascii "unknown prepared statement " ++ E.lib.quote sn)
         | some stmt => pqConn.bindParams E (c.setMsg rest) pn sn stmt) := by
  have hc : c = c.setMsg (pn ++ 0 :: (sn ++ 0 :: rest)) := by rw [← hmsg]; rfl
  have hdup : ¬ (pn ≠ [] ∧ ((c.setMsg (sn ++ 0 :: rest)).portals.get pn).isSome = true) := by
    rintro ⟨h1, h2⟩
    rcases hfree with h | h
    · exact h1 h
    · have h3 : (c.portals.get pn).isSome = true := h2
      rw [h] at h3
      cases h3
  rw [pqConn.handleBind, hc, onBuf_getString c _ _ hpn]
  simp only [pqConn.andThen]
  rw [if_neg hdup, onBuf_getString c _ _ hsn]
  simp only [pqConn.andThen, setMsg_setMsg]
  rfl

/-! ## Bind: what is stored, and what is rejected -/

theorem appliedCodes_getD (codes : List Int) (n i : Nat) (hi : i < n) :
    (appliedCodes codes n).getD i 0 = codeAt codes i := by
  unfold appliedCodes codeAt
  split
  · rw [List.getD_eq_getElem?_getD, List.getElem?_replicate_of_lt hi]; rfl
  · split
    · rw [List.getD_eq_getElem?_getD, List.getElem?_replicate_of_lt hi]; rfl
    · rfl

theorem decodeValues_spec (L : GoLib) (codes : List Int) (ts : List Nat) :
    ∀ (vs : List (Option Bytes)) (i : Nat) (ds : List Datum), vs.length = ts.length →
      decodeValues L codes ts vs i = .ok ds →
      ds.length = ts.length
      ∧ ∀ j, j < ts.length →
          (∀ b, vs.get? j = some (some b) →
            decodeOidDatum L (ts.getD j 0) (codes.getD (i + j) 0) b = .ok (ds.getD j Datum.nil))
          ∧ (vs.get? j = some none → ds.getD j Datum.nil = Datum.nil) := by
  induction ts with
  | nil =>
    intro vs i ds hlen h
    have hv : vs = [] := List.length_eq_zero.mp hlen
    subst hv
    have h0 : decodeValues L codes [] [] i = .ok [] := rfl
    rw [h0] at h
    cases h
    exact ⟨rfl, fun j hj => absurd hj (by simp)⟩
  | cons t ts ih =>
    intro vs i ds hlen h
    cases vs with
    | nil => simp at hlen
    | cons v vs =>
      have hlen1 : vs.length = ts.length := by simpa using hlen
      cases v with
      | none =>
        rw [decodeValues] at h
        cases hd : decodeValues L codes ts vs (i + 1) with
        | error e => rw [hd] at h; cases h
        | ok ds1 =>
          rw [hd] at h
          cases h
          obtain ⟨h1, h2⟩ := ih vs (i + 1) ds1 hlen1 hd
          refine ⟨by simp [h1], fun j hj => ?_⟩
          cases j with
          | zero => exact ⟨fun b hb => (by cases hb), fun _ => rfl⟩
          | succ j =>
            have hj1 : j < ts.length := by simpa using hj
            have := h2 j hj1
            rw [show i + 1 + j = i + (j + 1) from by omega] at this
            exact this
      | some b0 =>
        rw [decodeValues] at h
        cases hdec : decodeOidDatum L t (codes.getD i 0) b0 with
        | error e => rw [hdec] at h; cases h
        | ok d =>
          rw [hdec] at h
          cases hd : decodeValues L codes ts vs (i + 1) with
          | error e => rw [hd] at h; cases h
          | ok ds1 =>
            rw [hd] at h
            cases h
            obtain ⟨h1, h2⟩ := ih vs (i + 1) ds1 hlen1 hd
            refine ⟨by simp [h1], fun j hj => ?_⟩
            cases j with
            | zero =>
              refine ⟨fun b hb => ?_, fun hn => (by cases hn)⟩
              cases hb
              exact hdec
            | succ j =>
              have hj1 : j < ts.length := by simpa using hj
              have := h2 j hj1
              rw [show i + 1 + j = i + (j + 1) from by omega] at this
              exact this

theorem handleParse_dup (E : Env) (c : pqConn) (name rest : Bytes) (ps : preparedStatement)
    (hname : 0 ∉ name) (hne : name ≠ []) (hp : c.preparedStatements.get name = some ps)
    (hmsg : c.readBuf.msg = name ++ 0 :: rest) :
    pqConn.handleParse E c
      = (c.setMsg rest).sendInternalError
          (ascii "prepared statement " ++ E.lib.quote name ++ ascii " already exists") := by
  have hc : c = c.setMsg (name ++ 0 :: rest) := by rw [← hmsg]; rfl
  have hdup : name ≠ [] ∧ ((c.setMsg rest).preparedStatements.get name).isSome = true := by
    refine ⟨hne, ?_⟩
    show (c.preparedStatements.get name).isSome = true
    rw [hp]; rfl
  rw [pqConn.handleParse, hc, onBuf_getString c _ _ hname]
  simp only [pqConn.andThen]
  rw [if_pos hdup]
  rfl

theorem rejectedWith_not_bindCompleted {c : pqConn} {r : Res Unit × pqConn} {e : Bytes}
    (h : RejectedWith c r e) : ¬ BindCompleted c r :=
  not_bindCompleted_of_error ⟨h.1, e, h.2.1⟩

theorem bindMsg_encode_split (m : BindMsg) (extra : Bytes) :
    m.encode ++ extra
      = m.portalName ++ 0 :: (m.statementName ++ 0 :: (encodeCodes m.paramFormats
          ++ (be16 m.values.length ++ ((m.values.map encodeValue).flatten
          ++ (encodeCodes m.columnFormats ++ extra))))) := by
  simp [BindMsg.encode, List.append_assoc]


theorem handleBind_rejections (E : Env) (c : pqConn) (m : BindMsg) (extra : Bytes)
    (hw : m.WellFormed) (hmsg : c.readBuf.msg = m.encode ++ extra)
    (hfree : m.portalName = [] ∨ c.portals.get m.portalName = none) :
    (c.preparedStatements.get m.statementName = none →
      RejectedWith c (pqConn.handleBind E c)
        (ascii "unknown prepared statement " ++ E.lib.quote m.statementName))
    ∧ (∀ stmt, c.preparedStatements.get m.statementName = some stmt →
        stmt.argTypes.length < 32768 →
        (¬ CountAccepted m.paramFormats stmt.argTypes.length →
          RejectedWith c (pqConn.handleBind E c)
            (ascii "wrong number of format codes specified: "
              ++ itoa (m.paramFormats.length : Int) ++ ascii " for "
              ++ itoa (stmt.argTypes.length : Int) ++ ascii " parameters"))
        ∧ (CountAccepted m.paramFormats stmt.argTypes.length →
            (m.values.length ≠ stmt.argTypes.length →
              RejectedWith c (pqConn.handleBind E c)
                (ascii "expected " ++ itoa (stmt.argTypes.length : Int)
                  ++ ascii " parameters, got " ++ itoa (m.values.length : Int)))
            ∧ (m.values.length = stmt.argTypes.length →
                (∀ e, decodeValues E.lib (appliedCodes m.paramFormats stmt.argTypes.length)
                    stmt.argTypes m.values 0 = .error e →
                  RejectedWith c (pqConn.handleBind E c) e)
                ∧ (∀ ds, decodeValues E.lib (appliedCodes m.paramFormats stmt.argTypes.length)
                    stmt.argTypes m.values 0 = .ok ds →
                  stmt.columns.length < 32768 →
                  (¬ CountAccepted m.columnFormats stmt.columns.length →
                    RejectedWith c (pqConn.handleBind E c)
                      (ascii "expected, 0, 1, or " ++ itoa (stmt.columns.length : Int)
                        ++ ascii " for number of format codes, got "
                        ++ itoa (m.columnFormats.length : Int)))
                  ∧ (CountAccepted m.columnFormats stmt.columns.length →
                      pqConn.handleBind E c
                        = (.ok (), (({ c.setMsg extra with portals := (c.portals.set m.portalName
                            (portal.mk m.statementName stmt (ds.take stmt.argTypes.length)
                              (appliedCodes m.columnFormats stmt.columns.length))) } : pqConn).wb
                            (fun w => w.initMsg ServerMsgBindComplete)).finishMsg)))))) := by
  have hnames := handleBind_names E c m.portalName m.statementName _ hw.portalName
    hw.statementName hfree (hmsg.trans (bindMsg_encode_split m extra))
  refine ⟨fun hnone => ?_, fun stmt hs hn => ?_⟩
  · rw [hnames, hnone]
    exact rejectedWith_setMsg c _ _
  · rw [hs] at hnames
    replace hnames : pqConn.handleBind E c = pqConn.bindParams E (c.setMsg _) _ _ stmt := hnames
    refine ⟨fun hrej => ?_, fun hacc => ⟨fun hne => ?_, fun hvals => ?_⟩⟩
    · obtain ⟨m1, h1⟩ := bindParams_reject_count E c m.portalName m.statementName stmt
        m.paramFormats _ hw.paramCount hn hrej
      rw [hnames, h1]
      exact rejectedWith_setMsg c _ _
    · rw [hnames, bindParams_reject_values E c m.portalName m.statementName stmt m.paramFormats
        m.values.length _ hw.paramCount hw.paramCodes hw.valueCount hn hacc hne]
      exact rejectedWith_setMsg c _ _
    · obtain ⟨m1, h1, h2⟩ := bindParams_exec E c m.portalName m.statementName stmt
        m.paramFormats m.values (encodeCodes m.columnFormats ++ extra) hw.paramCount
        hw.paramCodes hw.valueSize hn hacc hvals
      refine ⟨fun e he => ?_, fun ds hds hcols => ?_⟩
      · rw [he] at h1
        rw [hnames, h1]
        exact rejectedWith_setMsg c _ _
      · have hm1 := h2 ds hds
        subst hm1
        rw [hds] at h1
        replace h1 : pqConn.bindParams E _ _ _ stmt = pqConn.bindColumns _ _ _ stmt _ := h1
        refine ⟨fun hrej => ?_, fun hcacc => ?_⟩
        · obtain ⟨m2, h3⟩ := bindColumns_reject c m.portalName m.statementName stmt
            (ds.take stmt.argTypes.length) m.columnFormats extra hw.columnCount hcols hrej
          rw [hnames, h1, h3]
          exact rejectedWith_setMsg c _ _
        · rw [hnames, h1, bindColumns_exec c m.portalName m.statementName stmt _
            m.columnFormats extra hw.columnCount hw.columnCodes hcols hcacc]


theorem finishMsg_bindComplete (c : pqConn) :
    ((c.wb (fun w => w.initMsg ServerMsgBindComplete)).finishMsg).out
      = c.out ++ [OutEvent.write [50, 0, 0, 0, 4]] := by
  have hf : ∀ w : writeBuffer, (w.initMsg ServerMsgBindComplete).finishMsg.2 = [50, 0, 0, 0, 4] := by
    intro w
    rw [finishMsg_frame _ ServerMsgBindComplete (w.putbuf 1) (w.putbuf 2) (w.putbuf 3)
      (w.putbuf 4) [] rfl]
    simp [frame, be32, uint32, ServerMsgBindComplete]
  simp only [pqConn.finishMsg, pqConn.wb, hf]

/-- C7: a Parse or Bind that does not complete leaves both registries as they
were. In particular a Parse whose non-empty name is registered is answered by an
ErrorResponse and the name keeps its statement; and a well-formed Bind message
is answered by an ErrorResponse, with no portal created, when its non-empty
portal name is registered, when its statement name is unknown, when the number
of parameter format codes is not 0, 1 or the number of argument types, when the
number of values differs from the number of argument types, when a value does
not decode, and when the number of column format codes is not 0, 1 or the number
of columns. -/
theorem failed_parse_bind_keep_registries :
    (∀ (E : Env) (c : pqConn), ¬ ParseCompleted c (pqConn.handleParse E c) →
        (pqConn.handleParse E c).2.preparedStatements = c.preparedStatements
        ∧ (pqConn.handleParse E c).2.portals = c.portals)
    ∧ (∀ (E : Env) (c : pqConn), ¬ BindCompleted c (pqConn.handleBind E c) →
        (pqConn.handleBind E c).2.preparedStatements = c.preparedStatements
        ∧ (pqConn.handleBind E c).2.portals = c.portals)
    ∧ (∀ (E : Env) (c : pqConn) (name rest : Bytes) (ps : preparedStatement),
        0 ∉ name → name ≠ [] → c.preparedStatements.get name = some ps →
        c.readBuf.msg = name ++ 0 :: rest →
        RejectedWith c (pqConn.handleParse E c)
          (ascii "prepared statement " ++ E.lib.quote name ++ ascii " already exists")
        ∧ (pqConn.handleParse E c).2.preparedStatements.get name = some ps)
    ∧ (∀ (E : Env) (c : pqConn) (m : BindMsg) (extra : Bytes), m.WellFormed →
        c.readBuf.msg = m.encode ++ extra →
        (∀ p, m.portalName ≠ [] → c.portals.get m.portalName = some p →
          RejectedWith c (pqConn.handleBind E c)
            (ascii "portal " ++ E.lib.quote m.portalName ++ ascii " already exists"))
        ∧ ((m.portalName = [] ∨ c.portals.get m.portalName = none) →
          (c.preparedStatements.get m.statementName = none →
            RejectedWith c (pqConn.handleBind E c)
              (ascii "unknown prepared statement " ++ E.lib.quote m.statementName))
          ∧ (∀ stmt, c.preparedStatements.get m.statementName = some stmt →
              stmt.argTypes.length < 32768 →
              (¬ CountAccepted m.paramFormats stmt.argTypes.length →
                RejectedWith c (pqConn.handleBind E c)
                  (ascii "wrong number of format codes specified: "
                    ++ itoa (m.paramFormats.length : Int) ++ ascii " for "
                    ++ itoa (stmt.argTypes.length : Int) ++ ascii " parameters"))
              ∧ (CountAccepted m.paramFormats stmt.argTypes.length →
                  m.values.length ≠ stmt.argTypes.length →
                  RejectedWith c (pqConn.handleBind E c)
                    (ascii "expected " ++ itoa (stmt.argTypes.length : Int)
                      ++ ascii " parameters, got " ++ itoa (m.values.length : Int)))
              ∧ (CountAccepted m.paramFormats stmt.argTypes.length →
                  m.values.length = stmt.argTypes.length →
                  ∀ e, decodeValues E.lib (appliedCodes m.paramFormats stmt.argTypes.length)
                      stmt.argTypes m.values 0 = .error e →
                  RejectedWith c (pqConn.handleBind E c) e)
              ∧ (CountAccepted m.paramFormats stmt.argTypes.length →
                  m.values.length = stmt.argTypes.length →
                  ∀ ds, decodeValues E.lib (appliedCodes m.paramFormats stmt.argTypes.length)
                      stmt.argTypes m.values 0 = .ok ds →
                  stmt.columns.length < 32768 →
                  ¬ CountAccepted m.columnFormats stmt.columns.length →
                  RejectedWith c (pqConn.handleBind E c)
                    (ascii "expected, 0, 1, or " ++ itoa (stmt.columns.length : Int)
                      ++ ascii " for number of format codes, got "
                      ++ itoa (m.columnFormats.length : Int)))))) := by
  refine ⟨fun E c h => ?_, fun E c h => ?_, fun E c name rest ps h0 hne hp hmsg => ?_,
    fun E c m extra hw hmsg => ⟨fun p hne hp => ?_, fun hfree => ?_⟩⟩
  · rcases handleParse_post E c with h1 | h1
    · exact ⟨h1.preparedStatements, h1.portals⟩
    · exact absurd h1.1 h
  · rcases handleBind_post E c with h1 | h1
    · exact ⟨h1.preparedStatements, h1.portals⟩
    · exact absurd h1.1 h
  · rw [handleParse_dup E c name rest ps h0 hne hp hmsg]
    have hr := rejectedWith_setMsg c rest
      (ascii "prepared statement " ++ E.lib.quote name ++ ascii " already exists")
    refine ⟨hr, ?_⟩
    rw [hr.2.2.1]
    exact hp
  · rw [handleBind_dup E c m.portalName _ p hw.portalName hne hp
      (hmsg.trans (bindMsg_encode_split m extra))]
    exact rejectedWith_setMsg c _ _
  · have hall := handleBind_rejections E c m extra hw hmsg hfree
    refine ⟨hall.1, fun stmt hs hn => ?_⟩
    have h2 := hall.2 stmt hs hn
    exact ⟨h2.1, fun hacc => (h2.2 hacc).1, fun hacc hv => ((h2.2 hacc).2 hv).1,
      fun hacc hv ds hds hcols => ((((h2.2 hacc).2 hv).2 ds hds hcols).1)⟩

/-- C10: a well-formed Bind message that is answered by BindComplete names a
registered statement (`n` argument types, `m` columns), carries 0, 1 or `n`
parameter format codes, `n` values and 0, 1 or `m` column format codes; the one
frame written is BindComplete (`2`, length 4); the portal stored under the
portal name holds the statement, `m` column format codes and `n` parameters;
the code in force at position `i` is text for no codes, the single code for
one code and the `i`-th code otherwise, for parameters and columns alike; and
the parameter stored for a value with a non-negative length is what
`decodeOidDatum` returns for the `i`-th argument type, that code and the
value's bytes. -/
theorem bind_applies_format_codes (E : Env) (c : pqConn) (m : BindMsg) (extra : Bytes)
    (hw : m.WellFormed) (hmsg : c.readBuf.msg = m.encode ++ extra)
    (hreg : ∀ ps, c.preparedStatements.get m.statementName = some ps →
      ps.argTypes.length < 32768 ∧ ps.columns.length < 32768)
    (hdone : BindCompleted c (pqConn.handleBind E c)) :
    ∃ stmt ds, c.preparedStatements.get m.statementName = some stmt
      ∧ CountAccepted m.paramFormats stmt.argTypes.length
      ∧ m.values.length = stmt.argTypes.length
      ∧ CountAccepted m.columnFormats stmt.columns.length
      ∧ (pqConn.handleBind E c).1 = .ok ()
      ∧ (pqConn.handleBind E c).2.out = c.out ++ [OutEvent.write [50, 0, 0, 0, 4]]
      ∧ (pqConn.handleBind E c).2.portals = c.portals.set m.portalName
          (portal.mk m.statementName stmt ds
            (appliedCodes m.columnFormats stmt.columns.length))
      ∧ (pqConn.handleBind E c).2.preparedStatements = c.preparedStatements
      ∧ ds.length = stmt.argTypes.length
      ∧ (appliedCodes m.columnFormats stmt.columns.length).length = stmt.columns.length
      ∧ (∀ i, i < stmt.columns.length →
          (appliedCodes m.columnFormats stmt.columns.length).getD i 0
            = codeAt m.columnFormats i)
      ∧ (∀ i, i < stmt.argTypes.length →
          (∀ b, m.values.get? i = some (some b) →
            decodeOidDatum E.lib (stmt.argTypes.getD i 0) (codeAt m.paramFormats i) b
              = .ok (ds.getD i Datum.nil))
          ∧ (m.values.get? i = some none → ds.getD i Datum.nil = Datum.nil)) := by
  have hfree : m.portalName = [] ∨ c.portals.get m.portalName = none := by
    by_cases hne : m.portalName = []
    · exact Or.inl hne
    · cases hp : c.portals.get m.portalName with
      | none => exact Or.inr rfl
      | some p =>
        have hd := handleBind_dup E c m.portalName _ p hw.portalName hne hp
          (hmsg.trans (bindMsg_encode_split m extra))
        rw [hd] at hdone
        exact absurd hdone (rejectedWith_not_bindCompleted (rejectedWith_setMsg c _ _))
  have hall := handleBind_rejections E c m extra hw hmsg hfree
  cases hs : c.preparedStatements.get m.statementName with
  | none => exact absurd hdone (rejectedWith_not_bindCompleted (hall.1 hs))
  | some stmt =>
    obtain ⟨hn, hcols⟩ := hreg stmt hs
    have h2 := hall.2 stmt hs hn
    by_cases hpacc : CountAccepted m.paramFormats stmt.argTypes.length
    swap
    · exact absurd hdone (rejectedWith_not_bindCompleted (h2.1 hpacc))
    by_cases hvals : m.values.length = stmt.argTypes.length
    swap
    · exact absurd hdone (rejectedWith_not_bindCompleted ((h2.2 hpacc).1 hvals))
    have h3 := (h2.2 hpacc).2 hvals
    cases hdec : decodeValues E.lib (appliedCodes m.paramFormats stmt.argTypes.length)
        stmt.argTypes m.values 0 with
    | error e => exact absurd hdone (rejectedWith_not_bindCompleted (h3.1 e hdec))
    | ok ds =>
      have h4 := h3.2 ds hdec hcols
      by_cases hcacc : CountAccepted m.columnFormats stmt.columns.length
      swap
      · exact absurd hdone (rejectedWith_not_bindCompleted (h4.1 hcacc))
      have hrun := h4.2 hcacc
      obtain ⟨hlen, hpt⟩ := decodeValues_spec E.lib _ stmt.argTypes m.values 0 ds hvals hdec
      have htake : ds.take stmt.argTypes.length = ds := by
        rw [← hlen]; exact List.take_length ds
      rw [htake] at hrun
      refine ⟨stmt, ds, rfl, hpacc, hvals, hcacc, ?_, ?_, ?_, ?_, hlen,
        appliedCodes_length _ _ hcacc, fun i hi => appliedCodes_getD _ _ i hi, fun i hi => ?_⟩
      · rw [hrun]
      · rw [hrun]; exact finishMsg_bindComplete _
      · rw [hrun]; rfl
      · rw [hrun]; rfl
      · have := hpt i hi
        rw [Nat.zero_add, appliedCodes_getD _ _ i hi] at this
        exact this


theorem afterParseBool_s1 :
    afterParseBool.preparedStatements.get (ascii "s1")
      = some (preparedStatement.mk (ascii "SELECT $1") [T_bool] fake.makeFakeColumns) := by
  decide!

theorem bindMaybe_wellFormed : bindMaybe.WellFormed :=
  ⟨by decide, by decide, by decide, fun x hx => (by cases hx), by decide,
    fun v hv b hb => (by
      simp only [bindMaybe, List.mem_singleton] at hv
      subst hv
      cases hb
      decide),
    by decide, fun x hx => (by cases hx)⟩

theorem bindTrue_wellFormed : bindTrue.WellFormed :=
  ⟨by decide, by decide, by decide,
    fun x hx => (by
      simp only [bindTrue, List.mem_singleton] at hx
      subst hx
      exact ⟨by decide, by decide⟩),
    by decide,
    fun v hv b hb => (by
      simp only [bindTrue, List.mem_singleton] at hv
      subst hv
      cases hb
      decide),
    by decide,
    fun x hx => (by
      simp only [bindTrue, List.mem_singleton] at hx
      subst hx
      exact ⟨by decide, by decide⟩)⟩

/-- C7 on the fake server: after a Parse of `s1` with a bool hint, a Bind whose
value is `maybe` is rejected with the ParseBool error and creates no portal. -/
theorem failed_parse_bind_keep_registries_witness :
    RejectedWith (afterParseBool.setMsg bindMaybe.encode)
      (pqConn.handleBind fakeEnv (afterParseBool.setMsg bindMaybe.encode)) maybeError :=
  ((((failed_parse_bind_keep_registries.2.2.2 fakeEnv (afterParseBool.setMsg bindMaybe.encode)
      bindMaybe [] bindMaybe_wellFormed (List.append_nil _).symm).2 (Or.inl rfl)).2
      (preparedStatement.mk (ascii "SELECT $1") [T_bool] fake.makeFakeColumns)
      afterParseBool_s1 (by decide)).2.2.1 (Or.inl rfl) rfl maybeError rfl)

/-- C10 on the fake server: after a Parse of `s1` with a bool hint, a Bind of
portal `p1` with one text parameter code, the value `true` and one binary
column code stores the parameter `DBool true` and three binary column codes. -/
theorem bind_applies_format_codes_witness :
    ∃ stmt ds,
      (afterParseBool.setMsg bindTrue.encode).preparedStatements.get bindTrue.statementName
        = some stmt
      ∧ CountAccepted bindTrue.paramFormats stmt.argTypes.length
      ∧ bindTrue.values.length = stmt.argTypes.length
      ∧ CountAccepted bindTrue.columnFormats stmt.columns.length
      ∧ (pqConn.handleBind fakeEnv (afterParseBool.setMsg bindTrue.encode)).1 = .ok ()
      ∧ (pqConn.handleBind fakeEnv (afterParseBool.setMsg bindTrue.encode)).2.out
          = (afterParseBool.setMsg bindTrue.encode).out ++ [OutEvent.write [50, 0, 0, 0, 4]]
      ∧ (pqConn.handleBind fakeEnv (afterParseBool.setMsg bindTrue.encode)).2.portals
          = (afterParseBool.setMsg bindTrue.encode).portals.set bindTrue.portalName
              (portal.mk bindTrue.statementName stmt ds
                (appliedCodes bindTrue.columnFormats stmt.columns.length))
      ∧ (pqConn.handleBind fakeEnv (afterParseBool.setMsg bindTrue.encode)).2.preparedStatements
          = (afterParseBool.setMsg bindTrue.encode).preparedStatements
      ∧ ds.length = stmt.argTypes.length
      ∧ (appliedCodes bindTrue.columnFormats stmt.columns.length).length = stmt.columns.length
      ∧ (∀ i, i < stmt.columns.length →
          (appliedCodes bindTrue.columnFormats stmt.columns.length).getD i 0
            = codeAt bindTrue.columnFormats i)
      ∧ (∀ i, i < stmt.argTypes.length →
          (∀ b, bindTrue.values.get? i = some (some b) →
            decodeOidDatum fakeEnv.lib (stmt.argTypes.getD i 0) (codeAt bindTrue.paramFormats i) b
              = .ok (ds.getD i Datum.nil))
          ∧ (bindTrue.values.get? i = some none → ds.getD i Datum.nil = Datum.nil)) :=
  bind_applies_format_codes fakeEnv (afterParseBool.setMsg bindTrue.encode) bindTrue []
    bindTrue_wellFormed (List.append_nil _).symm
    (fun ps h => by
      rw [show (afterParseBool.setMsg bindTrue.encode).preparedStatements.get
        bindTrue.statementName = _ from afterParseBool_s1] at h
      cases h
      exact ⟨by decide, by decide⟩)
    ⟨by decide!, by decide!⟩

theorem bindTrue_stored :
    ((pqConn.handleBind fakeEnv (afterParseBool.setMsg bindTrue.encode)).2.portals.get
        (ascii "p1")).map (fun p => (p.params, p.format))
      = some ([Datum.DBool true], [formatBinary, formatBinary, formatBinary]) := by
  decide!

/-! ## Close -/

theorem onBuf_getPrepareType (c : pqConn) (t : Nat) (rest : Bytes) :
    (c.setMsg (t :: rest)).onBuf readBuffer.getPrepareType = (.ok t, c.setMsg rest) := by
  apply onBuf_setMsg
  intro b
  have h1 : ¬ ((((t :: rest).length : Nat) : Int) < 1) := by
    simp only [List.length_cons]; omega
  simp only [readBuffer.getPrepareType, readBuffer.getBytes]
  rw [if_neg h1, if_neg (by decide)]
  rfl

theorem handleClose_exec (c : pqConn) (typ : Nat) (name extra : Bytes) (hname : 0 ∉ name)
    (hmsg : c.readBuf.msg = typ :: (name ++ 0 :: extra)) :
    pqConn.handleClose c
      = (if typ = PrepareStatement then
          (.ok (), ({ c.setMsg extra with
            preparedStatements := (c.preparedStatements.delete name) } : pqConn))
        else if typ = PreparePortal then
          (.ok (), ({ c.setMsg extra with portals := (c.portals.delete name) } : pqConn))
        else
          (.err (ascii "unknown close type: " ++ pqConn.fmtBadVerbS (ascii "libpq.PrepareType") typ),
            c.setMsg extra)) := by
  have hc : c = c.setMsg (typ :: (name ++ 0 :: extra)) := by rw [← hmsg]; rfl
  rw [pqConn.handleClose, hc, onBuf_getPrepareType]
  simp only
  rw [onBuf_getString c _ _ hname]
  simp only [pqConn.andThen, setMsg_setMsg]
  rfl

theorem goMap_get_delete {V : Type} (m : GoMap V) (k j : Bytes) :
    (m.delete k).get j = if j = k then none else m.get j := by
  induction m with
  | nil => simp [GoMap.delete, GoMap.get, List.lookup]
  | cons e m ih =>
    rcases e with ⟨a, v⟩
    simp only [GoMap.delete, GoMap.get] at ih ⊢
    by_cases ha : a = k
    · subst ha
      rw [List.filter_cons_of_neg (by simp), ih]
      by_cases hj : j = a
      · simp [hj]
      · have hb : (j == a) = false := by simpa using hj
        simp [List.lookup_cons, hj, hb]
    · rw [List.filter_cons_of_pos (by simpa using ha), List.lookup_cons, List.lookup_cons, ih]
      by_cases hja : j = a
      · subst hja
        simp [ha]
      · have hb : (j == a) = false := by simpa using hja
        simp [hb]

theorem goMap_delete_absent {V : Type} (m : GoMap V) (k : Bytes) (h : m.get k = none) :
    m.delete k = m := by
  induction m with
  | nil => rfl
  | cons e m ih =>
    rcases e with ⟨a, v⟩
    simp only [GoMap.get, List.lookup_cons] at h
    by_cases ha : k = a
    · subst ha
      simp at h
    · rw [show (k == a) = false from by simpa using ha] at h
      simp only [GoMap.delete]
      rw [List.filter_cons_of_pos (by simpa using (fun hh : a = k => ha hh.symm))]
      exact congrArg _ (ih h)

theorem goMap_mem_delete {V : Type} (m : GoMap V) (k : Bytes) (e : Bytes × V) :
    e ∈ m.delete k ↔ e ∈ m ∧ e.1 ≠ k := by
  simp [GoMap.delete, List.mem_filter]

theorem goMap_delete_delete {V : Type} (m : GoMap V) (k : Bytes) :
    (m.delete k).delete k = m.delete k := by
  simp [GoMap.delete, List.filter_filter]


/-- C14 (the code at the failing input): a well-formed Close of a statement or
of a portal returns nil and writes nothing, so no CloseComplete frame is sent;
on the fake server a Close of `s1` followed by a Sync produces the two
ReadyForQuery frames of the loop and nothing in between. -/
theorem close_sends_no_closeComplete :
    (∀ (c : pqConn) (typ : Nat) (name extra : Bytes),
        typ = PrepareStatement ∨ typ = PreparePortal → 0 ∉ name →
        c.readBuf.msg = typ :: (name ++ 0 :: extra) →
        (pqConn.handleClose c).1 = .ok () ∧ (pqConn.handleClose c).2.out = c.out)
    ∧ (pqConn.serveLoop fakeEnv 3 (pqConn.new (closeStatementMsg ++ syncMsg) [] [])).map
          (fun r => (r.1, r.2.out))
        = some (.err errEOF,
            [OutEvent.write (readyFrame 73), OutEvent.flush,
             OutEvent.write (readyFrame 73), OutEvent.flush])
    ∧ frame ServerMsgCloseComplete [] = [51, 0, 0, 0, 4] := by
  refine ⟨fun c typ name extra htyp hname hmsg => ?_, by decide!, by decide⟩
  rw [handleClose_exec c typ name extra hname hmsg]
  rcases htyp with h | h
  · rw [if_pos h]; exact ⟨rfl, rfl⟩
  · have h1 : ¬ typ = PrepareStatement := by rw [h]; decide
    rw [if_neg h1, if_pos h]; exact ⟨rfl, rfl⟩

/-- C15: a well-formed Close of the statement `name` returns nil, removes
exactly the key `name` from the statement registry (every other entry is kept,
in place) and leaves the portal registry as it was, portals bound to that
statement included; a Close of the portal `name` does the same to the portal
registry and leaves the statement registry as it was; closing a name that is
not registered changes neither registry, and a second Close of the same name
changes nothing. -/
theorem close_removes_exactly (c : pqConn) (name extra : Bytes) (hname : 0 ∉ name) :
    (c.readBuf.msg = PrepareStatement :: (name ++ 0 :: extra) →
        (pqConn.handleClose c).1 = .ok ()
        ∧ (pqConn.handleClose c).2.portals = c.portals
        ∧ (pqConn.handleClose c).2.preparedStatements = c.preparedStatements.delete name
        ∧ (∀ k, (pqConn.handleClose c).2.preparedStatements.get k
            = if k = name then none else c.preparedStatements.get k)
        ∧ (∀ e, e ∈ (pqConn.handleClose c).2.preparedStatements
            ↔ e ∈ c.preparedStatements ∧ e.1 ≠ name)
        ∧ (c.preparedStatements.get name = none →
            (pqConn.handleClose c).2.preparedStatements = c.preparedStatements)
        ∧ (∀ extra2, (pqConn.handleClose ((pqConn.handleClose c).2.setMsg
              (PrepareStatement :: (name ++ 0 :: extra2)))).2.preparedStatements
            = (pqConn.handleClose c).2.preparedStatements))
    ∧ (c.readBuf.msg = PreparePortal :: (name ++ 0 :: extra) →
        (pqConn.handleClose c).1 = .ok ()
        ∧ (pqConn.handleClose c).2.preparedStatements = c.preparedStatements
        ∧ (pqConn.handleClose c).2.portals = c.portals.delete name
        ∧ (∀ k, (pqConn.handleClose c).2.portals.get k
            = if k = name then none else c.portals.get k)
        ∧ (∀ e, e ∈ (pqConn.handleClose c).2.portals ↔ e ∈ c.portals ∧ e.1 ≠ name)
        ∧ (c.portals.get name = none → (pqConn.handleClose c).2.portals = c.portals)
        ∧ (∀ extra2, (pqConn.handleClose ((pqConn.handleClose c).2.setMsg
              (PreparePortal :: (name ++ 0 :: extra2)))).2.portals
            = (pqConn.handleClose c).2.portals)) := by
  constructor
  · intro hmsg
    have h1 := handleClose_exec c PrepareStatement name extra hname hmsg
    rw [if_pos rfl] at h1
    have h2 : ∀ extra2, pqConn.handleClose ((pqConn.handleClose c).2.setMsg
        (PrepareStatement :: (name ++ 0 :: extra2))) = _ :=
      fun extra2 => handleClose_exec _ PrepareStatement name extra2 hname rfl
    refine ⟨by rw [h1], (by rw [h1]; rfl), by rw [h1], fun k => ?_, fun e => ?_, fun habs => ?_,
      fun extra2 => ?_⟩
    · rw [h1]; exact goMap_get_delete _ _ _
    · rw [h1]; exact goMap_mem_delete _ _ _
    · rw [h1]; exact goMap_delete_absent _ _ habs
    · rw [h2 extra2, if_pos rfl, h1]
      exact goMap_delete_delete _ _
  · intro hmsg
    have h1 := handleClose_exec c PreparePortal name extra hname hmsg
    rw [if_neg (by decide), if_pos rfl] at h1
    have h2 : ∀ extra2, pqConn.handleClose ((pqConn.handleClose c).2.setMsg
        (PreparePortal :: (name ++ 0 :: extra2))) = _ :=
      fun extra2 => handleClose_exec _ PreparePortal name extra2 hname rfl
    refine ⟨by rw [h1], (by rw [h1]; rfl), by rw [h1], fun k => ?_, fun e => ?_, fun habs => ?_,
      fun extra2 => ?_⟩
    · rw [h1]; exact goMap_get_delete _ _ _
    · rw [h1]; exact goMap_mem_delete _ _ _
    · rw [h1]; exact goMap_delete_absent _ _ habs
    · rw [h2 extra2, if_neg (by decide), if_pos rfl, h1]
      exact goMap_delete_delete _ _

/-- C15 on the connection of the scenario "portal outlives its statement",
after Parse and Bind: closing the statement `s1` keeps the portal `p1`. -/
theorem close_removes_exactly_witness :
    ((runIters fakeEnv 2 (pqConn.new scenarioClosed [] [])).setMsg
        (PrepareStatement :: (ascii "s1" ++ 0 :: []))).readBuf.msg
      = PrepareStatement :: (ascii "s1" ++ 0 :: [])
    ∧ ((pqConn.handleClose ((runIters fakeEnv 2 (pqConn.new scenarioClosed [] [])).setMsg
        (PrepareStatement :: (ascii "s1" ++ 0 :: [])))).2.portals.get (ascii "p1")).isSome = true
    ∧ (pqConn.handleClose ((runIters fakeEnv 2 (pqConn.new scenarioClosed [] [])).setMsg
        (PrepareStatement :: (ascii "s1" ++ 0 :: [])))).2.preparedStatements.get (ascii "s1")
      = none :=
  ⟨rfl, by
    rw [((close_removes_exactly ((runIters fakeEnv 2 (pqConn.new scenarioClosed [] [])).setMsg
      (PrepareStatement :: (ascii "s1" ++ 0 :: []))) (ascii "s1") [] (by decide)).1 rfl).2.1]
    decide!, by
    rw [((close_removes_exactly ((runIters fakeEnv 2 (pqConn.new scenarioClosed [] [])).setMsg
      (PrepareStatement :: (ascii "s1" ++ 0 :: []))) (ascii "s1") [] (by decide)).1
      rfl).2.2.2.1 (ascii "s1")]
    rfl⟩

/-! ## NULL parameters, and Describe of a portal whose statement was closed -/

/-- C11 (the code at the failing input): on the fake server, after a Parse of
`s1` with a bool hint, a Bind whose one value has length -1 succeeds and reads
no value bytes, but the parameter it stores is the nil Datum, not `DNull`:
`writeTextDatum` and `writeBinaryDatum` reject nil as an unsupported type and
`typeForDatum` panics on it, whereas `DNull` is encoded as length -1 and has the
zero pgType. -/
theorem bind_null_parameter_is_nil :
    (pqConn.handleBind fakeEnv (afterParseBool.setMsg bindNull.encode)).1 = .ok ()
    ∧ (pqConn.handleBind fakeEnv (afterParseBool.setMsg bindNull.encode)).2.out
        = afterParseBool.out ++ [OutEvent.write [50, 0, 0, 0, 4]]
    ∧ (pqConn.handleBind fakeEnv (afterParseBool.setMsg bindNull.encode)).2.readBuf.msg = []
    ∧ ((pqConn.handleBind fakeEnv (afterParseBool.setMsg bindNull.encode)).2.portals.get
        (ascii "p1")).map (fun p => p.params) = some [Datum.nil]
    ∧ Datum.nil ≠ Datum.dNull
    ∧ (writeBuffer.writeTextDatum plainLib writeBuffer.zero Datum.nil).1
        = .err (ascii "unsupported type <nil>")
    ∧ (writeBuffer.writeBinaryDatum writeBuffer.zero Datum.nil).1
        = .err (ascii "unsupported type <nil>")
    ∧ typeForDatum Datum.nil = .panic
    ∧ (writeBuffer.writeTextDatum plainLib writeBuffer.zero Datum.dNull).1 = .ok ()
    ∧ (writeBuffer.writeTextDatum plainLib writeBuffer.zero Datum.dNull).2.buf = be32 (uint32 (-1))
    ∧ (writeBuffer.writeBinaryDatum writeBuffer.zero Datum.dNull).2.buf = be32 (uint32 (-1))
    ∧ typeForDatum Datum.dNull = .ok { oid := 0, size := 0 } := by
  decide!

/-- C13 (the code at the failing input): on the fake server, after Parse `s1`,
Bind `p1` and Close of the statement `s1`, the portal `p1` is still registered
with the statement it captured and Execute on it streams that statement's rows,
but Describe of the portal `p1` looks the statement up by name in the registry
and answers with the ErrorResponse "unknown prepared statement" (quoting the
portal name) instead of a RowDescription. -/
theorem describe_portal_looks_up_registry :
    ((runIters fakeEnv 3 (pqConn.new scenarioClosed [] [])).portals.get (ascii "p1")).map
        (fun p => p.stmt.columns) = some fake.makeFakeColumns
    ∧ (runIters fakeEnv 3 (pqConn.new scenarioClosed [] [])).preparedStatements.get (ascii "s1")
        = none
    ∧ (runIters fakeEnv 4 (pqConn.new scenarioClosed [] [])).out
        = (runIters fakeEnv 3 (pqConn.new scenarioClosed [] [])).out ++ fakeRowsOut
    ∧ (runIters fakeEnv 5 (pqConn.new scenarioClosed [] [])).out
        = (runIters fakeEnv 4 (pqConn.new scenarioClosed [] [])).out
          ++ [OutEvent.write (frame ServerMsgErrorResponse (errorBody CodeInternalError
                (ascii "unknown prepared statement " ++ plainLib.quote (ascii "p1")))),
              OutEvent.flush] := by
  decide!

/-! ## What the write buffer holds -/

theorem putInt16_buf (w : writeBuffer) (v : Int) : (w.putInt16 v).buf = w.buf ++ be16 (uint16 v) :=
  rfl

theorem putInt32_buf (w : writeBuffer) (v : Int) : (w.putInt32 v).buf = w.buf ++ be32 (uint32 v) :=
  rfl

theorem putInt64_buf (w : writeBuffer) (v : Int) : (w.putInt64 v).buf = w.buf ++ be64 (uint64 v) :=
  rfl

theorem Write_buf (w : writeBuffer) (p : Bytes) : (w.Write p).buf = w.buf ++ p := rfl

theorem WriteByte_buf (w : writeBuffer) (x : Nat) : (w.WriteByte x).buf = w.buf ++ [x] := rfl

theorem writeString_buf (w : writeBuffer) (s : Bytes) :
    (w.writeString s).buf = w.buf ++ (s ++ [0]) := by
  simp [writeBuffer.writeString, writeBuffer.Write, writeBuffer.WriteByte]

theorem putValue_buf (w : writeBuffer) (s : Bytes) :
    (w.putValue s).buf = w.buf ++ (be32 (uint32 (int32 s.length)) ++ s) := by
  rw [writeBuffer.putValue, Write_buf, putInt32_buf, List.append_assoc]

theorem scratchAppend_buf (w : writeBuffer) (s : Bytes) : (w.scratchAppend s).buf = w.buf := by
  unfold writeBuffer.scratchAppend
  split <;> rfl

theorem initMsg_buf (w : writeBuffer) (t : Nat) :
    (w.initMsg t).buf = [t, w.putbuf 1, w.putbuf 2, w.putbuf 3, w.putbuf 4] := rfl

theorem zero_buf : writeBuffer.zero.buf = [] := rfl

theorem writeTextDatum_buf (L : GoLib) (w : writeBuffer) (d : Datum) :
    (w.writeTextDatum L d).1 = (writeBuffer.zero.writeTextDatum L d).1
    ∧ (w.writeTextDatum L d).2.buf = w.buf ++ (writeBuffer.zero.writeTextDatum L d).2.buf := by
  cases d <;> refine ⟨rfl, ?_⟩ <;> dsimp only [writeBuffer.writeTextDatum] <;>
    first
    | rw [putValue_buf, putValue_buf, scratchAppend_buf, scratchAppend_buf, zero_buf,
        List.nil_append]
    | rw [putValue_buf, putValue_buf, zero_buf, List.nil_append]
    | rw [WriteByte_buf, WriteByte_buf, putInt32_buf, putInt32_buf, zero_buf, List.nil_append,
        List.append_assoc]
    | rw [putInt32_buf, putInt32_buf, zero_buf, List.nil_append]
    | rw [zero_buf, List.append_nil]

theorem writeBinaryDatum_buf (w : writeBuffer) (d : Datum) :
    (w.writeBinaryDatum d).1 = (writeBuffer.zero.writeBinaryDatum d).1
    ∧ (w.writeBinaryDatum d).2.buf = w.buf ++ (writeBuffer.zero.writeBinaryDatum d).2.buf := by
  cases d <;> refine ⟨rfl, ?_⟩ <;> dsimp only [writeBuffer.writeBinaryDatum] <;>
    first
    | rw [putInt64_buf, putInt64_buf, putInt32_buf, putInt32_buf, zero_buf, List.nil_append,
        List.append_assoc]
    | rw [putValue_buf, putValue_buf, zero_buf, List.nil_append]
    | rw [putInt32_buf, putInt32_buf, zero_buf, List.nil_append]
    | rw [zero_buf, List.append_nil]


theorem be16_uint16_int16 (n : Nat) : be16 (uint16 (int16 n)) = be16 n := by
  simp only [be16, uint16, int16]
  split <;> (congr 1 <;> [omega; (congr 1; omega)])

theorem be32_uint32_int32 (n : Nat) : be32 (uint32 (int32 n)) = be32 n := by
  simp only [be32, uint32, int32]
  split <;> (congr 1 <;> [omega; (congr 1 <;> [omega; (congr 1 <;> [omega; (congr 1; omega)])])])

/-! ## The frames of a response -/

theorem finishMsg_out (c : pqConn) (t a b c4 d : Nat) (body : Bytes)
    (h : c.writeBuf.buf = t :: a :: b :: c4 :: d :: body) :
    c.finishMsg.out = c.out ++ [OutEvent.write (frame t body)] := by
  simp only [pqConn.finishMsg, finishMsg_frame c.writeBuf t a b c4 d body h]

theorem sendCommandComplete_out (c : pqConn) (tag : Bytes) :
    (c.sendCommandComplete tag).1 = .ok ()
    ∧ (c.sendCommandComplete tag).2.out
        = c.out ++ [OutEvent.write (frame ServerMsgCommandComplete (tag ++ [0]))] := by
  refine ⟨rfl, ?_⟩
  unfold pqConn.sendCommandComplete
  apply finishMsg_out _ _ (c.writeBuf.putbuf 1) (c.writeBuf.putbuf 2) (c.writeBuf.putbuf 3)
    (c.writeBuf.putbuf 4)
  show (((c.writeBuf.initMsg ServerMsgCommandComplete).Write tag).WriteByte 0).buf = _
  rw [WriteByte_buf, Write_buf, initMsg_buf]
  simp

theorem pgTypeOf_ok {d : Datum} {t : pgType} (h : typeForDatum d = .ok t) : pgTypeOf d = t := by
  unfold pgTypeOf
  rw [h]

theorem knownType_ok {d : Datum} (h : knownType d = true) : ∃ t, typeForDatum d = .ok t := by
  unfold knownType at h
  cases ht : typeForDatum d with
  | ok t => exact ⟨t, rfl⟩
  | err e => rw [ht] at h; cases h
  | panic => rw [ht] at h; cases h

theorem rowDescriptionColumns_ok (formatCodes : Option (List Int)) (columns : List ResultColumn) :
    ∀ (i : Nat) (w : writeBuffer), columnsDescribable formatCodes columns i = true →
      ∃ w1, pqConn.rowDescriptionColumns formatCodes columns i w = (.ok (), w1)
        ∧ w1.buf = w.buf ++ columnDescriptions formatCodes columns i := by
  induction columns with
  | nil => intro i w _; exact ⟨w, rfl, by simp [columnDescriptions]⟩
  | cons column rest ih =>
    intro i w h
    simp only [columnsDescribable, Bool.and_eq_true] at h
    obtain ⟨⟨hk, hc⟩, hr⟩ := h
    obtain ⟨t, ht⟩ := knownType_ok hk
    have hbuf : ∀ code : Int,
        (((((((w.writeString column.Name).putInt32 0).putInt16 0).putInt32 (int32 t.oid)).putInt16
          (int16 (uint16 t.size))).putInt32 0).putInt16 code).buf
          = w.buf ++ columnDescription column code := by
      intro code
      rw [putInt16_buf, putInt32_buf, putInt16_buf, putInt32_buf, putInt16_buf, putInt32_buf,
        writeString_buf, be32_uint32_int32, be16_uint16_int16, columnDescription,
        pgTypeOf_ok ht]
      simp only [List.append_assoc]
      rfl
    cases formatCodes with
    | none =>
      obtain ⟨w1, h1, h2⟩ := ih (i + 1) (((((((w.writeString column.Name).putInt32 0).putInt16
        0).putInt32 (int32 t.oid)).putInt16 (int16 (uint16 t.size))).putInt32 0).putInt16
        formatText) hr
      refine ⟨w1, ?_, ?_⟩
      · simp only [pqConn.rowDescriptionColumns, ht, h1]
      · rw [h2, hbuf, columnDescriptions, List.append_assoc]
        rfl
    | some codes =>
      have hi : i < codes.length := by simpa [codeGiven] using hc
      have hget : codes.get? i = some (codes.getD i 0) := by
        rw [List.get?_eq_getElem?, List.getD_eq_getElem?_getD, List.getElem?_eq_getElem hi]
        rfl
      obtain ⟨w1, h1, h2⟩ := ih (i + 1) (((((((w.writeString column.Name).putInt32 0).putInt16
        0).putInt32 (int32 t.oid)).putInt16 (int16 (uint16 t.size))).putInt32 0).putInt16
        (codes.getD i 0)) hr
      refine ⟨w1, ?_, ?_⟩
      · simp only [pqConn.rowDescriptionColumns, ht, hget, h1]
      · rw [h2, hbuf, columnDescriptions, List.append_assoc]
        rfl

theorem sendRowDescription_out (c : pqConn) (columns : List ResultColumn)
    (formatCodes : Option (List Int)) (h : columnsDescribable formatCodes columns 0 = true) :
    (c.sendRowDescription columns formatCodes).1 = .ok ()
    ∧ (c.sendRowDescription columns formatCodes).2.out
        = c.out ++ [OutEvent.write (rowDescriptionFrame formatCodes columns)] := by
  unfold pqConn.sendRowDescription rowDescriptionFrame
  by_cases h0 : columns.length = 0
  · rw [if_pos h0, if_pos h0]
    refine ⟨rfl, ?_⟩
    exact finishMsg_out _ _ (c.writeBuf.putbuf 1) (c.writeBuf.putbuf 2) (c.writeBuf.putbuf 3)
      (c.writeBuf.putbuf 4) [] rfl
  · rw [if_neg h0, if_neg h0]
    obtain ⟨w1, h1, h2⟩ := rowDescriptionColumns_ok formatCodes columns 0
      ((c.writeBuf.initMsg ServerMsgRowDescription).putInt16 (int16 columns.length)) h
    dsimp only
    rw [h1]
    refine ⟨rfl, ?_⟩
    apply finishMsg_out _ _ (c.writeBuf.putbuf 1) (c.writeBuf.putbuf 2) (c.writeBuf.putbuf 3)
      (c.writeBuf.putbuf 4)
    show w1.buf = _
    rw [h2, putInt16_buf, initMsg_buf, be16_uint16_int16]
    rfl


theorem get?_getD {codes : List Int} {i : Nat} (hi : i < codes.length) :
    codes.get? i = some (codes.getD i 0) := by
  rw [List.get?_eq_getElem?, List.getD_eq_getElem?_getD, List.getElem?_eq_getElem hi]
  rfl

theorem dataRowValues_text (L : GoLib) (formatCodes : Option (List Int)) (d : Datum)
    (rest : List Datum) (i : Nat) (w w1 : writeBuffer) (hc : codeGiven formatCodes i = true)
    (ht : codeOf formatCodes i = formatText) (hw : w.writeTextDatum L d = (.ok (), w1)) :
    pqConn.dataRowValues L formatCodes (d :: rest) i w
      = pqConn.dataRowValues L formatCodes rest (i + 1) w1 := by
  cases formatCodes with
  | none => simp only [pqConn.dataRowValues, if_true, hw]
  | some codes =>
    have hi : i < codes.length := by simpa [codeGiven] using hc
    have ht1 : codes.getD i 0 = formatText := ht
    simp only [pqConn.dataRowValues, get?_getD hi, ht1, if_true, hw]

theorem dataRowValues_binary (L : GoLib) (formatCodes : Option (List Int)) (d : Datum)
    (rest : List Datum) (i : Nat) (w w1 : writeBuffer) (hc : codeGiven formatCodes i = true)
    (hb : codeOf formatCodes i = formatBinary) (hw : w.writeBinaryDatum d = (.ok (), w1)) :
    pqConn.dataRowValues L formatCodes (d :: rest) i w
      = pqConn.dataRowValues L formatCodes rest (i + 1) w1 := by
  have hne : ¬ (formatBinary = formatText) := by decide
  cases formatCodes with
  | none =>
    have hb0 : formatText = formatBinary := hb
    exact absurd hb0 (by decide)
  | some codes =>
    have hi : i < codes.length := by simpa [codeGiven] using hc
    have hb1 : codes.getD i 0 = formatBinary := hb
    simp only [pqConn.dataRowValues, get?_getD hi, hb1, if_neg hne, if_true, hw]

theorem dataRowValues_ok (L : GoLib) (formatCodes : Option (List Int)) (vals : List Datum) :
    ∀ (i : Nat) (w : writeBuffer), rowEncodable L formatCodes vals i = true →
      ∃ w1, pqConn.dataRowValues L formatCodes vals i w = (.ok (), w1)
        ∧ w1.buf = w.buf ++ rowValueBytes L formatCodes vals i := by
  induction vals with
  | nil => intro i w _; exact ⟨w, rfl, by simp [rowValueBytes]⟩
  | cons d rest ih =>
    intro i w h
    simp only [rowEncodable, Bool.and_eq_true] at h
    obtain ⟨⟨hc, he⟩, hr⟩ := h
    unfold encodable at he
    by_cases ht : codeOf formatCodes i = formatText
    · rw [if_pos ht] at he
      have he1 : (writeBuffer.zero.writeTextDatum L d).1 = .ok () := by simpa using he
      obtain ⟨hw1, hw2⟩ := writeTextDatum_buf L w d
      rw [he1] at hw1
      have hpair : w.writeTextDatum L d = (.ok (), (w.writeTextDatum L d).2) :=
        Prod.ext hw1 rfl
      obtain ⟨w1, h1, h2⟩ := ih (i + 1) (w.writeTextDatum L d).2 hr
      refine ⟨w1, ?_, ?_⟩
      · rw [dataRowValues_text L formatCodes d rest i w _ hc ht hpair]
        exact h1
      · rw [h2, hw2, rowValueBytes, valueBytes, if_pos ht, List.append_assoc]
    · rw [if_neg ht] at he
      by_cases hb : codeOf formatCodes i = formatBinary
      · rw [if_pos hb] at he
        have he1 : (writeBuffer.zero.writeBinaryDatum d).1 = .ok () := by simpa using he
        obtain ⟨hw1, hw2⟩ := writeBinaryDatum_buf w d
        rw [he1] at hw1
        have hpair : w.writeBinaryDatum d = (.ok (), (w.writeBinaryDatum d).2) :=
          Prod.ext hw1 rfl
        obtain ⟨w1, h1, h2⟩ := ih (i + 1) (w.writeBinaryDatum d).2 hr
        refine ⟨w1, ?_, ?_⟩
        · rw [dataRowValues_binary L formatCodes d rest i w _ hc hb hpair]
          exact h1
        · rw [h2, hw2, rowValueBytes, valueBytes, if_neg ht, List.append_assoc]
      · rw [if_neg hb] at he
        cases he

theorem sendDataRows_out (L : GoLib) (formatCodes : Option (List Int)) (rows : List ResultRow) :
    ∀ c : pqConn, (∀ row ∈ rows, rowEncodable L formatCodes row.Values 0 = true) →
      (pqConn.sendDataRows L formatCodes rows c).1 = .ok ()
      ∧ (pqConn.sendDataRows L formatCodes rows c).2.out
          = c.out ++ rows.map (fun row => OutEvent.write (dataRowFrame L formatCodes row)) := by
  induction rows with
  | nil => intro c _; exact ⟨rfl, by simp [pqConn.sendDataRows]⟩
  | cons row rest ih =>
    intro c h
    obtain ⟨w1, h1, h2⟩ := dataRowValues_ok L formatCodes row.Values 0
      ((c.writeBuf.initMsg ServerMsgDataRow).putInt16 (int16 row.Values.length))
      (h row (List.mem_cons_self _ _))
    have hrest := ih (({ c with writeBuf := w1 } : pqConn).finishMsg)
      (fun r hr => h r (List.mem_cons_of_mem _ hr))
    have hout : (({ c with writeBuf := w1 } : pqConn).finishMsg).out
        = c.out ++ [OutEvent.write (dataRowFrame L formatCodes row)] := by
      apply finishMsg_out _ _ (c.writeBuf.putbuf 1) (c.writeBuf.putbuf 2) (c.writeBuf.putbuf 3)
        (c.writeBuf.putbuf 4)
      show w1.buf = _
      rw [h2, putInt16_buf, initMsg_buf, be16_uint16_int16]
      rfl
    simp only [pqConn.sendDataRows, h1]
    refine ⟨hrest.1, ?_⟩
    rw [hrest.2, hout, List.map_cons, List.append_assoc]
    rfl


theorem andThen_ok {β : Type} (r : Res Unit × pqConn) (k : Unit → pqConn → Res β × pqConn)
    (h : r.1 = .ok ()) : pqConn.andThen r k = k () r.2 := by
  rcases r with ⟨x, c⟩
  cases x with
  | ok a => rfl
  | err e => cases h
  | panic => cases h

theorem commandTag_rowsAffected (r : Result) (h : r.Type_ = RowsAffected) :
    (if r.PGTag = ascii "INSERT" then ascii "INSERT 0" else r.PGTag) ++ [32] ++ itoa r.RowsAffected
      = commandTag r := by
  unfold commandTag
  rw [if_pos h, List.append_assoc]

theorem commandTag_rows (r : Result) (h : r.Type_ = Rows) :
    (if r.PGTag = ascii "INSERT" then ascii "INSERT 0" else r.PGTag) ++ [32]
        ++ itoa r.Rows.length
      = commandTag r := by
  have hne : ¬ (r.Type_ = RowsAffected) := by rw [h]; decide
  unfold commandTag
  rw [if_neg hne, if_pos h, List.append_assoc]

theorem commandTag_other (r : Result) (h1 : ¬ r.Type_ = RowsAffected) (h2 : ¬ r.Type_ = Rows) :
    (if r.PGTag = ascii "INSERT" then ascii "INSERT 0" else r.PGTag) = commandTag r := by
  unfold commandTag
  rw [if_neg h1, if_neg h2, List.append_nil]

theorem sendResult_out (L : GoLib) (c : pqConn) (r : Result) (formatCodes : Option (List Int))
    (sendDescription : Bool) (h : resultStreamable L formatCodes sendDescription r = true) :
    (pqConn.sendResult L c r formatCodes sendDescription).1 = .ok ()
    ∧ (pqConn.sendResult L c r formatCodes sendDescription).2.out
        = c.out ++ (resultFrames L formatCodes sendDescription r).map OutEvent.write := by
  unfold pqConn.sendResult resultFrames
  dsimp only
  by_cases h1 : r.Type_ = RowsAffected
  · rw [if_pos h1, if_pos h1, commandTag_rowsAffected r h1]
    exact sendCommandComplete_out c _
  · rw [if_neg h1, if_neg h1]
    by_cases h2 : r.Type_ = Rows
    · rw [if_pos h2, if_pos h2, commandTag_rows r h2]
      unfold resultStreamable at h
      rw [if_neg h1, if_pos h2] at h
      simp only [Bool.and_eq_true, Bool.or_eq_true, Bool.not_eq_true', List.all_eq_true] at h
      obtain ⟨hd, hrows⟩ := h
      cases sendDescription with
      | false =>
        have hdr := sendDataRows_out L formatCodes r.Rows c hrows
        simp only [Bool.false_eq_true, if_false]
        rw [andThen_ok _ _ rfl, andThen_ok _ _ hdr.1]
        have hcc := sendCommandComplete_out
          (pqConn.sendDataRows L formatCodes r.Rows c).2 (commandTag r)
        refine ⟨hcc.1, ?_⟩
        rw [hcc.2, hdr.2]
        simp [commandCompleteFrame, Function.comp_def]
      | true =>
        have hcols : columnsDescribable formatCodes r.Columns 0 = true := by
          rcases hd with hd | hd
          · cases hd
          · exact hd
        have hrd := sendRowDescription_out c r.Columns formatCodes hcols
        have hdr := sendDataRows_out L formatCodes r.Rows
          (c.sendRowDescription r.Columns formatCodes).2 hrows
        simp only [if_true]
        rw [andThen_ok _ _ hrd.1, andThen_ok _ _ hdr.1]
        have hcc := sendCommandComplete_out (pqConn.sendDataRows L formatCodes r.Rows
          (c.sendRowDescription r.Columns formatCodes).2).2 (commandTag r)
        refine ⟨hcc.1, ?_⟩
        rw [hcc.2, hdr.2, hrd.2]
        simp [commandCompleteFrame, Function.comp_def]
    · rw [if_neg h2, if_neg h2, commandTag_other r h1 h2]
      exact sendCommandComplete_out c _

theorem sendResults_out (L : GoLib) (formatCodes : Option (List Int)) (sendDescription : Bool)
    (limit : Int) (results : List Result) :
    ∀ c : pqConn, (∀ r ∈ results, resultStreamable L formatCodes sendDescription r = true) →
      (∀ r ∈ results, ¬ (limit ≠ 0 ∧ (r.Rows.length : Int) > limit)) →
      (pqConn.sendResults L formatCodes sendDescription limit results c).1 = .ok ()
      ∧ (pqConn.sendResults L formatCodes sendDescription limit results c).2.out
          = c.out ++ ((results.map (resultFrames L formatCodes sendDescription)).flatten).map
              OutEvent.write := by
  induction results with
  | nil => intro c _ _; exact ⟨rfl, by simp [pqConn.sendResults]⟩
  | cons r rest ih =>
    intro c hs hl
    have h1 := sendResult_out L c r formatCodes sendDescription (hs r (List.mem_cons_self _ _))
    have h2 := ih (pqConn.sendResult L c r formatCodes sendDescription).2
      (fun x hx => hs x (List.mem_cons_of_mem _ hx)) (fun x hx => hl x (List.mem_cons_of_mem _ hx))
    rw [pqConn.sendResults, if_neg (hl r (List.mem_cons_self _ _)), andThen_ok _ _ h1.1]
    refine ⟨h2.1, ?_⟩
    rw [h2.2, h1.2]
    simp

theorem sendResults_limit (L : GoLib) (formatCodes : Option (List Int)) (sendDescription : Bool)
    (limit : Int) (pre : List Result) (r : Result) (post : List Result) :
    ∀ c : pqConn, (∀ x ∈ pre, resultStreamable L formatCodes sendDescription x = true) →
      (∀ x ∈ pre, ¬ (limit ≠ 0 ∧ (x.Rows.length : Int) > limit)) →
      limit ≠ 0 → (r.Rows.length : Int) > limit →
      (pqConn.sendResults L formatCodes sendDescription limit (pre ++ r :: post) c).1 = .ok ()
      ∧ (pqConn.sendResults L formatCodes sendDescription limit (pre ++ r :: post) c).2.out
          = c.out ++ ((pre.map (resultFrames L formatCodes sendDescription)).flatten).map
              OutEvent.write
            ++ [OutEvent.write (frame ServerMsgErrorResponse (errorBody CodeInternalError
                  (ascii "execute row count limits not supported: " ++ itoa limit
                    ++ ascii " of " ++ itoa r.Rows.length))),
                OutEvent.flush] := by
  induction pre with
  | nil =>
    intro c _ _ h0 hgt
    rw [List.nil_append, pqConn.sendResults, if_pos ⟨h0, hgt⟩]
    refine ⟨rfl, ?_⟩
    rw [pqConn.sendInternalError, sendError_out]
    simp
  | cons x rest ih =>
    intro c hs hl h0 hgt
    have h1 := sendResult_out L c x formatCodes sendDescription (hs x (List.mem_cons_self _ _))
    have h2 := ih (pqConn.sendResult L c x formatCodes sendDescription).2
      (fun y hy => hs y (List.mem_cons_of_mem _ hy)) (fun y hy => hl y (List.mem_cons_of_mem _ hy))
      h0 hgt
    rw [List.cons_append, pqConn.sendResults, if_neg (hl x (List.mem_cons_self _ _)),
      andThen_ok _ _ h1.1]
    refine ⟨h2.1, ?_⟩
    rw [h2.2, h1.2]
    simp

theorem andThen_stops (r : Res Unit × pqConn) (k : Unit → pqConn → Res Unit × pqConn)
    (h : r.1 ≠ .ok ()) : (pqConn.andThen r k).1 ≠ .ok () ∧ (pqConn.andThen r k).2 = r.2 := by
  rcases r with ⟨x, c⟩
  cases x with
  | ok a => exact absurd rfl h
  | err e => exact ⟨fun hh => (by cases hh), rfl⟩
  | panic => exact ⟨fun hh => (by cases hh), rfl⟩

theorem dataRowValues_encodable (L : GoLib) (formatCodes : Option (List Int))
    (vals : List Datum) :
    ∀ (i : Nat) (w : writeBuffer), (pqConn.dataRowValues L formatCodes vals i w).1 = .ok () →
      rowEncodable L formatCodes vals i = true := by
  induction vals with
  | nil => intro i w _; rfl
  | cons d rest ih =>
    intro i w h
    have key : ∀ code : Int, codeOf formatCodes i = code → codeGiven formatCodes i = true →
        (if code = formatText then
          (match w.writeTextDatum L d with
           | (.ok _, w1) => pqConn.dataRowValues L formatCodes rest (i + 1) w1
           | r => r)
         else if code = formatBinary then
          (match w.writeBinaryDatum d with
           | (.ok _, w1) => pqConn.dataRowValues L formatCodes rest (i + 1) w1
           | r => r)
         else (.err (ascii "unsupported format cdoe "
            ++ pqConn.fmtBadVerbS (ascii "libpq.formatCode") code), w)).1 = .ok () →
        rowEncodable L formatCodes (d :: rest) i = true := by
      intro code hcode hgiven hh
      simp only [rowEncodable, Bool.and_eq_true, hgiven, true_and, encodable, hcode]
      by_cases ht : code = formatText
      · rw [if_pos ht] at hh
        rw [if_pos ht]
        rcases hw : w.writeTextDatum L d with ⟨x, w1⟩
        rw [hw] at hh
        cases x with
        | ok a =>
          have h1 : (writeBuffer.zero.writeTextDatum L d).1 = .ok () := by
            rw [← (writeTextDatum_buf L w d).1, hw]
          exact ⟨by simpa using h1, ih (i + 1) w1 hh⟩
        | err e => cases hh
        | panic => cases hh
      · rw [if_neg ht] at hh
        rw [if_neg ht]
        by_cases hb : code = formatBinary
        · rw [if_pos hb] at hh
          rw [if_pos hb]
          rcases hw : w.writeBinaryDatum d with ⟨x, w1⟩
          rw [hw] at hh
          cases x with
          | ok a =>
            have h1 : (writeBuffer.zero.writeBinaryDatum d).1 = .ok () := by
              rw [← (writeBinaryDatum_buf w d).1, hw]
            exact ⟨by simpa using h1, ih (i + 1) w1 hh⟩
          | err e => cases hh
          | panic => cases hh
        · rw [if_neg hb] at hh
          cases hh
    cases formatCodes with
    | none => exact key formatText rfl rfl (by simpa only [pqConn.dataRowValues] using h)
    | some codes =>
      cases hg : codes.get? i with
      | none =>
        rw [pqConn.dataRowValues] at h
        simp only [hg] at h
        cases h
      | some code =>
        have hi : i < codes.length := by
          by_contra hlt
          rw [List.get?_eq_none.mpr (by omega)] at hg
          cases hg
        have hcode : codes.getD i 0 = code := by
          have := @get?_getD codes i hi
          rw [hg] at this
          exact (Option.some.inj this).symm
        refine key code hcode (by simp [codeGiven, hi]) ?_
        rw [pqConn.dataRowValues] at h
        simp only [hg] at h
        exact h

theorem dataRowValues_stops (L : GoLib) (formatCodes : Option (List Int)) (vals : List Datum)
    (i : Nat) (w : writeBuffer) (h : rowEncodable L formatCodes vals i = false) :
    (pqConn.dataRowValues L formatCodes vals i w).1 ≠ .ok () := by
  intro hh
  rw [dataRowValues_encodable L formatCodes vals i w hh] at h
  cases h

theorem sendDataRows_stops (L : GoLib) (formatCodes : Option (List Int)) (pre : List ResultRow)
    (row : ResultRow) (post : List ResultRow) :
    ∀ c : pqConn, (∀ x ∈ pre, rowEncodable L formatCodes x.Values 0 = true) →
      rowEncodable L formatCodes row.Values 0 = false →
      (pqConn.sendDataRows L formatCodes (pre ++ row :: post) c).1 ≠ .ok ()
      ∧ (pqConn.sendDataRows L formatCodes (pre ++ row :: post) c).2.out
          = c.out ++ pre.map (fun x => OutEvent.write (dataRowFrame L formatCodes x)) := by
  induction pre with
  | nil =>
    intro c _ hrow
    have hs := dataRowValues_stops L formatCodes row.Values 0
      ((c.writeBuf.initMsg ServerMsgDataRow).putInt16 (int16 row.Values.length)) hrow
    rcases hv : pqConn.dataRowValues L formatCodes row.Values 0
      ((c.writeBuf.initMsg ServerMsgDataRow).putInt16 (int16 row.Values.length)) with ⟨x, w⟩
    rw [hv] at hs
    simp only [List.nil_append, pqConn.sendDataRows, hv, List.map_nil, List.append_nil]
    cases x with
    | ok a => exact absurd rfl hs
    | err e => exact ⟨fun hh => (by cases hh), rfl⟩
    | panic => exact ⟨fun hh => (by cases hh), rfl⟩
  | cons x rest ih =>
    intro c h hrow
    obtain ⟨w1, h1, h2⟩ := dataRowValues_ok L formatCodes x.Values 0
      ((c.writeBuf.initMsg ServerMsgDataRow).putInt16 (int16 x.Values.length))
      (h x (List.mem_cons_self _ _))
    have hrest := ih (({ c with writeBuf := w1 } : pqConn).finishMsg)
      (fun r hr => h r (List.mem_cons_of_mem _ hr)) hrow
    have hout : (({ c with writeBuf := w1 } : pqConn).finishMsg).out
        = c.out ++ [OutEvent.write (dataRowFrame L formatCodes x)] := by
      apply finishMsg_out _ _ (c.writeBuf.putbuf 1) (c.writeBuf.putbuf 2) (c.writeBuf.putbuf 3)
        (c.writeBuf.putbuf 4)
      show w1.buf = _
      rw [h2, putInt16_buf, initMsg_buf, be16_uint16_int16]
      rfl
    simp only [List.cons_append, pqConn.sendDataRows, h1]
    refine ⟨hrest.1, hrest.2.trans ?_⟩
    rw [hout, List.map_cons, List.append_assoc]
    rfl

theorem sendResult_stops (L : GoLib) (c : pqConn) (r : Result) (formatCodes : Option (List Int))
    (sendDescription : Bool) (pre : List ResultRow) (row : ResultRow) (post : List ResultRow)
    (hr : r.Type_ = Rows) (hrows : r.Rows = pre ++ row :: post)
    (hd : sendDescription = true → columnsDescribable formatCodes r.Columns 0 = true)
    (hpre : ∀ x ∈ pre, rowEncodable L formatCodes x.Values 0 = true)
    (hrow : rowEncodable L formatCodes row.Values 0 = false) :
    (pqConn.sendResult L c r formatCodes sendDescription).1 ≠ .ok ()
    ∧ (pqConn.sendResult L c r formatCodes sendDescription).2.out
        = c.out ++ ((if sendDescription then [rowDescriptionFrame formatCodes r.Columns] else [])
            ++ pre.map (dataRowFrame L formatCodes)).map OutEvent.write := by
  have h1 : ¬ r.Type_ = RowsAffected := by rw [hr]; decide
  unfold pqConn.sendResult
  dsimp only
  rw [if_neg h1, if_pos hr, hrows]
  cases sendDescription with
  | false =>
    have hs := sendDataRows_stops L formatCodes pre row post c hpre hrow
    simp only [Bool.false_eq_true, if_false]
    rw [andThen_ok _ _ rfl]
    have ha := andThen_stops _ (fun _ c2 => c2.sendCommandComplete
      ((if r.PGTag = ascii "INSERT" then ascii "INSERT 0" else r.PGTag) ++ [32]
        ++ itoa (pre ++ row :: post).length)) hs.1
    refine ⟨ha.1, ?_⟩
    rw [ha.2, hs.2]
    simp [Function.comp_def]
  | true =>
    have hrd := sendRowDescription_out c r.Columns formatCodes (hd rfl)
    have hs := sendDataRows_stops L formatCodes pre row post
      (c.sendRowDescription r.Columns formatCodes).2 hpre hrow
    simp only [if_true]
    rw [andThen_ok _ _ hrd.1]
    have ha := andThen_stops _ (fun _ c2 => c2.sendCommandComplete
      ((if r.PGTag = ascii "INSERT" then ascii "INSERT 0" else r.PGTag) ++ [32]
        ++ itoa (pre ++ row :: post).length)) hs.1
    refine ⟨ha.1, ?_⟩
    rw [ha.2, hs.2, hrd.2]
    simp [Function.comp_def]

theorem sendResults_append (L : GoLib) (formatCodes : Option (List Int)) (sendDescription : Bool)
    (limit : Int) (pre post : List Result) :
    ∀ c : pqConn, (∀ r ∈ pre, resultStreamable L formatCodes sendDescription r = true) →
      (∀ r ∈ pre, ¬ (limit ≠ 0 ∧ (r.Rows.length : Int) > limit)) →
      pqConn.sendResults L formatCodes sendDescription limit (pre ++ post) c
        = pqConn.sendResults L formatCodes sendDescription limit post
            (pqConn.sendResults L formatCodes sendDescription limit pre c).2 := by
  induction pre with
  | nil => intro c _ _; rfl
  | cons r rest ih =>
    intro c hs hl
    have h1 := sendResult_out L c r formatCodes sendDescription (hs r (List.mem_cons_self _ _))
    have h2 := ih (pqConn.sendResult L c r formatCodes sendDescription).2
      (fun x hx => hs x (List.mem_cons_of_mem _ hx)) (fun x hx => hl x (List.mem_cons_of_mem _ hx))
    rw [List.cons_append, pqConn.sendResults, if_neg (hl r (List.mem_cons_self _ _)),
      andThen_ok _ _ h1.1, h2]
    conv_rhs => rw [pqConn.sendResults, if_neg (hl r (List.mem_cons_self _ _)),
      andThen_ok _ _ h1.1]

theorem sendResults_begins (L : GoLib) (formatCodes : Option (List Int)) (sendDescription : Bool)
    (limit : Int) (pre post : List Result) (c : pqConn)
    (hs : ∀ r ∈ pre, resultStreamable L formatCodes sendDescription r = true)
    (hl : ∀ r ∈ pre, ¬ (limit ≠ 0 ∧ (r.Rows.length : Int) > limit)) :
    ∃ evs, (pqConn.sendResults L formatCodes sendDescription limit (pre ++ post) c).2.out
      = c.out ++ ((pre.map (resultFrames L formatCodes sendDescription)).flatten).map
          OutEvent.write ++ evs := by
  obtain ⟨evs, hevs⟩ := (ioOnly_sendResults L formatCodes sendDescription limit post
    (pqConn.sendResults L formatCodes sendDescription limit pre c).2).step.out
  refine ⟨evs, ?_⟩
  rw [sendResults_append L formatCodes sendDescription limit pre post c hs hl, hevs,
    (sendResults_out L formatCodes sendDescription limit pre c hs hl).2]

theorem sendResults_stops (L : GoLib) (formatCodes : Option (List Int)) (sendDescription : Bool)
    (limit : Int) (pre : List Result) (r : Result) (post : List Result) (rpre : List ResultRow)
    (row : ResultRow) (rpost : List ResultRow) (c : pqConn)
    (hs : ∀ x ∈ pre, resultStreamable L formatCodes sendDescription x = true)
    (hl : ∀ x ∈ pre, ¬ (limit ≠ 0 ∧ (x.Rows.length : Int) > limit))
    (hlr : ¬ (limit ≠ 0 ∧ (r.Rows.length : Int) > limit))
    (hr : r.Type_ = Rows) (hrows : r.Rows = rpre ++ row :: rpost)
    (hd : sendDescription = true → columnsDescribable formatCodes r.Columns 0 = true)
    (hpre : ∀ x ∈ rpre, rowEncodable L formatCodes x.Values 0 = true)
    (hrow : rowEncodable L formatCodes row.Values 0 = false) :
    (pqConn.sendResults L formatCodes sendDescription limit (pre ++ r :: post) c).1 ≠ .ok ()
    ∧ (pqConn.sendResults L formatCodes sendDescription limit (pre ++ r :: post) c).2.out
        = c.out ++ ((pre.map (resultFrames L formatCodes sendDescription)).flatten
            ++ ((if sendDescription then [rowDescriptionFrame formatCodes r.Columns] else [])
            ++ rpre.map (dataRowFrame L formatCodes))).map OutEvent.write := by
  have h1 := sendResult_stops L (pqConn.sendResults L formatCodes sendDescription limit pre c).2
    r formatCodes sendDescription rpre row rpost hr hrows hd hpre hrow
  have ha := andThen_stops _ (fun _ c1 =>
    pqConn.sendResults L formatCodes sendDescription limit post c1) h1.1
  rw [sendResults_append L formatCodes sendDescription limit pre (r :: post) c hs hl,
    pqConn.sendResults, if_neg hlr]
  refine ⟨ha.1, ?_⟩
  rw [ha.2, h1.2, (sendResults_out L formatCodes sendDescription limit pre c hs hl).2]
  simp

theorem sendResponse_results (L : GoLib) (c : pqConn) (results : List Result)
    (formatCodes : Option (List Int)) (sendDescription : Bool) (limit : Int)
    (hne : results ≠ []) :
    pqConn.sendResponse L c results formatCodes sendDescription limit
      = pqConn.sendResults L formatCodes sendDescription limit results c := by
  rw [pqConn.sendResponse, if_neg (fun hh => hne (List.length_eq_zero.mp hh))]

theorem sendResponse_none (L : GoLib) (c : pqConn) (formatCodes : Option (List Int))
    (sendDescription : Bool) (limit : Int) :
    (pqConn.sendResponse L c [] formatCodes sendDescription limit).1 = .ok ()
    ∧ (pqConn.sendResponse L c [] formatCodes sendDescription limit).2.out
        = c.out ++ [OutEvent.write [67, 0, 0, 0, 5, 0]] := by
  have h := sendCommandComplete_out c []
  rw [pqConn.sendResponse, if_pos List.length_nil]
  refine ⟨h.1, h.2.trans ?_⟩
  rfl

/-! ## The frame types a handler can write -/

theorem Emits.emitsRefl (types : List Nat) {c c1 : pqConn} (h : c1.out = c.out) :
    Emits types c c1 :=
  ⟨[], by rw [h, List.append_nil], fun ev hev => (by cases hev)⟩

theorem Emits.emitsTrans {types : List Nat} {a b c : pqConn} (h1 : Emits types a b)
    (h2 : Emits types b c) : Emits types a c := by
  obtain ⟨e1, o1, p1⟩ := h1
  obtain ⟨e2, o2, p2⟩ := h2
  refine ⟨e1 ++ e2, by rw [o2, o1, List.append_assoc], fun ev hev => ?_⟩
  rcases List.mem_append.mp hev with h | h
  · exact p1 ev h
  · exact p2 ev h

theorem Emits.emitsMono {types types1 : List Nat} {a b : pqConn} (h : Emits types a b)
    (hsub : ∀ t ∈ types, t ∈ types1) : Emits types1 a b := by
  obtain ⟨e1, o1, p1⟩ := h
  refine ⟨e1, o1, fun ev hev => ?_⟩
  rcases p1 ev hev with h | ⟨t, body, ht, h⟩
  · exact Or.inl h
  · exact Or.inr ⟨t, body, hsub t ht, h⟩

theorem emits_finishMsg (c : pqConn) (t a b c4 d : Nat) (body : Bytes)
    (h : c.writeBuf.buf = t :: a :: b :: c4 :: d :: body) : Emits [t] c c.finishMsg := by
  refine ⟨[OutEvent.write (frame t body)], finishMsg_out c t a b c4 d body h, fun ev hev => ?_⟩
  rw [List.mem_singleton] at hev
  exact Or.inr ⟨t, body, List.mem_singleton.mpr rfl, hev⟩

theorem emits_sendError (c : pqConn) (code m : Bytes) :
    Emits [ServerMsgErrorResponse] c (c.sendError code m).2 := by
  refine ⟨_, sendError_out c code m, fun ev hev => ?_⟩
  simp only [List.mem_cons, List.mem_singleton, List.not_mem_nil, or_false] at hev
  rcases hev with h | h
  · exact Or.inr ⟨_, _, List.mem_singleton.mpr rfl, h⟩
  · exact Or.inl h

theorem emits_sendCommandComplete (c : pqConn) (tag : Bytes) :
    Emits [ServerMsgCommandComplete] c (c.sendCommandComplete tag).2 := by
  refine ⟨_, (sendCommandComplete_out c tag).2, fun ev hev => ?_⟩
  rw [List.mem_singleton] at hev
  exact Or.inr ⟨_, _, List.mem_singleton.mpr rfl, hev⟩

theorem dataRowValues_appends (L : GoLib) (formatCodes : Option (List Int)) (vals : List Datum) :
    ∀ (i : Nat) (w : writeBuffer),
      ∃ bs, (pqConn.dataRowValues L formatCodes vals i w).2.buf = w.buf ++ bs := by
  induction vals with
  | nil => intro i w; exact ⟨[], by simp [pqConn.dataRowValues]⟩
  | cons d rest ih =>
    intro i w
    have key : ∀ code : Int, ∃ bs,
        (if code = formatText then
          (match w.writeTextDatum L d with
           | (.ok _, w1) => pqConn.dataRowValues L formatCodes rest (i + 1) w1
           | r => r)
        else if code = formatBinary then
          (match w.writeBinaryDatum d with
           | (.ok _, w1) => pqConn.dataRowValues L formatCodes rest (i + 1) w1
           | r => r)
        else (.err (ascii "unsupported format cdoe "
            ++ pqConn.fmtBadVerbS (ascii "libpq.formatCode") code), w)).2.buf = w.buf ++ bs := by
      intro code
      split
      · have hb := (writeTextDatum_buf L w d).2
        rcases hw : w.writeTextDatum L d with ⟨x, w1⟩
        rw [hw] at hb
        cases x with
        | ok a =>
          obtain ⟨bs, h⟩ := ih (i + 1) w1
          replace hb : w1.buf = w.buf ++ (writeBuffer.zero.writeTextDatum L d).2.buf := hb
          exact ⟨(writeBuffer.zero.writeTextDatum L d).2.buf ++ bs, by
            simp only; rw [h, hb, List.append_assoc]⟩
        | err e => exact ⟨_, hb⟩
        | panic => exact ⟨_, hb⟩
      · split
        · have hb := (writeBinaryDatum_buf w d).2
          rcases hw : w.writeBinaryDatum d with ⟨x, w1⟩
          rw [hw] at hb
          cases x with
          | ok a =>
            obtain ⟨bs, h⟩ := ih (i + 1) w1
            replace hb : w1.buf = w.buf ++ (writeBuffer.zero.writeBinaryDatum d).2.buf := hb
            exact ⟨(writeBuffer.zero.writeBinaryDatum d).2.buf ++ bs, by
              simp only; rw [h, hb, List.append_assoc]⟩
          | err e => exact ⟨_, hb⟩
          | panic => exact ⟨_, hb⟩
        · exact ⟨[], by simp⟩
    cases formatCodes with
    | none =>
      obtain ⟨bs, h⟩ := key formatText
      refine ⟨bs, ?_⟩
      rw [pqConn.dataRowValues]
      exact h
    | some codes =>
      cases hg : codes.get? i with
      | none =>
        refine ⟨[], ?_⟩
        rw [pqConn.dataRowValues]
        simp only [hg, List.append_nil]
      | some code =>
        obtain ⟨bs, h⟩ := key code
        refine ⟨bs, ?_⟩
        rw [pqConn.dataRowValues]
        simp only [hg]
        exact h

theorem emits_sendDataRows (L : GoLib) (formatCodes : Option (List Int)) (rows : List ResultRow) :
    ∀ c : pqConn, Emits [ServerMsgDataRow] c (pqConn.sendDataRows L formatCodes rows c).2 := by
  induction rows with
  | nil => intro c; exact Emits.emitsRefl _ rfl
  | cons row rest ih =>
    intro c
    obtain ⟨bs, hbs⟩ := dataRowValues_appends L formatCodes row.Values 0
      ((c.writeBuf.initMsg ServerMsgDataRow).putInt16 (int16 row.Values.length))
    rcases hv : pqConn.dataRowValues L formatCodes row.Values 0
      ((c.writeBuf.initMsg ServerMsgDataRow).putInt16 (int16 row.Values.length)) with ⟨x, w⟩
    rw [hv] at hbs
    simp only [pqConn.sendDataRows, hv]
    cases x with
    | ok a =>
      have h1 : Emits [ServerMsgDataRow] c (({ c with writeBuf := w } : pqConn).finishMsg) := by
        obtain ⟨evs, ho, hp⟩ := emits_finishMsg ({ c with writeBuf := w } : pqConn)
          ServerMsgDataRow (c.writeBuf.putbuf 1) (c.writeBuf.putbuf 2) (c.writeBuf.putbuf 3)
          (c.writeBuf.putbuf 4) (be16 (uint16 (int16 row.Values.length)) ++ bs)
          (by show w.buf = _; rw [hbs, putInt16_buf, initMsg_buf]; rfl)
        exact ⟨evs, ho, hp⟩
      exact h1.emitsTrans (ih _)
    | err e => exact Emits.emitsRefl _ rfl
    | panic => exact Emits.emitsRefl _ rfl


theorem emits_andThen {α β : Type} {types : List Nat} {c : pqConn} {r : Res α × pqConn}
    {k : α → pqConn → Res β × pqConn} (h1 : Emits types c r.2)
    (h2 : ∀ a c1, Emits types c1 (k a c1).2) : Emits types c (pqConn.andThen r k).2 := by
  rcases r with ⟨x, c1⟩
  cases x with
  | ok a => exact h1.emitsTrans (h2 a c1)
  | err e => exact h1
  | panic => exact h1

theorem emits_sendResult (L : GoLib) (c : pqConn) (r : Result)
    (formatCodes : Option (List Int)) :
    Emits [ServerMsgDataRow, ServerMsgCommandComplete] c
      (pqConn.sendResult L c r formatCodes false).2 := by
  have hcc : ∀ (c1 : pqConn) (tag : Bytes),
      Emits [ServerMsgDataRow, ServerMsgCommandComplete] c1 (c1.sendCommandComplete tag).2 :=
    fun c1 tag => (emits_sendCommandComplete c1 tag).emitsMono (fun t ht => by
      rw [List.mem_singleton] at ht; rw [ht]; simp)
  unfold pqConn.sendResult
  dsimp only
  split
  · exact hcc _ _
  · split
    · simp only [Bool.false_eq_true, if_false]
      refine emits_andThen (Emits.emitsRefl _ rfl) (fun _ c1 => ?_)
      refine emits_andThen ((emits_sendDataRows L formatCodes r.Rows c1).emitsMono
        (fun t ht => by rw [List.mem_singleton] at ht; rw [ht]; simp)) (fun _ c2 => hcc _ _)
    · exact hcc _ _

theorem emits_sendResults (L : GoLib) (formatCodes : Option (List Int)) (limit : Int)
    (results : List Result) :
    ∀ c : pqConn, Emits [ServerMsgDataRow, ServerMsgCommandComplete, ServerMsgErrorResponse] c
      (pqConn.sendResults L formatCodes false limit results c).2 := by
  induction results with
  | nil => intro c; exact Emits.emitsRefl _ rfl
  | cons r rest ih =>
    intro c
    rw [pqConn.sendResults]
    split
    · exact (emits_sendError c _ _).emitsMono (fun t ht => by
        rw [List.mem_singleton] at ht; rw [ht]; simp)
    · exact emits_andThen ((emits_sendResult L c r formatCodes).emitsMono
        (fun t ht => by simp only [List.mem_cons, List.mem_singleton] at ht ⊢; tauto))
        (fun _ c1 => ih c1)

theorem emits_executeStatements (E : Env) (c : pqConn) (stmts : Bytes) (params : List Datum)
    (formatCodes : Option (List Int)) (limit : Int) :
    Emits [ServerMsgDataRow, ServerMsgCommandComplete, ServerMsgErrorResponse,
        ServerMsgEmptyQuery] c
      (pqConn.executeStatements E c stmts params formatCodes false limit).2 := by
  unfold pqConn.executeStatements
  dsimp only
  split
  · have h := emits_finishMsg (({ c with calls := c.calls ++ [ExecCall.ExecuteStatements stmts
      params] } : pqConn).wb (fun w => w.initMsg ServerMsgEmptyQuery)) ServerMsgEmptyQuery
      (c.writeBuf.putbuf 1) (c.writeBuf.putbuf 2) (c.writeBuf.putbuf 3) (c.writeBuf.putbuf 4) []
      rfl
    obtain ⟨evs, ho, hp⟩ := @Emits.emitsMono _ [ServerMsgDataRow, ServerMsgCommandComplete,
      ServerMsgErrorResponse, ServerMsgEmptyQuery] _ _ h (fun t ht => by
        rw [List.mem_singleton] at ht; rw [ht]; simp)
    exact ⟨evs, ho, hp⟩
  · unfold pqConn.sendResponse
    split
    · obtain ⟨evs, ho, hp⟩ := @Emits.emitsMono _ [ServerMsgDataRow, ServerMsgCommandComplete,
        ServerMsgErrorResponse, ServerMsgEmptyQuery] _ _
        (emits_sendCommandComplete ({ c with calls := c.calls
          ++ [ExecCall.ExecuteStatements stmts params] } : pqConn) [])
        (fun t ht => by rw [List.mem_singleton] at ht; rw [ht]; simp)
      exact ⟨evs, ho, hp⟩
    · obtain ⟨evs, ho, hp⟩ := @Emits.emitsMono _ [ServerMsgDataRow, ServerMsgCommandComplete,
        ServerMsgErrorResponse, ServerMsgEmptyQuery] _ _
        (emits_sendResults E.lib formatCodes limit _ ({ c with calls :=
          c.calls ++ [ExecCall.ExecuteStatements stmts params] } : pqConn))
        (fun t ht => by simp only [List.mem_cons, List.mem_singleton] at ht ⊢; tauto)
      exact ⟨evs, ho, hp⟩

theorem emits_onBuf {α : Type} (types : List Nat) (c : pqConn)
    (f : readBuffer → Res α × readBuffer) : Emits types c (c.onBuf f).2 :=
  Emits.emitsRefl _ rfl

theorem emits_handleExecute (E : Env) (c : pqConn) :
    Emits [ServerMsgDataRow, ServerMsgCommandComplete, ServerMsgErrorResponse,
        ServerMsgEmptyQuery] c (pqConn.handleExecute E c).2 := by
  unfold pqConn.handleExecute
  refine emits_andThen (emits_onBuf _ c _) (fun portalName c1 => ?_)
  split
  · exact (emits_sendError c1 _ _).emitsMono (fun t ht => by
      rw [List.mem_singleton] at ht; rw [ht]; simp)
  · exact emits_andThen (emits_onBuf _ c1 _) (fun limit c2 =>
      emits_executeStatements E c2 _ _ _ limit)

/-! ## Describe of a statement -/

theorem putArgTypes_buf (argTypes : List Nat) :
    ∀ w : writeBuffer, (pqConn.putArgTypes w argTypes).buf = w.buf ++ (argTypes.map be32).flatten := by
  induction argTypes with
  | nil => intro w; simp [pqConn.putArgTypes]
  | cons t ts ih =>
    intro w
    have h := ih (w.putInt32 (int32 t))
    unfold pqConn.putArgTypes at h ⊢
    rw [List.foldl_cons, h, putInt32_buf, be32_uint32_int32, List.map_cons, List.flatten_cons,
      List.append_assoc]

theorem handleDescribe_statement (L : GoLib) (c : pqConn) (name extra : Bytes)
    (stmt : preparedStatement) (hname : 0 ∉ name)
    (hmsg : c.readBuf.msg = PrepareStatement :: (name ++ 0 :: extra))
    (hstmt : c.preparedStatements.get name = some stmt)
    (hcols : columnsDescribable none stmt.columns 0 = true) :
    (pqConn.handleDescribe L c).1 = .ok ()
    ∧ (pqConn.handleDescribe L c).2.out
        = c.out ++ [OutEvent.write (frame ServerMsgParameterDescription
              (be16 stmt.argTypes.length ++ (stmt.argTypes.map be32).flatten)),
            OutEvent.write (rowDescriptionFrame none stmt.columns)] := by
  have hc : c = c.setMsg (PrepareStatement :: (name ++ 0 :: extra)) := by rw [← hmsg]; rfl
  have hs : (c.setMsg extra).preparedStatements.get name = some stmt := hstmt
  have hpd : (((c.setMsg extra).wb (fun w =>
      pqConn.putArgTypes ((w.initMsg ServerMsgParameterDescription).putInt16
        (int16 stmt.argTypes.length)) stmt.argTypes)).finishMsg).out
      = c.out ++ [OutEvent.write (frame ServerMsgParameterDescription
          (be16 stmt.argTypes.length ++ (stmt.argTypes.map be32).flatten))] := by
    apply finishMsg_out _ _ (c.writeBuf.putbuf 1) (c.writeBuf.putbuf 2) (c.writeBuf.putbuf 3)
      (c.writeBuf.putbuf 4)
    show (pqConn.putArgTypes ((c.writeBuf.initMsg ServerMsgParameterDescription).putInt16
      (int16 stmt.argTypes.length)) stmt.argTypes).buf = _
    rw [putArgTypes_buf, putInt16_buf, initMsg_buf, be16_uint16_int16]
    rfl
  have hrd := sendRowDescription_out (((c.setMsg extra).wb (fun w =>
      pqConn.putArgTypes ((w.initMsg ServerMsgParameterDescription).putInt16
        (int16 stmt.argTypes.length)) stmt.argTypes)).finishMsg) stmt.columns none hcols
  rw [hpd] at hrd
  rw [pqConn.handleDescribe, hc, onBuf_getPrepareType]
  simp only
  rw [onBuf_getString c _ _ hname]
  simp only [pqConn.andThen, setMsg_setMsg, if_true, hs]
  refine ⟨hrd.1, ?_⟩
  rw [hrd.2, List.append_assoc]
  rfl


theorem columnDescriptions_none (columns : List ResultColumn) :
    ∀ i, columnDescriptions none columns i
        = (columns.map (fun column => columnDescription column formatText)).flatten := by
  induction columns with
  | nil => intro i; rfl
  | cons column rest ih =>
    intro i
    rw [columnDescriptions, ih (i + 1), List.map_cons, List.flatten_cons]
    rfl

theorem columnsDescribable_none (columns : List ResultColumn)
    (h : ∀ column ∈ columns, knownType column.Typ = true) :
    ∀ i, columnsDescribable none columns i = true := by
  induction columns with
  | nil => intro i; rfl
  | cons column rest ih =>
    intro i
    rw [columnsDescribable, h column (List.mem_cons_self _ _),
      ih (fun x hx => h x (List.mem_cons_of_mem _ hx)) (i + 1)]
    rfl

/-- C12: Describe of a registered statement whose column types `typeForDatum`
knows writes two frames and returns nil: first ParameterDescription (`t`) with
the int16 count of argument types and each OID as an int32, in order; then
NoData (`n`, empty body) when the statement has no columns, and otherwise
RowDescription (`T`) with the int16 column count and, per column in order, the
name and a zero byte, int32 0, int16 0, the int32 OID and int16 size of
`typeForDatum`, int32 0 and the int16 format code 0. -/
theorem describe_statement_frames (L : GoLib) (c : pqConn) (name extra : Bytes)
    (stmt : preparedStatement) (hname : 0 ∉ name)
    (hmsg : c.readBuf.msg = PrepareStatement :: (name ++ 0 :: extra))
    (hstmt : c.preparedStatements.get name = some stmt)
    (hcols : ∀ column ∈ stmt.columns, knownType column.Typ = true) :
    (pqConn.handleDescribe L c).1 = .ok ()
    ∧ (pqConn.handleDescribe L c).2.out
        = c.out ++ [OutEvent.write (frame ServerMsgParameterDescription
              (be16 stmt.argTypes.length ++ (stmt.argTypes.map be32).flatten)),
            OutEvent.write (rowDescriptionFrame none stmt.columns)]
    ∧ ServerMsgParameterDescription = 116
    ∧ (stmt.columns = [] → rowDescriptionFrame none stmt.columns = [110, 0, 0, 0, 4])
    ∧ (stmt.columns ≠ [] → rowDescriptionFrame none stmt.columns
        = frame 84 (be16 stmt.columns.length
            ++ (stmt.columns.map (fun column => columnDescription column formatText)).flatten))
    ∧ (∀ column ∈ stmt.columns, ∃ t, typeForDatum column.Typ = .ok t
        ∧ columnDescription column formatText
          = column.Name ++ [0] ++ be32 0 ++ be16 0 ++ be32 t.oid ++ be16 (uint16 t.size)
              ++ be32 0 ++ be16 0) := by
  have h := handleDescribe_statement L c name extra stmt hname hmsg hstmt
    (columnsDescribable_none stmt.columns hcols 0)
  refine ⟨h.1, h.2, rfl, fun h0 => ?_, fun h0 => ?_, fun column hmem => ?_⟩
  · rw [h0]; decide
  · have hl : ¬ stmt.columns.length = 0 := fun hh => h0 (List.length_eq_zero.mp hh)
    rw [rowDescriptionFrame, if_neg hl, columnDescriptions_none]
    rfl
  · obtain ⟨t, ht⟩ := knownType_ok (hcols column hmem)
    refine ⟨t, ht, ?_⟩
    rw [columnDescription, pgTypeOf_ok ht]
    rfl

/-- C12 on the fake server: Describe of the statement `s1` registered by a
Parse with a bool hint. -/
theorem describe_statement_frames_witness :
    (pqConn.handleDescribe plainLib (afterParseBool.setMsg
        (PrepareStatement :: (ascii "s1" ++ 0 :: [])))).2.out
      = afterParseBool.out
        ++ [OutEvent.write (frame ServerMsgParameterDescription (be16 1 ++ be32 T_bool)),
            OutEvent.write (rowDescriptionFrame none fake.makeFakeColumns)] :=
  (describe_statement_frames plainLib (afterParseBool.setMsg
      (PrepareStatement :: (ascii "s1" ++ 0 :: []))) (ascii "s1") []
    (preparedStatement.mk (ascii "SELECT $1") [T_bool] fake.makeFakeColumns) (by decide) rfl
    afterParseBool_s1 (by decide)).2.1

/-! ## Execute and the emission of results -/

theorem int32_uint32 (x : Int) (h1 : -2147483648 ≤ x) (h2 : x < 2147483648) :
    int32 (uint32 x) = x := by
  unfold int32 uint32
  split <;> omega

theorem uint32_lt (x : Int) : uint32 x < 4294967296 := by
  unfold uint32
  omega

theorem handleExecute_exec (E : Env) (c : pqConn) (portalName extra : Bytes) (limit : Int)
    (p : portal) (hname : 0 ∉ portalName) (h1 : -2147483648 ≤ limit) (h2 : limit < 2147483648)
    (hmsg : c.readBuf.msg = portalName ++ 0 :: (be32 (uint32 limit) ++ extra))
    (hp : c.portals.get portalName = some p) :
    pqConn.handleExecute E c
      = pqConn.executeStatements E (c.setMsg extra) p.stmt.query p.params (some p.format) false
          limit := by
  have hc : c = c.setMsg (portalName ++ 0 :: (be32 (uint32 limit) ++ extra)) := by
    rw [← hmsg]; rfl
  have hp1 : (c.setMsg (be32 (uint32 limit) ++ extra)).portals.get portalName = some p := hp
  rw [pqConn.handleExecute, hc, onBuf_getString c _ _ hname]
  simp only [pqConn.andThen, hp1]
  rw [onBuf_getInt32 c _ _ (uint32_lt limit), int32_uint32 limit h1 h2]
  simp only [pqConn.andThen, setMsg_setMsg]

theorem executeStatements_empty (E : Env) (c : pqConn) (stmts : Bytes) (params : List Datum)
    (formatCodes : Option (List Int)) (sendDescription : Bool) (limit : Int)
    (h : (E.executor.ExecuteStatements c.calls stmts params).Empty = true) :
    (pqConn.executeStatements E c stmts params formatCodes sendDescription limit).1 = .ok ()
    ∧ (pqConn.executeStatements E c stmts params formatCodes sendDescription limit).2.out
        = c.out ++ [OutEvent.write [73, 0, 0, 0, 4]] := by
  unfold pqConn.executeStatements
  dsimp only
  rw [if_pos h]
  refine ⟨rfl, ?_⟩
  have hf := finishMsg_out (({ c with calls := c.calls ++ [ExecCall.ExecuteStatements stmts
      params] } : pqConn).wb (fun w => w.initMsg ServerMsgEmptyQuery)) ServerMsgEmptyQuery
      (c.writeBuf.putbuf 1) (c.writeBuf.putbuf 2) (c.writeBuf.putbuf 3) (c.writeBuf.putbuf 4) []
      rfl
  rw [hf]
  rfl

theorem executeStatements_results (E : Env) (c : pqConn) (stmts : Bytes) (params : List Datum)
    (formatCodes : Option (List Int)) (sendDescription : Bool) (limit : Int)
    (h : (E.executor.ExecuteStatements c.calls stmts params).Empty = false)
    (hne : (E.executor.ExecuteStatements c.calls stmts params).ResultList ≠ []) :
    pqConn.executeStatements E c stmts params formatCodes sendDescription limit
      = pqConn.sendResults E.lib formatCodes sendDescription limit
          (E.executor.ExecuteStatements c.calls stmts params).ResultList
          ({ c with calls := c.calls ++ [ExecCall.ExecuteStatements stmts params] } : pqConn) := by
  have hl : ¬ (E.executor.ExecuteStatements c.calls stmts params).ResultList.length = 0 :=
    fun hh => hne (List.length_eq_zero.mp hh)
  unfold pqConn.executeStatements
  dsimp only
  rw [if_neg (by rw [h]; simp), pqConn.sendResponse, if_neg hl]

theorem afterBindP1_p1 :
    afterBindP1.portals.get (ascii "p1")
      = some (portal.mk (ascii "s1")
          (preparedStatement.mk (ascii "SELECT $1") [T_bool] fake.makeFakeColumns)
          [Datum.DBool true] [formatText, formatText, formatText]) := by
  decide!

/-- C16 (as amended): whatever the message and the state, the frames
`handleExecute` writes are DataRow, CommandComplete, ErrorResponse or
EmptyQueryResponse frames, never a RowDescription. On an encoded Execute of a
registered portal whose results are not empty: with limit 0 every result is
streamed, a result of kind Rows as one DataRow per row and its CommandComplete,
as long as every value has a format code of the portal whose encoder accepts it;
with a limit other than 0, the first result with more rows than the limit, the
results before it having been streamed, is answered by the ErrorResponse
"execute row count limits not supported", after the frames of the results before
it, and neither a frame for that result nor anything for a later result
follows. With limit 0, at the first row with a value that has no such code
`handleExecute` does not return nil: the results before it and the DataRows of
the rows before it have been written, and nothing follows, neither a DataRow for
that row nor a CommandComplete for that result nor a frame for a later
result. -/
theorem execute_streams_or_rejects :
    (∀ (E : Env) (c : pqConn),
        Emits [ServerMsgDataRow, ServerMsgCommandComplete, ServerMsgErrorResponse,
          ServerMsgEmptyQuery] c (pqConn.handleExecute E c).2)
    ∧ ServerMsgRowDescription ∉ [ServerMsgDataRow, ServerMsgCommandComplete,
        ServerMsgErrorResponse, ServerMsgEmptyQuery]
    ∧ (∀ (t : Nat) (body : Bytes), (frame t body).head? = some t)
    ∧ (∀ (L : GoLib) (formatCodes : Option (List Int)) (r : Result), r.Type_ = Rows →
        resultFrames L formatCodes false r
          = r.Rows.map (dataRowFrame L formatCodes) ++ [commandCompleteFrame r])
    ∧ (∀ (E : Env) (c : pqConn) (portalName extra : Bytes) (limit : Int) (p : portal),
        0 ∉ portalName → -2147483648 ≤ limit → limit < 2147483648 →
        c.readBuf.msg = portalName ++ 0 :: (be32 (uint32 limit) ++ extra) →
        c.portals.get portalName = some p →
        (E.executor.ExecuteStatements c.calls p.stmt.query p.params).Empty = false →
        (limit = 0 →
          (E.executor.ExecuteStatements c.calls p.stmt.query p.params).ResultList ≠ [] →
          (∀ r ∈ (E.executor.ExecuteStatements c.calls p.stmt.query p.params).ResultList,
            resultStreamable E.lib (some p.format) false r = true) →
          (pqConn.handleExecute E c).1 = .ok ()
          ∧ (pqConn.handleExecute E c).2.out
              = c.out ++ (((E.executor.ExecuteStatements c.calls p.stmt.query
                  p.params).ResultList.map (resultFrames E.lib (some p.format) false)).flatten).map
                  OutEvent.write)
        ∧ (limit ≠ 0 → ∀ (pre : List Result) (r : Result) (post : List Result),
            (E.executor.ExecuteStatements c.calls p.stmt.query p.params).ResultList
              = pre ++ r :: post →
            (∀ x ∈ pre, resultStreamable E.lib (some p.format) false x = true) →
            (∀ x ∈ pre, (x.Rows.length : Int) ≤ limit) →
            (r.Rows.length : Int) > limit →
            (pqConn.handleExecute E c).1 = .ok ()
            ∧ (pqConn.handleExecute E c).2.out
                = c.out ++ ((pre.map (resultFrames E.lib (some p.format) false)).flatten).map
                    OutEvent.write
                  ++ [OutEvent.write (frame ServerMsgErrorResponse (errorBody CodeInternalError
                        (ascii "execute row count limits not supported: " ++ itoa limit
                          ++ ascii " of " ++ itoa r.Rows.length))),
                      OutEvent.flush]))
    ∧ (∀ (E : Env) (c : pqConn) (portalName extra : Bytes) (p : portal) (pre : List Result)
        (r : Result) (post : List Result) (rpre : List ResultRow) (row : ResultRow)
        (rpost : List ResultRow),
        0 ∉ portalName →
        c.readBuf.msg = portalName ++ 0 :: (be32 (uint32 0) ++ extra) →
        c.portals.get portalName = some p →
        (E.executor.ExecuteStatements c.calls p.stmt.query p.params).Empty = false →
        (E.executor.ExecuteStatements c.calls p.stmt.query p.params).ResultList
          = pre ++ r :: post →
        (∀ x ∈ pre, resultStreamable E.lib (some p.format) false x = true) →
        r.Type_ = Rows → r.Rows = rpre ++ row :: rpost →
        (∀ x ∈ rpre, rowEncodable E.lib (some p.format) x.Values 0 = true) →
        rowEncodable E.lib (some p.format) row.Values 0 = false →
        (pqConn.handleExecute E c).1 ≠ .ok ()
        ∧ (pqConn.handleExecute E c).2.out
            = c.out ++ ((pre.map (resultFrames E.lib (some p.format) false)).flatten
                ++ rpre.map (dataRowFrame E.lib (some p.format))).map OutEvent.write) := by
  refine ⟨emits_handleExecute, by decide, fun t body => rfl, fun L codes r hr => ?_,
    fun E c portalName extra limit p hname h1 h2 hmsg hp hempty => ⟨fun h0 hne hs => ?_,
      fun h0 pre r post hlist hs hle hgt => ?_⟩,
    fun E c portalName extra p pre r post rpre row rpost hname hmsg hp hempty hlist hs hr hrows
      hpre hrow => ?_⟩
  · have hne : ¬ r.Type_ = RowsAffected := by rw [hr]; decide
    rw [resultFrames, if_neg hne, if_pos hr]
    rfl
  · rw [handleExecute_exec E c portalName extra limit p hname h1 h2 hmsg hp,
      executeStatements_results E (c.setMsg extra) _ _ _ _ _ hempty hne]
    exact sendResults_out E.lib (some p.format) false limit _ _ hs
      (fun r _ hh => hh.1 h0)
  · have hne : (E.executor.ExecuteStatements c.calls p.stmt.query p.params).ResultList ≠ [] := by
      rw [hlist]; simp
    rw [handleExecute_exec E c portalName extra limit p hname h1 h2 hmsg hp,
      executeStatements_results E (c.setMsg extra) _ _ _ _ _ hempty hne]
    have hlist1 : (E.executor.ExecuteStatements (c.setMsg extra).calls p.stmt.query
        p.params).ResultList = pre ++ r :: post := hlist
    rw [hlist1]
    exact sendResults_limit E.lib (some p.format) false limit pre r post _ hs
      (fun x hx hh => absurd (hle x hx) (by omega)) h0 hgt
  · have hne : (E.executor.ExecuteStatements c.calls p.stmt.query p.params).ResultList ≠ [] := by
      rw [hlist]; simp
    rw [handleExecute_exec E c portalName extra 0 p hname (by decide) (by decide) hmsg hp,
      executeStatements_results E (c.setMsg extra) _ _ _ _ _ hempty hne]
    have hlist1 : (E.executor.ExecuteStatements (c.setMsg extra).calls p.stmt.query
        p.params).ResultList = pre ++ r :: post := hlist
    rw [hlist1]
    have h := sendResults_stops E.lib (some p.format) false 0 pre r post rpre row rpost
      ({ c.setMsg extra with calls := (c.setMsg extra).calls
          ++ [ExecCall.ExecuteStatements p.stmt.query p.params] } : pqConn) hs
      (fun x _ hh => hh.1 rfl) (fun hh => hh.1 rfl) hr hrows (fun hh => (by cases hh)) hpre hrow
    refine ⟨h.1, h.2.trans ?_⟩
    simp only [Bool.false_eq_true, if_false, List.nil_append]
    rfl

theorem afterBindBinary_p1 :
    afterBindBinary.portals.get (ascii "p1")
      = some (portal.mk (ascii "s1")
          (preparedStatement.mk (ascii "SELECT $1") [T_bool] fake.makeFakeColumns)
          [Datum.DBool true] [formatBinary, formatBinary, formatBinary]) := by
  decide!

/-- C16 on the fake server. Portal `p1` with text columns: Execute with limit 2,
against a result of three rows, writes the ErrorResponse and flush only; Execute
with limit 0 streams the result. Portal `p1` with binary columns: Execute with
limit 0 does not return nil and writes nothing, the first value of the first
row being a string. -/
theorem execute_streams_or_rejects_witness :
    ((pqConn.handleExecute fakeEnv (afterBindP1.setMsg (ascii "p1" ++ 0 :: (be32 (uint32 2)
        ++ [])))).1 = .ok ()
    ∧ (pqConn.handleExecute fakeEnv (afterBindP1.setMsg (ascii "p1" ++ 0 :: (be32 (uint32 2)
        ++ [])))).2.out
      = (afterBindP1.setMsg (ascii "p1" ++ 0 :: (be32 (uint32 2) ++ []))).out
        ++ (([].map (resultFrames fakeEnv.lib (some [formatText, formatText, formatText])
              false)).flatten).map OutEvent.write
        ++ [OutEvent.write (frame ServerMsgErrorResponse (errorBody CodeInternalError
              (ascii "execute row count limits not supported: " ++ itoa 2
                ++ ascii " of " ++ itoa (3 : Nat)))),
            OutEvent.flush])
    ∧ ((pqConn.handleExecute fakeEnv (afterBindP1.setMsg (ascii "p1" ++ 0 :: (be32 (uint32 0)
        ++ [])))).1 = .ok ()
      ∧ (pqConn.handleExecute fakeEnv (afterBindP1.setMsg (ascii "p1" ++ 0 :: (be32 (uint32 0)
          ++ [])))).2.out
        = (afterBindP1.setMsg (ascii "p1" ++ 0 :: (be32 (uint32 0) ++ []))).out
          ++ (([fakeResult].map (resultFrames fakeEnv.lib
                (some [formatText, formatText, formatText]) false)).flatten).map
              OutEvent.write)
    ∧ ((pqConn.handleExecute fakeEnv (afterBindBinary.setMsg (executeP1 0))).1 ≠ .ok ()
      ∧ (pqConn.handleExecute fakeEnv (afterBindBinary.setMsg (executeP1 0))).2.out
        = (afterBindBinary.setMsg (executeP1 0)).out
          ++ ((([] : List Result).map (resultFrames fakeEnv.lib
                (some [formatBinary, formatBinary, formatBinary]) false)).flatten
              ++ ([] : List ResultRow).map (dataRowFrame fakeEnv.lib
                (some [formatBinary, formatBinary, formatBinary]))).map OutEvent.write) :=
  ⟨(execute_streams_or_rejects.2.2.2.2.1 fakeEnv
    (afterBindP1.setMsg (ascii "p1" ++ 0 :: (be32 (uint32 2) ++ []))) (ascii "p1") [] 2
    (portal.mk (ascii "s1")
      (preparedStatement.mk (ascii "SELECT $1") [T_bool] fake.makeFakeColumns)
      [Datum.DBool true] [formatText, formatText, formatText])
    (by decide) (by decide) (by decide) rfl afterBindP1_p1 rfl).2 (by decide) []
    fakeResult [] rfl (fun x hx => (by cases hx))
    (fun x hx => (by cases hx)) (by decide),
   (execute_streams_or_rejects.2.2.2.2.1 fakeEnv
    (afterBindP1.setMsg (ascii "p1" ++ 0 :: (be32 (uint32 0) ++ []))) (ascii "p1") [] 0
    (portal.mk (ascii "s1")
      (preparedStatement.mk (ascii "SELECT $1") [T_bool] fake.makeFakeColumns)
      [Datum.DBool true] [formatText, formatText, formatText])
    (by decide) (by decide) (by decide) rfl afterBindP1_p1 rfl).1 rfl (by decide)
    (by decide!),
   execute_streams_or_rejects.2.2.2.2.2 fakeEnv (afterBindBinary.setMsg (executeP1 0))
    (ascii "p1") []
    (portal.mk (ascii "s1")
      (preparedStatement.mk (ascii "SELECT $1") [T_bool] fake.makeFakeColumns)
      [Datum.DBool true] [formatBinary, formatBinary, formatBinary])
    [] fakeResult [] []
    { Values := [.DString (ascii "xiaowang"), .DInt 32, .DString (ascii "SMTS")] }
    [{ Values := [.DString (ascii "xiaozhang"), .DInt 26, .DString (ascii "MTS 2")] },
     { Values := [.DString (ascii "xiaohuang"), .DInt 30, .DString (ascii "MTS 3")] }]
    (by decide) rfl afterBindBinary_p1 rfl rfl (fun x hx => (by cases hx)) rfl rfl
    (fun x hx => (by cases hx)) (by decide!)⟩

/-- C16 as stated fails on a portal with binary columns: after Parse of `s1`
and Bind of `p1` with the one column format code 1 the portal holds the codes
1, 1, 1, and Execute with limit 0, against the fake result of three rows, returns
"unsupported type parser.DString" (the first value is a string, which
`writeBinaryDatum` does not encode) and writes nothing, so no row is streamed;
the whole session from the startup packet on ends with that error after
ParseComplete and BindComplete. With an Executor that gives a result of one row
and then one of three rows, Execute with limit 2 ends the same way at the first
result: the result with more rows than the limit is not answered by an
ErrorResponse. -/
theorem execute_binary_column_counterexample :
    (afterBindBinary.portals.get (ascii "p1")).map (fun p => p.format)
      = some [formatBinary, formatBinary, formatBinary]
    ∧ fake.makeFakeStatementResults.ResultList.map (fun r => r.Rows.length) = [3]
    ∧ (pqConn.handleExecute fakeEnv (afterBindBinary.setMsg (executeP1 0))).1
        = .err errBinaryString
    ∧ (pqConn.handleExecute fakeEnv (afterBindBinary.setMsg (executeP1 0))).2.out
        = afterBindBinary.out
    ∧ (NewServer.Serve plainLib scenarioBinaryColumns pqConn.parameterStatus).map
          (fun r => (r.1, r.2.map (fun c => c.out)))
        = some (.err errBinaryString,
            some (startupOut pqConn.parameterStatus
              ++ [OutEvent.write [49, 0, 0, 0, 4], OutEvent.write [50, 0, 0, 0, 4],
                  OutEvent.flush]))
    ∧ (twoResultExecutor.ExecuteStatements [] [] []).ResultList.map (fun r => r.Rows.length)
        = [1, 3]
    ∧ (Server.Serve plainLib { executor := twoResultExecutor } scenarioBinaryLimit
          pqConn.parameterStatus).map (fun r => (r.1, r.2.map (fun c => c.out)))
        = some (.err errBinaryString,
            some (startupOut pqConn.parameterStatus
              ++ [OutEvent.write [49, 0, 0, 0, 4], OutEvent.write [50, 0, 0, 0, 4],
                  OutEvent.flush])) := by
  refine ⟨by decide!, by decide!, by decide!, by decide!, by decide!, by decide!, by decide!⟩

theorem resultFrames_ends (L : GoLib) (formatCodes : Option (List Int)) (sendDescription : Bool)
    (r : Result) :
    ∃ pre, resultFrames L formatCodes sendDescription r = pre ++ [commandCompleteFrame r]
      ∧ ∀ f ∈ pre, f.head? ≠ some ServerMsgCommandComplete := by
  unfold resultFrames
  split
  · exact ⟨[], rfl, fun f hf => (by cases hf)⟩
  · split
    · refine ⟨_, rfl, fun f hf => ?_⟩
      rcases List.mem_append.mp hf with h | h
      · cases sendDescription with
        | false => cases h
        | true =>
          simp only [if_true, List.mem_singleton] at h
          rw [h, rowDescriptionFrame]
          split <;> (intro hh; cases hh)
      · obtain ⟨row, _, hrow⟩ := List.mem_map.mp h
        rw [← hrow]
        intro hh
        cases hh
    · exact ⟨[], rfl, fun f hf => (by cases hf)⟩

/-- C17 (as amended): when the Executor reports `Empty`, `executeStatements`
writes the one frame EmptyQueryResponse (`I`, length 4) and returns nil.
Otherwise `executeStatements` and `sendResponse` emit the results in order, each
as its frames, as long as no result up to it has more rows than a row limit
other than 0, a column of a type `typeForDatum` does not know where a row
description is sent, or a value without a format code whose encoder accepts it:
when that holds of all results the frames of all are written and nil is
returned, and when it holds of the first ones their frames come first in the
output; with no result at all one CommandComplete with an empty tag is written.
The frames of a result end with exactly one CommandComplete (`C`), alone for the
kinds other than Rows; its body is the tag and a zero byte, where the tag is
PGTag, with exactly `INSERT` rewritten to `INSERT 0`, followed by a space and
the decimal RowsAffected for kind RowsAffected, by a space and the decimal
number of rows for kind Rows, and by nothing for the other kinds; PGTag
`INSERT` with RowsAffected 5 gives the body `INSERT 0 5` and a zero byte. -/
theorem result_emission_frames :
    (∀ (E : Env) (c : pqConn) (stmts : Bytes) (params : List Datum)
        (formatCodes : Option (List Int)) (sendDescription : Bool) (limit : Int),
        (E.executor.ExecuteStatements c.calls stmts params).Empty = true →
        (pqConn.executeStatements E c stmts params formatCodes sendDescription limit).1 = .ok ()
        ∧ (pqConn.executeStatements E c stmts params formatCodes sendDescription limit).2.out
            = c.out ++ [OutEvent.write [73, 0, 0, 0, 4]])
    ∧ (∀ (E : Env) (c : pqConn) (stmts : Bytes) (params : List Datum)
        (formatCodes : Option (List Int)) (sendDescription : Bool) (limit : Int),
        (E.executor.ExecuteStatements c.calls stmts params).Empty = false →
        (E.executor.ExecuteStatements c.calls stmts params).ResultList ≠ [] →
        (∀ r ∈ (E.executor.ExecuteStatements c.calls stmts params).ResultList,
          resultStreamable E.lib formatCodes sendDescription r = true
          ∧ (limit = 0 ∨ (r.Rows.length : Int) ≤ limit)) →
        (pqConn.executeStatements E c stmts params formatCodes sendDescription limit).1 = .ok ()
        ∧ (pqConn.executeStatements E c stmts params formatCodes sendDescription limit).2.out
            = c.out ++ (((E.executor.ExecuteStatements c.calls stmts params).ResultList.map
                (resultFrames E.lib formatCodes sendDescription)).flatten).map OutEvent.write)
    ∧ (∀ (L : GoLib) (c : pqConn) (results : List Result) (formatCodes : Option (List Int))
        (sendDescription : Bool) (limit : Int), results ≠ [] →
        (∀ r ∈ results, resultStreamable L formatCodes sendDescription r = true
          ∧ (limit = 0 ∨ (r.Rows.length : Int) ≤ limit)) →
        (pqConn.sendResponse L c results formatCodes sendDescription limit).1 = .ok ()
        ∧ (pqConn.sendResponse L c results formatCodes sendDescription limit).2.out
            = c.out ++ ((results.map (resultFrames L formatCodes sendDescription)).flatten).map
                OutEvent.write)
    ∧ (∀ (L : GoLib) (c : pqConn) (pre post : List Result) (formatCodes : Option (List Int))
        (sendDescription : Bool) (limit : Int),
        (∀ r ∈ pre, resultStreamable L formatCodes sendDescription r = true
          ∧ (limit = 0 ∨ (r.Rows.length : Int) ≤ limit)) →
        ∃ evs, (pqConn.sendResponse L c (pre ++ post) formatCodes sendDescription limit).2.out
          = c.out ++ ((pre.map (resultFrames L formatCodes sendDescription)).flatten).map
              OutEvent.write ++ evs)
    ∧ (∀ (L : GoLib) (c : pqConn) (formatCodes : Option (List Int)) (sendDescription : Bool)
        (limit : Int),
        (pqConn.sendResponse L c [] formatCodes sendDescription limit).1 = .ok ()
        ∧ (pqConn.sendResponse L c [] formatCodes sendDescription limit).2.out
            = c.out ++ [OutEvent.write [67, 0, 0, 0, 5, 0]])
    ∧ (∀ (L : GoLib) (c : pqConn) (r : Result) (formatCodes : Option (List Int))
        (sendDescription : Bool), resultStreamable L formatCodes sendDescription r = true →
        (pqConn.sendResult L c r formatCodes sendDescription).1 = .ok ()
        ∧ (pqConn.sendResult L c r formatCodes sendDescription).2.out
            = c.out ++ (resultFrames L formatCodes sendDescription r).map OutEvent.write)
    ∧ (∀ (L : GoLib) (formatCodes : Option (List Int)) (sendDescription : Bool)
        (results : List Result) (c : pqConn),
        (∀ r ∈ results, resultStreamable L formatCodes sendDescription r = true) →
        (pqConn.sendResults L formatCodes sendDescription 0 results c).1 = .ok ()
        ∧ (pqConn.sendResults L formatCodes sendDescription 0 results c).2.out
            = c.out ++ ((results.map (resultFrames L formatCodes sendDescription)).flatten).map
                OutEvent.write)
    ∧ (∀ (L : GoLib) (formatCodes : Option (List Int)) (sendDescription : Bool) (r : Result),
        ∃ pre, resultFrames L formatCodes sendDescription r = pre ++ [commandCompleteFrame r]
          ∧ ∀ f ∈ pre, f.head? ≠ some ServerMsgCommandComplete)
    ∧ (∀ (L : GoLib) (formatCodes : Option (List Int)) (sendDescription : Bool) (r : Result),
        r.Type_ ≠ Rows → resultStreamable L formatCodes sendDescription r = true
          ∧ resultFrames L formatCodes sendDescription r = [commandCompleteFrame r])
    ∧ (∀ r : Result, commandCompleteFrame r = frame 67 (commandTag r ++ [0]))
    ∧ (∀ r : Result, commandTag r
        = (if r.PGTag = ascii "INSERT" then ascii "INSERT 0" else r.PGTag)
          ++ (if r.Type_ = RowsAffected then [32] ++ itoa r.RowsAffected
              else if r.Type_ = Rows then [32] ++ itoa r.Rows.length
              else []))
    ∧ commandTag insertFive ++ [0] = ascii "INSERT 0 5" ++ [0]
    ∧ commandCompleteFrame insertFive = [67, 0, 0, 0, 15] ++ ascii "INSERT 0 5" ++ [0]
    ∧ commandTag { insertFive with PGTag := ascii "INSERT INTO t", Type_ := Ack }
        = ascii "INSERT INTO t" := by
  have hlim : ∀ (limit : Int) (r : Result), (limit = 0 ∨ (r.Rows.length : Int) ≤ limit) →
      ¬ (limit ≠ 0 ∧ (r.Rows.length : Int) > limit) := by
    intro limit r h hh
    rcases h with h | h
    · exact hh.1 h
    · omega
  refine ⟨executeStatements_empty, fun E c stmts params codes sd limit hempty hne hs => ?_,
    fun L c results codes sd limit hne hs => ?_, fun L c pre post codes sd limit hs => ?_,
    sendResponse_none, sendResult_out, fun L codes sd results c hs => ?_,
    resultFrames_ends, fun L codes sd r hr => ?_, fun r => rfl, fun r => rfl, by decide,
    by decide, by decide⟩
  · rw [executeStatements_results E c stmts params codes sd limit hempty hne]
    exact sendResults_out E.lib codes sd limit _ _ (fun r hr => (hs r hr).1)
      (fun r hr => hlim limit r (hs r hr).2)
  · rw [sendResponse_results L c results codes sd limit hne]
    exact sendResults_out L codes sd limit _ _ (fun r hr => (hs r hr).1)
      (fun r hr => hlim limit r (hs r hr).2)
  · by_cases hne : pre ++ post = []
    · have hpre : pre = [] := (List.append_eq_nil.mp hne).1
      rw [hne, hpre]
      refine ⟨[OutEvent.write [67, 0, 0, 0, 5, 0]],
        ((sendResponse_none L c codes sd limit).2).trans ?_⟩
      simp
    · rw [sendResponse_results L c (pre ++ post) codes sd limit hne]
      exact sendResults_begins L codes sd limit pre post c (fun r hr => (hs r hr).1)
        (fun r hr => hlim limit r (hs r hr).2)
  · exact sendResults_out L codes sd 0 results c hs (fun r _ hh => hh.1 rfl)
  · by_cases h1 : r.Type_ = RowsAffected
    · exact ⟨by rw [resultStreamable, if_pos h1], by rw [resultFrames, if_pos h1]⟩
    · exact ⟨by rw [resultStreamable, if_neg h1, if_neg hr],
        by rw [resultFrames, if_neg h1, if_neg hr]⟩

/-- C17 on the fake server: the result of a Simple Query, with text values and
a row description, is emitted as its frames. -/
theorem result_emission_frames_witness :
    (pqConn.executeStatements fakeEnv (freshWith []) (ascii "q") [] none true 0).1 = .ok ()
    ∧ (pqConn.executeStatements fakeEnv (freshWith []) (ascii "q") [] none true 0).2.out
        = (freshWith []).out
          ++ (((fakeEnv.executor.ExecuteStatements (freshWith []).calls (ascii "q")
              []).ResultList.map (resultFrames fakeEnv.lib none true)).flatten).map
              OutEvent.write :=
  result_emission_frames.2.1 fakeEnv (freshWith []) (ascii "q") [] none true 0 rfl
    (by decide) (by decide!)

/-- C17 as stated fails for a result that is not emitted to its end. The fake
Executor's one result, of kind Rows with three rows: under the format codes
1, 1, 1 `executeStatements` returns "unsupported type parser.DString" and writes
nothing; under a row limit of 2 it writes the ErrorResponse "execute row count
limits not supported: 2 of 3" alone. With an Executor whose result has a column
of kind Tuple, a Simple Query ends in a panic with nothing written. In none of
the three is a CommandComplete written for the result; nor is one written for a
result of kind RowsAffected that comes after the result with the Tuple
column. -/
theorem result_emission_counterexample :
    fake.makeFakeStatementResults.Empty = false
    ∧ fake.makeFakeStatementResults.ResultList.map (fun r => (r.Type_, r.Rows.length))
        = [(Rows, 3)]
    ∧ (pqConn.executeStatements fakeEnv (freshWith []) (ascii "q") []
          (some [formatBinary, formatBinary, formatBinary]) false 0).1 = .err errBinaryString
    ∧ (pqConn.executeStatements fakeEnv (freshWith []) (ascii "q") []
          (some [formatBinary, formatBinary, formatBinary]) false 0).2.out = []
    ∧ (pqConn.executeStatements fakeEnv (freshWith []) (ascii "q") []
          (some [formatText, formatText, formatText]) false 2).1 = .ok ()
    ∧ (pqConn.executeStatements fakeEnv (freshWith []) (ascii "q") []
          (some [formatText, formatText, formatText]) false 2).2.out
        = [OutEvent.write (frame ServerMsgErrorResponse (errorBody CodeInternalError
            (ascii "execute row count limits not supported: 2 of 3"))), OutEvent.flush]
    ∧ (tupleColumnExecutor.ExecuteStatements [] [] []).Empty = false
    ∧ (pqConn.handleSimpleQuery tupleColumnEnv (freshWith (ascii "select 1" ++ [0]))).1 = .panic
    ∧ (pqConn.handleSimpleQuery tupleColumnEnv (freshWith (ascii "select 1" ++ [0]))).2.out
        = []
    ∧ (pqConn.sendResponse plainLib (freshWith []) [tupleColumnResult, insertFive] none true
        0).1 = .panic
    ∧ (pqConn.sendResponse plainLib (freshWith []) [tupleColumnResult, insertFive] none true
        0).2.out = [] := by
  refine ⟨rfl, by decide!, by decide!, by decide!, by decide!, by decide!, rfl, by decide!,
    by decide!, by decide!, by decide!⟩

theorem valueBytes_text (L : GoLib) (w : writeBuffer) (d : Datum) :
    (w.writeTextDatum L d).2.buf = w.buf ++ valueBytes L formatText d := by
  rw [(writeTextDatum_buf L w d).2, valueBytes, if_pos rfl]

theorem valueBytes_binary (L : GoLib) (w : writeBuffer) (d : Datum) :
    (w.writeBinaryDatum d).2.buf = w.buf ++ valueBytes L formatBinary d := by
  rw [(writeBinaryDatum_buf w d).2, valueBytes, if_neg (by decide)]

/-- C18 (as amended): for rows in which every value has a format code whose
encoder accepts it, the DataRow loop writes exactly one DataRow frame (`D`) per
row, in the order of the rows, and returns nil; for a result of kind Rows with
such rows and, where a row description is sent, columns of types `typeForDatum`
knows, `sendResult` writes the row description when one is sent, these DataRows
and one CommandComplete, and so does `sendResponse`, after the frames of the
results before it, when the same holds of those results and none up to it has
more rows than a row limit other than 0. At the first row with a
value that has no such code `sendResult` does not return nil: the DataRows of
the rows before it have been written and no CommandComplete follows. The body
of a DataRow is the int16 number of values followed by the encoding of every
value in column order, the one `writeTextDatum` appends when no format codes
are given or the code of the column is 0 and the one `writeBinaryDatum` appends
when it is 1 (a length prefix and the bytes: the text of a string behind its
length, the eight bytes of an int behind the length 8, the length -1 alone for
NULL). On the fake server a Simple Query is answered by a RowDescription naming
three columns, the DataRow of `xiaowang`, `32`, `SMTS`, two more DataRows and
CommandComplete `SELECT 3`. -/
theorem data_rows_per_row :
    (∀ (L : GoLib) (formatCodes : Option (List Int)) (rows : List ResultRow) (c : pqConn),
        (∀ row ∈ rows, rowEncodable L formatCodes row.Values 0 = true) →
        (pqConn.sendDataRows L formatCodes rows c).1 = .ok ()
        ∧ (pqConn.sendDataRows L formatCodes rows c).2.out
            = c.out ++ rows.map (fun row => OutEvent.write (dataRowFrame L formatCodes row)))
    ∧ (∀ (L : GoLib) (c : pqConn) (r : Result) (formatCodes : Option (List Int))
        (sendDescription : Bool), r.Type_ = Rows →
        resultStreamable L formatCodes sendDescription r = true →
        (pqConn.sendResult L c r formatCodes sendDescription).1 = .ok ()
        ∧ (pqConn.sendResult L c r formatCodes sendDescription).2.out
            = c.out ++ ((if sendDescription then [rowDescriptionFrame formatCodes r.Columns]
                  else [])
                ++ r.Rows.map (dataRowFrame L formatCodes) ++ [commandCompleteFrame r]).map
                OutEvent.write)
    ∧ (∀ (L : GoLib) (c : pqConn) (pre : List Result) (r : Result) (post : List Result)
        (formatCodes : Option (List Int)) (sendDescription : Bool) (limit : Int),
        r.Type_ = Rows →
        (∀ x ∈ pre ++ [r], resultStreamable L formatCodes sendDescription x = true
          ∧ (limit = 0 ∨ (x.Rows.length : Int) ≤ limit)) →
        ∃ evs, (pqConn.sendResponse L c (pre ++ r :: post) formatCodes sendDescription
            limit).2.out
          = c.out ++ ((pre.map (resultFrames L formatCodes sendDescription)).flatten
              ++ ((if sendDescription then [rowDescriptionFrame formatCodes r.Columns] else [])
              ++ r.Rows.map (dataRowFrame L formatCodes) ++ [commandCompleteFrame r])).map
              OutEvent.write ++ evs)
    ∧ (∀ (L : GoLib) (c : pqConn) (r : Result) (formatCodes : Option (List Int))
        (sendDescription : Bool) (pre : List ResultRow) (row : ResultRow)
        (post : List ResultRow), r.Type_ = Rows → r.Rows = pre ++ row :: post →
        (sendDescription = true → columnsDescribable formatCodes r.Columns 0 = true) →
        (∀ x ∈ pre, rowEncodable L formatCodes x.Values 0 = true) →
        rowEncodable L formatCodes row.Values 0 = false →
        (pqConn.sendResult L c r formatCodes sendDescription).1 ≠ .ok ()
        ∧ (pqConn.sendResult L c r formatCodes sendDescription).2.out
            = c.out ++ ((if sendDescription then [rowDescriptionFrame formatCodes r.Columns]
                  else [])
                ++ pre.map (dataRowFrame L formatCodes)).map OutEvent.write)
    ∧ (∀ (L : GoLib) (formatCodes : Option (List Int)) (row : ResultRow),
        dataRowFrame L formatCodes row
          = frame 68 (be16 row.Values.length ++ rowValueBytes L formatCodes row.Values 0))
    ∧ (∀ (L : GoLib) (formatCodes : Option (List Int)) (d : Datum) (rest : List Datum) (i : Nat),
        rowValueBytes L formatCodes (d :: rest) i
          = valueBytes L (codeOf formatCodes i) d ++ rowValueBytes L formatCodes rest (i + 1))
    ∧ (∀ i : Nat, codeOf none i = formatText)
    ∧ (∀ (codes : List Int) (i : Nat), codeOf (some codes) i = codes.getD i 0)
    ∧ (∀ (L : GoLib) (w : writeBuffer) (d : Datum),
        (w.writeTextDatum L d).2.buf = w.buf ++ valueBytes L formatText d)
    ∧ (∀ (L : GoLib) (w : writeBuffer) (d : Datum),
        (w.writeBinaryDatum d).2.buf = w.buf ++ valueBytes L formatBinary d)
    ∧ (∀ (L : GoLib) (v : Bytes),
        valueBytes L formatText (Datum.DString v) = be32 v.length ++ v)
    ∧ (∀ (L : GoLib) (v : Int), valueBytes L formatBinary (Datum.DInt v)
        = be32 8 ++ be64 (uint64 v))
    ∧ (∀ L : GoLib, valueBytes L formatText Datum.dNull = [255, 255, 255, 255]
        ∧ valueBytes L formatBinary Datum.dNull = [255, 255, 255, 255])
    ∧ (∀ (L : GoLib) (formatCodes : Option (List Int)) (sendDescription : Bool) (r : Result),
        r.Type_ = Rows →
        resultFrames L formatCodes sendDescription r
          = (if sendDescription then [rowDescriptionFrame formatCodes r.Columns] else [])
            ++ r.Rows.map (dataRowFrame L formatCodes) ++ [commandCompleteFrame r])
    ∧ (pqConn.handleSimpleQuery fakeEnv (freshWith (ascii "select 1" ++ [0]))).1 = .ok ()
    ∧ (pqConn.handleSimpleQuery fakeEnv (freshWith (ascii "select 1" ++ [0]))).2.out
        = [OutEvent.write (rowDescriptionFrame none fake.makeFakeColumns)] ++ fakeRowsOut
    ∧ rowDescriptionFrame none fake.makeFakeColumns
        = frame 84 (be16 3
            ++ (ascii "name" ++ [0] ++ be32 0 ++ be16 0 ++ be32 T_text ++ be16 65535 ++ be32 0
                ++ be16 0)
            ++ (ascii "age" ++ [0] ++ be32 0 ++ be16 0 ++ be32 T_int8 ++ be16 8 ++ be32 0
                ++ be16 0)
            ++ (ascii "description" ++ [0] ++ be32 0 ++ be16 0 ++ be32 T_text ++ be16 65535
                ++ be32 0 ++ be16 0)) := by
  have hframes : ∀ (L : GoLib) (formatCodes : Option (List Int)) (sendDescription : Bool)
      (r : Result), r.Type_ = Rows →
      resultFrames L formatCodes sendDescription r
        = (if sendDescription then [rowDescriptionFrame formatCodes r.Columns] else [])
          ++ r.Rows.map (dataRowFrame L formatCodes) ++ [commandCompleteFrame r] := by
    intro L codes sd r hr
    have hne : ¬ r.Type_ = RowsAffected := by rw [hr]; decide
    rw [resultFrames, if_neg hne, if_pos hr]
  refine ⟨sendDataRows_out, fun L c r codes sd hr hs => ?_,
    fun L c pre r post codes sd limit hr hs => ?_, sendResult_stops,
    fun L codes row => rfl, fun L codes d rest i => rfl, fun i => rfl,
    fun codes i => rfl, valueBytes_text, valueBytes_binary, fun L v => ?_, fun L v => ?_,
    fun L => ⟨rfl, rfl⟩, hframes, by decide!, by decide!, by decide!⟩
  · rw [← hframes L codes sd r hr]
    exact sendResult_out L c r codes sd hs
  · obtain ⟨evs, h⟩ := sendResults_begins L codes sd limit (pre ++ [r]) post c
      (fun x hx => (hs x hx).1) (fun x hx hh => by
        rcases (hs x hx).2 with h0 | h0
        · exact hh.1 h0
        · omega)
    refine ⟨evs, ?_⟩
    rw [sendResponse_results L c (pre ++ r :: post) codes sd limit (by simp)]
    rw [List.append_assoc, List.singleton_append] at h
    rw [h, ← hframes L codes sd r hr]
    simp
  · rw [valueBytes, if_pos rfl]
    show (writeBuffer.zero.putValue v).buf = _
    rw [putValue_buf, be32_uint32_int32]
    rfl
  · rw [valueBytes, if_neg (by decide)]
    rfl

/-- C18 on the fake result with the column format codes 0, 1, 0 (the int
column binary): `sendResult` writes the three DataRows and the
CommandComplete. -/
theorem data_rows_per_row_witness :
    (pqConn.sendResult plainLib (freshWith []) fakeResult
        (some [formatText, formatBinary, formatText]) false).1 = .ok ()
    ∧ (pqConn.sendResult plainLib (freshWith []) fakeResult
        (some [formatText, formatBinary, formatText]) false).2.out
      = (freshWith []).out
        ++ ((if false = true then
              [rowDescriptionFrame (some [formatText, formatBinary, formatText])
                fakeResult.Columns]
             else [])
            ++ fakeResult.Rows.map (dataRowFrame plainLib
                (some [formatText, formatBinary, formatText]))
            ++ [commandCompleteFrame fakeResult]).map OutEvent.write :=
  data_rows_per_row.2.1 plainLib (freshWith []) fakeResult
    (some [formatText, formatBinary, formatText]) false rfl (by decide!)

/-- C18 as stated fails for a result of kind Rows that the encoders do not
take. The fake result, three rows: under the format codes 1, 1, 1, and under
0, 1, 1, `sendResult` returns "unsupported type parser.DString" and writes no
DataRow and no CommandComplete; under a row limit of 2 `sendResponse` writes an
ErrorResponse alone. A result with a column of kind Tuple, emitted with its row
description, ends in a panic with nothing written; so does a row of two values
under a single format code, and after the result with the Tuple column no
DataRow is written for the fake result, whose text values the encoders take. -/
theorem data_rows_counterexample :
    fakeResult.Type_ = Rows ∧ fakeResult.Rows.length = 3
    ∧ (pqConn.sendResult plainLib (freshWith []) fakeResult
        (some [formatBinary, formatBinary, formatBinary]) false).1 = .err errBinaryString
    ∧ (pqConn.sendResult plainLib (freshWith []) fakeResult
        (some [formatBinary, formatBinary, formatBinary]) false).2.out = []
    ∧ (pqConn.sendResult plainLib (freshWith []) fakeResult
        (some [formatText, formatBinary, formatBinary]) false).1 = .err errBinaryString
    ∧ (pqConn.sendResult plainLib (freshWith []) fakeResult
        (some [formatText, formatBinary, formatBinary]) false).2.out = []
    ∧ (pqConn.sendResponse plainLib (freshWith []) [fakeResult] none false 2).2.out
        = [OutEvent.write (frame ServerMsgErrorResponse (errorBody CodeInternalError
            (ascii "execute row count limits not supported: 2 of 3"))), OutEvent.flush]
    ∧ tupleColumnResult.Type_ = Rows ∧ tupleColumnResult.Rows.length = 1
    ∧ (pqConn.sendResult plainLib (freshWith []) tupleColumnResult none true).1 = .panic
    ∧ (pqConn.sendResult plainLib (freshWith []) tupleColumnResult none true).2.out = []
    ∧ (pqConn.sendDataRows plainLib (some [formatText]) [twoValueRow] (freshWith [])).1
        = .panic
    ∧ (pqConn.sendDataRows plainLib (some [formatText]) [twoValueRow] (freshWith [])).2.out
        = []
    ∧ (pqConn.sendResponse plainLib (freshWith []) [tupleColumnResult, fakeResult] none true
        0).1 = .panic
    ∧ (pqConn.sendResponse plainLib (freshWith []) [tupleColumnResult, fakeResult] none true
        0).2.out = [] := by
  refine ⟨rfl, rfl, by decide!, by decide!, by decide!, by decide!, by decide!, rfl, rfl,
    by decide!, by decide!, by decide!, by decide!, by decide!, by decide!⟩

/-- C19 (the code at the failing input): the emission of a result never reads
its `Err` field, so two results that differ in it only are emitted alike; with
an Executor whose statement fails, the Simple Query is answered by
CommandComplete and no ErrorResponse. -/
theorem result_error_is_not_surfaced :
    (∀ (L : GoLib) (c : pqConn) (r : Result) (e : Option Bytes)
        (formatCodes : Option (List Int)) (sendDescription : Bool),
        pqConn.sendResult L c { r with Err := e } formatCodes sendDescription
          = pqConn.sendResult L c r formatCodes sendDescription)
    ∧ (pqConn.handleSimpleQuery erringEnv (freshWith (ascii "select 1" ++ [0]))).1 = .ok ()
    ∧ (pqConn.handleSimpleQuery erringEnv (freshWith (ascii "select 1" ++ [0]))).2.out
        = [OutEvent.write (frame ServerMsgCommandComplete (ascii "SELECT" ++ [0]))]
    ∧ (pqConn.serveLoop erringEnv 2
          (pqConn.new (clientMsg ClientMsgSimpleQuery (ascii "select 1" ++ [0])) [] [])).map
          (fun r => (r.1, r.2.out))
        = some (.err errEOF,
            [OutEvent.write (readyFrame 73), OutEvent.flush,
             OutEvent.write (frame ServerMsgCommandComplete (ascii "SELECT" ++ [0])),
             OutEvent.write (readyFrame 73), OutEvent.flush]) := by
  refine ⟨fun L c r e codes sd => rfl, by decide!, by decide!, by decide!⟩

/-! ## Truncated payloads -/

theorem onBuf_getString_none (c : pqConn) (h : 0 ∉ c.readBuf.msg) :
    c.onBuf readBuffer.getString = (.err errNoNUL, c) := by
  simp only [pqConn.onBuf, readBuffer.getString, indexByte_none _ h]
  rfl

theorem dispatch_noNUL (E : Env) (typ : Nat) (c : pqConn)
    (htyp : typ = ClientMsgSimpleQuery ∨ typ = ClientMsgMPPQuery ∨ typ = ClientMsgParse
      ∨ typ = ClientMsgBind ∨ typ = ClientMsgExecute)
    (h : 0 ∉ c.readBuf.msg) :
    pqConn.dispatch E typ c
      = (some (.err errNoNUL),
          ({ c with extendedQueryMessage := extendedAfter typ c.extendedQueryMessage } : pqConn)) := by
  have hq : ∀ b : Bool, ({ c with extendedQueryMessage := b } : pqConn).onBuf readBuffer.getString
      = (.err errNoNUL, ({ c with extendedQueryMessage := b } : pqConn)) :=
    fun b => onBuf_getString_none _ h
  rcases htyp with h1 | h1 | h1 | h1 | h1 <;> subst h1
  · rw [pqConn.dispatch, if_neg (by decide), if_pos rfl, pqConn.handleSimpleQuery, hq]
    rfl
  · rw [pqConn.dispatch, if_neg (by decide), if_neg (by decide), if_pos rfl,
      pqConn.handleMPPQuery, hq]
    rfl
  · rw [pqConn.dispatch, if_neg (by decide), if_neg (by decide), if_neg (by decide),
      if_neg (by decide), if_pos rfl, pqConn.handleParse, hq]
    rfl
  · rw [pqConn.dispatch, if_neg (by decide), if_neg (by decide), if_neg (by decide),
      if_neg (by decide), if_neg (by decide), if_neg (by decide), if_neg (by decide), if_pos rfl,
      pqConn.handleBind, hq]
    rfl
  · rw [pqConn.dispatch, if_neg (by decide), if_neg (by decide), if_neg (by decide),
      if_neg (by decide), if_neg (by decide), if_neg (by decide), if_neg (by decide),
      if_neg (by decide), if_pos rfl, pqConn.handleExecute, hq]
    rfl

theorem readHints_short (n : Nat) :
    ∀ (c : pqConn) (rest : Bytes), rest.length < 4 * n →
      ∃ m : Nat, m < 4
        ∧ (pqConn.readHints n (c.setMsg rest)).1 = .err (ascii "insufficient data: " ++ itoa m) := by
  induction n with
  | zero => intro c rest h; exact absurd h (by omega)
  | succ n ih =>
    intro c rest h
    by_cases h4 : rest.length < 4
    · refine ⟨rest.length, h4, ?_⟩
      have hg : (c.setMsg rest).onBuf readBuffer.getInt32
          = (.err (ascii "insufficient data: " ++ itoa rest.length), c.setMsg rest) := by
        simp only [pqConn.onBuf, readBuffer.getInt32, pqConn.setMsg, if_pos h4]
      rw [pqConn.readHints, hg]
      rfl
    · have hsplit : rest = rest.take 4 ++ rest.drop 4 := (List.take_append_drop 4 rest).symm
      have hl : (rest.take 4).length = 4 := by rw [List.length_take]; omega
      have hd : (rest.drop 4).length < 4 * n := by rw [List.length_drop]; omega
      obtain ⟨m, hm, hr⟩ := ih c (rest.drop 4) hd
      refine ⟨m, hm, ?_⟩
      have hg : (c.setMsg rest).onBuf readBuffer.getInt32
          = (.ok (int32 (bigEndianUint32 (rest.take 4))), c.setMsg (rest.drop 4)) := by
        simp only [pqConn.onBuf, readBuffer.getInt32, pqConn.setMsg, if_neg h4]
      rw [pqConn.readHints, hg]
      simp only [pqConn.andThen]
      rcases hx : pqConn.readHints n (c.setMsg (rest.drop 4)) with ⟨x, c2⟩
      rw [hx] at hr
      cases x with
      | ok a => cases hr
      | err e =>
        have he : e = ascii "insufficient data: " ++ itoa m := by
          have := hr
          simp only [Res.err.injEq] at this
          exact this
        rw [he]
      | panic => cases hr

theorem handleParse_head (E : Env) (c : pqConn) (name query rest : Bytes) (n : Nat)
    (hname : 0 ∉ name) (hquery : 0 ∉ query)
    (hfree : name = [] ∨ c.preparedStatements.get name = none) (hn : n < 32768)
    (hmsg : c.readBuf.msg = name ++ 0 :: (query ++ 0 :: (be16 n ++ rest))) :
    pqConn.handleParse E c
      = pqConn.andThen (pqConn.readHints n (c.setMsg rest)) (fun inTypeHints c4 =>
          pqConn.parseStatement E c4 name query inTypeHints) := by
  have hc : c = c.setMsg (name ++ 0 :: (query ++ 0 :: (be16 n ++ rest))) := by
    rw [← hmsg]; rfl
  have hdup : ¬ (name ≠ [] ∧ ((c.setMsg (query ++ 0 :: (be16 n ++ rest))).preparedStatements.get
      name).isSome = true) := by
    rintro ⟨h1, h2⟩
    rcases hfree with h | h
    · exact h1 h
    · have h3 : (c.preparedStatements.get name).isSome = true := h2
      rw [h] at h3
      cases h3
  have hneg : ¬ ((n : Int) < 0) := by omega
  rw [pqConn.handleParse, hc, onBuf_getString c _ _ hname]
  simp only [pqConn.andThen]
  rw [if_neg hdup, onBuf_getString c _ _ hquery]
  simp only [pqConn.andThen]
  rw [onBuf_getInt16_nat c _ _ hn]
  simp only [pqConn.andThen]
  rw [if_neg hneg, Int.toNat_ofNat]
  rfl

theorem handleParse_short (E : Env) (c : pqConn) (name query rest : Bytes) (n : Nat)
    (hname : 0 ∉ name) (hquery : 0 ∉ query)
    (hfree : name = [] ∨ c.preparedStatements.get name = none) (hn : n < 32768)
    (hshort : rest.length < 4 * n)
    (hmsg : c.readBuf.msg = name ++ 0 :: (query ++ 0 :: (be16 n ++ rest))) :
    (∃ m : Nat, m < 4
      ∧ (pqConn.handleParse E c).1 = .err (ascii "insufficient data: " ++ itoa m))
    ∧ Quiet c (pqConn.handleParse E c).2 := by
  obtain ⟨m, hm, hr⟩ := readHints_short n c rest hshort
  have hq := (quiet_setMsg c rest).quietTrans (quiet_readHints n (c.setMsg rest))
  rw [handleParse_head E c name query rest n hname hquery hfree hn hmsg]
  rcases hx : pqConn.readHints n (c.setMsg rest) with ⟨x, c2⟩
  rw [hx] at hr hq
  cases x with
  | ok a => cases hr
  | err e => exact ⟨⟨m, hm, (show (Res.err e : Res Unit) = _ from by
      have h0 : (Res.err e : Res (List Nat)) = Res.err _ := hr
      cases h0
      rfl)⟩, hq⟩
  | panic => cases hr

theorem readyForQuery_ignore (c : pqConn) :
    c.readyForQuery.2.ignoreTillSync = c.ignoreTillSync := by
  unfold pqConn.readyForQuery
  dsimp only
  split
  · split
    · rfl
    · split
      · rfl
      · split <;> rfl
  · rfl

theorem serveLoop_returns (E : Env) (c : pqConn) (fuel : Nat) (r : Res Unit)
    (h : (pqConn.serveIter E c).1 = some r) :
    pqConn.serveLoop E (fuel + 1) c = some (r, (pqConn.serveIter E c).2) := by
  rw [pqConn.serveLoop]
  rcases hs : pqConn.serveIter E c with ⟨x, c1⟩
  rw [hs] at h
  cases x with
  | none => cases h
  | some r1 =>
    have : r1 = r := by simpa using h
    rw [this]

theorem serveIter_noNUL (E : Env) (c : pqConn) (hrfq : c.readyForQuery.1 = .ok ())
    (hign : c.ignoreTillSync = false)
    (hread : (c.readBuf.readTypedMsg c.rd).err = none)
    (htyp : (c.readBuf.readTypedMsg c.rd).typ = ClientMsgSimpleQuery
      ∨ (c.readBuf.readTypedMsg c.rd).typ = ClientMsgMPPQuery
      ∨ (c.readBuf.readTypedMsg c.rd).typ = ClientMsgParse
      ∨ (c.readBuf.readTypedMsg c.rd).typ = ClientMsgBind
      ∨ (c.readBuf.readTypedMsg c.rd).typ = ClientMsgExecute)
    (hnul : 0 ∉ (c.readBuf.readTypedMsg c.rd).buf.msg) :
    (pqConn.serveIter E c).1 = some (.err errNoNUL)
    ∧ (pqConn.serveIter E c).2.out = c.readyForQuery.2.out
    ∧ (pqConn.serveIter E c).2.ignoreTillSync = false
    ∧ (pqConn.serveIter E c).2.preparedStatements = c.preparedStatements
    ∧ (pqConn.serveIter E c).2.portals = c.portals := by
  have hb := readyForQuery_readBuf c
  have hi := readyForQuery_ignore c
  have hio := ioOnly_readyForQuery c
  have hiter : pqConn.serveIter E c = pqConn.readAndDispatch E c.readyForQuery.2 := by
    unfold pqConn.serveIter
    rcases hr : c.readyForQuery with ⟨x, c1⟩
    rw [hr] at hrfq
    cases x with
    | ok a => rfl
    | err e => cases hrfq
    | panic => cases hrfq
  rw [hiter]
  unfold pqConn.readAndDispatch
  dsimp only
  rw [hb.1, hb.2, hread]
  simp only
  rw [if_neg (by rw [hi, hign]; simp), dispatch_noNUL E _ _ htyp hnul]
  exact ⟨rfl, rfl, by rw [← hign, ← hi], hio.preparedStatements, hio.portals⟩


/-- C20 (as amended): a correctly framed SimpleQuery, MPPQuery, Parse, Bind or
Execute message whose payload has no zero byte makes the handler return the
error "NUL terminator not found", and a Parse payload that ends before all the
announced type hints makes it return "insufficient data"; nothing is written
for the message, neither registry and not `ignoreTillSync` changes, and `serve`
returns that error: the main loop ends there, whatever is left to read. -/
theorem truncated_payload_ends_serve :
    (∀ (E : Env) (typ : Nat) (c : pqConn),
        typ = ClientMsgSimpleQuery ∨ typ = ClientMsgMPPQuery ∨ typ = ClientMsgParse
          ∨ typ = ClientMsgBind ∨ typ = ClientMsgExecute →
        0 ∉ c.readBuf.msg →
        pqConn.dispatch E typ c
          = (some (.err errNoNUL),
              ({ c with extendedQueryMessage := extendedAfter typ c.extendedQueryMessage }
                : pqConn)))
    ∧ (∀ (E : Env) (c : pqConn) (name query rest : Bytes) (n : Nat),
        0 ∉ name → 0 ∉ query → (name = [] ∨ c.preparedStatements.get name = none) →
        n < 32768 → rest.length < 4 * n →
        c.readBuf.msg = name ++ 0 :: (query ++ 0 :: (be16 n ++ rest)) →
        (∃ m : Nat, m < 4
          ∧ (pqConn.handleParse E c).1 = .err (ascii "insufficient data: " ++ itoa m))
        ∧ (pqConn.handleParse E c).2.out = c.out
        ∧ (pqConn.handleParse E c).2.ignoreTillSync = c.ignoreTillSync
        ∧ (pqConn.handleParse E c).2.preparedStatements = c.preparedStatements
        ∧ (pqConn.handleParse E c).2.portals = c.portals)
    ∧ (∀ (E : Env) (c : pqConn) (fuel : Nat), c.readyForQuery.1 = .ok () →
        c.ignoreTillSync = false → (c.readBuf.readTypedMsg c.rd).err = none →
        ((c.readBuf.readTypedMsg c.rd).typ = ClientMsgSimpleQuery
          ∨ (c.readBuf.readTypedMsg c.rd).typ = ClientMsgMPPQuery
          ∨ (c.readBuf.readTypedMsg c.rd).typ = ClientMsgParse
          ∨ (c.readBuf.readTypedMsg c.rd).typ = ClientMsgBind
          ∨ (c.readBuf.readTypedMsg c.rd).typ = ClientMsgExecute) →
        0 ∉ (c.readBuf.readTypedMsg c.rd).buf.msg →
        pqConn.serveLoop E (fuel + 1) c = some (.err errNoNUL, (pqConn.serveIter E c).2)
        ∧ (pqConn.serveIter E c).2.out = c.readyForQuery.2.out
        ∧ (pqConn.serveIter E c).2.ignoreTillSync = false
        ∧ (pqConn.serveIter E c).2.preparedStatements = c.preparedStatements
        ∧ (pqConn.serveIter E c).2.portals = c.portals)
    ∧ (∀ (E : Env) (c : pqConn) (fuel : Nat) (r : Res Unit),
        (pqConn.serveIter E c).1 = some r →
        pqConn.serveLoop E (fuel + 1) c = some (r, (pqConn.serveIter E c).2)) := by
  refine ⟨dispatch_noNUL, fun E c name query rest n hname hquery hfree hn hshort hmsg => ?_,
    fun E c fuel hrfq hign hread htyp hnul => ?_, serveLoop_returns⟩
  · obtain ⟨hm, hq⟩ := handleParse_short E c name query rest n hname hquery hfree hn hshort
      hmsg
    exact ⟨hm, hq.out, hq.ignore, hq.preparedStatements, hq.portals⟩
  · obtain ⟨h1, h2, h3, h4, h5⟩ := serveIter_noNUL E c hrfq hign hread htyp hnul
    exact ⟨serveLoop_returns E c fuel _ h1, h2, h3, h4, h5⟩


/-- C20 on the fake server: a Simple Query whose payload lacks the zero byte
ends `serve` with the buffer error, whatever the fuel. -/
theorem truncated_payload_ends_serve_witness :
    pqConn.serveLoop fakeEnv (0 + 1) (pqConn.new noNulQuery [] [])
      = some (.err errNoNUL, (pqConn.serveIter fakeEnv (pqConn.new noNulQuery [] [])).2)
    ∧ (pqConn.serveIter fakeEnv (pqConn.new noNulQuery [] [])).2.out
        = (pqConn.new noNulQuery [] []).readyForQuery.2.out
    ∧ (pqConn.serveIter fakeEnv (pqConn.new noNulQuery [] [])).2.ignoreTillSync = false
    ∧ (pqConn.serveIter fakeEnv (pqConn.new noNulQuery [] [])).2.preparedStatements
        = (pqConn.new noNulQuery [] []).preparedStatements
    ∧ (pqConn.serveIter fakeEnv (pqConn.new noNulQuery [] [])).2.portals
        = (pqConn.new noNulQuery [] []).portals :=
  truncated_payload_ends_serve.2.2.1 fakeEnv (pqConn.new noNulQuery [] []) 0 rfl rfl
    (by decide!) (Or.inl (by decide!)) (by decide!)

/-- C20 as stated fails: on the fake server a correctly framed Simple Query
with the payload `abc`, and likewise a Parse with that payload, is answered by
no ErrorResponse; `serve` returns the error "NUL terminator not found" after
the ReadyForQuery frame alone was written, and `ignoreTillSync` is not set. -/
theorem truncated_payload_counterexample :
    (pqConn.serveLoop fakeEnv 5 (pqConn.new (noNulQuery ++ syncMsg) [] [])).map
        (fun r => (r.1, r.2.out, r.2.ignoreTillSync, r.2.rd))
      = some (.err errNoNUL, [OutEvent.write (readyFrame 73), OutEvent.flush], false, syncMsg)
    ∧ (pqConn.serveLoop fakeEnv 5 (pqConn.new (noNulParse ++ syncMsg) [] [])).map
        (fun r => (r.1, r.2.out, r.2.ignoreTillSync, r.2.rd))
      = some (.err errNoNUL, [OutEvent.write (readyFrame 73), OutEvent.flush], false, syncMsg) := by
  decide!

/-! ## Decimal, hexadecimal and big-endian text of numbers -/



theorem toDigitsCore_fuel (f1 : Nat) : ∀ (f2 n : Nat) (acc : List Char), n < f1 → n < f2 →
    Nat.toDigitsCore 10 f1 n acc = Nat.toDigitsCore 10 f2 n acc := by
  induction f1 with
  | zero => intro f2 n acc h; omega
  | succ f1 ih =>
    intro f2 n acc h1 h2
    cases f2 with
    | zero => omega
    | succ f2 =>
      simp only [Nat.toDigitsCore]
      split
      · rfl
      · exact ih f2 (n / 10) _ (by omega) (by omega)

theorem toDigitsCore_acc (f : Nat) : ∀ (n : Nat) (acc : List Char),
    Nat.toDigitsCore 10 f n acc = Nat.toDigitsCore 10 f n [] ++ acc := by
  induction f with
  | zero => intro n acc; rfl
  | succ f ih =>
    intro n acc
    simp only [Nat.toDigitsCore]
    split
    · rfl
    · rw [ih (n / 10) (_ :: acc), ih (n / 10) [_]]
      simp

theorem digitChar_toNat (d : Nat) (h : d < 10) : (Nat.digitChar d).toNat = 48 + d := by
  interval_cases d <;> rfl

theorem digitsOf_lt (n : Nat) (h : n < 10) : digitsOf n = [48 + n] := by
  have h0 : n / 10 = 0 := by omega
  have h1 : n % 10 = n := by omega
  simp only [digitsOf, Nat.toDigits, Nat.toDigitsCore, h0, h1, if_true, List.map_cons,
    List.map_nil, digitChar_toNat n h]

theorem digitsOf_ge (n : Nat) (h : 10 ≤ n) : digitsOf n = digitsOf (n / 10) ++ [48 + n % 10] := by
  have h0 : n / 10 ≠ 0 := by omega
  have e : Nat.toDigits 10 n = Nat.toDigits 10 (n / 10) ++ [Nat.digitChar (n % 10)] := by
    show Nat.toDigitsCore 10 (n + 1) n [] = Nat.toDigitsCore 10 (n / 10 + 1) (n / 10) [] ++ _
    rw [show Nat.toDigitsCore 10 (n + 1) n []
        = (if n / 10 = 0 then [Nat.digitChar (n % 10)]
           else Nat.toDigitsCore 10 n (n / 10) [Nat.digitChar (n % 10)]) from rfl,
      if_neg h0, toDigitsCore_acc,
      toDigitsCore_fuel n (n / 10 + 1) (n / 10) [] (by omega) (by omega)]
  rw [digitsOf, e, List.map_append, List.map_cons, List.map_nil,
    digitChar_toNat (n % 10) (by omega)]
  rfl

theorem digitsOf_head (n : Nat) : ∃ c cs, digitsOf n = c :: cs ∧ 48 ≤ c ∧ c ≤ 57 := by
  induction n using Nat.strong_induction_on with
  | _ n ih =>
    by_cases h : n < 10
    · exact ⟨48 + n, [], digitsOf_lt n h, by omega, by omega⟩
    · obtain ⟨c, cs, h1, h2, h3⟩ := ih (n / 10) (by omega)
      exact ⟨c, cs ++ [48 + n % 10], by rw [digitsOf_ge n (by omega), h1]; rfl, h2, h3⟩

theorem parseUintLoop_append (xs : Bytes) (c : Nat) : ∀ a : Nat,
    parseUintLoop (xs ++ [c]) a
      = match parseUintLoop xs a with
        | .ok m => parseUintLoop [c] m
        | .error e => .error e := by
  induction xs with
  | nil => intro a; rfl
  | cons x xs ih =>
    intro a
    simp only [List.cons_append, parseUintLoop]
    split
    · rfl
    · split
      · rfl
      · split
        · rfl
        · exact ih _

theorem parseUintLoop_digitsOf (n : Nat) (h : n < 18446744073709551616) :
    parseUintLoop (digitsOf n) 0 = .ok n := by
  induction n using Nat.strong_induction_on with
  | _ n ih =>
    by_cases h1 : n < 10
    · rw [digitsOf_lt n h1]
      simp only [parseUintLoop]
      rw [if_neg (by omega), if_neg (by omega), if_neg (by omega)]
      congr 1
      omega
    · rw [digitsOf_ge n (by omega), parseUintLoop_append, ih (n / 10) (by omega) (by omega)]
      simp only [parseUintLoop]
      rw [if_neg (by omega), if_neg (by omega), if_neg (by omega)]
      congr 1
      omega

theorem parseInt_itoa (L : GoLib) (n : Int) (h : FitsSigned 8 n) : parseInt L (itoa n) = .ok n := by
  have h1 : -9223372036854775808 ≤ n := by have := h.1; norm_num at this; exact this
  have h2 : n < 9223372036854775808 := by have := h.2; norm_num at this; exact this
  have hp := parseUintLoop_digitsOf n.natAbs (by omega)
  obtain ⟨c, cs, hd, hc1, hc2⟩ := digitsOf_head n.natAbs
  unfold parseInt parseIntBase10 itoa
  by_cases hn : n < 0
  · rw [if_pos hn]
    have hne : digitsOf n.natAbs ≠ [] := by rw [hd]; exact List.cons_ne_nil _ _
    have hu : ¬ n.natAbs > 9223372036854775808 := by omega
    simp [hp, hne, hu, abs_of_neg hn]
  · rw [if_neg hn, hd]
    have hc43 : c ≠ 43 := by omega
    have hc45 : c ≠ 45 := by omega
    have hu : ¬ n.natAbs ≥ 9223372036854775808 := by omega
    simp only [hc43, hc45, or_self, if_false, ← hd, hp]
    simp [hd, hu, abs_of_nonneg (not_lt.mp hn)]


/-! ## Hexadecimal text -/

theorem fromHexChar_hexDigit (a : Nat) (h : a < 16) : fromHexChar (hexDigit a) = some a := by
  interval_cases a <;> rfl

theorem hexEncode_cons (x : Nat) (v : Bytes) :
    hexEncode (x :: v) = hexDigit (x / 16 % 16) :: hexDigit (x % 16) :: hexEncode v := rfl

theorem hexEncode_length (v : Bytes) : (hexEncode v).length = 2 * v.length := by
  induction v with
  | nil => rfl
  | cons x v ih =>
    rw [hexEncode_cons, List.length_cons, List.length_cons, List.length_cons, ih]
    omega

theorem hexDecodePairs_hexEncode (L : GoLib) (v : Bytes) (h : ∀ x ∈ v, x < 256) :
    hexDecodePairs L (hexEncode v) = .ok v := by
  induction v with
  | nil => rfl
  | cons x v ih =>
    have hx := h x (List.mem_cons_self _ _)
    rw [hexEncode_cons, hexDecodePairs, fromHexChar_hexDigit _ (by omega)]
    simp only
    rw [fromHexChar_hexDigit _ (by omega)]
    simp only
    rw [ih (fun y hy => h y (List.mem_cons_of_mem _ hy))]
    simp only
    congr 2
    omega

theorem hexDecode_hexEncode (L : GoLib) (v : Bytes) (h : ∀ x ∈ v, x < 256) :
    hexDecode L (hexEncode v) = .ok v := by
  rw [hexDecode, if_neg (by rw [hexEncode_length]; omega)]
  exact hexDecodePairs_hexEncode L v h

theorem hexDigit_lower (a : Nat) (h : a < 16) :
    (48 ≤ hexDigit a ∧ hexDigit a ≤ 57) ∨ (97 ≤ hexDigit a ∧ hexDigit a ≤ 102) := by
  unfold hexDigit
  split <;> omega

theorem hexEncode_lower (v : Bytes) :
    ∀ x ∈ hexEncode v, (48 ≤ x ∧ x ≤ 57) ∨ (97 ≤ x ∧ x ≤ 102) := by
  induction v with
  | nil => intro x hx; cases hx
  | cons y v ih =>
    intro x hx
    rw [hexEncode_cons, List.mem_cons, List.mem_cons] at hx
    rcases hx with h | h | h
    · rw [h]; exact hexDigit_lower _ (Nat.mod_lt _ (by decide))
    · rw [h]; exact hexDigit_lower _ (Nat.mod_lt _ (by decide))
    · exact ih x h

/-! ## Big-endian integers -/

theorem twosComplement_two (n : Int) :
    twosComplement 2 n = [(n / 256 % 256).toNat, (n % 256).toNat] := by
  simp [twosComplement, List.range, List.range.loop]

theorem twosComplement_four (n : Int) :
    twosComplement 4 n
      = [(n / 16777216 % 256).toNat, (n / 65536 % 256).toNat, (n / 256 % 256).toNat,
          (n % 256).toNat] := by
  simp [twosComplement, List.range, List.range.loop]

theorem twosComplement_eight (n : Int) :
    twosComplement 8 n
      = [(n / 72057594037927936 % 256).toNat, (n / 281474976710656 % 256).toNat,
          (n / 1099511627776 % 256).toNat, (n / 4294967296 % 256).toNat,
          (n / 16777216 % 256).toNat, (n / 65536 % 256).toNat, (n / 256 % 256).toNat,
          (n % 256).toNat] := by
  simp [twosComplement, List.range, List.range.loop]

theorem twosComplement_length (w : Nat) (n : Int) : (twosComplement w n).length = w := by
  simp [twosComplement]

theorem byte_toNat (n : Int) (M K : Nat) (hK : 0 < K) (hM : (K * 256) ∣ M) (hM0 : 0 < M) :
    (n / (K : Int) % 256).toNat = (n % (M : Int)).toNat / K % 256 := by
  obtain ⟨q, hq⟩ := hM
  have h0 : (0 : Int) ≤ n % (M : Int) := Int.emod_nonneg _ (by omega)
  have h1 : ((n % (M : Int)).toNat : Int) = n % (M : Int) := Int.toNat_of_nonneg h0
  have h2 : (0 : Int) ≤ n / (K : Int) % 256 := Int.emod_nonneg _ (by omega)
  apply Int.ofNat_inj.mp
  rw [Int.toNat_of_nonneg h2]
  push_cast
  rw [h1]
  have e : n % (M : Int) = n - (M : Int) * (n / (M : Int)) := by
    have := Int.emod_add_ediv n (M : Int); omega
  rw [e, hq]
  push_cast
  have : (n - (K : Int) * 256 * q * (n / ((K : Int) * 256 * q))) / (K : Int)
      = n / (K : Int) - 256 * (q * (n / ((K : Int) * 256 * q))) := by
    have hk : (K : Int) ≠ 0 := by omega
    rw [show n - (K : Int) * 256 * q * (n / ((K : Int) * 256 * q))
        = n + (K : Int) * (-(256 * (q * (n / ((K : Int) * 256 * q))))) by ring,
      Int.add_mul_ediv_left _ _ hk]
    ring
  rw [this]
  generalize n / (K : Int) = a
  generalize (q : Int) * (n / ((K : Int) * 256 * q)) = b
  omega

theorem horner_step (u K : Nat) : u / (K * 256) * 256 + u / K % 256 = u / K := by
  rw [← Nat.div_div_eq_div_mul]
  omega


theorem foldl_eight (u : Nat) (h : u < 18446744073709551616) :
    (((((((0 * 256 + u / 72057594037927936 % 256) * 256 + u / 281474976710656 % 256) * 256
      + u / 1099511627776 % 256) * 256 + u / 4294967296 % 256) * 256 + u / 16777216 % 256) * 256
      + u / 65536 % 256) * 256 + u / 256 % 256) * 256 + u % 256 = u := by
  have h7 : u / 72057594037927936 % 256 = u / 72057594037927936 := by omega
  have h6 := horner_step u 281474976710656
  have h5 := horner_step u 1099511627776
  have h4 := horner_step u 4294967296
  have h3 := horner_step u 16777216
  have h2 := horner_step u 65536
  have h1 := horner_step u 256
  have h0 := horner_step u 1
  norm_num at h6 h5 h4 h3 h2 h1 h0
  rw [Nat.zero_mul, Nat.zero_add, h7, h6, h5, h4, h3, h2, h1, h0]

theorem twosComplement_eight_nat (n : Int) :
    twosComplement 8 n
      = [uint64 n / 72057594037927936 % 256, uint64 n / 281474976710656 % 256,
          uint64 n / 1099511627776 % 256, uint64 n / 4294967296 % 256,
          uint64 n / 16777216 % 256, uint64 n / 65536 % 256, uint64 n / 256 % 256,
          uint64 n % 256] := by
  have h7 := byte_toNat n 18446744073709551616 72057594037927936 (by decide) (by decide) (by decide)
  have h6 := byte_toNat n 18446744073709551616 281474976710656 (by decide) (by decide) (by decide)
  have h5 := byte_toNat n 18446744073709551616 1099511627776 (by decide) (by decide) (by decide)
  have h4 := byte_toNat n 18446744073709551616 4294967296 (by decide) (by decide) (by decide)
  have h3 := byte_toNat n 18446744073709551616 16777216 (by decide) (by decide) (by decide)
  have h2 := byte_toNat n 18446744073709551616 65536 (by decide) (by decide) (by decide)
  have h1 := byte_toNat n 18446744073709551616 256 (by decide) (by decide) (by decide)
  have h0 := byte_toNat n 18446744073709551616 1 (by decide) (by decide) (by decide)
  simp only [Nat.cast_ofNat, Nat.cast_one, Int.ediv_one, Nat.div_one] at h7 h6 h5 h4 h3 h2 h1 h0
  rw [twosComplement_eight, h7, h6, h5, h4, h3, h2, h1, h0]
  rfl

theorem twosComplement_four_nat (n : Int) :
    twosComplement 4 n
      = [uint32 n / 16777216 % 256, uint32 n / 65536 % 256, uint32 n / 256 % 256,
          uint32 n % 256] := by
  have h3 := byte_toNat n 4294967296 16777216 (by decide) (by decide) (by decide)
  have h2 := byte_toNat n 4294967296 65536 (by decide) (by decide) (by decide)
  have h1 := byte_toNat n 4294967296 256 (by decide) (by decide) (by decide)
  have h0 := byte_toNat n 4294967296 1 (by decide) (by decide) (by decide)
  simp only [Nat.cast_ofNat, Nat.cast_one, Int.ediv_one, Nat.div_one] at h3 h2 h1 h0
  rw [twosComplement_four, h3, h2, h1, h0]
  rfl

theorem twosComplement_two_nat (n : Int) :
    twosComplement 2 n = [uint16 n / 256 % 256, uint16 n % 256] := by
  have h1 := byte_toNat n 65536 256 (by decide) (by decide) (by decide)
  have h0 := byte_toNat n 65536 1 (by decide) (by decide) (by decide)
  simp only [Nat.cast_ofNat, Nat.cast_one, Int.ediv_one, Nat.div_one] at h1 h0
  rw [twosComplement_two, h1, h0]
  rfl

theorem uint64_lt (n : Int) : uint64 n < 18446744073709551616 := by
  unfold uint64
  omega

theorem uint16_lt (n : Int) : uint16 n < 65536 := by
  unfold uint16
  omega

theorem binaryRead_two (n : Int) (rest : Bytes) :
    binaryRead 2 (twosComplement 2 n ++ rest) = .ok (uint16 n) := by
  have h := uint16_lt n
  rw [twosComplement_two_nat, binaryRead, if_pos (by simp)]
  simp only [List.cons_append, List.take, List.foldl]
  congr 1
  omega

theorem binaryRead_four (n : Int) (rest : Bytes) :
    binaryRead 4 (twosComplement 4 n ++ rest) = .ok (uint32 n) := by
  have h := uint32_lt n
  rw [twosComplement_four_nat, binaryRead, if_pos (by simp)]
  simp only [List.cons_append, List.take, List.foldl]
  congr 1
  omega

theorem binaryRead_eight (n : Int) (rest : Bytes) :
    binaryRead 8 (twosComplement 8 n ++ rest) = .ok (uint64 n) := by
  rw [twosComplement_eight_nat, binaryRead, if_pos (by simp)]
  simp only [List.cons_append, List.take, List.foldl]
  rw [foldl_eight _ (uint64_lt n)]

theorem int16_uint16 (n : Int) (h : FitsSigned 2 n) : int16 (uint16 n) = n := by
  have h1 := h.1
  have h2 := h.2
  norm_num at h1 h2
  unfold int16 uint16
  split <;> omega

theorem int32_uint32_fits (n : Int) (h : FitsSigned 4 n) : int32 (uint32 n) = n := by
  have h1 := h.1
  have h2 := h.2
  norm_num at h1 h2
  unfold int32 uint32
  split <;> omega

theorem int64_uint64 (n : Int) (h : FitsSigned 8 n) : int64 (uint64 n) = n := by
  have h1 := h.1
  have h2 := h.2
  norm_num at h1 h2
  unfold int64 uint64
  split <;> omega

theorem be64_twosComplement (n : Int) : be64 (uint64 n) = twosComplement 8 n := by
  have h := uint64_lt n
  rw [twosComplement_eight_nat]
  simp only [be64, be32, List.cons_append, List.nil_append]
  congr 1 <;> [omega; (congr 1 <;> [omega; (congr 1 <;> [omega; (congr 1 <;> [omega;
    (congr 1 <;> [omega; (congr 1 <;> [omega; (congr 1 <;> [omega; (congr 1; omega)])])])])])])]

theorem binaryRead_short (w : Nat) (b : Bytes) (h : b.length < w) :
    binaryRead w b = .error (if b.length = 0 then errEOF else errUnexpectedEOF) := by
  rw [binaryRead, if_neg (by omega)]


/-! ## Datum encoding and decoding -/

theorem textValue_putValue (L : GoLib) (d : Datum) (s : Bytes)
    (h : (writeBuffer.zero.writeTextDatum L d).2.buf = be32 s.length ++ s) :
    textValue L d = s := by
  rw [textValue, h]
  rfl

theorem writeTextDatum_int (L : GoLib) (v : Int) :
    (writeBuffer.zero.writeTextDatum L (.DInt v)).2.buf = be32 (itoa v).length ++ itoa v := by
  dsimp only [writeBuffer.writeTextDatum]
  rw [putValue_buf, scratchAppend_buf, zero_buf, List.nil_append, be32_uint32_int32]

theorem writeTextDatum_string (L : GoLib) (v : Bytes) :
    (writeBuffer.zero.writeTextDatum L (.DString v)).2.buf = be32 v.length ++ v := by
  dsimp only [writeBuffer.writeTextDatum]
  rw [putValue_buf, zero_buf, List.nil_append, be32_uint32_int32]

theorem writeTextDatum_bytes (L : GoLib) (v : Bytes) :
    (writeBuffer.zero.writeTextDatum L (.DBytes v)).2.buf
      = be32 ([92, 120] ++ hexEncode v).length ++ ([92, 120] ++ hexEncode v) := by
  dsimp only [writeBuffer.writeTextDatum]
  rw [putValue_buf, zero_buf, List.nil_append, be32_uint32_int32]

theorem writeTextDatum_bool (L : GoLib) (v : Bool) :
    (writeBuffer.zero.writeTextDatum L (.DBool v)).2.buf
      = be32 [if v then 116 else 102].length ++ [if v then 116 else 102] := by
  dsimp only [writeBuffer.writeTextDatum]
  rw [WriteByte_buf, putInt32_buf, zero_buf, List.nil_append]
  rfl

theorem oidToDatum_keys (o : Nat) (e : Datum) (h : oidToDatum o = some e) :
    o ∈ [T_bool, T_bytea, T_date, T_float4, T_float8, T_int2, T_int4, T_int8, T_interval,
      T_numeric, T_text, T_timestamp, T_timestamptz, T_varchar] := by
  by_contra hno
  simp only [List.mem_cons, List.mem_singleton, List.not_mem_nil, or_false, not_or] at hno
  obtain ⟨h1, h2, h3, h4, h5, h6, h7, h8, h9, h10, h11, h12, h13, h14⟩ := hno
  rw [oidToDatum, if_neg h1, if_neg h2, if_neg h3, if_neg h4, if_neg h5, if_neg h6, if_neg h7,
    if_neg h8, if_neg h9, if_neg h10, if_neg h11, if_neg h12, if_neg h13, if_neg h14] at h
  cases h

theorem foldl_digits_append (xs : Bytes) (c : Nat) (a : Nat) :
    (xs ++ [c]).foldl (fun acc x => acc * 10 + (x - 48)) a
      = xs.foldl (fun acc x => acc * 10 + (x - 48)) a * 10 + (c - 48) := by
  rw [List.foldl_append]
  rfl

theorem digitsOf_value (n : Nat) :
    (digitsOf n).foldl (fun acc x => acc * 10 + (x - 48)) 0 = n
    ∧ ∀ x ∈ digitsOf n, 48 ≤ x ∧ x ≤ 57 := by
  induction n using Nat.strong_induction_on with
  | _ n ih =>
    by_cases h : n < 10
    · rw [digitsOf_lt n h]
      refine ⟨by simp, fun x hx => ?_⟩
      rw [List.mem_singleton] at hx
      omega
    · obtain ⟨h1, h2⟩ := ih (n / 10) (by omega)
      rw [digitsOf_ge n (by omega)]
      refine ⟨by rw [foldl_digits_append, h1]; omega, fun x hx => ?_⟩
      rw [List.mem_append, List.mem_singleton] at hx
      rcases hx with hx | hx
      · exact h2 x hx
      · omega

theorem writeTextDatum_value (L : GoLib) (d : Datum) (hk : knownType d = true)
    (hd : d ≠ .dNull) :
    (writeBuffer.zero.writeTextDatum L d).1 = .ok ()
    ∧ (writeBuffer.zero.writeTextDatum L d).2.buf
        = be32 (textValue L d).length ++ textValue L d := by
  have hp : ∀ s, (writeBuffer.zero.writeTextDatum L d).2.buf = be32 s.length ++ s →
      (writeBuffer.zero.writeTextDatum L d).2.buf
        = be32 (textValue L d).length ++ textValue L d := by
    intro s h
    rw [textValue_putValue L d s h]
    exact h
  cases d with
  | DBool v => exact ⟨rfl, hp _ (writeTextDatum_bool L v)⟩
  | DInt v => exact ⟨rfl, hp _ (writeTextDatum_int L v)⟩
  | DString v => exact ⟨rfl, hp _ (writeTextDatum_string L v)⟩
  | DBytes v => exact ⟨rfl, hp _ (writeTextDatum_bytes L v)⟩
  | DFloat v =>
    refine ⟨rfl, hp (L.formatFloat v) ?_⟩
    dsimp only [writeBuffer.writeTextDatum]
    rw [putValue_buf, scratchAppend_buf, zero_buf, List.nil_append, be32_uint32_int32]
  | DDecimal u s =>
    refine ⟨rfl, hp (L.decString u s) ?_⟩
    dsimp only [writeBuffer.writeTextDatum]
    rw [putValue_buf, zero_buf, List.nil_append, be32_uint32_int32]
  | DDate v =>
    refine ⟨rfl, hp (formatTs L (Time.mk (int64 (uint64 (v * secondsInDay))) 0 0)) ?_⟩
    dsimp only [writeBuffer.writeTextDatum]
    rw [putValue_buf, zero_buf, List.nil_append, be32_uint32_int32]
  | DTimestamp t =>
    refine ⟨rfl, hp (formatTs L { t with offset := 0 }) ?_⟩
    dsimp only [writeBuffer.writeTextDatum]
    rw [putValue_buf, zero_buf, List.nil_append, be32_uint32_int32]
  | DInterval v =>
    refine ⟨rfl, hp (L.intervalString v) ?_⟩
    dsimp only [writeBuffer.writeTextDatum]
    rw [putValue_buf, zero_buf, List.nil_append, be32_uint32_int32]
  | dNull => exact absurd rfl hd
  | DTuple _ => cases hk
  | DValArg _ => cases hk
  | nil => cases hk

theorem decodeOidDatum_int2_binary (L : GoLib) (b : Bytes) :
    decodeOidDatum L T_int2 formatBinary b = decodeIntBinary 2 int16 b := rfl

theorem decodeOidDatum_int4_binary (L : GoLib) (b : Bytes) :
    decodeOidDatum L T_int4 formatBinary b = decodeIntBinary 4 int32 b := rfl

theorem decodeOidDatum_int8_binary (L : GoLib) (b : Bytes) :
    decodeOidDatum L T_int8 formatBinary b = decodeIntBinary 8 int64 b := rfl

theorem decodeIntBinary_short (w : Nat) (f : Nat → Int) (b : Bytes) (h : b.length < w) :
    decodeIntBinary w f b = .error (if b.length = 0 then errEOF else errUnexpectedEOF) := by
  rw [decodeIntBinary, binaryRead_short w b h]

/-- C21: for a code and a message free of zero bytes, `sendError` hands the
writer one frame, of type 'E', whose body is 'S' "ERROR" NUL 'C' code NUL 'M'
message NUL NUL and whose length field holds 4 + |body|, and flushes;
`sendInternalError` is `sendError` with the code "XX000". -/
theorem sendError_frame (c : pqConn) (code m : Bytes) (hcode : 0 ∉ code) (hm : 0 ∉ m)
    (hlen : code.length + m.length + 16 < 4294967296) :
    ∃ body len,
      body = [83] ++ ascii "ERROR" ++ [0] ++ [67] ++ code ++ [0] ++ [77] ++ m ++ [0] ++ [0]
      ∧ len.length = 4 ∧ bigEndianUint32 len = 4 + body.length
      ∧ (c.sendError code m).2.out
        = c.out ++ [OutEvent.write (69 :: (len ++ body)), OutEvent.flush]
      ∧ body.count 0 = 4
      ∧ c.sendInternalError m = c.sendError (ascii "XX000") m := by
  have hl : (errorBody code m).length = code.length + m.length + 12 := by
    simp [errorBody, ascii]
    omega
  refine ⟨errorBody code m, be32 (4 + (errorBody code m).length), rfl, rfl,
    bigEndianUint32_be32 _ (by omega), ?_, ?_, rfl⟩
  · rw [sendError_out, frame]
    have : uint32 (4 + ((errorBody code m).length : Int)) = 4 + (errorBody code m).length := by
      have := uint32_ofNat (4 + (errorBody code m).length) (by omega)
      push_cast at this
      exact this
    rw [this]
    rfl
  · simp [errorBody, ascii, List.count_cons, List.count_eq_zero_of_not_mem hcode,
      List.count_eq_zero_of_not_mem hm]

theorem sendError_frame_witness :
    ∃ body len,
      body = [83] ++ ascii "ERROR" ++ [0] ++ [67] ++ ascii "42601" ++ [0] ++ [77]
        ++ ascii "syntax error" ++ [0] ++ [0]
      ∧ len.length = 4 ∧ bigEndianUint32 len = 4 + body.length
      ∧ ((freshWith []).sendError (ascii "42601") (ascii "syntax error")).2.out
        = (freshWith []).out ++ [OutEvent.write (69 :: (len ++ body)), OutEvent.flush]
      ∧ body.count 0 = 4
      ∧ (freshWith []).sendInternalError (ascii "syntax error")
        = (freshWith []).sendError (ascii "XX000") (ascii "syntax error") :=
  sendError_frame (freshWith []) (ascii "42601") (ascii "syntax error") (by decide) (by decide)
    (by decide)

/-- C22: for a Datum `x` of kind Bool, Int64, String or Bytes, `writeTextDatum`
succeeds and appends a four-byte length and the value bytes `textValue L x`,
and `decodeOidDatum` at the OID of `typeForDatum x`, in text format, turns
those value bytes back into `x`; so encoding the decoded value writes the same
bytes again. -/
theorem text_round_trip (L : GoLib) (w : writeBuffer) (x : Datum) (hx : x.IsPlain) :
    (w.writeTextDatum L x).1 = .ok ()
    ∧ (w.writeTextDatum L x).2.buf = w.buf ++ (be32 (textValue L x).length ++ textValue L x)
    ∧ ∃ ty, typeForDatum x = .ok ty
      ∧ decodeOidDatum L ty.oid formatText (textValue L x) = .ok x
      ∧ ∀ y, decodeOidDatum L ty.oid formatText (textValue L x) = .ok y →
          (w.writeTextDatum L y).2.buf = (w.writeTextDatum L x).2.buf := by
  have key : (writeBuffer.zero.writeTextDatum L x).1 = .ok ()
      ∧ (writeBuffer.zero.writeTextDatum L x).2.buf
        = be32 (textValue L x).length ++ textValue L x
      ∧ ∃ ty, typeForDatum x = .ok ty
        ∧ decodeOidDatum L ty.oid formatText (textValue L x) = .ok x := by
    cases x with
    | DBool v =>
      have e := textValue_putValue L (.DBool v) [if v then 116 else 102] (writeTextDatum_bool L v)
      refine ⟨rfl, by rw [e]; exact writeTextDatum_bool L v, _, rfl, ?_⟩
      rw [e]
      cases v <;> rfl
    | DInt v =>
      have e := textValue_putValue L (.DInt v) (itoa v) (writeTextDatum_int L v)
      refine ⟨rfl, by rw [e]; exact writeTextDatum_int L v, _, rfl, ?_⟩
      rw [e]
      show decodeOidDatum L T_int8 formatText (itoa v) = _
      have hp := parseInt_itoa L v hx
      simp [decodeOidDatum, T_int8, T_bool, T_int2, T_int4, decodeIntText, hp]
    | DString v =>
      have e := textValue_putValue L (.DString v) v (writeTextDatum_string L v)
      refine ⟨rfl, by rw [e]; exact writeTextDatum_string L v, _, rfl, ?_⟩
      rw [e]
      rfl
    | DBytes v =>
      have e := textValue_putValue L (.DBytes v) ([92, 120] ++ hexEncode v)
        (writeTextDatum_bytes L v)
      refine ⟨rfl, by rw [e]; exact writeTextDatum_bytes L v, _, rfl, ?_⟩
      rw [e]
      show decodeOidDatum L T_bytea formatText ([92, 120] ++ hexEncode v) = _
      have hp := hexDecode_hexEncode L v hx
      simp [decodeOidDatum, T_int8, T_bool, T_int2, T_int4, T_bytea, T_float4, T_float8,
        T_numeric, T_text, T_varchar, formatText, hp]
    | _ => exact absurd hx (by simp [Datum.IsPlain])
  obtain ⟨k1, k2, ty, k3, k4⟩ := key
  refine ⟨by rw [(writeTextDatum_buf L w x).1]; exact k1,
    by rw [(writeTextDatum_buf L w x).2, k2], ty, k3, k4, ?_⟩
  intro y hy
  rw [k4] at hy
  cases hy
  rfl

theorem text_round_trip_witness :
    (writeBuffer.zero.writeTextDatum plainLib (.DInt (-42))).1 = .ok ()
    ∧ (writeBuffer.zero.writeTextDatum plainLib (.DInt (-42))).2.buf
      = writeBuffer.zero.buf ++ (be32 (textValue plainLib (.DInt (-42))).length
        ++ textValue plainLib (.DInt (-42)))
    ∧ ∃ ty, typeForDatum (.DInt (-42)) = .ok ty
      ∧ decodeOidDatum plainLib ty.oid formatText (textValue plainLib (.DInt (-42)))
        = .ok (.DInt (-42))
      ∧ ∀ y,
        decodeOidDatum plainLib ty.oid formatText (textValue plainLib (.DInt (-42))) = .ok y →
          (writeBuffer.zero.writeTextDatum plainLib y).2.buf
            = (writeBuffer.zero.writeTextDatum plainLib (.DInt (-42))).2.buf :=
  text_round_trip plainLib writeBuffer.zero (.DInt (-42)) (by
    show FitsSigned 8 (-42)
    exact ⟨by norm_num, by norm_num⟩)

/-- C23: for a width `w` of 2, 4 or 8 bytes and an integer `n` that fits a
signed integer of that width, `decodeOidDatum` at the OID int2, int4 or int8,
in binary format, turns the `w`-byte big-endian two's-complement encoding of
`n` into the Int64 `n`, and a payload of fewer than `w` bytes is an error (EOF
for none, unexpected EOF otherwise); for `w = 8` the text encoding of that
Datum is the base-10 text of `n`, which `strconv.ParseInt` reads as `n`, and
`writeBinaryDatum` appends the length 8 and the same eight bytes. -/
theorem binary_integers (L : GoLib) (w : Nat) (n : Int) (hw : w = 2 ∨ w = 4 ∨ w = 8)
    (hn : FitsSigned w n) :
    decodeOidDatum L (intOid w) formatBinary (twosComplement w n) = .ok (.DInt n)
    ∧ (∀ b : Bytes, b.length < w →
        decodeOidDatum L (intOid w) formatBinary b
          = .error (if b.length = 0 then errEOF else errUnexpectedEOF))
    ∧ (w = 8 → textValue L (.DInt n) = itoa n ∧ parseInt L (itoa n) = .ok n
        ∧ ∀ wb : writeBuffer, (wb.writeBinaryDatum (.DInt n)).1 = .ok ()
          ∧ (wb.writeBinaryDatum (.DInt n)).2.buf
            = wb.buf ++ (be32 8 ++ twosComplement 8 n)) := by
  rcases hw with h | h | h <;> subst h
  · refine ⟨?_, fun b hb => ?_, fun h => absurd h (by decide)⟩
    · have h1 := binaryRead_two n []
      rw [List.append_nil] at h1
      show decodeOidDatum L T_int2 formatBinary _ = _
      rw [decodeOidDatum_int2_binary, decodeIntBinary, h1]
      simp only [int16_uint16 n hn]
    · show decodeOidDatum L T_int2 formatBinary _ = _
      rw [decodeOidDatum_int2_binary, decodeIntBinary_short 2 _ b hb]
  · refine ⟨?_, fun b hb => ?_, fun h => absurd h (by decide)⟩
    · have h1 := binaryRead_four n []
      rw [List.append_nil] at h1
      show decodeOidDatum L T_int4 formatBinary _ = _
      rw [decodeOidDatum_int4_binary, decodeIntBinary, h1]
      simp only [int32_uint32_fits n hn]
    · show decodeOidDatum L T_int4 formatBinary _ = _
      rw [decodeOidDatum_int4_binary, decodeIntBinary_short 4 _ b hb]
  · refine ⟨?_, fun b hb => ?_,
      fun _ => ⟨?_, parseInt_itoa L n hn, fun wb => ⟨rfl, ?_⟩⟩⟩
    · have h1 := binaryRead_eight n []
      rw [List.append_nil] at h1
      show decodeOidDatum L T_int8 formatBinary _ = _
      rw [decodeOidDatum_int8_binary, decodeIntBinary, h1]
      simp only [int64_uint64 n hn]
    · show decodeOidDatum L T_int8 formatBinary _ = _
      rw [decodeOidDatum_int8_binary, decodeIntBinary_short 8 _ b hb]
    · exact textValue_putValue L (.DInt n) (itoa n) (writeTextDatum_int L n)
    · dsimp only [writeBuffer.writeBinaryDatum]
      rw [putInt64_buf, putInt32_buf, be64_twosComplement, List.append_assoc]
      rfl

theorem binary_integers_witness :
    decodeOidDatum plainLib (intOid 8) formatBinary (twosComplement 8 (-2)) = .ok (.DInt (-2))
    ∧ (∀ b : Bytes, b.length < 8 →
        decodeOidDatum plainLib (intOid 8) formatBinary b
          = .error (if b.length = 0 then errEOF else errUnexpectedEOF))
    ∧ (8 = 8 → textValue plainLib (.DInt (-2)) = itoa (-2)
        ∧ parseInt plainLib (itoa (-2)) = .ok (-2)
        ∧ ∀ wb : writeBuffer, (wb.writeBinaryDatum (.DInt (-2))).1 = .ok ()
          ∧ (wb.writeBinaryDatum (.DInt (-2))).2.buf
            = wb.buf ++ (be32 8 ++ twosComplement 8 (-2))) :=
  binary_integers plainLib 8 (-2) (Or.inr (Or.inr rfl)) ⟨by norm_num, by norm_num⟩

/-- C24: the OID interval is a key of `oidToDatum` (so Parse accepts it as a
hint), of `datumToOid` and of `typeForDatum`, and `writeTextDatum` encodes an
Interval, but `decodeOidDatum` has no case for it: every payload, in every
format, fails with "unsupported OID: 1186". The other thirteen OIDs of
`oidToDatum` have a case, and an OID outside the fourteen fails with
"unsupported OID". -/
theorem interval_has_no_decoder :
    oidToDatum T_interval = some Datum.DummyInterval
    ∧ datumToOid .intervalType = some T_interval
    ∧ (∀ d, typeForDatum (.DInterval d) = .ok { oid := T_interval, size := 8 })
    ∧ (∀ (L : GoLib) (d : Duration),
        (writeBuffer.zero.writeTextDatum L (.DInterval d)).1 = .ok ())
    ∧ (∀ (L : GoLib) (code : Int) (b : Bytes),
        decodeOidDatum L T_interval code b = .error (ascii "unsupported OID: 1186"))
    ∧ decodeOidDatum plainLib T_interval formatText (ascii "1 day")
        = .error (ascii "unsupported OID: 1186")
    ∧ (∀ (L : GoLib) (id : Nat) (code : Int) (b : Bytes), oidToDatum id = none →
        decodeOidDatum L id code b = .error (ascii "unsupported OID: " ++ itoa id))
    ∧ (∀ L : GoLib, decodeOidDatum L T_bool formatText (ascii "t") = .ok (.DBool true)
        ∧ decodeOidDatum L T_int2 formatText (ascii "0") = .ok (.DInt 0)
        ∧ decodeOidDatum L T_int4 formatText (ascii "0") = .ok (.DInt 0)
        ∧ decodeOidDatum L T_int8 formatText (ascii "0") = .ok (.DInt 0)
        ∧ decodeOidDatum L T_text formatText [] = .ok (.DString [])
        ∧ decodeOidDatum L T_varchar formatText [] = .ok (.DString [])
        ∧ decodeOidDatum L T_bytea formatText [92, 120] = .ok (.DBytes [])) := by
  refine ⟨rfl, rfl, fun _ => rfl, fun _ _ => rfl, fun _ _ _ => rfl, rfl, ?_,
    fun L => ⟨rfl, rfl, rfl, rfl, rfl, rfl, rfl⟩⟩
  intro L id code b h
  have hne : ∀ o ∈ [T_bool, T_bytea, T_date, T_float4, T_float8, T_int2, T_int4, T_int8,
      T_numeric, T_text, T_timestamp, T_timestamptz, T_varchar], id ≠ o := by
    intro o ho e
    subst e
    simp only [List.mem_cons, List.mem_singleton, List.not_mem_nil, or_false] at ho
    rcases ho with e | e | e | e | e | e | e | e | e | e | e | e | e <;>
      (rw [e] at h; exact absurd h (by decide))
  have h1 := hne T_bool (by simp)
  have h2 := hne T_bytea (by simp)
  have h3 := hne T_date (by simp)
  have h4 := hne T_float4 (by simp)
  have h5 := hne T_float8 (by simp)
  have h6 := hne T_int2 (by simp)
  have h7 := hne T_int4 (by simp)
  have h8 := hne T_int8 (by simp)
  have h9 := hne T_numeric (by simp)
  have h10 := hne T_text (by simp)
  have h11 := hne T_timestamp (by simp)
  have h12 := hne T_timestamptz (by simp)
  have h13 := hne T_varchar (by simp)
  unfold decodeOidDatum
  rw [if_neg h1, if_neg h6, if_neg h7, if_neg h8, if_neg h4, if_neg h5, if_neg h9,
    if_neg (by rintro (e | e) <;> contradiction), if_neg h2,
    if_neg (by rintro (e | e) <;> contradiction), if_neg h3]

/-- C25: `writeTextDatum` appends, for every supported value other than NULL, a
four-byte big-endian length and that many value bytes; for NULL it appends the
length -1 alone. The value bytes are 't' or 'f' for a Bool, the base-10 digits
after a '-' when negative for an Int64, the raw bytes for a String, and a
backslash, an 'x' and two lower-case hexadecimal digits per byte (2 + 2|b|
bytes) for Bytes. For a Tuple or a ValArg it fails and leaves the buffer as it
was. -/
theorem writeTextDatum_encodings (L : GoLib) (w : writeBuffer) :
    (∀ d : Datum, knownType d = true → d ≠ .dNull →
      (w.writeTextDatum L d).1 = .ok ()
      ∧ (w.writeTextDatum L d).2.buf
          = w.buf ++ (be32 (textValue L d).length ++ textValue L d)
      ∧ ((textValue L d).length < 4294967296 →
          bigEndianUint32 (be32 (textValue L d).length) = (textValue L d).length))
    ∧ ((w.writeTextDatum L .dNull).1 = .ok ()
      ∧ (w.writeTextDatum L .dNull).2.buf = w.buf ++ be32 (uint32 (-1))
      ∧ int32 (bigEndianUint32 (be32 (uint32 (-1)))) = -1)
    ∧ (∀ v : Bool, textValue L (.DBool v) = [if v then 116 else 102])
    ∧ (∀ v : Int, textValue L (.DInt v) = (if v < 0 then [45] else []) ++ digitsOf v.natAbs
      ∧ (digitsOf v.natAbs).foldl (fun acc x => acc * 10 + (x - 48)) 0 = v.natAbs
      ∧ ∀ x ∈ digitsOf v.natAbs, 48 ≤ x ∧ x ≤ 57)
    ∧ (∀ v : Bytes, textValue L (.DString v) = v)
    ∧ (∀ v : Bytes, textValue L (.DBytes v) = [92, 120] ++ hexEncode v
      ∧ (textValue L (.DBytes v)).length = 2 + 2 * v.length
      ∧ (∀ x ∈ hexEncode v, (48 ≤ x ∧ x ≤ 57) ∨ (97 ≤ x ∧ x ≤ 102))
      ∧ ((∀ x ∈ v, x < 256) → hexDecode L (hexEncode v) = .ok v))
    ∧ (∀ elems : DatumList, (w.writeTextDatum L (.DTuple elems)).1 ≠ .ok ()
      ∧ (w.writeTextDatum L (.DTuple elems)).2 = w)
    ∧ (∀ name : Bytes, (w.writeTextDatum L (.DValArg name)).1 ≠ .ok ()
      ∧ (w.writeTextDatum L (.DValArg name)).2 = w) := by
  refine ⟨fun d hk hd => ?_, ⟨rfl, ?_, ?_⟩, fun v => ?_, fun v => ⟨?_, digitsOf_value _⟩,
    fun v => ?_, fun v => ?_, fun _ => ⟨fun h => (by cases h), rfl⟩,
    fun _ => ⟨fun h => (by cases h), rfl⟩⟩
  · obtain ⟨h1, h2⟩ := writeTextDatum_value L d hk hd
    exact ⟨by rw [(writeTextDatum_buf L w d).1]; exact h1,
      by rw [(writeTextDatum_buf L w d).2, h2], fun h => bigEndianUint32_be32 _ h⟩
  · dsimp only [writeBuffer.writeTextDatum]
    rw [putInt32_buf]
  · rw [bigEndianUint32_be32 _ (uint32_lt _)]
    unfold int32 uint32
    omega
  · exact textValue_putValue L _ _ (writeTextDatum_bool L v)
  · rw [textValue_putValue L _ _ (writeTextDatum_int L v), itoa]
    split <;> rfl
  · exact textValue_putValue L _ _ (writeTextDatum_string L v)
  · have e := textValue_putValue L _ _ (writeTextDatum_bytes L v)
    refine ⟨e, ?_, hexEncode_lower v, hexDecode_hexEncode L v⟩
    rw [e, List.length_append, hexEncode_length]
    rfl

/-- C26: `typeForDatum` returns (bool, 1) for a Bool, (bytea, -1) for Bytes,
(int8, 8) for an Int64, (float8, 8) for a Float64, (numeric, -1) for a Decimal,
(text, -1) for a String, (date, 8) for a Date, (timestamptz, 8) for a
Timestamp, (interval, 8) for an Interval and the zero pgType for NULL; it
returns for these ten kinds and panics for every other Datum. -/
theorem typeForDatum_table :
    (∀ v, typeForDatum (.DBool v) = .ok { oid := 16, size := 1 })
    ∧ (∀ v, typeForDatum (.DBytes v) = .ok { oid := 17, size := -1 })
    ∧ (∀ v, typeForDatum (.DInt v) = .ok { oid := 20, size := 8 })
    ∧ (∀ v, typeForDatum (.DFloat v) = .ok { oid := 701, size := 8 })
    ∧ (∀ u s, typeForDatum (.DDecimal u s) = .ok { oid := 1700, size := -1 })
    ∧ (∀ v, typeForDatum (.DString v) = .ok { oid := 25, size := -1 })
    ∧ (∀ v, typeForDatum (.DDate v) = .ok { oid := 1082, size := 8 })
    ∧ (∀ t, typeForDatum (.DTimestamp t) = .ok { oid := 1184, size := 8 })
    ∧ (∀ d, typeForDatum (.DInterval d) = .ok { oid := 1186, size := 8 })
    ∧ typeForDatum .dNull = .ok { oid := 0, size := 0 }
    ∧ (T_bool = 16 ∧ T_bytea = 17 ∧ T_int8 = 20 ∧ T_float8 = 701 ∧ T_numeric = 1700
      ∧ T_text = 25 ∧ T_date = 1082 ∧ T_timestamptz = 1184 ∧ T_interval = 1186)
    ∧ (∀ d : Datum, (∃ t, typeForDatum d = .ok t) ↔
        d.typeOf ∈ [some Datum.Kind.boolType, some .bytesType, some .intType, some .floatType,
          some .decimalType, some .stringType, some .dateType, some .timestampType,
          some .intervalType, some .nullType])
    ∧ (∀ d : Datum, (¬ ∃ t, typeForDatum d = .ok t) → typeForDatum d = .panic) := by
  refine ⟨fun _ => rfl, fun _ => rfl, fun _ => rfl, fun _ => rfl, fun _ _ => rfl, fun _ => rfl,
    fun _ => rfl, fun _ => rfl, fun _ => rfl, rfl,
    ⟨rfl, rfl, rfl, rfl, rfl, rfl, rfl, rfl, rfl⟩,
    fun d => ?_, fun d h => ?_⟩
  · cases d <;> simp [typeForDatum, Datum.typeOf]
  · cases d <;> first | rfl | exact absurd ⟨_, rfl⟩ h

/-- C27: the two type tables agree: for every kind `k` that `datumToOid` maps
to an OID, `oidToDatum` at that OID holds a Datum of kind `k`, and
`typeForDatum` of that Datum has the same OID; and for every OID `o` of
`oidToDatum`, the kind of its Datum is a key of `datumToOid`, mapped to `o`
itself or, for int2 and int4, to int8, for float4 to float8, for varchar to
text and for timestamp to timestamptz. -/
theorem type_tables_consistent :
    (∀ (k : Datum.Kind) (id : Nat), datumToOid k = some id →
      ∃ e t, oidToDatum id = some e ∧ e.typeOf = some k ∧ typeForDatum e = .ok t
        ∧ t.oid = id)
    ∧ (∀ (o : Nat) (e : Datum), oidToDatum o = some e →
      ∃ k id, e.typeOf = some k ∧ datumToOid k = some id
        ∧ (id = o ∨ (o = T_int2 ∧ id = T_int8) ∨ (o = T_int4 ∧ id = T_int8)
          ∨ (o = T_float4 ∧ id = T_float8) ∨ (o = T_varchar ∧ id = T_text)
          ∨ (o = T_timestamp ∧ id = T_timestamptz)))
    ∧ (∀ o : Nat, (∃ e, oidToDatum o = some e) ↔
        o ∈ [T_bool, T_bytea, T_date, T_float4, T_float8, T_int2, T_int4, T_int8, T_interval,
          T_numeric, T_text, T_timestamp, T_timestamptz, T_varchar])
    ∧ (∀ k : Datum.Kind, (∃ id, datumToOid k = some id) ↔
        k ∈ [Datum.Kind.boolType, .bytesType, .dateType, .floatType, .intType, .intervalType,
          .decimalType, .stringType, .timestampType]) := by
  refine ⟨fun k id h => ?_, fun o e h => ?_, fun o => ?_, fun k => ?_⟩
  · cases k <;> simp only [datumToOid] at h <;> first
      | (cases h; exact ⟨_, _, rfl, rfl, rfl, rfl⟩)
      | cases h
  · have hk := oidToDatum_keys o e h
    simp only [List.mem_cons, List.mem_singleton, List.not_mem_nil, or_false] at hk
    rcases hk with e0 | e0 | e0 | e0 | e0 | e0 | e0 | e0 | e0 | e0 | e0 | e0 | e0 | e0 <;>
      (rw [e0] at h ⊢; cases h; first
        | exact ⟨_, _, rfl, rfl, Or.inl rfl⟩
        | exact ⟨_, _, rfl, rfl, Or.inr (Or.inl ⟨rfl, rfl⟩)⟩
        | exact ⟨_, _, rfl, rfl, Or.inr (Or.inr (Or.inl ⟨rfl, rfl⟩))⟩
        | exact ⟨_, _, rfl, rfl, Or.inr (Or.inr (Or.inr (Or.inl ⟨rfl, rfl⟩)))⟩
        | exact ⟨_, _, rfl, rfl, Or.inr (Or.inr (Or.inr (Or.inr (Or.inl ⟨rfl, rfl⟩))))⟩
        | exact ⟨_, _, rfl, rfl, Or.inr (Or.inr (Or.inr (Or.inr (Or.inr ⟨rfl, rfl⟩))))⟩)
  · constructor
    · rintro ⟨e, h⟩
      exact oidToDatum_keys o e h
    · intro h
      simp only [List.mem_cons, List.mem_singleton, List.not_mem_nil, or_false] at h
      rcases h with h | h | h | h | h | h | h | h | h | h | h | h | h | h <;>
        (rw [h]; exact ⟨_, rfl⟩)
  · cases k <;> simp [datumToOid]


/-! ## Timestamps and dates -/

theorem formatTs_ad (L : GoLib) (t : Time) (hy : 1 ≤ L.timeYear t) (ho : t.offset.tmod 60 = 0) :
    formatTs L t = L.timeFormat pgTimeStampFormat t := by
  have h : ¬ L.timeYear t ≤ 0 := by omega
  simp [formatTs, h, ho]

theorem formatTs_bc (L : GoLib) (t : Time) (hy : L.timeYear t ≤ 0)
    (ho : (L.timeAddYears t (-(L.timeYear t) * 2 + 1)).offset.tmod 60 = 0) :
    formatTs L t
      = L.timeFormat pgTimeStampFormat (L.timeAddYears t (-(L.timeYear t) * 2 + 1))
        ++ ascii " BC" := by
  have hb : decide (L.timeYear t ≤ 0) = true := decide_eq_true hy
  unfold formatTs
  simp only [hb, if_true, ho, ne_eq, not_true_eq_false, if_false]

theorem tdiv_neg_day (s : Int) (h : s < 0) : s.tdiv 86400 = -((-s) / 86400) := by
  have h1 : s = -(-s) := by omega
  rw [h1, Int.neg_tdiv, Int.tdiv_eq_ediv (by omega) (by omega)]
  simp

theorem textValue_date (L : GoLib) (d : Int) :
    textValue L (.DDate d)
      = formatTs L { unix := int64 (uint64 (d * secondsInDay)), nsec := 0, offset := 0 } := by
  apply textValue_putValue
  dsimp only [writeBuffer.writeTextDatum]
  rw [putValue_buf, zero_buf, List.nil_append, be32_uint32_int32]

/-- C28: the layout `formatTs` hands to `Time.Format` is not the reference
layout "2006-01-02 15:04:05.999999999-07:00": it starts with "2016", which
`Time.Format` reads as the day of the month, the two-digit month and a literal
"6". `writeTextDatum` does render a Date `d` as midnight UTC of day `d`
through `formatTs`, but Date 0 comes out as "1016-01-01 00:00:00+00:00"; the
reference layout gives "1970-01-01 00:00:00+00:00" for the same instant. -/
theorem timestamp_layout_is_not_reference :
    pgTimeStampFormat ≠ referenceLayout
    ∧ pgTimeStampFormat = ascii "2016-01-02 15:04:05.999999999-07:00"
    ∧ nextStdChunk pgTimeStampFormat
        = ([], some Std.stdDay, ascii "016-01-02 15:04:05.999999999-07:00")
    ∧ nextStdChunk referenceLayout
        = ([], some Std.stdLongYear, ascii "-01-02 15:04:05.999999999-07:00")
    ∧ (∀ (L : GoLib) (t : Time), 1 ≤ L.timeYear t → t.offset.tmod 60 = 0 →
        formatTs L t = L.timeFormat pgTimeStampFormat t)
    ∧ (∀ (L : GoLib) (d : Int), FitsSigned 8 (d * 86400) →
        textValue L (.DDate d) = formatTs L { unix := d * 86400, nsec := 0, offset := 0 })
    ∧ textValue goLib (.DDate 0) = ascii "1016-01-01 00:00:00+00:00"
    ∧ goFormat referenceLayout { unix := 0, nsec := 0, offset := 0 }
        = ascii "1970-01-01 00:00:00+00:00" := by
  refine ⟨by decide, rfl, by decide!, by decide!, formatTs_ad, fun L d h => ?_, by decide!,
    by decide!⟩
  rw [textValue_date, show d * secondsInDay = d * 86400 from rfl, int64_uint64 _ h]

/-- C29: for an instant whose year `y` is at most 0, `formatTs` formats the
instant `AddDate(-y * 2 + 1, 0, 0)` of it and appends " BC", and for a year of
at least 1 it formats the instant itself with no suffix. The shifted instant
has the year 1 - y, but not always the month and day: `AddDate` normalises
February 29 of the leap year 0 to March 1 of the year 1. -/
theorem bc_shift_moves_leap_day :
    (∀ (L : GoLib) (t : Time), L.timeYear t ≤ 0 →
        (L.timeAddYears t (-(L.timeYear t) * 2 + 1)).offset.tmod 60 = 0 →
        formatTs L t
          = L.timeFormat pgTimeStampFormat (L.timeAddYears t (-(L.timeYear t) * 2 + 1))
            ++ ascii " BC")
    ∧ (∀ (L : GoLib) (t : Time), 1 ≤ L.timeYear t → t.offset.tmod 60 = 0 →
        formatTs L t = L.timeFormat pgTimeStampFormat t)
    ∧ (midnightUTC 0 6 15).date = (0, 6, 15)
    ∧ (goAddYears (midnightUTC 0 6 15) (-(goYear (midnightUTC 0 6 15)) * 2 + 1)).date = (1, 6, 15)
    ∧ (midnightUTC (-1) 6 15).date = (-1, 6, 15)
    ∧ (goAddYears (midnightUTC (-1) 6 15) (-(goYear (midnightUTC (-1) 6 15)) * 2 + 1)).date
        = (2, 6, 15)
    ∧ (midnightUTC 0 2 29).date = (0, 2, 29)
    ∧ (goAddYears (midnightUTC 0 2 29) (-(goYear (midnightUTC 0 2 29)) * 2 + 1)).date = (1, 3, 1)
    ∧ formatTs goLib (midnightUTC 0 2 29) = ascii "1036-03-01 00:00:00+00:00 BC"
    ∧ goFormat referenceLayout
          (goAddYears (midnightUTC 0 2 29) (-(goYear (midnightUTC 0 2 29)) * 2 + 1))
        = ascii "0001-03-01 00:00:00+00:00" := by
  refine ⟨formatTs_bc, formatTs_ad, by decide!, by decide!, by decide!, by decide!, by decide!,
    by decide!, by decide!, by decide!⟩

/-- C30: decoding with the OID date parses the text as an instant and divides
its Unix seconds `s` by 86400 with Go's division, which truncates toward zero.
For `s >= 0`, and for every midnight-UTC instant, the Date `d` satisfies
d * 86400 <= s < (d + 1) * 86400; for a negative `s` that is not a multiple of
86400 it does not: the last second of 1969, `s = -1`, decodes to the Date 0. -/
theorem date_division_truncates :
    (∀ (L : GoLib) (b : Bytes) (ts : Time), parseTs L b = some ts →
        decodeOidDatum L T_date formatText b = .ok (.DDate (ts.unix.tdiv 86400)))
    ∧ (∀ s : Int, 0 ≤ s →
        s.tdiv 86400 * 86400 ≤ s ∧ s < (s.tdiv 86400 + 1) * 86400)
    ∧ (∀ d : Int, (d * 86400).tdiv 86400 = d)
    ∧ (∀ s : Int, s < 0 → ¬ (86400 : Int) ∣ s → ¬ (s.tdiv 86400 * 86400 ≤ s))
    ∧ parseTs lastSecondLib (ascii "1969-12-31T23:59:59Z")
        = some { unix := -1, nsec := 0, offset := 0 }
    ∧ decodeOidDatum lastSecondLib T_date formatText (ascii "1969-12-31T23:59:59Z")
        = .ok (.DDate 0)
    ∧ ¬ ((0 : Int) * 86400 ≤ -1) := by
  refine ⟨fun L b ts h => ?_, fun s hs => ?_, fun d => Int.mul_tdiv_cancel d (by decide),
    fun s hs hd => ?_, by decide!, rfl, by decide⟩
  · have e : decodeOidDatum L T_date formatText b
        = match parseTs L b with
          | some ts => .ok (.DDate (ts.unix.tdiv secondsInDay))
          | none => .error (ascii "could not parse string " ++ L.quote b ++ ascii " as date") :=
      rfl
    rw [e, h]
    rfl
  · rw [Int.tdiv_eq_ediv hs (by decide)]
    omega
  · rw [tdiv_neg_day s hs]
    omega


/-! ## The options block -/


theorem getString_append (b : readBuffer) (p rest : Bytes) (hp : 0 ∉ p) :
    ({ b with msg := p ++ 0 :: rest } : readBuffer).getString
      = (.ok p, { b with msg := rest }) := by
  simp [readBuffer.getString, indexByte_append p rest hp]

theorem indexByte_some (s : Bytes) (pos : Nat) (h : readBuffer.indexByte s 0 = some pos) :
    0 ∉ s.take pos ∧ s = s.take pos ++ 0 :: s.drop (pos + 1) := by
  induction s generalizing pos with
  | nil => cases h
  | cons x xs ih =>
    rw [readBuffer.indexByte] at h
    by_cases hx : x = 0
    · rw [if_pos hx] at h
      cases h
      subst hx
      simp
    · rw [if_neg hx] at h
      cases hi : readBuffer.indexByte xs 0 with
      | none => rw [hi] at h; cases h
      | some q =>
        rw [hi] at h
        simp only [Option.map_some', Option.some.injEq] at h
        subst h
        obtain ⟨h1, h2⟩ := ih q hi
        refine ⟨?_, ?_⟩
        · simp only [List.take_succ_cons, List.mem_cons, not_or]
          exact ⟨fun e => hx e.symm, h1⟩
        · simp only [List.take_succ_cons, List.drop_succ_cons, List.cons_append]
          rw [← h2]

theorem getString_ok (b : readBuffer) (p : Bytes) (b1 : readBuffer)
    (h : b.getString = (.ok p, b1)) :
    0 ∉ p ∧ b.msg = p ++ 0 :: b1.msg ∧ b1 = { b with msg := b1.msg } := by
  unfold readBuffer.getString at h
  cases hi : readBuffer.indexByte b.msg 0 with
  | none => rw [hi] at h; cases h
  | some pos =>
    rw [hi] at h
    simp only [Prod.mk.injEq, Res.ok.injEq] at h
    obtain ⟨h1, h2⟩ := h
    obtain ⟨h3, h4⟩ := indexByte_some b.msg pos hi
    subst h1 h2
    exact ⟨h3, h4, rfl⟩

theorem getString_err (b : readBuffer) (h : 0 ∉ b.msg) :
    b.getString = (.err (ascii "NUL terminator not found"), b) := by
  simp [readBuffer.getString, indexByte_none b.msg h]

theorem getString_result (b : readBuffer) :
    b.getString = (.err (ascii "NUL terminator not found"), b)
    ∨ ∃ p b1, b.getString = (.ok p, b1) := by
  unfold readBuffer.getString
  cases readBuffer.indexByte b.msg 0 with
  | none => exact Or.inl rfl
  | some pos => exact Or.inr ⟨_, _, rfl⟩

theorem encodeOptions_nil (rest : Bytes) : encodeOptions [] rest = [] ++ 0 :: rest := rfl

theorem encodeOptions_cons (kv : Bytes × Bytes) (pairs : List (Bytes × Bytes)) (rest : Bytes) :
    encodeOptions (kv :: pairs) rest = kv.1 ++ 0 :: (kv.2 ++ 0 :: encodeOptions pairs rest) := by
  simp [encodeOptions]

theorem parseOptionsLoop_encode (pairs : List (Bytes × Bytes)) :
    ∀ (fuel : Nat) (b : readBuffer) (args : ConnectionArgs) (rest : Bytes),
      OptionPairs pairs → pairs.length < fuel →
      parseOptionsLoop fuel { b with msg := encodeOptions pairs rest } args
        = some (pairs.foldl (fun a kv => setOption a kv.1 kv.2) args, .ok ()) := by
  induction pairs with
  | nil =>
    intro fuel b args rest _ hf
    obtain ⟨f, rfl⟩ : ∃ f, fuel = f + 1 := ⟨fuel - 1, by omega⟩
    rw [encodeOptions_nil, parseOptionsLoop, getString_append b [] rest (by simp)]
    rfl
  | cons kv ps ih =>
    intro fuel b args rest hp hf
    obtain ⟨f, rfl⟩ : ∃ f, fuel = f + 1 := ⟨fuel - 1, by omega⟩
    have hkv := hp kv (List.mem_cons_self _ _)
    have hl : kv.1.length ≠ 0 := fun e => hkv.1 (List.length_eq_zero.mp e)
    rw [encodeOptions_cons, parseOptionsLoop, getString_append b kv.1 _ hkv.2.1]
    simp only
    rw [if_neg hl, getString_append b kv.2 _ hkv.2.2]
    simp only
    rw [ih f b _ rest (fun x hx => hp x (List.mem_cons_of_mem _ hx))
      (by simp only [List.length_cons] at hf; omega)]
    rfl

theorem parseOptionsLoop_total (fuel : Nat) :
    ∀ (b : readBuffer) (args : ConnectionArgs), b.msg.length < fuel →
      ∃ r, parseOptionsLoop fuel b args = some r := by
  induction fuel with
  | zero => intro b args h; omega
  | succ f ih =>
    intro b args h
    rw [parseOptionsLoop]
    rcases getString_result b with h1 | ⟨key, b1, h1⟩
    · rw [h1]; exact ⟨_, rfl⟩
    · rw [h1]
      simp only
      obtain ⟨_, hm1, _⟩ := getString_ok b key b1 h1
      split
      · exact ⟨_, rfl⟩
      · rcases getString_result b1 with h2 | ⟨value, b2, h2⟩
        · rw [h2]; exact ⟨_, rfl⟩
        · rw [h2]
          simp only
          obtain ⟨_, hm2, _⟩ := getString_ok b1 value b2 h2
          apply ih
          have e1 := congrArg List.length hm1
          have e2 := congrArg List.length hm2
          simp only [List.length_append, List.length_cons] at e1 e2
          omega

theorem parseOptionsLoop_form (fuel : Nat) :
    ∀ (b : readBuffer) (args args1 : ConnectionArgs),
      parseOptionsLoop fuel b args = some (args1, .ok ()) →
      ∃ pairs rest, OptionPairs pairs ∧ b.msg = encodeOptions pairs rest := by
  induction fuel with
  | zero => intro b args args1 h; cases h
  | succ f ih =>
    intro b args args1 h
    rw [parseOptionsLoop] at h
    rcases getString_result b with h1 | ⟨key, b1, h1⟩
    · rw [h1] at h; cases h
    · rw [h1] at h
      simp only at h
      obtain ⟨hk0, hm1, _⟩ := getString_ok b key b1 h1
      by_cases hl : key.length = 0
      · have hkey : key = [] := List.length_eq_zero.mp hl
        refine ⟨[], b1.msg, fun kv hkv => (by cases hkv), ?_⟩
        rw [hm1, hkey]
        rfl
      · rw [if_neg hl] at h
        rcases getString_result b1 with h2 | ⟨value, b2, h2⟩
        · rw [h2] at h; cases h
        · rw [h2] at h
          simp only at h
          obtain ⟨hv0, hm2, _⟩ := getString_ok b1 value b2 h2
          obtain ⟨pairs, rest, hp, hm⟩ := ih b2 _ args1 h
          refine ⟨(key, value) :: pairs, rest, fun kv hkv => ?_, ?_⟩
          · rcases List.mem_cons.mp hkv with e | e
            · rw [e]
              exact ⟨fun e0 => hl (by rw [show key = [] from e0]; rfl), hk0, hv0⟩
            · exact hp kv e
          · rw [encodeOptions_cons, hm1, hm2, hm]

theorem parseOptionsLoop_kind (fuel : Nat) :
    ∀ (b : readBuffer) (args args1 : ConnectionArgs) (r : Res Unit),
      parseOptionsLoop fuel b args = some (args1, r) →
      r = .ok ()
      ∨ r = .err (ascii "error when reading option key: NUL terminator not found")
      ∨ r = .err (ascii "error when reading option value: NUL terminator not found") := by
  induction fuel with
  | zero => intro b args args1 r h; cases h
  | succ f ih =>
    intro b args args1 r h
    rw [parseOptionsLoop] at h
    rcases getString_result b with h1 | ⟨key, b1, h1⟩
    · rw [h1] at h
      simp only [Option.some.injEq, Prod.mk.injEq] at h
      exact Or.inr (Or.inl h.2.symm)
    · rw [h1] at h
      simp only at h
      by_cases hl : key.length = 0
      · rw [if_pos hl] at h
        simp only [Option.some.injEq, Prod.mk.injEq] at h
        exact Or.inl h.2.symm
      · rw [if_neg hl] at h
        rcases getString_result b1 with h2 | ⟨value, b2, h2⟩
        · rw [h2] at h
          simp only [Option.some.injEq, Prod.mk.injEq] at h
          exact Or.inr (Or.inr h.2.symm)
        · rw [h2] at h
          exact ih b2 _ args1 r h

theorem setOption_fields (args : ConnectionArgs) (key value : Bytes) :
    (setOption args key value).Database
        = (if key = ascii "database" then value else args.Database)
    ∧ (setOption args key value).User = (if key = ascii "user" then value else args.User)
    ∧ (setOption args key value).ClientEncoding
        = (if key = ascii "client_encoding" then value else args.ClientEncoding)
    ∧ (setOption args key value).DateStyle
        = (if key = ascii "datestyle" then value else args.DateStyle) := by
  have n1 : ascii "database" ≠ ascii "user" := by decide
  have n2 : ascii "database" ≠ ascii "client_encoding" := by decide
  have n3 : ascii "database" ≠ ascii "datestyle" := by decide
  have n4 : ascii "user" ≠ ascii "client_encoding" := by decide
  have n5 : ascii "user" ≠ ascii "datestyle" := by decide
  have n6 : ascii "client_encoding" ≠ ascii "datestyle" := by decide
  by_cases h1 : key = ascii "database"
  · subst h1
    simp [setOption, n1, n2, n3]
  by_cases h2 : key = ascii "user"
  · subst h2
    simp [setOption, n1.symm, n4, n5]
  by_cases h3 : key = ascii "client_encoding"
  · subst h3
    simp [setOption, n2.symm, n4.symm, n6]
  by_cases h4 : key = ascii "datestyle"
  · subst h4
    simp [setOption, n3.symm, n5.symm, n6.symm]
  · simp [setOption, h1, h2, h3, h4]

theorem foldl_setOption (pairs : List (Bytes × Bytes)) :
    ∀ args : ConnectionArgs,
      (pairs.foldl (fun a kv => setOption a kv.1 kv.2) args).Database
          = pairs.foldl (fun acc kv => if kv.1 = ascii "database" then kv.2 else acc) args.Database
      ∧ (pairs.foldl (fun a kv => setOption a kv.1 kv.2) args).User
          = pairs.foldl (fun acc kv => if kv.1 = ascii "user" then kv.2 else acc) args.User
      ∧ (pairs.foldl (fun a kv => setOption a kv.1 kv.2) args).ClientEncoding
          = pairs.foldl (fun acc kv => if kv.1 = ascii "client_encoding" then kv.2 else acc)
              args.ClientEncoding
      ∧ (pairs.foldl (fun a kv => setOption a kv.1 kv.2) args).DateStyle
          = pairs.foldl (fun acc kv => if kv.1 = ascii "datestyle" then kv.2 else acc)
              args.DateStyle := by
  induction pairs with
  | nil => intro args; exact ⟨rfl, rfl, rfl, rfl⟩
  | cons kv ps ih =>
    intro args
    obtain ⟨h1, h2, h3, h4⟩ := ih (setOption args kv.1 kv.2)
    obtain ⟨e1, e2, e3, e4⟩ := setOption_fields args kv.1 kv.2
    simp only [List.foldl_cons]
    rw [h1, h2, h3, h4, e1, e2, e3, e4]
    exact ⟨rfl, rfl, rfl, rfl⟩

theorem encodeOptions_length (pairs : List (Bytes × Bytes)) (rest : Bytes) :
    pairs.length < (encodeOptions pairs rest).length := by
  induction pairs with
  | nil => simp [encodeOptions]
  | cons kv ps ih =>
    rw [encodeOptions_cons]
    simp only [List.length_append, List.length_cons]
    omega

theorem parseOptions_encode (pairs : List (Bytes × Bytes)) (rest : Bytes)
    (hp : OptionPairs pairs) :
    parseOptions (encodeOptions pairs rest)
      = some ({ Database := lastValue (ascii "database") pairs,
                User := lastValue (ascii "user") pairs,
                ClientEncoding := lastValue (ascii "client_encoding") pairs,
                DateStyle := lastValue (ascii "datestyle") pairs }, .ok ()) := by
  have h := parseOptionsLoop_encode pairs ((encodeOptions pairs rest).length + 1)
    { msg := [], tmp := [0, 0, 0, 0], spare := [] }
    { Database := [], User := [], ClientEncoding := [], DateStyle := [] } rest hp
    (by have := encodeOptions_length pairs rest; omega)
  obtain ⟨h1, h2, h3, h4⟩ := foldl_setOption pairs
    { Database := [], User := [], ClientEncoding := [], DateStyle := [] }
  rw [parseOptions]
  rw [show ({ msg := encodeOptions pairs rest, tmp := [0, 0, 0, 0], spare := [] } : readBuffer)
      = { ({ msg := [], tmp := [0, 0, 0, 0], spare := [] } : readBuffer) with
          msg := encodeOptions pairs rest } from rfl, h]
  congr 2
  rcases hf : pairs.foldl (fun a kv => setOption a kv.1 kv.2)
    { Database := [], User := [], ClientEncoding := [], DateStyle := [] } with ⟨d, u, ce, ds⟩
  rw [hf] at h1 h2 h3 h4
  simp only at h1 h2 h3 h4
  rw [hf, h1, h2, h3, h4]
  rfl

theorem parseOptions_total (data : Bytes) : ∃ args r, parseOptions data = some (args, r) := by
  obtain ⟨⟨args, r⟩, h⟩ := parseOptionsLoop_total (data.length + 1)
    { msg := data, tmp := [0, 0, 0, 0], spare := [] }
    { Database := [], User := [], ClientEncoding := [], DateStyle := [] } (by simp)
  exact ⟨args, r, h⟩

/-- C34: `parseOptions` reads its data as zero-terminated strings, taken in
turn as key and value. It always returns, and it returns without an error
exactly when the data is a sequence of pairs with non-empty keys, then an empty
key, then anything: the arguments then hold, for `database`, `user`,
`client_encoding` and `datestyle`, the value of the last pair with that key
(the empty string when there is none), so pairs with other keys and the bytes
after the empty key have no effect. For every other data it returns the error
of the missing NUL terminator, for a key or for a value. -/
theorem parseOptions_reads_pairs :
    (∀ (pairs : List (Bytes × Bytes)) (rest : Bytes), OptionPairs pairs →
      parseOptions (encodeOptions pairs rest)
        = some ({ Database := lastValue (ascii "database") pairs,
                  User := lastValue (ascii "user") pairs,
                  ClientEncoding := lastValue (ascii "client_encoding") pairs,
                  DateStyle := lastValue (ascii "datestyle") pairs }, .ok ()))
    ∧ (∀ data : Bytes, ∃ args r, parseOptions data = some (args, r)
        ∧ (r = .ok ()
          ∨ r = .err (ascii "error when reading option key: NUL terminator not found")
          ∨ r = .err (ascii "error when reading option value: NUL terminator not found"))
        ∧ (r = .ok () ↔
            ∃ pairs rest, OptionPairs pairs ∧ data = encodeOptions pairs rest)) := by
  refine ⟨parseOptions_encode, fun data => ?_⟩
  obtain ⟨args, r, h⟩ := parseOptions_total data
  refine ⟨args, r, h, parseOptionsLoop_kind _ _ _ _ _ h, fun hr => ?_, ?_⟩
  · rw [hr] at h
    exact parseOptionsLoop_form _ _ _ _ h
  · rintro ⟨pairs, rest, hp, hd⟩
    have h2 := parseOptions_encode pairs rest hp
    rw [← hd, h] at h2
    simp only [Option.some.injEq, Prod.mk.injEq] at h2
    exact h2.2



/-! ## Startup -/

theorem ioReadFull_rd_le (rd : Bytes) (len : Nat) (old : Bytes) :
    (ioReadFull rd len old).rd.length ≤ rd.length := by
  unfold ioReadFull
  split
  · simp
  · simp

theorem readUntypedMsg_rd_le (b : readBuffer) (rd : Bytes) :
    (b.readUntypedMsg rd).rd.length ≤ rd.length := by
  unfold readBuffer.readUntypedMsg
  dsimp only
  have h1 := ioReadFull_rd_le rd 4 b.tmp
  split
  · exact h1
  · split
    · exact h1
    · exact le_trans (ioReadFull_rd_le _ _ _) h1

theorem readTypedMsg_shrinks (b : readBuffer) (rd : Bytes)
    (h : (b.readTypedMsg rd).err = none) : (b.readTypedMsg rd).rd.length < rd.length := by
  cases rd with
  | nil => cases h
  | cons typ rd1 =>
    have := readUntypedMsg_rd_le b rd1
    simp only [readBuffer.readTypedMsg, List.length_cons]
    omega

theorem serveIter_shrinks (E : Env) (c c1 : pqConn) (h : pqConn.serveIter E c = (none, c1)) :
    c1.rd.length < c.rd.length := by
  have hb := readyForQuery_readBuf c
  unfold pqConn.serveIter at h
  rcases hr : c.readyForQuery with ⟨x, c0⟩
  rw [hr] at h hb
  cases x with
  | err e => cases h
  | panic => cases h
  | ok a =>
    simp only at h hb
    unfold pqConn.readAndDispatch at h
    dsimp only at h
    rcases he : (c0.readBuf.readTypedMsg c0.rd).err with _ | e
    · have hs := readTypedMsg_shrinks c0.readBuf c0.rd he
      have hlen : c0.rd.length = c.rd.length := by rw [hb.2]
      rw [he] at h
      simp only at h
      split at h
      · cases h
        show (c0.readBuf.readTypedMsg c0.rd).rd.length < c.rd.length
        omega
      · have hd := (dispatch_step E (c0.readBuf.readTypedMsg c0.rd).typ
          { c0 with readBuf := (c0.readBuf.readTypedMsg c0.rd).buf,
                    rd := (c0.readBuf.readTypedMsg c0.rd).rd }).2.2.1
        rw [h] at hd
        rw [show c1.rd = (c0.readBuf.readTypedMsg c0.rd).rd from hd]
        omega
    · rw [he] at h
      cases h

theorem serveLoop_total (E : Env) (fuel : Nat) :
    ∀ c : pqConn, c.rd.length < fuel → ∃ r, pqConn.serveLoop E fuel c = some r := by
  induction fuel with
  | zero => intro c h; omega
  | succ f ih =>
    intro c h
    rw [pqConn.serveLoop]
    rcases hs : pqConn.serveIter E c with ⟨x, c1⟩
    cases x with
    | some r => exact ⟨_, rfl⟩
    | none =>
      have := serveIter_shrinks E c c1 hs
      exact ih c1 (by omega)

theorem serveLoop_out (E : Env) (fuel : Nat) :
    ∀ (c : pqConn) (r : Res Unit × pqConn), pqConn.serveLoop E fuel c = some r →
      ∃ evs, r.2.out = c.readyForQuery.2.out ++ evs := by
  induction fuel with
  | zero => intro c r h; cases h
  | succ f ih =>
    intro c r h
    rw [pqConn.serveLoop] at h
    obtain ⟨evs, he⟩ := serveIter_out E c
    rcases hs : pqConn.serveIter E c with ⟨x, c1⟩
    rw [hs] at h he
    cases x with
    | some r1 =>
      simp only [Option.some.injEq] at h
      subst h
      exact ⟨evs, he⟩
    | none =>
      simp only at h
      obtain ⟨evs1, h1⟩ := ih c1 r h
      obtain ⟨evs2, h2⟩ := (ioOnly_readyForQuery c1).step.out
      refine ⟨evs ++ (evs2 ++ evs1), ?_⟩
      rw [h1, h2]
      simp only at he
      rw [he]
      simp

theorem parameterStatus_frame (w : writeBuffer) (kv : Bytes × Bytes) :
    (((w.initMsg ServerMsgParameterStatus).writeString kv.1).writeString kv.2).finishMsg.2
      = parameterStatusFrame kv := by
  apply finishMsg_frame _ _ (w.putbuf 1) (w.putbuf 2) (w.putbuf 3) (w.putbuf 4)
  rw [writeString_buf, writeString_buf, initMsg_buf]
  simp

theorem sendParameterStatus_out (order : List (Bytes × Bytes)) :
    ∀ c : pqConn,
      (c.sendParameterStatus order).out
          = c.out ++ order.map (fun kv => OutEvent.write (parameterStatusFrame kv))
      ∧ (c.sendParameterStatus order).rd = c.rd
      ∧ (c.sendParameterStatus order).readBuf = c.readBuf
      ∧ (c.sendParameterStatus order).session = c.session
      ∧ (c.sendParameterStatus order).extendedQueryMessage = c.extendedQueryMessage
      ∧ (c.sendParameterStatus order).ignoreTillSync = c.ignoreTillSync
      ∧ (c.sendParameterStatus order).preparedStatements = c.preparedStatements
      ∧ (c.sendParameterStatus order).portals = c.portals := by
  induction order with
  | nil =>
    intro c
    exact ⟨by simp [pqConn.sendParameterStatus], rfl, rfl, rfl, rfl, rfl, rfl, rfl⟩
  | cons kv rest ih =>
    intro c
    have h := ih ((c.wb (fun w =>
      ((w.initMsg ServerMsgParameterStatus).writeString kv.1).writeString kv.2)).finishMsg)
    have e : c.sendParameterStatus (kv :: rest)
        = ((c.wb (fun w => ((w.initMsg ServerMsgParameterStatus).writeString
            kv.1).writeString kv.2)).finishMsg).sendParameterStatus rest := rfl
    rw [e]
    obtain ⟨h1, h2, h3, h4, h5, h6, h7, h8⟩ := h
    refine ⟨?_, h2, h3, h4, h5, h6, h7, h8⟩
    rw [h1]
    simp only [pqConn.finishMsg, pqConn.wb, parameterStatus_frame, List.map_cons,
      List.append_assoc, List.cons_append, List.nil_append]

theorem serveStart_out (c : pqConn) (order : List (Bytes × Bytes)) :
    (c.serveStart none order).1 = .ok true
    ∧ (c.serveStart none order).2.out
        = c.out ++ ([OutEvent.write (frame ServerMsgAuth (be32 0))]
            ++ order.map (fun kv => OutEvent.write (parameterStatusFrame kv))
            ++ [OutEvent.flush])
    ∧ (c.serveStart none order).2.rd = c.rd
    ∧ (c.serveStart none order).2.readBuf = c.readBuf
    ∧ (c.serveStart none order).2.session = c.session
    ∧ (c.serveStart none order).2.extendedQueryMessage = c.extendedQueryMessage
    ∧ (c.serveStart none order).2.ignoreTillSync = c.ignoreTillSync
    ∧ (c.serveStart none order).2.preparedStatements = c.preparedStatements
    ∧ (c.serveStart none order).2.portals = c.portals := by
  have hf : ∀ w : writeBuffer, ((w.initMsg ServerMsgAuth).putInt32 AuthOK).finishMsg.2
      = frame ServerMsgAuth (be32 0) := by
    intro w
    apply finishMsg_frame _ _ (w.putbuf 1) (w.putbuf 2) (w.putbuf 3) (w.putbuf 4)
    rw [putInt32_buf, initMsg_buf]
    rfl
  obtain ⟨h1, h2, h3, h4, h5, h6, h7, h8⟩ := sendParameterStatus_out order
    ((c.wb (fun w => (w.initMsg ServerMsgAuth).putInt32 AuthOK)).finishMsg)
  refine ⟨rfl, ?_, h2, h3, h4, h5, h6, h7, h8⟩
  show ((((c.wb (fun w => (w.initMsg ServerMsgAuth).putInt32 AuthOK)).finishMsg).sendParameterStatus
    order).Flush).out = _
  rw [pqConn.Flush]
  simp only
  rw [h1]
  simp only [pqConn.finishMsg, pqConn.wb, hf, List.append_assoc, List.cons_append,
    List.nil_append]



theorem serve_total (E : Env) (c : pqConn) (order : List (Bytes × Bytes)) :
    ∃ r, pqConn.serve E c none order = some r
      ∧ ∃ evs, r.2.out = (c.serveStart none order).2.readyForQuery.2.out ++ evs := by
  obtain ⟨h1, -⟩ := serveStart_out c order
  rcases hs : c.serveStart none order with ⟨x, c1⟩
  rw [hs] at h1
  simp only at h1
  subst h1
  obtain ⟨r, hr⟩ := serveLoop_total E (c1.rd.length + 1) c1 (by omega)
  refine ⟨r, ?_, serveLoop_out E _ c1 r hr⟩
  rw [pqConn.serve, hs]
  exact hr

theorem int32_code (v : Nat) (hv : v < 4294967296) (k : Int) (hk0 : 0 ≤ k)
    (hk : k < 2147483648) : int32 v = k ↔ (v : Int) = k := by
  unfold int32
  split <;> omega

theorem Serve_packet (L : GoLib) (s : Server) (v : Nat) (payload stream : Bytes)
    (order : List (Bytes × Bytes)) (hv : v < 4294967296)
    (hsize : payload.length + 4 ≤ 16777216) :
    s.Serve L (startupPacket v payload ++ stream) order
      = if v = 196608 ∨ v = 1879244800 then s.startSession L payload stream order
        else some (.err (ascii "unknow protocol version " ++ itoa (int32 v)), none) := by
  have hr := readUntypedMsg_ok readBuffer.zero (8 + payload.length)
    (be32 v ++ payload ++ stream) (by omega)
    (by simp only [List.length_append, be32, List.length_cons, List.length_nil]; omega)
    (by omega) (by omega)
  obtain ⟨h1, h2, -, h4⟩ := hr
  have htake : (be32 v ++ payload ++ stream).take (8 + payload.length - 4) = be32 v ++ payload := by
    rw [show 8 + payload.length - 4 = (be32 v ++ payload).length by
      simp only [List.length_append, be32, List.length_cons, List.length_nil]; omega]
    exact List.take_left' rfl
  have hdrop : (be32 v ++ payload ++ stream).drop (8 + payload.length - 4) = stream := by
    rw [show 8 + payload.length - 4 = (be32 v ++ payload).length by
      simp only [List.length_append, be32, List.length_cons, List.length_nil]; omega]
    exact List.drop_left' rfl
  rw [htake] at h2
  rw [hdrop] at h4
  have hpk : startupPacket v payload ++ stream
      = be32 (8 + payload.length) ++ (be32 v ++ payload ++ stream) := by
    simp [startupPacket]
  have hg : (readBuffer.zero.readUntypedMsg (startupPacket v payload ++ stream)).buf.getInt32
      = (.ok (int32 v),
          { (readBuffer.zero.readUntypedMsg (startupPacket v payload ++ stream)).buf with
            msg := payload }) := by
    rw [hpk]
    have hl : ¬ ((be32 v ++ payload).length < 4) := by simp [be32]
    rw [readBuffer.getInt32, h2, if_neg hl]
    have hb := bigEndianUint32_be32 v hv
    simp only [be32] at hb
    simp only [be32, List.cons_append, List.nil_append, List.take, List.drop, hb]
    rfl
  unfold Server.Serve
  simp only [hg]
  rw [hpk] at hg ⊢
  simp only [h1, h4]
  have e1 := int32_code v hv 196608 (by decide) (by decide)
  have e2 := int32_code v hv 1879244800 (by decide) (by decide)
  have e3 : (int32 v = version30 ∨ int32 v = versionQE) ↔ (v = 196608 ∨ v = 1879244800) := by
    unfold version30 versionQE
    rw [e1, e2]
    omega
  by_cases hc : v = 196608 ∨ v = 1879244800
  · rw [if_pos hc, if_pos (e3.mpr hc)]
  · rw [if_neg hc, if_neg (fun h => hc (e3.mp h))]

theorem startSession_total (L : GoLib) (s : Server) (msg rd : Bytes)
    (order : List (Bytes × Bytes)) :
    ∃ res cf, s.startSession L msg rd order = some (res, some cf) := by
  obtain ⟨args, r, hp⟩ := parseOptions_total msg
  unfold Server.startSession
  rw [hp]
  simp only
  split
  · exact ⟨_, _, rfl⟩
  · obtain ⟨⟨res, c1⟩, hr, -⟩ := serve_total { lib := L, executor := s.executor }
      (pqConn.new rd args.Database args.User) order
    rw [hr]
    exact ⟨_, _, rfl⟩

theorem startSession_serves (L : GoLib) (s : Server) (pairs : List (Bytes × Bytes))
    (rest stream : Bytes) (order : List (Bytes × Bytes)) (hp : OptionPairs pairs) :
    ∃ res c1, pqConn.serve { lib := L, executor := s.executor }
        (pqConn.new stream (lastValue (ascii "database") pairs) (lastValue (ascii "user") pairs))
        none order = some (res, c1)
      ∧ s.startSession L (encodeOptions pairs rest) stream order = some (res, some c1.close)
      ∧ ∃ evs, c1.out
          = ((pqConn.new stream (lastValue (ascii "database") pairs)
              (lastValue (ascii "user") pairs)).serveStart none order).2.readyForQuery.2.out
            ++ evs := by
  obtain ⟨⟨res, c1⟩, hr, hout⟩ := serve_total { lib := L, executor := s.executor }
    (pqConn.new stream (lastValue (ascii "database") pairs) (lastValue (ascii "user") pairs))
    order
  refine ⟨res, c1, hr, ?_, hout⟩
  unfold Server.startSession
  rw [parseOptions_encode pairs rest hp]
  simp only [ne_eq, not_true_eq_false, if_false]
  rw [hr]

/-- C31: on a startup packet with a supported version and a well-formed options
block, the server has written, when the first iteration of the main loop is
about to read a typed message and nothing after the startup packet has been
read: the AuthenticationOk frame (`R`, length 8, int32 0), then one
ParameterStatus frame (`S`, key NUL value NUL) for each pair in the order
`range` yields the map, which holds client_encoding=UTF8, datestyle=ISO and
server_version=9.5.0 once each, a flush, and the ReadyForQuery frame with
status `I` and its flush. `Serve` returns, and what it has written by then
starts with these frames. -/
theorem startup_frames (L : GoLib) (s : Server) (v : Nat) (pairs : List (Bytes × Bytes))
    (rest stream : Bytes) (order : List (Bytes × Bytes))
    (hv : v = 196608 ∨ v = 1879244800) (hp : OptionPairs pairs)
    (hsize : (encodeOptions pairs rest).length + 4 ≤ 16777216)
    (horder : order.Perm pqConn.parameterStatus) :
    ((pqConn.new stream (lastValue (ascii "database") pairs)
        (lastValue (ascii "user") pairs)).serveStart none order).1 = .ok true
    ∧ ((pqConn.new stream (lastValue (ascii "database") pairs)
        (lastValue (ascii "user") pairs)).serveStart none order).2.readyForQuery.1 = .ok ()
    ∧ ((pqConn.new stream (lastValue (ascii "database") pairs)
        (lastValue (ascii "user") pairs)).serveStart none order).2.readyForQuery.2.out
        = startupOut order
    ∧ ((pqConn.new stream (lastValue (ascii "database") pairs)
        (lastValue (ascii "user") pairs)).serveStart none order).2.readyForQuery.2.rd = stream
    ∧ (∃ res cf evs,
        s.Serve L (startupPacket v (encodeOptions pairs rest) ++ stream) order
          = some (res, some cf)
        ∧ cf.out = startupOut order ++ evs)
    ∧ frame ServerMsgAuth (be32 0) = [82, 0, 0, 0, 8, 0, 0, 0, 0]
    ∧ readyFrame 73 = [90, 0, 0, 0, 5, 73]
    ∧ (∀ kv : Bytes × Bytes,
        parameterStatusFrame kv = frame 83 (kv.1 ++ [0] ++ kv.2 ++ [0]))
    ∧ order.length = 3 ∧ order.Nodup
    ∧ (∀ kv : Bytes × Bytes, kv ∈ order ↔
        kv = (ascii "client_encoding", ascii "UTF8") ∨ kv = (ascii "datestyle", ascii "ISO")
          ∨ kv = (ascii "server_version", ascii "9.5.0")) := by
  obtain ⟨h1, h2, h3, -, h5, h6, -, -, -⟩ := serveStart_out
    (pqConn.new stream (lastValue (ascii "database") pairs) (lastValue (ascii "user") pairs))
    order
  have hr := readyForQuery_idle
    ((pqConn.new stream (lastValue (ascii "database") pairs)
      (lastValue (ascii "user") pairs)).serveStart none order).2
    (by rw [h6]; rfl) (Or.inl (by rw [h5]; rfl))
  have hb := readyForQuery_readBuf
    ((pqConn.new stream (lastValue (ascii "database") pairs)
      (lastValue (ascii "user") pairs)).serveStart none order).2
  have hout : ((pqConn.new stream (lastValue (ascii "database") pairs)
      (lastValue (ascii "user") pairs)).serveStart none order).2.readyForQuery.2.out
      = startupOut order := by
    rw [hr.2, h2, h5]
    simp [startupOut, pqConn.new, txnStatusByte, Idle, Aborted, Open]
  refine ⟨h1, hr.1, hout, by rw [hb.2, h3]; rfl, ?_, by decide, rfl, fun kv => ?_,
    by rw [horder.length_eq]; rfl, ?_, fun kv => ?_⟩
  · obtain ⟨res, c1, -, hs, evs, he⟩ := startSession_serves L s pairs rest stream order hp
    refine ⟨res, c1.close, evs ++ [OutEvent.flush], ?_, ?_⟩
    · rw [Serve_packet L s v _ stream order (by rcases hv with h | h <;> omega) hsize,
        if_pos hv, hs]
    · rw [pqConn.close, pqConn.Flush]
      simp only
      rw [he, hout, List.append_assoc]
  · simp [parameterStatusFrame, ServerMsgParameterStatus]
  · rw [horder.nodup_iff]
    decide
  · rw [horder.mem_iff]
    simp [pqConn.parameterStatus]

theorem startup_frames_witness :
    ((pqConn.new syncMsg (lastValue (ascii "database") [(ascii "user", ascii "u")])
        (lastValue (ascii "user") [(ascii "user", ascii "u")])).serveStart none
          pqConn.parameterStatus.reverse).1 = .ok true
    ∧ ((pqConn.new syncMsg (lastValue (ascii "database") [(ascii "user", ascii "u")])
        (lastValue (ascii "user") [(ascii "user", ascii "u")])).serveStart none
          pqConn.parameterStatus.reverse).2.readyForQuery.1 = .ok ()
    ∧ ((pqConn.new syncMsg (lastValue (ascii "database") [(ascii "user", ascii "u")])
        (lastValue (ascii "user") [(ascii "user", ascii "u")])).serveStart none
          pqConn.parameterStatus.reverse).2.readyForQuery.2.out
        = startupOut pqConn.parameterStatus.reverse
    ∧ ((pqConn.new syncMsg (lastValue (ascii "database") [(ascii "user", ascii "u")])
        (lastValue (ascii "user") [(ascii "user", ascii "u")])).serveStart none
          pqConn.parameterStatus.reverse).2.readyForQuery.2.rd = syncMsg
    ∧ (∃ res cf evs,
        NewServer.Serve plainLib
            (startupPacket 196608 (encodeOptions [(ascii "user", ascii "u")] []) ++ syncMsg)
            pqConn.parameterStatus.reverse
          = some (res, some cf)
        ∧ cf.out = startupOut pqConn.parameterStatus.reverse ++ evs)
    ∧ frame ServerMsgAuth (be32 0) = [82, 0, 0, 0, 8, 0, 0, 0, 0]
    ∧ readyFrame 73 = [90, 0, 0, 0, 5, 73]
    ∧ (∀ kv : Bytes × Bytes,
        parameterStatusFrame kv = frame 83 (kv.1 ++ [0] ++ kv.2 ++ [0]))
    ∧ pqConn.parameterStatus.reverse.length = 3 ∧ pqConn.parameterStatus.reverse.Nodup
    ∧ (∀ kv : Bytes × Bytes, kv ∈ pqConn.parameterStatus.reverse ↔
        kv = (ascii "client_encoding", ascii "UTF8") ∨ kv = (ascii "datestyle", ascii "ISO")
          ∨ kv = (ascii "server_version", ascii "9.5.0")) :=
  startup_frames plainLib NewServer 196608 [(ascii "user", ascii "u")] [] syncMsg
    pqConn.parameterStatus.reverse (Or.inl rfl) (by unfold OptionPairs; decide) (by decide)
    (List.reverse_perm _)

/-- C32: on a startup packet with the version code `v`, `Serve` goes on to the
options and the handshake, on a connection object made for them, exactly when
`v` is 0x30000 or 0x70030000. For every other code, the SSL request code
0x4D2162F among them, it returns the error "unknow protocol version" (so
spelled) with the code, and makes no connection object: nothing is written. -/
theorem version_gate (L : GoLib) (s : Server) (v : Nat) (payload stream : Bytes)
    (order : List (Bytes × Bytes)) (hv : v < 4294967296)
    (hsize : payload.length + 4 ≤ 16777216) :
    ((v = 196608 ∨ v = 1879244800) →
        s.Serve L (startupPacket v payload ++ stream) order
          = s.startSession L payload stream order)
    ∧ (¬ (v = 196608 ∨ v = 1879244800) →
        s.Serve L (startupPacket v payload ++ stream) order
          = some (.err (ascii "unknow protocol version " ++ itoa (int32 v)), none))
    ∧ ((∃ res cf, s.Serve L (startupPacket v payload ++ stream) order = some (res, some cf))
        ↔ (v = 196608 ∨ v = 1879244800))
    ∧ (v = 80877103 →
        s.Serve L (startupPacket v payload ++ stream) order
          = some (.err (ascii "unknow protocol version 80877103"), none))
    ∧ version30 = 196608 ∧ versionQE = 1879244800 ∧ versionSSL = 80877103
    ∧ (196608 = 0x30000 ∧ 1879244800 = 0x70030000 ∧ 80877103 = 0x4D2162F) := by
  have hpk := Serve_packet L s v payload stream order hv hsize
  refine ⟨fun h => by rw [hpk, if_pos h], fun h => by rw [hpk, if_neg h],
    ⟨fun h => ?_, fun h => ?_⟩,
    fun h => ?_, rfl, rfl, rfl, by decide⟩
  · by_contra hn
    rw [hpk, if_neg hn] at h
    obtain ⟨res, cf, h⟩ := h
    cases h
  · rw [hpk, if_pos h]
    exact startSession_total L s payload stream order
  · rw [hpk, if_neg (by omega), h]
    rfl

theorem version_gate_witness :
    ((80877103 = 196608 ∨ 80877103 = 1879244800) →
        NewServer.Serve plainLib (startupPacket 80877103 [] ++ []) pqConn.parameterStatus
          = NewServer.startSession plainLib [] [] pqConn.parameterStatus)
    ∧ (¬ (80877103 = 196608 ∨ 80877103 = 1879244800) →
        NewServer.Serve plainLib (startupPacket 80877103 [] ++ []) pqConn.parameterStatus
          = some (.err (ascii "unknow protocol version " ++ itoa (int32 80877103)), none))
    ∧ ((∃ res cf,
          NewServer.Serve plainLib (startupPacket 80877103 [] ++ []) pqConn.parameterStatus
            = some (res, some cf))
        ↔ (80877103 = 196608 ∨ 80877103 = 1879244800))
    ∧ (80877103 = 80877103 →
        NewServer.Serve plainLib (startupPacket 80877103 [] ++ []) pqConn.parameterStatus
          = some (.err (ascii "unknow protocol version 80877103"), none))
    ∧ version30 = 196608 ∧ versionQE = 1879244800 ∧ versionSSL = 80877103
    ∧ (196608 = 0x30000 ∧ 1879244800 = 0x70030000 ∧ 80877103 = 0x4D2162F) :=
  version_gate plainLib NewServer 80877103 [] [] pqConn.parameterStatus (by decide) (by decide)

/-- C33: on a startup packet with a supported version whose options block
cannot be parsed, `Serve` makes the connection object and then panics: the
error text is taken from `err`, the nil error of the version read, not from
`argsErr`, so `err.Error()` is a method call on a nil interface. No
ErrorResponse is written; the deferred `close` flushes an empty writer. -/
theorem unparsable_options_panic :
    (∀ (L : GoLib) (s : Server) (v : Nat) (payload stream : Bytes)
        (order : List (Bytes × Bytes)) (args : ConnectionArgs) (r : Res Unit),
        (v = 196608 ∨ v = 1879244800) → payload.length + 4 ≤ 16777216 →
        parseOptions payload = some (args, r) → r ≠ .ok () →
        s.Serve L (startupPacket v payload ++ stream) order
          = some (.panic, some (pqConn.new stream args.Database args.User).close))
    ∧ (∀ stream database user : Bytes,
        (pqConn.new stream database user).close.out = [OutEvent.flush])
    ∧ parseOptions (ascii "user")
        = some ({ Database := [], User := [], ClientEncoding := [], DateStyle := [] },
            .err (ascii "error when reading option key: NUL terminator not found"))
    ∧ NewServer.Serve plainLib (startupPacket 196608 (ascii "user")) pqConn.parameterStatus
        = some (.panic, some (pqConn.new [] [] []).close)
    ∧ (∀ (c : pqConn) (m : Bytes), (c.sendInternalError m).1 = .ok ()
        ∧ (c.sendInternalError m).2.out
          = c.out ++ [OutEvent.write (frame ServerMsgErrorResponse
              (errorBody CodeInternalError m)), OutEvent.flush]) := by
  refine ⟨fun L s v payload stream order args r hv hsize hp hr => ?_, fun _ _ _ => rfl,
    by decide!, ?_, fun c m => ⟨rfl, sendError_out c _ m⟩⟩
  · rw [Serve_packet L s v payload stream order (by rcases hv with h | h <;> omega) hsize,
      if_pos hv, Server.startSession, hp]
    simp only
    rw [if_pos hr]
  · have h := Serve_packet plainLib NewServer 196608 (ascii "user") [] pqConn.parameterStatus
      (by decide) (by decide)
    rw [List.append_nil] at h
    rw [h, if_pos (Or.inl rfl), Server.startSession]
    rw [show parseOptions (ascii "user")
        = some ({ Database := [], User := [], ClientEncoding := [], DateStyle := [] },
            .err (ascii "error when reading option key: NUL terminator not found"))
        from by decide!]
    rfl



/-! ## Getters on hostile input -/

theorem getPrepareType_cons (b : readBuffer) (x : Nat) (rest : Bytes) (h : b.msg = x :: rest) :
    b.getPrepareType = (.ok x, { b with msg := rest }) := by
  have hl : ¬ ((b.msg.length : Int) < 1) := by rw [h]; simp
  simp only [readBuffer.getPrepareType, readBuffer.getBytes, if_neg hl]
  rw [if_neg (by decide)]
  rw [h]
  rfl

theorem getPrepareType_nil (b : readBuffer) (h : b.msg = []) :
    b.getPrepareType = (.panic, b) := by
  have hl : (b.msg.length : Int) < 1 := by rw [h]; simp
  simp only [readBuffer.getPrepareType, readBuffer.getBytes, if_pos hl]

theorem handleDescribe_empty (L : GoLib) (c : pqConn) (h : c.readBuf.msg = []) :
    pqConn.handleDescribe L c = (.panic, c) := by
  simp only [pqConn.handleDescribe, pqConn.onBuf, getPrepareType_nil c.readBuf h]

theorem handleClose_empty (c : pqConn) (h : c.readBuf.msg = []) :
    pqConn.handleClose c = (.panic, c) := by
  simp only [pqConn.handleClose, pqConn.onBuf, getPrepareType_nil c.readBuf h]

/-- C35: `getPrepareType` returns the first payload byte and advances by one
byte when there is one. On an empty payload it does not return the error of
`getBytes`: it indexes the nil slice first and panics, so `handleDescribe` and
`handleClose`, which would answer the error with an ErrorResponse, panic too:
a Describe or Close message with an empty payload ends `serve` with a panic
after the ReadyForQuery alone. -/
theorem getPrepareType_empty_panics :
    (∀ (b : readBuffer) (x : Nat) (rest : Bytes), b.msg = x :: rest →
        b.getPrepareType = (.ok x, { b with msg := rest }))
    ∧ (∀ b : readBuffer, b.msg = [] →
        b.getBytes 1 = (.err (ascii "insufficient data: 0"), b)
        ∧ b.getPrepareType = (.panic, b))
    ∧ (∀ (L : GoLib) (c : pqConn), c.readBuf.msg = [] →
        pqConn.handleDescribe L c = (.panic, c))
    ∧ (∀ c : pqConn, c.readBuf.msg = [] → pqConn.handleClose c = (.panic, c))
    ∧ (pqConn.serveIter fakeEnv (pqConn.new describeEmptyMsg [] [])).1 = some .panic
    ∧ (pqConn.serveIter fakeEnv (pqConn.new describeEmptyMsg [] [])).2.out
        = [OutEvent.write (readyFrame 73), OutEvent.flush]
    ∧ (pqConn.serveIter fakeEnv (pqConn.new closeEmptyMsg [] [])).1 = some .panic
    ∧ (pqConn.serveIter fakeEnv (pqConn.new closeEmptyMsg [] [])).2.out
        = [OutEvent.write (readyFrame 73), OutEvent.flush] := by
  refine ⟨getPrepareType_cons, fun b h => ⟨?_, getPrepareType_nil b h⟩, handleDescribe_empty,
    handleClose_empty, by decide!, by decide!, by decide!, by decide!⟩
  have hl : (b.msg.length : Int) < 1 := by rw [h]; simp
  rw [readBuffer.getBytes, if_pos hl, h]
  rfl

theorem handleParse_negative (E : Env) (c : pqConn) (name query rest : Bytes) (n : Int)
    (hname : 0 ∉ name) (hquery : 0 ∉ query)
    (hfree : name = [] ∨ c.preparedStatements.get name = none) (hn : IsInt16 n) (hneg : n < 0)
    (hmsg : c.readBuf.msg = name ++ 0 :: (query ++ 0 :: (be16 (uint16 n) ++ rest))) :
    pqConn.handleParse E c = (.panic, c.setMsg rest) := by
  have hc : c = c.setMsg (name ++ 0 :: (query ++ 0 :: (be16 (uint16 n) ++ rest))) := by
    rw [← hmsg]; rfl
  have hdup : ¬ (name ≠ [] ∧ ((c.setMsg
      (query ++ 0 :: (be16 (uint16 n) ++ rest))).preparedStatements.get name).isSome = true) := by
    rintro ⟨h1, h2⟩
    rcases hfree with h | h
    · exact h1 h
    · have h3 : (c.preparedStatements.get name).isSome = true := h2
      rw [h] at h3
      cases h3
  rw [pqConn.handleParse, hc, onBuf_getString c _ _ hname]
  simp only [pqConn.andThen]
  rw [if_neg hdup, onBuf_getString c _ _ hquery]
  simp only [pqConn.andThen]
  rw [onBuf_getInt16 c n _ hn]
  simp only [pqConn.andThen]
  rw [if_pos hneg]
  rfl

/-- C37: a Parse payload whose int16 hint count is negative makes
`handleParse` panic: `make([]oid.Oid, numParamTypes)` is reached with the
negative length, no error is returned and no response is sent. No statement is
registered, as nothing is after the panic. -/
theorem negative_hint_count_panics :
    (∀ (E : Env) (c : pqConn) (name query rest : Bytes) (n : Int),
        0 ∉ name → 0 ∉ query → (name = [] ∨ c.preparedStatements.get name = none) →
        IsInt16 n → n < 0 →
        c.readBuf.msg = name ++ 0 :: (query ++ 0 :: (be16 (uint16 n) ++ rest)) →
        (pqConn.handleParse E c).1 = .panic
        ∧ (pqConn.handleParse E c).2.out = c.out
        ∧ (pqConn.handleParse E c).2.preparedStatements = c.preparedStatements)
    ∧ parseNegativeCount = ascii "s1" ++ [0] ++ ascii "q" ++ [0] ++ [255, 255]
    ∧ (pqConn.handleParse fakeEnv (freshWith parseNegativeCount)).1 = .panic
    ∧ (pqConn.serveIter fakeEnv
        (pqConn.new (clientMsg ClientMsgParse parseNegativeCount) [] [])).1 = some .panic
    ∧ (pqConn.serveIter fakeEnv
        (pqConn.new (clientMsg ClientMsgParse parseNegativeCount) [] [])).2.out
        = [OutEvent.write (readyFrame 73), OutEvent.flush]
    ∧ (pqConn.serveIter fakeEnv
        (pqConn.new (clientMsg ClientMsgParse parseNegativeCount) [] [])).2.preparedStatements
        = [] := by
  refine ⟨fun E c name query rest n h1 h2 h3 h4 h5 h6 => ?_, by decide!, by decide!, by decide!,
    by decide!, by decide!⟩
  rw [handleParse_negative E c name query rest n h1 h2 h3 h4 h5 h6]
  exact ⟨rfl, rfl, rfl⟩

/-- C38: `getBytes` returns the error "insufficient data" when `n` exceeds what
is left and the first `n` bytes when `0 <= n` does not, leaving the buffer
unchanged on the error. For `n < 0` the length test passes and the slice
expression `b.msg[:n]` panics: a Bind message with a parameter length field of
-2 makes `handleBind` panic. No portal is created. -/
theorem negative_length_panics :
    (∀ (b : readBuffer) (n : Int), n < 0 → b.getBytes n = (.panic, b))
    ∧ (∀ (b : readBuffer) (n : Int), (b.msg.length : Int) < n →
        b.getBytes n = (.err (ascii "insufficient data: " ++ itoa b.msg.length), b))
    ∧ (∀ (b : readBuffer) (n : Nat), n ≤ b.msg.length →
        b.getBytes n = (.ok (b.msg.take n), { b with msg := b.msg.drop n }))
    ∧ (afterParseBool.preparedStatements.get (ascii "s1")).isSome = true
    ∧ (pqConn.handleBind fakeEnv (afterParseBool.setMsg bindNegativeLength)).1 = .panic
    ∧ (pqConn.handleBind fakeEnv (afterParseBool.setMsg bindNegativeLength)).2.out
        = afterParseBool.out
    ∧ (pqConn.handleBind fakeEnv (afterParseBool.setMsg bindNegativeLength)).2.portals = []
    ∧ (pqConn.serveLoop fakeEnv 3
        (pqConn.new (parseBoolMsg ++ clientMsg ClientMsgBind bindNegativeLength) [] [])).map
          (fun r => (r.1, r.2.out, r.2.portals))
        = some (.panic, [OutEvent.write (readyFrame 73), OutEvent.flush,
            OutEvent.write [49, 0, 0, 0, 4]], []) := by
  refine ⟨fun b n h => ?_, fun b n h => ?_, fun b n h => ?_, by decide!, by decide!, by decide!,
    by decide!, by decide!⟩
  · rw [readBuffer.getBytes, if_neg (by omega), if_pos h]
  · rw [readBuffer.getBytes, if_pos h]
  · rw [readBuffer.getBytes, if_neg (by omega), if_neg (by omega)]
    rfl



/-! ## Skipping until Sync -/

theorem serveIter_session (E : Env) (c : pqConn) :
    (pqConn.serveIter E c).2.session = c.session := by
  have h0 := (ioOnly_readyForQuery c).step.session
  unfold pqConn.serveIter
  rcases hr : c.readyForQuery with ⟨x, c0⟩
  rw [hr] at h0
  cases x with
  | err e => exact h0
  | panic => exact h0
  | ok a =>
    simp only
    rw [← h0]
    unfold pqConn.readAndDispatch
    dsimp only
    split
    · rfl
    · split
      · rfl
      · exact (dispatch_step E _ _).2.1

theorem reachable_idle (E : Env) (c : pqConn) (h : Reachable E c) :
    c.session.TxnState = Idle := by
  induction h with
  | start c _ _ _ _ htxn => exact htxn
  | iter c c1 _ hstep ih =>
    have := serveIter_session E c
    rw [hstep] at this
    rw [show c1.session = c.session from this]
    exact ih

theorem serveIter_ignore_out (E : Env) (c : pqConn) (hext : c.extendedQueryMessage = true)
    (hign : c.ignoreTillSync = true) : (pqConn.serveIter E c).2.out = c.out := by
  have hiter : pqConn.serveIter E c = pqConn.readAndDispatch E c := by
    unfold pqConn.serveIter
    rw [readyForQuery_extended c hext]
  rw [hiter]
  unfold pqConn.readAndDispatch
  dsimp only
  split
  · rfl
  · split
    · rfl
    · next hskip =>
      have htyp : (c.readBuf.readTypedMsg c.rd).typ = ClientMsgSync := by
        by_contra hne
        exact hskip ⟨hign, hne⟩
      rw [htyp]
      rfl

theorem serveIter_sync (E : Env) (c : pqConn) (hext : c.extendedQueryMessage = true)
    (hread : (c.readBuf.readTypedMsg c.rd).err = none)
    (htyp : (c.readBuf.readTypedMsg c.rd).typ = ClientMsgSync) :
    pqConn.serveIter E c
      = (none, { c with readBuf := (c.readBuf.readTypedMsg c.rd).buf,
                        rd := (c.readBuf.readTypedMsg c.rd).rd,
                        extendedQueryMessage := false, ignoreTillSync := false }) := by
  have hiter : pqConn.serveIter E c = pqConn.readAndDispatch E c := by
    unfold pqConn.serveIter
    rw [readyForQuery_extended c hext]
  rw [hiter, readAndDispatch_sync E c hread htyp]

/-- C36: at the head of every iteration of the main loop, in every reachable
state, `ignoreTillSync` set implies `extendedQueryMessage` set. So while
messages are skipped the head of the iteration writes no ReadyForQuery, and the
iteration writes nothing at all, whatever it reads; the flag stays set until a
Sync is read. The iteration that reads the Sync writes nothing and clears both
flags, and the next iteration starts by writing ReadyForQuery with status `I`,
the first frame after the skipping. -/
theorem skipping_writes_no_readyForQuery (E : Env) (c : pqConn) (hr : Reachable E c) :
    (c.ignoreTillSync = true → c.extendedQueryMessage = true)
    ∧ (c.ignoreTillSync = true → c.readyForQuery = (.ok (), c))
    ∧ (c.ignoreTillSync = true → (pqConn.serveIter E c).2.out = c.out)
    ∧ (c.ignoreTillSync = true →
        ¬ ((c.readBuf.readTypedMsg c.rd).err = none
          ∧ (c.readBuf.readTypedMsg c.rd).typ = ClientMsgSync) →
        (pqConn.serveIter E c).2.ignoreTillSync = true)
    ∧ (c.ignoreTillSync = true → (c.readBuf.readTypedMsg c.rd).err = none →
        (c.readBuf.readTypedMsg c.rd).typ = ClientMsgSync →
        (pqConn.serveIter E c).1 = none
        ∧ (pqConn.serveIter E c).2.ignoreTillSync = false
        ∧ (pqConn.serveIter E c).2.extendedQueryMessage = false
        ∧ (pqConn.serveIter E c).2.out = c.out
        ∧ (pqConn.serveIter E c).2.readyForQuery.1 = .ok ()
        ∧ (pqConn.serveIter E c).2.readyForQuery.2.out
            = c.out ++ [OutEvent.write (readyFrame 73), OutEvent.flush]
        ∧ ∃ evs, (pqConn.serveIter E (pqConn.serveIter E c).2).2.out
            = c.out ++ [OutEvent.write (readyFrame 73), OutEvent.flush] ++ evs) := by
  have hinv := reachable_ignore_extended E c hr
  have hidle := reachable_idle E c hr
  refine ⟨hinv, fun hi => readyForQuery_extended c (hinv hi),
    fun hi => serveIter_ignore_out E c (hinv hi) hi,
    fun hi hn => serveIter_ignore_stays E c hi hn, fun hi hread htyp => ?_⟩
  have hs := serveIter_sync E c (hinv hi) hread htyp
  have hrq := readyForQuery_idle (pqConn.serveIter E c).2 (by rw [hs])
    (Or.inl (by rw [hs]; exact hidle))
  have e : txnStatusByte (pqConn.serveIter E c).2.session.TxnState = 73 := by
    rw [hs]
    show txnStatusByte c.session.TxnState = 73
    rw [hidle]
    rfl
  have ho : (pqConn.serveIter E c).2.out = c.out := by rw [hs]
  rw [e, ho] at hrq
  refine ⟨by rw [hs], by rw [hs], by rw [hs], ho, hrq.1, hrq.2, ?_⟩
  obtain ⟨evs, he⟩ := serveIter_out E (pqConn.serveIter E c).2
  exact ⟨evs, by rw [he, hrq.2]⟩

theorem skipping_writes_no_readyForQuery_witness :
    (afterFailedBind.ignoreTillSync = true → afterFailedBind.extendedQueryMessage = true)
    ∧ (afterFailedBind.ignoreTillSync = true
        → afterFailedBind.readyForQuery = (.ok (), afterFailedBind))
    ∧ (afterFailedBind.ignoreTillSync = true
        → (pqConn.serveIter fakeEnv afterFailedBind).2.out = afterFailedBind.out)
    ∧ (afterFailedBind.ignoreTillSync = true →
        ¬ ((afterFailedBind.readBuf.readTypedMsg afterFailedBind.rd).err = none
          ∧ (afterFailedBind.readBuf.readTypedMsg afterFailedBind.rd).typ = ClientMsgSync) →
        (pqConn.serveIter fakeEnv afterFailedBind).2.ignoreTillSync = true)
    ∧ (afterFailedBind.ignoreTillSync = true
        → (afterFailedBind.readBuf.readTypedMsg afterFailedBind.rd).err = none →
        (afterFailedBind.readBuf.readTypedMsg afterFailedBind.rd).typ = ClientMsgSync →
        (pqConn.serveIter fakeEnv afterFailedBind).1 = none
        ∧ (pqConn.serveIter fakeEnv afterFailedBind).2.ignoreTillSync = false
        ∧ (pqConn.serveIter fakeEnv afterFailedBind).2.extendedQueryMessage = false
        ∧ (pqConn.serveIter fakeEnv afterFailedBind).2.out = afterFailedBind.out
        ∧ (pqConn.serveIter fakeEnv afterFailedBind).2.readyForQuery.1 = .ok ()
        ∧ (pqConn.serveIter fakeEnv afterFailedBind).2.readyForQuery.2.out
            = afterFailedBind.out ++ [OutEvent.write (readyFrame 73), OutEvent.flush]
        ∧ ∃ evs, (pqConn.serveIter fakeEnv (pqConn.serveIter fakeEnv afterFailedBind).2).2.out
            = afterFailedBind.out ++ [OutEvent.write (readyFrame 73), OutEvent.flush] ++ evs) :=
  skipping_writes_no_readyForQuery fakeEnv afterFailedBind afterFailedBind_reachable


/-! ## Iteration order of the argument map -/

theorem buildArgTypes_cons (L : GoLib) (hints : List Nat) (kv : Bytes × Datum) (rest : MapArgs)
    (acc : List Nat) :
    pqConn.buildArgTypes L hints (kv :: rest) acc
      = match pqConn.buildArgTypes L hints [kv] acc with
        | .ok a => pqConn.buildArgTypes L hints rest a
        | .err m => .err m
        | .panic => .panic := by
  obtain ⟨k, v⟩ := kv
  simp only [pqConn.buildArgTypes]
  cases atoi L k with
  | error e => rfl
  | ok i1 =>
    simp only
    split
    · rfl
    · split
      · rfl
      · cases v.typeOf.bind datumToOid with
        | some id => rfl
        | none =>
          simp only
          cases v.typeName <;> rfl

theorem firstEntryAt_none_of_distinct (L : GoLib) (P : MapArgs) (kv : Bytes × Datum)
    (rest : MapArgs) (i : Nat) (hd : DistinctPositions L (P ++ kv :: rest))
    (hk : keyPosition L kv.1 = i + 1) : firstEntryAt L P i = none := by
  unfold firstEntryAt
  rw [List.find?_eq_none]
  intro e he
  simp only [decide_eq_true_eq]
  intro hpos
  have h := (List.pairwise_append.mp hd).2.2 e he kv (List.mem_cons_self _ _)
  have := h (by rw [hpos, hk])
  omega

theorem grown_at (L : GoLib) (hints : List Nat) (P : MapArgs) (acc : List Nat) (i : Nat)
    (hinv : ArgLoop L hints P acc) (hf : firstEntryAt L P i = none) :
    (acc ++ (List.range' acc.length (i + 1 - acc.length)).map
      (fun j => hints.getD j 0)).getD i 0 = hints.getD i 0 := by
  have hlen := argLoop_length hinv
  have hgi := grown_getElem? acc hints i i
  by_cases h1 : i < acc.length
  · rw [if_pos h1, hinv.types, if_pos (by omega)] at hgi
    rw [getD_eq_of_getElem? _ _ _ hgi]
    unfold expectedArgType
    rw [hf]
    by_cases hh : hints.getD i 0 ≠ 0
    · rw [if_pos hh]
    · rw [if_neg hh]
      simp only at hh ⊢
      omega
  · rw [if_neg h1, if_pos (by omega)] at hgi
    exact getD_eq_of_getElem? _ _ _ hgi

theorem buildArgTypes_one (L : GoLib) (hints : List Nat) (P : MapArgs) (acc : List Nat)
    (kv : Bytes × Datum) (rest : MapArgs) (hinv : ArgLoop L hints P acc)
    (hd : DistinctPositions L (P ++ kv :: rest)) :
    (∃ a, pqConn.buildArgTypes L hints [kv] acc = .ok a) ↔ EntryAccepted L hints kv := by
  obtain ⟨k, v⟩ := kv
  simp only [pqConn.buildArgTypes]
  cases hk : atoi L k with
  | error e =>
    simp only
    constructor
    · rintro ⟨a, h⟩; cases h
    · rintro ⟨i1, h1, -⟩
      rw [hk] at h1
      cases h1
  | ok i1 =>
    simp only
    by_cases hpos : i1 - 1 < 0
    · rw [if_pos hpos]
      constructor
      · rintro ⟨a, h⟩; cases h
      · rintro ⟨i2, h1, h2, -⟩
        rw [hk] at h1
        cases h1
        exact absurd hpos h2
    · rw [if_neg hpos]
      have hkp := keyPosition_of_atoi L k i1 hk hpos
      have hf := firstEntryAt_none_of_distinct L P (k, v) rest (i1 - 1).toNat hd hkp
      have hg := grown_at L hints P acc (i1 - 1).toNat hinv hf
      rw [hg]
      by_cases hh : hints.getD (i1 - 1).toNat 0 ≠ 0
      · rw [if_pos hh]
        exact ⟨fun _ => ⟨i1, hk, hpos, fun h0 => absurd h0 hh⟩, fun _ => ⟨_, rfl⟩⟩
      · rw [if_neg hh]
        have hh0 : hints.getD (i1 - 1).toNat 0 = 0 := by simpa using hh
        cases hv : v.typeOf.bind datumToOid with
        | some id =>
          exact ⟨fun _ => ⟨i1, hk, hpos, fun _ => ⟨id, hv⟩⟩, fun _ => ⟨_, rfl⟩⟩
        | none =>
          simp only
          constructor
          · rintro ⟨a, h⟩
            cases hn : v.typeName <;> rw [hn] at h <;> cases h
          · rintro ⟨i2, h1, -, h3⟩
            rw [hk] at h1
            cases h1
            obtain ⟨id, hid⟩ := h3 hh0
            rw [hv] at hid
            cases hid

theorem buildArgTypes_accepts (L : GoLib) (hints : List Nat) (args : MapArgs) :
    ∀ (P : MapArgs) (acc : List Nat), ArgLoop L hints P acc →
      DistinctPositions L (P ++ args) →
      ((∃ res, pqConn.buildArgTypes L hints args acc = .ok res)
        ↔ ∀ kv ∈ args, EntryAccepted L hints kv) := by
  induction args with
  | nil =>
    intro P acc _ _
    exact ⟨fun _ kv hkv => (by cases hkv), fun _ => ⟨acc, rfl⟩⟩
  | cons kv rest ih =>
    intro P acc hinv hd
    have h1 := buildArgTypes_one L hints P acc kv rest hinv hd
    have happ : P ++ kv :: rest = (P ++ [kv]) ++ rest := by simp
    rw [buildArgTypes_cons]
    constructor
    · rintro ⟨res, h⟩
      cases ha : pqConn.buildArgTypes L hints [kv] acc with
      | err m => rw [ha] at h; cases h
      | panic => rw [ha] at h; cases h
      | ok a =>
        rw [ha] at h
        simp only at h
        have hinv1 := buildArgTypes_argLoop L hints [kv] P acc a hinv ha
        have h2 := (ih (P ++ [kv]) a hinv1 (happ ▸ hd)).mp ⟨res, h⟩
        intro x hx
        rcases List.mem_cons.mp hx with e | e
        · rw [e]; exact h1.mp ⟨a, ha⟩
        · exact h2 x e
    · intro hall
      obtain ⟨a, ha⟩ := h1.mpr (hall kv (List.mem_cons_self _ _))
      have hinv1 := buildArgTypes_argLoop L hints [kv] P acc a hinv ha
      obtain ⟨res, hres⟩ := (ih (P ++ [kv]) a hinv1 (happ ▸ hd)).mpr
        (fun x hx => hall x (List.mem_cons_of_mem _ hx))
      exact ⟨res, by rw [ha]; exact hres⟩

theorem find?_perm {α : Type} (p : α → Bool) {l l1 : List α} (h : l.Perm l1)
    (hp : l.Pairwise (fun a b => ¬ (p a = true ∧ p b = true))) : l.find? p = l1.find? p := by
  induction h with
  | nil => rfl
  | cons x _ ih =>
    rw [List.find?_cons, List.find?_cons]
    cases p x with
    | true => rfl
    | false => exact ih (List.pairwise_cons.mp hp).2
  | swap x y l =>
    have hxy := (List.pairwise_cons.mp hp).1 x (List.mem_cons_self _ _)
    rw [List.find?_cons, List.find?_cons, List.find?_cons, List.find?_cons]
    cases hx : p x <;> cases hy : p y <;> simp_all
  | trans h1 _ ih1 ih2 =>
    rw [ih1 hp]
    apply ih2
    exact (h1.pairwise_iff (fun {a b} hab hba => hab ⟨hba.2, hba.1⟩)).mp hp

theorem distinctPositions_perm (L : GoLib) {args args1 : MapArgs} (h : args.Perm args1)
    (hd : DistinctPositions L args) : DistinctPositions L args1 := by
  unfold DistinctPositions at hd ⊢
  refine (h.pairwise_iff ?_).mp hd
  intro a b hab hba
  have := hab hba.symm
  omega

theorem firstEntryAt_perm (L : GoLib) {args args1 : MapArgs} (h : args.Perm args1)
    (hd : DistinctPositions L args) (j : Nat) :
    firstEntryAt L args j = firstEntryAt L args1 j := by
  unfold firstEntryAt
  apply find?_perm _ h
  unfold DistinctPositions at hd
  refine hd.imp ?_
  intro a b hab hboth
  simp only [decide_eq_true_eq] at hboth
  have := hab (by rw [hboth.1, hboth.2])
  omega

theorem maxPosition_perm (L : GoLib) {args args1 : MapArgs} (h : args.Perm args1) :
    maxPosition L args = maxPosition L args1 := by
  unfold maxPosition
  have hm : (args.map (fun kv => keyPosition L kv.1)).Perm
      (args1.map (fun kv => keyPosition L kv.1)) := h.map _
  generalize args.map (fun kv => keyPosition L kv.1) = l at hm
  generalize args1.map (fun kv => keyPosition L kv.1) = l1 at hm
  have key : ∀ b : Nat, l.foldl max b = l1.foldl max b := by
    induction hm with
    | nil => intro b; rfl
    | cons x _ ih => intro b; exact ih _
    | swap x y l =>
      intro b
      simp only [List.foldl_cons]
      congr 1
      omega
    | trans _ _ ih1 ih2 => intro b; rw [ih1, ih2]
  exact key 0

theorem buildArgTypes_perm (L : GoLib) (hints : List Nat) {args args1 : MapArgs}
    (h : args.Perm args1) (hd : DistinctPositions L args) :
    ((∃ res, pqConn.buildArgTypes L hints args [] = .ok res)
      ↔ (∃ res, pqConn.buildArgTypes L hints args1 [] = .ok res))
    ∧ ∀ res res1, pqConn.buildArgTypes L hints args [] = .ok res →
        pqConn.buildArgTypes L hints args1 [] = .ok res1 → res = res1 := by
  have hd1 := distinctPositions_perm L h hd
  constructor
  · rw [buildArgTypes_accepts L hints args [] [] (argLoop_nil L hints) (by simpa using hd),
      buildArgTypes_accepts L hints args1 [] [] (argLoop_nil L hints) (by simpa using hd1)]
    exact ⟨fun ha kv hkv => ha kv (h.mem_iff.mpr hkv),
      fun ha kv hkv => ha kv (h.mem_iff.mp hkv)⟩
  · intro res res1 hr hr1
    obtain ⟨l1, t1, -⟩ := buildArgTypes_closed L hints args res hr
    obtain ⟨l2, t2, -⟩ := buildArgTypes_closed L hints args1 res1 hr1
    have hlen : res.length = res1.length := by rw [l1, l2, maxPosition_perm L h]
    apply List.ext_getElem hlen
    intro j hj hj1
    have e1 := t1 j hj
    have e2 := t2 j hj1
    rw [List.getD_eq_getElem _ _ hj] at e1
    rw [List.getD_eq_getElem _ _ hj1] at e2
    rw [e1, e2]
    unfold expectedArgType
    rw [firstEntryAt_perm L h hd j]


/-- Two outcomes of `handleParse` on the connection `c0` agree: ParseComplete
was written in both or in neither, and the registry of prepared statements is
the same. -/
theorem agree_refl (c0 : pqConn) (r : Res Unit × pqConn) :
    (ParseCompleted c0 r ↔ ParseCompleted c0 r)
    ∧ r.2.preparedStatements = r.2.preparedStatements := ⟨Iff.rfl, rfl⟩

theorem agree_failed (c0 : pqConn) (r r1 : Res Unit × pqConn)
    (h : ¬ ParseCompleted c0 r) (h1 : ¬ ParseCompleted c0 r1)
    (hp : r.2.preparedStatements = r1.2.preparedStatements) :
    (ParseCompleted c0 r ↔ ParseCompleted c0 r1)
    ∧ r.2.preparedStatements = r1.2.preparedStatements :=
  ⟨⟨fun x => absurd x h, fun x => absurd x h1⟩, hp⟩

theorem failed_outcome (c0 c5 : pqConn) (hq : Quiet c0 c5) (r : Res Unit × pqConn)
    (h : (∃ m, r = c5.sendInternalError m) ∨ r = (.panic, c5)) :
    ¬ ParseCompleted c0 r ∧ r.2.preparedStatements = c5.preparedStatements := by
  rcases h with ⟨m, h⟩ | h
  · rw [h]
    exact ⟨not_parseCompleted_of_error (errorResponseSent_of_quiet hq m),
      (ioOnly_sendInternalError c5 m).preparedStatements⟩
  · rw [h]
    exact ⟨fun hc => (by cases hc.1), rfl⟩

theorem parseStatement_order (L : GoLib) (e1 e2 : Executor) (hs : SameUpToOrder L e1 e2)
    (c0 c : pqConn) (hq : Quiet c0 c) (name query : Bytes) (hints : List Nat) :
    (ParseCompleted c0 (pqConn.parseStatement { lib := L, executor := e1 } c name query hints)
      ↔ ParseCompleted c0
          (pqConn.parseStatement { lib := L, executor := e2 } c name query hints))
    ∧ (pqConn.parseStatement { lib := L, executor := e1 } c name query hints).2.preparedStatements
      = (pqConn.parseStatement { lib := L, executor := e2 } c name query
          hints).2.preparedStatements := by
  cases hh : pqConn.hintArgs hints 0 with
  | error t =>
    have e : pqConn.parseStatement { lib := L, executor := e1 } c name query hints
        = pqConn.parseStatement { lib := L, executor := e2 } c name query hints := by
      simp only [pqConn.parseStatement, hh]
    rw [e]
    exact agree_refl c0 _
  | ok args =>
    have hso := hs c.calls query args
    have hq5 : Quiet c0 { c with calls := c.calls ++ [ExecCall.Prepare query args] } :=
      hq.quietTrans (quiet_calls c _)
    cases h1 : e1.Prepare c.calls query args with
    | err x1 =>
      cases h2 : e2.Prepare c.calls query args with
      | err x2 =>
        rw [h1, h2] at hso
        have hx : x1 = x2 := hso
        have e : pqConn.parseStatement { lib := L, executor := e1 } c name query hints
            = pqConn.parseStatement { lib := L, executor := e2 } c name query hints := by
          simp only [pqConn.parseStatement, hh, h1, h2, hx]
        rw [e]
        exact agree_refl c0 _
      | panic => rw [h1, h2] at hso; exact absurd hso id
      | ok p2 => rw [h1, h2] at hso; exact absurd hso id
    | panic =>
      cases h2 : e2.Prepare c.calls query args with
      | err x2 => rw [h1, h2] at hso; exact absurd hso id
      | panic =>
        have e : pqConn.parseStatement { lib := L, executor := e1 } c name query hints
            = pqConn.parseStatement { lib := L, executor := e2 } c name query hints := by
          simp only [pqConn.parseStatement, hh, h1, h2]
        rw [e]
        exact agree_refl c0 _
      | ok p2 => rw [h1, h2] at hso; exact absurd hso id
    | ok p1 =>
      cases h2 : e2.Prepare c.calls query args with
      | err x2 => rw [h1, h2] at hso; exact absurd hso id
      | panic => rw [h1, h2] at hso; exact absurd hso id
      | ok p2 =>
        obtain ⟨cols1, m1⟩ := p1
        obtain ⟨cols2, m2⟩ := p2
        rw [h1, h2] at hso
        obtain ⟨hc, hperm, hd⟩ : cols1 = cols2 ∧ m1.Perm m2 ∧ DistinctPositions L m1 := hso
        subst hc
        obtain ⟨hiff, heq⟩ := buildArgTypes_perm L hints hperm hd
        rw [parseStatement_prepared { lib := L, executor := e1 } c name query hints args cols1 m1
            hh h1,
          parseStatement_prepared { lib := L, executor := e2 } c name query hints args cols1 m2
            hh h2]
        dsimp only
        cases hb1 : pqConn.buildArgTypes L hints m1 [] with
        | ok res =>
          obtain ⟨res1, hr1⟩ := hiff.mp ⟨res, hb1⟩
          have := heq res res1 hb1 hr1
          subst this
          rw [hr1]
          exact agree_refl c0 _
        | err m =>
          cases hb2 : pqConn.buildArgTypes L hints m2 [] with
          | ok res1 =>
            obtain ⟨res, hr⟩ := hiff.mpr ⟨res1, hb2⟩
            rw [hb1] at hr
            cases hr
          | err m1 =>
            have f1 := failed_outcome c0 _ hq5 _ (Or.inl ⟨m, rfl⟩)
            have f2 := failed_outcome c0 _ hq5 _ (Or.inl ⟨m1, rfl⟩)
            exact agree_failed c0 _ _ f1.1 f2.1 (by rw [f1.2, f2.2])
          | panic =>
            have f1 := failed_outcome c0 _ hq5 _ (Or.inl ⟨m, rfl⟩)
            have f2 := failed_outcome c0 _ hq5 _ (Or.inr rfl)
            exact agree_failed c0 _ _ f1.1 f2.1 (by rw [f1.2, f2.2])
        | panic =>
          cases hb2 : pqConn.buildArgTypes L hints m2 [] with
          | ok res1 =>
            obtain ⟨res, hr⟩ := hiff.mpr ⟨res1, hb2⟩
            rw [hb1] at hr
            cases hr
          | err m1 =>
            have f1 := failed_outcome c0 _ hq5 _ (Or.inr rfl)
            have f2 := failed_outcome c0 _ hq5 _ (Or.inl ⟨m1, rfl⟩)
            exact agree_failed c0 _ _ f1.1 f2.1 (by rw [f1.2, f2.2])
          | panic => exact agree_refl c0 _

theorem andThen_order {α : Type} (c0 : pqConn) (r : Res α × pqConn) (hq : Quiet c0 r.2)
    (k k1 : α → pqConn → Res Unit × pqConn)
    (h : ∀ a c1, Quiet c0 c1 →
      (ParseCompleted c0 (k a c1) ↔ ParseCompleted c0 (k1 a c1))
      ∧ (k a c1).2.preparedStatements = (k1 a c1).2.preparedStatements) :
    (ParseCompleted c0 (pqConn.andThen r k) ↔ ParseCompleted c0 (pqConn.andThen r k1))
    ∧ (pqConn.andThen r k).2.preparedStatements = (pqConn.andThen r k1).2.preparedStatements := by
  rcases r with ⟨x, c1⟩
  cases x with
  | ok a => exact h a c1 hq
  | err e => exact agree_refl c0 _
  | panic => exact agree_refl c0 _

theorem handleParse_order (L : GoLib) (e1 e2 : Executor) (hs : SameUpToOrder L e1 e2)
    (c : pqConn) :
    (ParseCompleted c (pqConn.handleParse { lib := L, executor := e1 } c)
      ↔ ParseCompleted c (pqConn.handleParse { lib := L, executor := e2 } c))
    ∧ (pqConn.handleParse { lib := L, executor := e1 } c).2.preparedStatements
      = (pqConn.handleParse { lib := L, executor := e2 } c).2.preparedStatements := by
  unfold pqConn.handleParse
  refine andThen_order c _ (quiet_onBuf c _) _ _ (fun name c1 q1 => ?_)
  split
  · exact agree_refl c _
  · refine andThen_order c _ (q1.quietTrans (quiet_onBuf c1 _)) _ _ (fun query c2 q2 => ?_)
    refine andThen_order c _ (q2.quietTrans (quiet_onBuf c2 _)) _ _ (fun n c3 q3 => ?_)
    split
    · exact agree_refl c _
    · refine andThen_order c _ (q3.quietTrans (quiet_readHints _ c3)) _ _
        (fun hints c4 q4 => ?_)
      exact parseStatement_order L e1 e2 hs c c4 q4 name query hints


theorem sameUpToOrder_map (L : GoLib) (args args1 : MapArgs) (h : args.Perm args1)
    (hd : DistinctPositions L args) : SameUpToOrder L (mapExecutor args) (mapExecutor args1) :=
  fun _ _ _ => ⟨rfl, h, hd⟩

/-- C39 (as amended): the outcome of `handleParse` does not depend on the order
in which the argument map returned by `Prepare` is iterated, for every payload,
hint list and returned map in which no two keys denote the same position: with
two Executors that differ only in that order, ParseComplete is written by both
runs or by neither, and both leave the same registry, hence on success the same
registered argTypes. For the loop over the map itself: the two orders both
succeed or both fail, and on success build the same argTypes. -/
theorem parse_order_independent (L : GoLib) (e1 e2 : Executor) (c : pqConn)
    (hs : SameUpToOrder L e1 e2) :
    (ParseCompleted c (pqConn.handleParse { lib := L, executor := e1 } c)
      ↔ ParseCompleted c (pqConn.handleParse { lib := L, executor := e2 } c))
    ∧ (pqConn.handleParse { lib := L, executor := e1 } c).2.preparedStatements
      = (pqConn.handleParse { lib := L, executor := e2 } c).2.preparedStatements
    ∧ (∀ (hints : List Nat) (args args1 : MapArgs), args.Perm args1 →
        DistinctPositions L args →
        ((∃ res, pqConn.buildArgTypes L hints args [] = .ok res)
          ↔ (∃ res, pqConn.buildArgTypes L hints args1 [] = .ok res))
        ∧ ∀ res res1, pqConn.buildArgTypes L hints args [] = .ok res →
            pqConn.buildArgTypes L hints args1 [] = .ok res1 → res = res1) := by
  obtain ⟨h1, h2⟩ := handleParse_order L e1 e2 hs c
  exact ⟨h1, h2, fun hints args args1 hp hd => buildArgTypes_perm L hints hp hd⟩

theorem parse_order_independent_witness :
    (ParseCompleted (freshWith parseNoHints)
        (pqConn.handleParse { lib := plainLib, executor := mapExecutor orderedArgs }
          (freshWith parseNoHints))
      ↔ ParseCompleted (freshWith parseNoHints)
        (pqConn.handleParse { lib := plainLib, executor := mapExecutor orderedArgs.reverse }
          (freshWith parseNoHints)))
    ∧ (pqConn.handleParse { lib := plainLib, executor := mapExecutor orderedArgs }
        (freshWith parseNoHints)).2.preparedStatements
      = (pqConn.handleParse { lib := plainLib, executor := mapExecutor orderedArgs.reverse }
        (freshWith parseNoHints)).2.preparedStatements
    ∧ (∀ (hints : List Nat) (args args1 : MapArgs), args.Perm args1 →
        DistinctPositions plainLib args →
        ((∃ res, pqConn.buildArgTypes plainLib hints args [] = .ok res)
          ↔ (∃ res, pqConn.buildArgTypes plainLib hints args1 [] = .ok res))
        ∧ ∀ res res1, pqConn.buildArgTypes plainLib hints args [] = .ok res →
            pqConn.buildArgTypes plainLib hints args1 [] = .ok res1 → res = res1) :=
  parse_order_independent plainLib (mapExecutor orderedArgs) (mapExecutor orderedArgs.reverse)
    (freshWith parseNoHints)
    (sameUpToOrder_map plainLib orderedArgs orderedArgs.reverse (List.reverse_perm _).symm
      (by unfold DistinctPositions; decide))

/-- C39 as stated fails on a map with two keys for one position: with the keys
"1" (an Int) and "01" (a String) and no hints, the order "1", "01" registers
the argTypes [int8] and the order "01", "1" registers [text]; with "01" holding
a Tuple, the first order writes ParseComplete and the second an ErrorResponse. -/
theorem parse_order_counterexample :
    clashingArgs.Perm clashingArgs.reverse
    ∧ ((pqConn.handleParse { lib := plainLib, executor := mapExecutor clashingArgs }
        (freshWith parseNoHints)).2.preparedStatements.get []).map (fun pq => pq.argTypes)
      = some [T_int8]
    ∧ ((pqConn.handleParse { lib := plainLib, executor := mapExecutor clashingArgs.reverse }
        (freshWith parseNoHints)).2.preparedStatements.get []).map (fun pq => pq.argTypes)
      = some [T_text]
    ∧ (pqConn.handleParse { lib := plainLib, executor := mapExecutor clashingTuple }
        (freshWith parseNoHints)).2.out = [OutEvent.write (frame ServerMsgParseComplete [])]
    ∧ (pqConn.handleParse { lib := plainLib, executor := mapExecutor clashingTuple.reverse }
        (freshWith parseNoHints)).2.out
      = [OutEvent.write (frame ServerMsgErrorResponse
          (errorBody CodeInternalError (ascii "unknown datum type: tuple"))), OutEvent.flush]
    ∧ ¬ ∀ (args args1 : MapArgs), args.Perm args1 →
        (pqConn.handleParse { lib := plainLib, executor := mapExecutor args }
          (freshWith parseNoHints)).2.preparedStatements
        = (pqConn.handleParse { lib := plainLib, executor := mapExecutor args1 }
          (freshWith parseNoHints)).2.preparedStatements := by
  have h1 : ((pqConn.handleParse { lib := plainLib, executor := mapExecutor clashingArgs }
        (freshWith parseNoHints)).2.preparedStatements.get []).map (fun pq => pq.argTypes)
      = some [T_int8] := by decide!
  have h2 : ((pqConn.handleParse { lib := plainLib, executor := mapExecutor clashingArgs.reverse }
        (freshWith parseNoHints)).2.preparedStatements.get []).map (fun pq => pq.argTypes)
      = some [T_text] := by decide!
  refine ⟨(List.reverse_perm _).symm, h1, h2, by decide!, by decide!, fun h => ?_⟩
  have h3 := h clashingArgs clashingArgs.reverse (List.reverse_perm _).symm
  rw [h3, h2] at h1
  exact absurd h1 (by decide)


end Mnt
